import Mathlib

/-! Logic-Gate-Simulator: gate functions, the signal propagation engine and the truth table.

A shallow embedding of the C sources of the repository.

* C `int` values are Lean `Int`s.  The counter `iterations` is bounded by 100; the one
  operation that can leave the 32-bit range, `1 << num_inputs`, is wrapped explicitly
  (`shl_one`).
* The C truth value of an `int` is "non-zero"; the logical operators `&&`, `||`, `!`
  and the comparisons yield the `int` 0 or 1.
* A C array handed over as pointer + count is a Lean `List` holding the first
  `count` elements.
* A heap array `int*` is `Option (List Int)`: `none` is the null pointer.  An access
  outside the allocation or through a null pointer is undefined in C; the embedding reads
  0 there and leaves the array as it is on a write (`arr_get`, `arr_set`, `ptr_get`).
* The editing functions, the evaluation and the truth table of deepseek.c are embedded
  in the namespace `Deepseek`: the global variables are the structure `Deepseek.State`,
  and a function that may call `display_error` returns the new globals together with
  the message (`Deepseek.Outcome`).  The recursion of `evaluate_gate` and the wire loop
  of `delete_gate` carry a fuel argument; `none` means the fuel ran out.
* The component and wire functions of testt.c and its `simulate` are embedded in the
  namespace `Testt`, on the circuit part of its `AppState`; -1 is its "undefined" value.
* The id counters of deepseek.c are unbounded `Int`s: they grow by at most one per call,
  far from the range of a C `int`.  The lists `input_gates` and `output_gates` are
  unbounded too, so that a write past `MAX_INPUTS` / `MAX_OUTPUTS` shows as a list that
  is too long.
* `drive`, `gate_trace`, `next_gate` (final.c) and `settled_value`, `settles`
  (deepseek.c) are views used in the proofs: the loops of the source seen from one gate.
-/

namespace LogicSim

/-! ## C operators on `int` -/

/-- C truth value of an `int`: anything but zero. -/
def truthy (a : Int) : Bool := a != 0

/-- C conversion of a condition to `int`. -/
def ofBool (b : Bool) : Int := if b then 1 else 0

/-- C `a && b`. -/
def c_and (a b : Int) : Int := ofBool (truthy a && truthy b)

/-- C `a || b`. -/
def c_or (a b : Int) : Int := ofBool (truthy a || truthy b)

/-- C `!a`. -/
def c_not (a : Int) : Int := ofBool (!truthy a)

/-- C `a != b`. -/
def c_ne (a b : Int) : Int := ofBool (a != b)

/-! ## logicgates.c -/

/-- `int AND(int a, int b) { return (a && b); }` -/
def AND (a b : Int) : Int := c_and a b

/-- `int OR(int a, int b) { return (a || b); }` -/
def OR (a b : Int) : Int := c_or a b

/-- `int NOT(int a) { return !a; }` -/
def NOT (a : Int) : Int := c_not a

/-- `int NAND(int a, int b) { return !(a && b); }` -/
def NAND (a b : Int) : Int := c_not (c_and a b)

/-- `int NOR(int a, int b) { return !(a || b); }` -/
def NOR (a b : Int) : Int := c_not (c_or a b)

/-- `int XOR(int a, int b) { return (a && !b) || (!a && b); }` -/
def XOR (a b : Int) : Int := c_or (c_and a (c_not b)) (c_and (c_not a) b)

/-! ## deepseek.c: gate evaluation functions -/

/-- `int gate_not(int input) { return !input; }` -/
def gate_not (input : Int) : Int := c_not input

/-- `int gate_and(int input1, int input2) { return input1 && input2; }` -/
def gate_and (input1 input2 : Int) : Int := c_and input1 input2

/-- `int gate_or(int input1, int input2) { return input1 || input2; }` -/
def gate_or (input1 input2 : Int) : Int := c_or input1 input2

/-- `int gate_xor(int input1, int input2) { return input1 != input2; }` -/
def gate_xor (input1 input2 : Int) : Int := c_ne input1 input2

/-- `int gate_nand(int input1, int input2) { return !(input1 && input2); }` -/
def gate_nand (input1 input2 : Int) : Int := c_not (c_and input1 input2)

/-- `int gate_nor(int input1, int input2) { return !(input1 || input2); }` -/
def gate_nor (input1 input2 : Int) : Int := c_not (c_or input1 input2)

/-! ## testt.c: `eval_gate` -/

/-- The enumeration `ComponentType` of testt.c, in declaration order
(`COMP_NONE = 0`, ..., `COMP_OUTPUT_LED = 8`). -/
inductive ComponentType where
  | COMP_NONE
  | COMP_AND
  | COMP_OR
  | COMP_NOT
  | COMP_NAND
  | COMP_NOR
  | COMP_XOR
  | COMP_INPUT_TOGGLE
  | COMP_OUTPUT_LED
deriving DecidableEq, Repr

/-- C `(c) ? 1 : 0` for an `int` condition `c`. -/
def tern01 (c : Int) : Int := if truthy c then 1 else 0

/-- `eval_gate` of testt.c; `-1` is the "undefined" value.  `in1 ^ in2` is the bitwise
exclusive or of C. -/
def eval_gate (t : ComponentType) (in1 in2 : Int) : Int :=
  if t = ComponentType.COMP_NOT then
    if in1 = -1 then -1 else tern01 (c_not in1)
  else if in1 = -1 ∨ in2 = -1 then -1
  else
    match t with
    | ComponentType.COMP_AND => tern01 (c_and in1 in2)
    | ComponentType.COMP_OR => tern01 (c_or in1 in2)
    | ComponentType.COMP_NAND => tern01 (c_not (c_and in1 in2))
    | ComponentType.COMP_NOR => tern01 (c_not (c_or in1 in2))
    | ComponentType.COMP_XOR => tern01 (Int.xor in1 in2)
    | _ => -1

/-! ## final.c: data model -/

/-- `MAX_GATES` of final.c (and truth_table.c). -/
def MAX_GATES : Int := 50

/-- `MAX_WIRES` of final.c. -/
def MAX_WIRES : Int := 100

/-- The struct `LogicGate` of final.c / truth_table.c.  The fields that only the drawing
and dragging code reads (`rect`, `color`, `selected_color`, `is_selected`, `is_dragging`,
`drag_offset_x`, `drag_offset_y`) are left out; no embedded function reads or writes
them.  `input_values` is a heap pointer: `none` is `NULL`. -/
structure LogicGate where
  name : String
  inputs : Int
  outputs : Int
  in_palette : Bool
  id : Int
  input_values : Option (List Int)
  output_value : Int
  gate_type : Int
deriving DecidableEq, Repr

/-- The struct `Wire` of final.c / truth_table.c, without its `color`. -/
structure Wire where
  from_gate_id : Int
  from_pin_index : Int
  to_gate_id : Int
  to_pin_index : Int
deriving DecidableEq, Repr

/-- Read `a[i]` of a C `int` array.  An index outside the allocation is undefined
behaviour in C; the embedding reads 0 there. -/
def arr_get (a : List Int) (i : Int) : Int :=
  if 0 ≤ i then a.getD i.toNat 0 else 0

/-- Write `a[i] = v` into a C `int` array.  An index outside the allocation is
undefined behaviour in C; the embedding leaves the array as it is there. -/
def arr_set (a : List Int) (i : Int) (v : Int) : List Int :=
  if 0 ≤ i then a.set i.toNat v else a

/-- Read `p[i]` through the pointer `p` (0 through a null pointer, which C leaves
undefined). -/
def ptr_get (p : Option (List Int)) (i : Int) : Int :=
  match p with
  | none => 0
  | some a => arr_get a i

/-! ## final.c: `compute_gate_output` -/

/-- `compute_gate_output` of final.c: the `switch` on `gate->gate_type`. -/
def compute_gate_output (gate : LogicGate) : LogicGate :=
  if gate.gate_type = 0 then
    if gate.inputs ≥ 2 then
      { gate with output_value := AND (ptr_get gate.input_values 0) (ptr_get gate.input_values 1) }
    else gate
  else if gate.gate_type = 1 then
    if gate.inputs ≥ 2 then
      { gate with output_value := OR (ptr_get gate.input_values 0) (ptr_get gate.input_values 1) }
    else gate
  else if gate.gate_type = 2 then
    if gate.inputs ≥ 1 then
      { gate with output_value := NOT (ptr_get gate.input_values 0) }
    else gate
  else if gate.gate_type = 3 then
    if gate.inputs ≥ 2 then
      { gate with output_value := NAND (ptr_get gate.input_values 0) (ptr_get gate.input_values 1) }
    else gate
  else if gate.gate_type = 4 then
    if gate.inputs ≥ 2 then
      { gate with output_value := NOR (ptr_get gate.input_values 0) (ptr_get gate.input_values 1) }
    else gate
  else if gate.gate_type = 5 then
    if gate.inputs ≥ 2 then
      { gate with output_value := XOR (ptr_get gate.input_values 0) (ptr_get gate.input_values 1) }
    else gate
  else if gate.gate_type = 6 then gate
  else if gate.gate_type = 7 then
    if gate.inputs ≥ 1 then
      { gate with output_value := ptr_get gate.input_values 0 }
    else gate
  else { gate with output_value := 0 }

/-! ## final.c: `propagate_signals` -/

/-- The inner loop `for (j = 0; j < inputs; j++) input_values[j] = 0;`. -/
def zero_inputs (vals : List Int) (inputs : Int) : List Int :=
  (List.range inputs.toNat).foldl (fun (a : List Int) (j : Nat) => arr_set a (j : Int) 0) vals

/-- Body of the reset loop of `propagate_signals` for one gate. -/
def reset_gate (g : LogicGate) : LogicGate :=
  if !g.in_palette && g.gate_type != 6 then
    { g with
      output_value := 0
      input_values :=
        match g.input_values with
        | none => none
        | some vals => some (zero_inputs vals g.inputs) }
  else g

/-- The reset loop of `propagate_signals`. -/
def reset_gates (gates : List LogicGate) : List LogicGate :=
  gates.map reset_gate

/-- The search loop of the wire pass: `from_gate` and `to_gate` are the array indices
the two pointers hold (`none` for `NULL`); the loop is left as soon as both are set. -/
def find_gates (wire : Wire) :
    List LogicGate → Nat → Option Nat → Option Nat → Option Nat × Option Nat
  | [], _, from_gate, to_gate => (from_gate, to_gate)
  | g :: rest, i, from_gate, to_gate =>
    let from_gate := if g.id = wire.from_gate_id then some i else from_gate
    let to_gate := if g.id = wire.to_gate_id then some i else to_gate
    if from_gate.isSome && to_gate.isSome then (from_gate, to_gate)
    else find_gates wire rest (i + 1) from_gate to_gate

/-- One turn of the wire loop: the gate array and the flag `changed` before, and after. -/
def wire_step (st : List LogicGate × Bool) (wire : Wire) : List LogicGate × Bool :=
  match find_gates wire st.1 0 none none with
  | (some fi, some ti) =>
    match st.1[fi]?, st.1[ti]? with
    | some from_gate, some to_gate =>
      match to_gate.input_values with
      | some vals =>
        if wire.to_pin_index < to_gate.inputs then
          let old_value := arr_get vals wire.to_pin_index
          let vals1 := arr_set vals wire.to_pin_index from_gate.output_value
          (st.1.set ti { to_gate with input_values := some vals1 },
           if old_value != arr_get vals1 wire.to_pin_index then true else st.2)
        else st
      | none => st
    | _, _ => st
  | _ => st

/-- The wire pass of one iteration. -/
def wire_pass (gates : List LogicGate) (wires : List Wire) (changed : Bool) :
    List LogicGate × Bool :=
  wires.foldl wire_step (gates, changed)

/-- One turn of the gate loop, for the gate `g`. -/
def gate_step (g : LogicGate) : LogicGate :=
  if !g.in_palette then compute_gate_output g else g

/-- The gate pass of one iteration: every gate is recomputed in place; `changed` is set
when some `old_output != gates[i].output_value`. -/
def gate_pass (gates : List LogicGate) (changed : Bool) : List LogicGate × Bool :=
  (gates.map gate_step,
   changed || gates.any (fun g => g.output_value != (gate_step g).output_value))

/-- One execution of the body of the `do ... while` loop (after `changed = false;
iterations++`). -/
def iteration (gates : List LogicGate) (wires : List Wire) : List LogicGate × Bool :=
  let r := wire_pass gates wires false
  gate_pass r.1 r.2

/-- `max_iterations` of `propagate_signals`. -/
def max_iterations : Int := 100

/-- The `do ... while (changed && iterations < max_iterations)` loop.  `fuel` bounds the
number of turns of the embedding; `none` means the fuel ran out before the loop
condition failed.  The result is the gate array, `iterations` and `changed` at loop
exit. -/
def propagate_loop (wires : List Wire) :
    Nat → List LogicGate → Int → Option (List LogicGate × Int × Bool)
  | 0, _, _ => none
  | fuel + 1, gates, iterations =>
    let iterations := iterations + 1
    let r := iteration gates wires
    if r.2 && iterations < max_iterations then propagate_loop wires fuel r.1 iterations
    else some (r.1, iterations, r.2)

/-- What a call of `propagate_signals` leaves behind: the gate array, the locals
`iterations` and `changed` at loop exit, and whether the warning was printed. -/
structure Propagated where
  gates : List LogicGate
  iterations : Int
  changed : Bool
  warning : Bool
deriving DecidableEq, Repr

/-- `propagate_signals` of final.c, run with `fuel` turns of the loop at most. -/
def propagate_signals_fuel (fuel : Nat) (gates : List LogicGate) (wires : List Wire) :
    Option Propagated :=
  match propagate_loop wires fuel (reset_gates gates) 0 with
  | none => none
  | some (gs, iterations, changed) =>
    some { gates := gs, iterations := iterations, changed := changed,
           warning := decide (iterations ≥ max_iterations) }

/-- `propagate_signals` of final.c.  100 turns are always enough
(`propagate_signals_fuel_enough`). -/
def propagate_signals (gates : List LogicGate) (wires : List Wire) : Option Propagated :=
  propagate_signals_fuel 100 gates wires

/-! ## final.c: building a circuit -/

/-- The chain of `strcmp` tests of `create_gate_in_workspace`. -/
def gate_type_of_name (name : String) : Int :=
  if name = "AND" then 0
  else if name = "OR" then 1
  else if name = "NOT" then 2
  else if name = "NAND" then 3
  else if name = "NOR" then 4
  else if name = "XOR" then 5
  else if name = "INPUT" then 6
  else if name = "OUTPUT" then 7
  else 0

/-- `create_gate_in_workspace` of final.c: the gate array (its length is `*gate_count`)
after the call, and the returned value.  `malloc` followed by the zeroing loop gives an
array of `inputs` zeros. -/
def create_gate_in_workspace (gates : List LogicGate) (name : String)
    (inputs outputs id : Int) : List LogicGate × Int :=
  if (gates.length : Int) ≥ MAX_GATES then (gates, -1)
  else
    let gate : LogicGate :=
      { name := name, inputs := inputs, outputs := outputs, in_palette := false, id := id,
        input_values := none, output_value := 0, gate_type := gate_type_of_name name }
    let gate : LogicGate :=
      if inputs > 0 then { gate with input_values := some (List.replicate inputs.toNat 0) }
      else gate
    (gates ++ [gate], (gates.length : Int))

/-- One entry of the initialiser `palette_gates[]` of `main`: the fields after `id`
are not initialised explicitly, so `input_values` is `NULL` and `output_value` and
`gate_type` are 0. -/
def palette_gate (name : String) (inputs outputs : Int) : LogicGate :=
  { name := name, inputs := inputs, outputs := outputs, in_palette := true, id := 0,
    input_values := none, output_value := 0, gate_type := 0 }

/-- The array `palette_gates[]` of `main`, which `main` copies to the front of `gates`. -/
def palette_gates : List LogicGate :=
  [palette_gate "AND" 2 1, palette_gate "OR" 2 1, palette_gate "NOT" 1 1,
   palette_gate "NAND" 2 1, palette_gate "NOR" 2 1, palette_gate "XOR" 2 1,
   palette_gate "INPUT" 0 1, palette_gate "OUTPUT" 1 0]

/-- Dropping a palette entry on the workspace, as the mouse-button-up branch of `main`
does: `create_gate_in_workspace` with the template's name, pin counts and id. -/
def place_gate (gates : List LogicGate) (name : String) (inputs outputs id : Int) :
    List LogicGate :=
  (create_gate_in_workspace gates name inputs outputs id).1

/-- The statement `gates[i].output_value = v` (what a click on an INPUT gate, or the
truth table's forcing of an input, does), for every gate of the array with this id. -/
def set_output (gates : List LogicGate) (id v : Int) : List LogicGate :=
  gates.map (fun g => if g.id = id then { g with output_value := v } else g)

/-- Scenario A/B of the specification, as `main` builds it: the eight palette entries,
then INPUT 1, INPUT 2, the AND gate 3 and the OUTPUT gate 4; the two inputs hold `i1`
and `i2`. -/
def and_circuit_gates (i1 i2 : Int) : List LogicGate :=
  set_output (set_output
    (place_gate (place_gate (place_gate (place_gate palette_gates
      "INPUT" 0 1 1) "INPUT" 0 1 2) "AND" 2 1 3) "OUTPUT" 1 0 4) 1 i1) 2 i2

/-- The array of scenario A/B in any state an earlier frame may have left it in: the
AND gate 3 and the OUTPUT gate 4 hold arbitrary outputs and slot values. -/
def and_circuit_state (i1 i2 a_out a0 a1 o_out o0 : Int) : List LogicGate :=
  (and_circuit_gates i1 i2).map (fun g =>
    if g.id = 3 then { g with output_value := a_out, input_values := some [a0, a1] }
    else if g.id = 4 then { g with output_value := o_out, input_values := some [o0] }
    else g)

/-- Wires of scenario A/B: 1 → 3.0, 2 → 3.1, 3 → 4.0. -/
def and_circuit_wires : List Wire :=
  [⟨1, 0, 3, 0⟩, ⟨2, 0, 3, 1⟩, ⟨3, 0, 4, 0⟩]

/-- The `output_value` of the first gate of the array with the given id, if any. -/
def output_of (gates : List LogicGate) (id : Int) : Option Int :=
  (gates.find? (fun g => g.id == id)).map (fun g => g.output_value)

/-- A single NOT gate (id 1) on the workspace, after the palette entries. -/
def not_loop_gates : List LogicGate :=
  place_gate palette_gates "NOT" 1 1 1

/-- Its output wired to its own input pin 0. -/
def not_loop_wires : List Wire :=
  [⟨1, 0, 1, 0⟩]

/-- An INPUT gate (id 1) holding 1, wired to pin 0 of an AND gate (id 2) whose pin 1 is
left unwired; built on the workspace as `main` does. -/
def half_wired_gates : List LogicGate :=
  set_output (place_gate (place_gate palette_gates "INPUT" 0 1 1) "AND" 2 1 2) 1 1

/-- The single wire of `half_wired_gates`: 1 → 2.0. -/
def half_wired_wires : List Wire :=
  [⟨1, 0, 2, 0⟩]

/-- The `input_values` array of the first gate of the array with the given id. -/
def inputs_of (gates : List LogicGate) (id : Int) : Option (List Int) :=
  (gates.find? (fun g => g.id == id)).bind (fun g => g.input_values)

/-! ## Self-consistency of a gate array -/

/-- The wire `w` is consistent in `gs`: if `f` and `t` are the gates (the only ones) with
the wire's source and destination id, the pin is a slot of `t` and the slots of `t` are
allocated, then the slot holds the output of `f`. -/
def wire_consistent (gs : List LogicGate) (w : Wire) : Prop :=
  ∀ f ∈ gs, ∀ t ∈ gs, f.id = w.from_gate_id → t.id = w.to_gate_id →
    (∀ g ∈ gs, g.id = w.from_gate_id → g = f) → (∀ g ∈ gs, g.id = w.to_gate_id → g = t) →
    0 ≤ w.to_pin_index → w.to_pin_index < t.inputs →
    ∀ vals, t.input_values = some vals → (vals.length : Int) = t.inputs →
      arr_get vals w.to_pin_index = f.output_value

/-- The gate `g` is consistent: its output is its kind's function of its input slots
(kinds AND, OR, NAND, NOR, XOR with 2 inputs; NOT and OUTPUT with 1 input). -/
def gate_consistent (g : LogicGate) : Prop :=
  (g.gate_type = 0 → g.inputs = 2 →
    g.output_value = AND (ptr_get g.input_values 0) (ptr_get g.input_values 1)) ∧
  (g.gate_type = 1 → g.inputs = 2 →
    g.output_value = OR (ptr_get g.input_values 0) (ptr_get g.input_values 1)) ∧
  (g.gate_type = 2 → g.inputs = 1 → g.output_value = NOT (ptr_get g.input_values 0)) ∧
  (g.gate_type = 3 → g.inputs = 2 →
    g.output_value = NAND (ptr_get g.input_values 0) (ptr_get g.input_values 1)) ∧
  (g.gate_type = 4 → g.inputs = 2 →
    g.output_value = NOR (ptr_get g.input_values 0) (ptr_get g.input_values 1)) ∧
  (g.gate_type = 5 → g.inputs = 2 →
    g.output_value = XOR (ptr_get g.input_values 0) (ptr_get g.input_values 1)) ∧
  (g.gate_type = 7 → g.inputs = 1 → g.output_value = ptr_get g.input_values 0)

/-- A circuit that settles in the 100th iteration: eleven workspace gates, made by
`create_gate_in_workspace`, in a ring (each gate's pin 0 is on its predecessor, gate 1's
on gate 11), some with a second wire on pin 1.  The palette entries, which every loop of
`propagate_signals` skips and whose id 0 no wire names, are left out of the array. -/
def late_settling_gates : List LogicGate :=
  [("XOR", 1), ("OR", 2), ("XOR", 3), ("XOR", 4), ("XOR", 5), ("XOR", 6), ("XOR", 7),
   ("NOT", 8), ("OR", 9), ("XOR", 10), ("NOR", 11)].foldl
    (fun gs (d : String × Int) => place_gate gs d.1 (if d.1 = "NOT" then 1 else 2) 1 d.2)
    []

/-- The wires of `late_settling_gates`; no input pin has two wires. -/
def late_settling_wires : List Wire :=
  [⟨11, 0, 1, 0⟩, ⟨1, 0, 2, 0⟩, ⟨2, 0, 3, 0⟩, ⟨3, 0, 4, 0⟩, ⟨8, 0, 4, 1⟩, ⟨4, 0, 5, 0⟩,
   ⟨5, 0, 5, 1⟩, ⟨5, 0, 6, 0⟩, ⟨2, 0, 6, 1⟩, ⟨6, 0, 7, 0⟩, ⟨7, 0, 8, 0⟩, ⟨8, 0, 9, 0⟩,
   ⟨9, 0, 10, 0⟩, ⟨8, 0, 10, 1⟩, ⟨10, 0, 11, 0⟩, ⟨5, 0, 11, 1⟩]

/-! ## truth_table.c -/

/-- `find_input_gates`: the indices stored in `input_gate_indices`, in order; the
returned count is the length. -/
def find_input_gates_from : List LogicGate → Nat → List Nat
  | [], _ => []
  | g :: rest, i =>
    if !g.in_palette && g.gate_type == 6 then i :: find_input_gates_from rest (i + 1)
    else find_input_gates_from rest (i + 1)

/-- `find_input_gates` of truth_table.c. -/
def find_input_gates (gates : List LogicGate) : List Nat :=
  find_input_gates_from gates 0

/-- `find_output_gates`: the indices stored in `output_gate_indices`, in order. -/
def find_output_gates_from : List LogicGate → Nat → List Nat
  | [], _ => []
  | g :: rest, i =>
    if !g.in_palette && g.gate_type == 7 then i :: find_output_gates_from rest (i + 1)
    else find_output_gates_from rest (i + 1)

/-- `find_output_gates` of truth_table.c. -/
def find_output_gates (gates : List LogicGate) : List Nat :=
  find_output_gates_from gates 0

/-- The copy loop of `simulate_circuit_with_inputs` for one gate: a fresh zeroed
`input_values` array when the gate has one and `inputs > 0`, and output 0. -/
def copy_gate (g : LogicGate) : LogicGate :=
  { g with
    input_values :=
      match g.input_values with
      | some vals => if g.inputs > 0 then some (List.replicate g.inputs.toNat 0) else some vals
      | none => none
    output_value := 0 }

/-- The statement `temp_gates[idx].output_value = v`. -/
def set_output_at (gates : List LogicGate) (idx : Nat) (v : Int) : List LogicGate :=
  match gates[idx]? with
  | some g => gates.set idx { g with output_value := v }
  | none => gates

/-- The loop `temp_gates[input_gate_indices[i]].output_value = input_values[i]`. -/
def force_inputs (gates : List LogicGate) (indices : List Nat) (input_values : List Int) :
    List LogicGate :=
  (List.range indices.length).foldl
    (fun (gs : List LogicGate) (i : Nat) =>
      set_output_at gs (indices.getD i 0) (arr_get input_values (i : Int)))
    gates

/-- `simulate_circuit_with_inputs` of truth_table.c: the values it stores in
`output_values[0 .. num_outputs)`.  The caller's arrays are not part of the result: the
function works on `temp_gates`. -/
def simulate_circuit_with_inputs (gates : List LogicGate) (wires : List Wire)
    (input_values : List Int) : Option (List Int) :=
  let temp_gates := gates.map copy_gate
  let temp_gates := force_inputs temp_gates (find_input_gates temp_gates) input_values
  match propagate_signals temp_gates wires with
  | none => none
  | some r =>
    some ((find_output_gates r.gates).map (fun idx =>
      match r.gates[idx]? with
      | some g => g.output_value
      | none => 0))

/-- Wrap an integer into the range of a 32-bit `int`. -/
def int32_wrap (x : Int) : Int := (x + 2147483648) % 4294967296 - 2147483648

/-- C `1 << n` on 32-bit `int` (the value for `0 ≤ n < 31`; beyond that C leaves the
shift undefined and the embedding wraps). -/
def shl_one (n : Int) : Int := int32_wrap (2 ^ n.toNat)

/-- The assignment `input_values[i] = (row >> (num_inputs - 1 - i)) & 1` for
`i = 0 .. num_inputs - 1`. -/
def row_inputs (num_inputs : Int) (row : Int) : List Int :=
  (List.range num_inputs.toNat).map (fun (i : Nat) =>
    Int.land (row >>> (num_inputs - 1 - (i : Int)).toNat) 1)

/-- One row of the table as `draw_truth_table_window` draws it: the first `num_inputs`
entries of `input_values` and the first `num_outputs` entries of `output_values`.  The
call passes `NULL, 0` for the wires. -/
def table_row (gates : List LogicGate) (num_inputs num_outputs : Int) (row : Int) :
    Option (List Int × List Int) :=
  let input_values := row_inputs num_inputs row
  match simulate_circuit_with_inputs gates [] input_values with
  | none => none
  | some output_values =>
    some ((List.range num_inputs.toNat).map (fun (col : Nat) => arr_get input_values (col : Int)),
          (List.range num_outputs.toNat).map (fun (col : Nat) => arr_get output_values (col : Int)))

/-- The rows `draw_truth_table_window` computes in one frame (the window and the
renderer having been created): `row = 0 .. num_combinations - 1`. -/
def draw_truth_table_window (gates : List LogicGate) (num_inputs num_outputs : Int) :
    Option (List (List Int × List Int)) :=
  let num_combinations := shl_one num_inputs
  (List.range num_combinations.toNat).mapM
    (fun (row : Nat) => table_row gates num_inputs num_outputs (row : Int))

/-- What `generate_truth_table` does: one of the two messages, or the table. -/
inductive TruthTable where
  | no_input_gates
  | no_output_gates
  | table (rows : List (List Int × List Int))
deriving DecidableEq, Repr

/-- `generate_truth_table` of truth_table.c.  Its parameters `wires_ptr` and
`wire_count` are not used after the casts. -/
def generate_truth_table (gates : List LogicGate) (_wires : List Wire) : Option TruthTable :=
  let num_inputs : Int := (find_input_gates gates).length
  let num_outputs : Int := (find_output_gates gates).length
  if num_inputs = 0 then some TruthTable.no_input_gates
  else if num_outputs = 0 then some TruthTable.no_output_gates
  else (draw_truth_table_window gates num_inputs num_outputs).map TruthTable.table

/-- Scenario C of the specification, as `main` builds it: palette, INPUT 1, INPUT 2,
XOR 3, OUTPUT 4. -/
def xor_circuit_gates : List LogicGate :=
  place_gate (place_gate (place_gate (place_gate palette_gates
    "INPUT" 0 1 1) "INPUT" 0 1 2) "XOR" 2 1 3) "OUTPUT" 1 0 4

/-- Wires of scenario C: 1 → 3.0, 2 → 3.1, 3 → 4.0. -/
def xor_circuit_wires : List Wire :=
  [⟨1, 0, 3, 0⟩, ⟨2, 0, 3, 1⟩, ⟨3, 0, 4, 0⟩]

/-! ## Views of the gate array used in the proofs -/

/-- The store `g.input_values[p] = v` (nothing happens through a null pointer). -/
def store_input (g : LogicGate) (p v : Int) : LogicGate :=
  { g with input_values := g.input_values.map (fun vals => arr_set vals p v) }

/-- The store `gates[ti].input_values[p] = v`. -/
def put (gates : List LogicGate) (ti : Nat) (p v : Int) : List LogicGate :=
  match gates[ti]? with
  | some g => gates.set ti (store_input g p v)
  | none => gates

/-- What one turn of the wire loop stores, if anything: the index of the destination
gate, the pin and the value. -/
def wire_action (gates : List LogicGate) (wire : Wire) : Option (Nat × Int × Int) :=
  match find_gates wire gates 0 none none with
  | (some fi, some ti) =>
    match gates[fi]?, gates[ti]? with
    | some from_gate, some to_gate =>
      match to_gate.input_values with
      | some _ =>
        if wire.to_pin_index < to_gate.inputs then
          some (ti, wire.to_pin_index, from_gate.output_value)
        else none
      | none => none
    | _, _ => none
  | _ => none

/-- A gate without the contents of its input slots. -/
def view (g : LogicGate) : LogicGate :=
  { g with input_values := g.input_values.map (fun _ => []) }

/-- Does the reset loop (and, for the output, the gate pass) write this gate? -/
def is_driven (g : LogicGate) : Bool := !g.in_palette && g.gate_type != 6

/-- A gate without the contents of its input slots and, when propagation computes it,
without its output. -/
def frame (g : LogicGate) : LogicGate :=
  { g with input_values := g.input_values.map (fun _ => [])
           output_value := if is_driven g then 0 else g.output_value }

/-- The gate array after `k` iterations of the loop body, started on the reset array. -/
def state_after (gates : List LogicGate) (wires : List Wire) (k : Nat) : List LogicGate :=
  (fun gs => (iteration gs wires).1)^[k] (reset_gates gates)

/-! ## deepseek.c: data model -/

namespace Deepseek

/-- `MAX_GATES` of deepseek.c. -/
def MAX_GATES : Int := 100

/-- `MAX_INPUTS` of deepseek.c. -/
def MAX_INPUTS : Int := 10

/-- `MAX_OUTPUTS` of deepseek.c. -/
def MAX_OUTPUTS : Int := 10

/-- `MAX_WIRES` of deepseek.c. -/
def MAX_WIRES : Int := 200

/-- The enumeration `GateType` of deepseek.c, in declaration order. -/
inductive GateType where
  | GATE_NOT
  | GATE_AND
  | GATE_OR
  | GATE_XOR
  | GATE_NAND
  | GATE_NOR
  | GATE_INPUT
  | GATE_OUTPUT
deriving DecidableEq, Repr

/-- The struct `Gate` of deepseek.c; `input1` and `input2` hold the id of the gate
wired to pin 1 and pin 2, or -1. -/
structure Gate where
  id : Int
  type : GateType
  x : Int
  y : Int
  input1 : Int
  input2 : Int
  output : Int
  label : String
deriving DecidableEq, Repr

/-- The struct `Wire` of deepseek.c, without `from_pin`, which no function of the file
writes or reads. -/
structure Wire where
  id : Int
  from_gate : Int
  to_gate : Int
  to_pin : Int
deriving DecidableEq, Repr

/-- The struct `Circuit` of deepseek.c.  Each array is the list of its live entries:
`gate_count`, `wire_count`, `input_count` and `output_count` are the lengths.  The C
arrays `input_gates` and `output_gates` have room for `MAX_INPUTS` and `MAX_OUTPUTS`
entries, a bound no function of the file tests; the lists keep every entry. -/
structure Circuit where
  gates : List Gate
  wires : List Wire
  input_gates : List Int
  output_gates : List Int
deriving DecidableEq, Repr

/-- `gate_count` of a circuit. -/
def Circuit.gate_count (c : Circuit) : Int := c.gates.length

/-- `wire_count` of a circuit. -/
def Circuit.wire_count (c : Circuit) : Int := c.wires.length

/-- `input_count` of a circuit. -/
def Circuit.input_count (c : Circuit) : Int := c.input_gates.length

/-- `output_count` of a circuit. -/
def Circuit.output_count (c : Circuit) : Int := c.output_gates.length

/-- The struct `Action` of deepseek.c: a snapshot with its description (the links are
the list structure of the stack). -/
structure Action where
  circuit : Circuit
  description : String
deriving DecidableEq, Repr

/-- The global variables of deepseek.c.  The head of `undo_stack` (of `redo_stack`) is
the action the global pointer points at. -/
structure State where
  current_circuit : Circuit
  undo_stack : List Action
  redo_stack : List Action
  next_gate_id : Int
  next_wire_id : Int
deriving DecidableEq, Repr

/-- What a call leaves behind: the globals, and the message given to `display_error`
by the call itself, if any. -/
structure Outcome where
  state : State
  error : Option String
deriving DecidableEq, Repr

/-- `initialize_circuit` of deepseek.c. -/
def initialize_circuit : State :=
  { current_circuit := { gates := [], wires := [], input_gates := [], output_gates := [] },
    undo_stack := [], redo_stack := [], next_gate_id := 1, next_wire_id := 1 }

/-- `save_action` of deepseek.c: push a snapshot of `current_circuit`, empty the redo
stack. -/
def save_action (s : State) (description : String) : State :=
  { s with undo_stack := { circuit := s.current_circuit, description := description } ::
             s.undo_stack
           redo_stack := [] }

/-- The label `add_gate` copies into the new gate. -/
def default_label (type : GateType) : String :=
  match type with
  | GateType.GATE_NOT => "NOT"
  | GateType.GATE_AND => "AND"
  | GateType.GATE_OR => "OR"
  | GateType.GATE_XOR => "XOR"
  | GateType.GATE_NAND => "NAND"
  | GateType.GATE_NOR => "NOR"
  | GateType.GATE_INPUT => "IN"
  | GateType.GATE_OUTPUT => "OUT"

/-- `add_gate` of deepseek.c. -/
def add_gate (s : State) (type : GateType) (x y : Int) : Outcome :=
  if s.current_circuit.gate_count ≥ MAX_GATES then
    { state := s, error := some "Cannot add more gates. Maximum limit reached." }
  else
    let new_gate : Gate :=
      { id := s.next_gate_id, type := type, x := x, y := y, input1 := -1, input2 := -1,
        output := 0, label := default_label type }
    let c := s.current_circuit
    let c : Circuit :=
      match type with
      | GateType.GATE_INPUT => { c with input_gates := c.input_gates ++ [new_gate.id] }
      | GateType.GATE_OUTPUT => { c with output_gates := c.output_gates ++ [new_gate.id] }
      | _ => c
    let c : Circuit := { c with gates := c.gates ++ [new_gate] }
    { state := save_action { s with current_circuit := c, next_gate_id := s.next_gate_id + 1 }
        "Add gate",
      error := none }

/-- The loop of `delete_wire` and `add_wire` that updates the gate connections: the
first gate with id `to_gate` gets `v` in `input1` when `to_pin == 1`, in `input2`
otherwise. -/
def set_connection : List Gate → Int → Int → Int → List Gate
  | [], _, _, _ => []
  | g :: rest, to_gate, to_pin, v =>
    if g.id = to_gate then
      (if to_pin = 1 then { g with input1 := v } else { g with input2 := v }) :: rest
    else g :: set_connection rest to_gate to_pin v

/-- `delete_wire` of deepseek.c: the first wire with the id is removed. -/
def delete_wire (s : State) (wire_id : Int) : Outcome :=
  let c := s.current_circuit
  match c.wires.findIdx? (fun w => w.id == wire_id) with
  | none => { state := s, error := some "Wire not found." }
  | some i =>
    match c.wires[i]? with
    | none => { state := s, error := some "Wire not found." }
    | some w =>
      let c : Circuit :=
        { c with wires := c.wires.eraseIdx i
                 gates := set_connection c.gates w.to_gate w.to_pin (-1) }
      { state := save_action { s with current_circuit := c } "Delete wire", error := none }

/-- The scan of `add_wire` for its two gates: `from_exists`, `to_exists` and `to_type`
(the type of the last gate with id `to_gate`; `none` while the variable is not set). -/
def scan_gates (from_gate to_gate : Int) :
    List Gate → Bool → Bool → Option GateType → Bool × Bool × Option GateType
  | [], from_exists, to_exists, to_type => (from_exists, to_exists, to_type)
  | g :: rest, from_exists, to_exists, to_type =>
    let from_exists := if g.id = from_gate then true else from_exists
    if g.id = to_gate then scan_gates from_gate to_gate rest from_exists true (some g.type)
    else scan_gates from_gate to_gate rest from_exists to_exists to_type

/-- `add_wire` of deepseek.c. -/
def add_wire (s : State) (from_gate to_gate to_pin : Int) : Outcome :=
  let c := s.current_circuit
  if c.wire_count ≥ MAX_WIRES then
    { state := s, error := some "Cannot add more wires. Maximum limit reached." }
  else
    let r := scan_gates from_gate to_gate c.gates false false none
    if !r.1 || !r.2.1 then
      { state := s, error := some "One or both gates not found." }
    else if r.2.2 = some GateType.GATE_NOT && to_pin = 2 then
      { state := s, error := some "NOT gate has only one input (use pin 1)." }
    else if c.wires.any (fun w => w.to_gate = to_gate && w.to_pin = to_pin) then
      { state := s, error := some "A wire already connected to this pin." }
    else
      let new_wire : Wire :=
        { id := s.next_wire_id, from_gate := from_gate, to_gate := to_gate, to_pin := to_pin }
      let c : Circuit :=
        { c with wires := c.wires ++ [new_wire]
                 gates := set_connection c.gates to_gate to_pin from_gate }
      { state := save_action { s with current_circuit := c, next_wire_id := s.next_wire_id + 1 }
          "Add wire",
        error := none }

/-- Case 2 of the menu of `main`: the pin is checked before `add_wire` is called. -/
def menu_add_wire (s : State) (from_gate to_gate to_pin : Int) : Outcome :=
  if to_pin = 1 ∨ to_pin = 2 then add_wire s from_gate to_gate to_pin
  else { state := s, error := some "Invalid pin number. Use 1 or 2." }

/-- The removal of `gate_id` from `input_gates` (or `output_gates`) in `delete_gate`:
the first entry equal to it is shifted out. -/
def remove_listed (ids : List Int) (gate_id : Int) : List Int :=
  match ids.findIdx? (fun x => x == gate_id) with
  | none => ids
  | some j => ids.eraseIdx j

/-- The loop of `delete_gate` over the wires: `i` is the loop index; a wire naming the
gate is deleted by id with `delete_wire` and the index is kept (`i--` then `i++`).
`none` means the fuel ran out before the loop ended. -/
def delete_gate_wires (gate_id : Int) : Nat → Nat → State → Option State
  | 0, i, s => if i < s.current_circuit.wires.length then none else some s
  | fuel + 1, i, s =>
    match s.current_circuit.wires[i]? with
    | none => some s
    | some w =>
      if w.from_gate = gate_id || w.to_gate = gate_id then
        delete_gate_wires gate_id fuel i (delete_wire s w.id).state
      else delete_gate_wires gate_id fuel (i + 1) s

/-- `delete_gate` of deepseek.c, with `fuel` turns of its wire loop at most. -/
def delete_gate_fuel (fuel : Nat) (s : State) (gate_id : Int) : Option Outcome :=
  let c := s.current_circuit
  match c.gates.findIdx? (fun g => g.id == gate_id) with
  | none => some { state := s, error := some "Gate not found." }
  | some i =>
    match c.gates[i]? with
    | none => some { state := s, error := some "Gate not found." }
    | some g =>
      let c : Circuit :=
        if g.type = GateType.GATE_INPUT then
          { c with input_gates := remove_listed c.input_gates gate_id }
        else c
      let c : Circuit :=
        if g.type = GateType.GATE_OUTPUT then
          { c with output_gates := remove_listed c.output_gates gate_id }
        else c
      let c : Circuit := { c with gates := c.gates.eraseIdx i }
      match delete_gate_wires gate_id fuel 0 { s with current_circuit := c } with
      | none => none
      | some s1 => some { state := save_action s1 "Delete gate", error := none }

/-- `delete_gate` of deepseek.c: one turn of fuel for every wire is enough
(`delete_gate_total`). -/
def delete_gate (s : State) (gate_id : Int) : Option Outcome :=
  delete_gate_fuel s.current_circuit.wires.length s gate_id

/-! ## deepseek.c: evaluation and truth table -/

/-- The statement `gate->output = v` for the gate at array index `index`. -/
def set_output_at (gates : List Gate) (index : Nat) (v : Int) : List Gate :=
  match gates[index]? with
  | some g => gates.set index { g with output := v }
  | none => gates

/-- The `switch` of `evaluate_gate`: the output of a gate of the given type from its two
input values. -/
def gate_function (type : GateType) (input1_val input2_val : Int) : Int :=
  match type with
  | GateType.GATE_NOT => gate_not input1_val
  | GateType.GATE_AND => gate_and input1_val input2_val
  | GateType.GATE_OR => gate_or input1_val input2_val
  | GateType.GATE_XOR => gate_xor input1_val input2_val
  | GateType.GATE_NAND => gate_nand input1_val input2_val
  | GateType.GATE_NOR => gate_nor input1_val input2_val
  | GateType.GATE_OUTPUT => input1_val
  | GateType.GATE_INPUT => 0

/-- `evaluate_gate` of deepseek.c on the gate array: the array after the call and the
returned value.  `fuel` bounds the depth of the recursion; `none` means it ran out. -/
def evaluate_gate : Nat → List Gate → Int → Option (List Gate × Int)
  | 0, _, _ => none
  | fuel + 1, gates, gate_id =>
    match gates.findIdx? (fun g => g.id == gate_id) with
    | none => some (gates, 0)
    | some index =>
      match gates[index]? with
      | none => some (gates, 0)
      | some gate =>
        if gate.output ≠ 0 ∨ gate.type = GateType.GATE_INPUT then some (gates, gate.output)
        else
          let r1 : Option (List Gate × Int) :=
            if gate.input1 ≠ -1 then evaluate_gate fuel gates gate.input1
            else some (gates, 0)
          match r1 with
          | none => none
          | some (gates1, input1_val) =>
            let r2 : Option (List Gate × Int) :=
              if gate.input2 ≠ -1 then evaluate_gate fuel gates1 gate.input2
              else some (gates1, 0)
            match r2 with
            | none => none
            | some (gates2, input2_val) =>
              let v := gate_function gate.type input1_val input2_val
              some (set_output_at gates2 index v, v)

/-- The first loop of `evaluate_circuit`: every gate but the INPUT gates gets output 0. -/
def reset_outputs (gates : List Gate) : List Gate :=
  gates.map (fun g => if g.type ≠ GateType.GATE_INPUT then { g with output := 0 } else g)

/-- The second loop of `evaluate_circuit`, from index `i` on:
`evaluate_gate(current_circuit.gates[i].id)` for every index. -/
def evaluate_all (fuel : Nat) : Nat → Nat → List Gate → Option (List Gate)
  | 0, _, gates => some gates
  | todo + 1, i, gates =>
    match gates[i]? with
    | none => some gates
    | some g =>
      match evaluate_gate fuel gates g.id with
      | none => none
      | some (gates1, _) => evaluate_all fuel todo (i + 1) gates1

/-- `evaluate_circuit` of deepseek.c on the gate array (the only part of the globals it
writes). -/
def evaluate_circuit (fuel : Nat) (gates : List Gate) : Option (List Gate) :=
  evaluate_all fuel gates.length 0 (reset_outputs gates)

/-- The statement `gates[j].output = v` for the first gate with the given id. -/
def set_output_of (gates : List Gate) (id v : Int) : List Gate :=
  match gates.findIdx? (fun g => g.id == id) with
  | some j => set_output_at gates j v
  | none => gates

/-- The value `(comb >> (num_inputs - 1 - i)) & 1`. -/
def input_bit (num_inputs : Int) (comb : Int) (i : Nat) : Int :=
  Int.land (comb >>> (num_inputs - 1 - (i : Int)).toNat) 1

/-- The loop of `generate_truth_table` that sets the input values of one row: for
`i = 0 .. num_inputs - 1` the first gate with id `input_gates[i]` gets bit
`num_inputs - 1 - i` of `comb`. -/
def force_row (c : Circuit) (comb : Int) : List Gate :=
  (List.range c.input_gates.length).foldl
    (fun (gates : List Gate) (i : Nat) =>
      set_output_of gates (c.input_gates.getD i 0) (input_bit c.input_count comb i))
    c.gates

/-- The output columns of a printed row: for every entry of `output_gates` the output
of the first gate with that id (nothing is printed when there is none). -/
def output_columns (c : Circuit) (gates : List Gate) : List Int :=
  c.output_gates.filterMap (fun id => (gates.find? (fun g => g.id == id)).map (fun g => g.output))

/-- The row loop of `generate_truth_table`, over the combinations still to do: the
gate array at the end and the printed rows (input columns, output columns). -/
def table_rows (fuel : Nat) (c : Circuit) :
    List Nat → List Gate → Option (List Gate × List (List Int × List Int))
  | [], gates => some (gates, [])
  | comb :: rest, gates =>
    match evaluate_circuit fuel (force_row { c with gates := gates } (comb : Int)) with
    | none => none
    | some gates1 =>
      match table_rows fuel c rest gates1 with
      | none => none
      | some (gates2, rows) =>
        some (gates2,
          ((List.range c.input_gates.length).map (fun i => input_bit c.input_count (comb : Int) i),
           output_columns c gates1) :: rows)

/-- What `generate_truth_table` of deepseek.c prints: one of the two error messages, or
the rows of the table. -/
inductive Printed where
  | no_input_gates
  | no_output_gates
  | table (rows : List (List Int × List Int))
deriving DecidableEq, Repr

/-- `generate_truth_table` of deepseek.c: the globals after the call and what was
printed.  `fuel` bounds the recursion depth of every `evaluate_gate` call. -/
def generate_truth_table (fuel : Nat) (s : State) : Option (State × Printed) :=
  let c := s.current_circuit
  if c.input_count = 0 then some (s, Printed.no_input_gates)
  else if c.output_count = 0 then some (s, Printed.no_output_gates)
  else
    let num_combinations := shl_one c.input_count
    match table_rows fuel c (List.range num_combinations.toNat) c.gates with
    | none => none
    | some (gates, rows) =>
      some ({ s with current_circuit := { c with gates := gates } }, Printed.table rows)

/-- The circuit `main` of deepseek.c builds before its menu loop: INPUT 1, INPUT 2,
AND 3, OUTPUT 4 and the wires 1 → 3.1, 2 → 3.2, 3 → 4.1. -/
def demo_state : State :=
  let s := (add_gate initialize_circuit GateType.GATE_INPUT 10 5).state
  let s := (add_gate s GateType.GATE_INPUT 10 10).state
  let s := (add_gate s GateType.GATE_AND 30 7).state
  let s := (add_gate s GateType.GATE_OUTPUT 50 7).state
  let s := (add_wire s 1 3 1).state
  let s := (add_wire s 2 3 2).state
  (add_wire s 3 4 1).state

/-! ## deepseek.c: sequences of editing operations -/

/-- One call of an editing function of deepseek.c with its arguments. -/
inductive Op where
  | add_gate (type : GateType) (x y : Int)
  | add_wire (from_gate to_gate to_pin : Int)
  | delete_gate (gate_id : Int)
  | delete_wire (wire_id : Int)
deriving DecidableEq, Repr

/-- The globals after one call (`none` when the call does not return). -/
def apply_op (s : State) : Op → Option State
  | Op.add_gate type x y => some (add_gate s type x y).state
  | Op.add_wire from_gate to_gate to_pin => some (add_wire s from_gate to_gate to_pin).state
  | Op.delete_gate gate_id => (delete_gate s gate_id).map (fun o => o.state)
  | Op.delete_wire wire_id => some (delete_wire s wire_id).state

/-- The globals after a sequence of calls, first call first. -/
def run (s : State) : List Op → Option State
  | [] => some s
  | op :: rest =>
    match apply_op s op with
    | none => none
    | some s1 => run s1 rest

/-- Pin uniqueness of a wire array: no two entries have the same `to_gate` and the same
`to_pin`. -/
def pin_unique (wires : List Wire) : Prop :=
  wires.Pairwise (fun w1 w2 => ¬ (w1.to_gate = w2.to_gate ∧ w1.to_pin = w2.to_pin))

/-- The wires `delete_gate` keeps: those that name the gate neither as source nor as
destination. -/
def not_attached (gate_id : Int) (w : Wire) : Bool :=
  !(decide (w.from_gate = gate_id) || decide (w.to_gate = gate_id))

/-- A circuit with INPUT 1 and NOT 2, built with `add_gate`. -/
def not_state : State :=
  (add_gate (add_gate initialize_circuit GateType.GATE_INPUT 10 5).state
    GateType.GATE_NOT 30 5).state

/-- A gate without its `output`: every field that `evaluate_gate` leaves alone. -/
def skeleton (g : Gate) : Gate := { g with output := 0 }

/-- The wiring recorded in the gates is acyclic, by a rank on gate ids: the gate named
by `input1` or `input2` of a gate has a smaller rank than the gate itself. -/
def ranked (rank : Int → Nat) (gates : List Gate) : Prop :=
  ∀ g ∈ gates, (g.input1 ≠ -1 → rank g.input1 < rank g.id) ∧
    (g.input2 ≠ -1 → rank g.input2 < rank g.id)

/-- The `output` of the first gate of the array with the given id, if any. -/
def output_of (gates : List Gate) (id : Int) : Option Int :=
  (gates.find? (fun g => g.id == id)).map (fun g => g.output)

/-- A circuit with feedback that `add_gate` and `add_wire` build: INPUT 1, NOT 2,
OUTPUT 3 and the wire 2 → 2.1 from the NOT gate to its own pin. -/
def loop_state : State :=
  let s := (add_gate initialize_circuit GateType.GATE_INPUT 10 5).state
  let s := (add_gate s GateType.GATE_NOT 30 5).state
  let s := (add_gate s GateType.GATE_OUTPUT 50 5).state
  (add_wire s 2 2 1).state

/-- The ids of the gates of one type, in array order. -/
def ids_of_type (type : GateType) (gates : List Gate) : List Int :=
  (gates.filter (fun g => g.type = type)).map (fun g => g.id)

/-- The lists `input_gates` and `output_gates` name the INPUT gates and the OUTPUT gates
of the gate array, in array order. -/
def lists_match (c : Circuit) : Prop :=
  c.input_gates = ids_of_type GateType.GATE_INPUT c.gates ∧
  c.output_gates = ids_of_type GateType.GATE_OUTPUT c.gates

end Deepseek

/-! ## testt.c: components, wires and their editing functions -/

namespace Testt

/-- `MAX_COMPONENTS` of testt.c. -/
def MAX_COMPONENTS : Int := 100

/-- `MAX_WIRES` of testt.c. -/
def MAX_WIRES : Int := 200

/-- `MAX_UNDO_STACK` of testt.c. -/
def MAX_UNDO_STACK : Int := 50

/-- The struct `ConnectionPoint` of testt.c: `pin_index` is 0 or 1 for an input pin and
-1 for the output. -/
structure ConnectionPoint where
  component_id : Int
  pin_index : Int
deriving DecidableEq, Repr

/-- The struct `Wire` of testt.c; `end_point` is the field `end` of the source. -/
structure Wire where
  id : Int
  start : ConnectionPoint
  end_point : ConnectionPoint
  is_valid : Bool
  value : Int
deriving DecidableEq, Repr

/-- The struct `Component` of testt.c, with the fields the editing and simulation
functions read; the position, `selected`, `output_wire_ids`, `output_count`, `label` and
`inputs` are only written. -/
structure Component where
  id : Int
  type : ComponentType
  output_value : Int
  input_state : Bool
deriving DecidableEq, Repr

/-- The enumeration `ActionType` of testt.c. -/
inductive ActionType where
  | ACTION_ADD_COMPONENT
  | ACTION_DELETE_COMPONENT
  | ACTION_ADD_WIRE
  | ACTION_DELETE_WIRE
  | ACTION_MOVE_COMPONENT
deriving DecidableEq, Repr

/-- The struct `UndoAction` of testt.c without the positions of a move. -/
structure UndoAction where
  type : ActionType
  component : Component
  wire : Wire
deriving DecidableEq, Repr

/-- The circuit part of the struct `AppState` of testt.c.  Each array is the list of its
live entries, oldest first. -/
structure AppState where
  components : List Component
  next_component_id : Int
  wires : List Wire
  next_wire_id : Int
  undo_stack : List UndoAction
  redo_stack : List UndoAction
  error_message : String
  error_timer : Int
deriving DecidableEq, Repr

/-- A component after `SDL_zero`. -/
def zero_component : Component :=
  { id := 0, type := ComponentType.COMP_NONE, output_value := 0, input_state := false }

/-- A wire after `SDL_zero`. -/
def zero_wire : Wire :=
  { id := 0, start := ⟨0, 0⟩, end_point := ⟨0, 0⟩, is_valid := false, value := 0 }

/-- The circuit part of the state `app_init` leaves: everything zero. -/
def app_init : AppState :=
  { components := [], next_component_id := 0, wires := [], next_wire_id := 0,
    undo_stack := [], redo_stack := [], error_message := "", error_timer := 0 }

/-- `set_error` of testt.c. -/
def set_error (app : AppState) (msg : String) : AppState :=
  { app with error_message := msg, error_timer := 180 }

/-- `push_undo` of testt.c: a full stack drops its oldest entry. -/
def push_undo (app : AppState) (a : UndoAction) : AppState :=
  let stack := if (app.undo_stack.length : Int) ≥ MAX_UNDO_STACK then app.undo_stack.drop 1
    else app.undo_stack
  { app with undo_stack := stack ++ [a], redo_stack := [] }

/-- `get_component_by_id` of testt.c: the first component with the id. -/
def get_component_by_id (app : AppState) (id : Int) : Option Component :=
  app.components.find? (fun c => c.id == id)

/-- `add_component` of testt.c (the position is not kept): the state and the returned
id, or -1. -/
def add_component (app : AppState) (type : ComponentType) : AppState × Int :=
  if (app.components.length : Int) ≥ MAX_COMPONENTS then
    (set_error app "Component limit reached", -1)
  else
    let c : Component :=
      { id := app.next_component_id, type := type, output_value := -1, input_state := false }
    let app1 : AppState :=
      { app with components := app.components ++ [c]
                 next_component_id := app.next_component_id + 1 }
    (push_undo app1 { type := ActionType.ACTION_ADD_COMPONENT, component := c,
                      wire := zero_wire }, c.id)

/-- The wire loop of `delete_component`, `for (w = k - 1; w >= 0; w--)`: a wire that
starts or ends at the component is shifted out. -/
def remove_attached (id : Int) : Nat → List Wire → List Wire
  | 0, wires => wires
  | w + 1, wires =>
    match wires[w]? with
    | none => remove_attached id w wires
    | some x =>
      if x.start.component_id = id || x.end_point.component_id = id then
        remove_attached id w (wires.eraseIdx w)
      else remove_attached id w wires

/-- `delete_component` of testt.c. -/
def delete_component (app : AppState) (id : Int) : AppState :=
  match app.components.findIdx? (fun c => c.id == id) with
  | none => app
  | some i =>
    match app.components[i]? with
    | none => app
    | some c =>
      let app1 := push_undo app
        { type := ActionType.ACTION_DELETE_COMPONENT, component := c, wire := zero_wire }
      { app1 with wires := remove_attached id app1.wires.length app1.wires
                  components := app1.components.eraseIdx i }

/-- `add_wire` of testt.c: the state and the returned wire id, or -1. -/
def add_wire (app : AppState) (s e : ConnectionPoint) : AppState × Int :=
  if (app.wires.length : Int) ≥ MAX_WIRES then (set_error app "Wire limit reached", -1)
  else
    match get_component_by_id app s.component_id, get_component_by_id app e.component_id with
    | some _, some _ =>
      if s.pin_index < 0 && e.pin_index < 0 then
        (set_error app "Cannot connect output to output", -1)
      else
        let w : Wire :=
          { id := app.next_wire_id, start := s, end_point := e, is_valid := true, value := -1 }
        let app1 : AppState :=
          { app with wires := app.wires ++ [w], next_wire_id := app.next_wire_id + 1 }
        (push_undo app1 { type := ActionType.ACTION_ADD_WIRE, component := zero_component,
                          wire := w }, w.id)
    | _, _ => (app, -1)

/-- The second click of the wire tool in `app_events`: a wire from the output of the
component clicked first to input 0 of the component `c_id` clicked now. -/
def wire_tool_click (app : AppState) (wire_start : ConnectionPoint) (c_id : Int) : AppState :=
  (add_wire app wire_start { component_id := c_id, pin_index := 0 }).1

/-- The wires `delete_component` keeps. -/
def not_attached (id : Int) (w : Wire) : Bool :=
  !(decide (w.start.component_id = id) || decide (w.end_point.component_id = id))

/-- Two input toggles (ids 0 and 1) and an AND component (id 2), added in this order. -/
def toggles_and_gate : AppState :=
  let app := (add_component app_init ComponentType.COMP_INPUT_TOGGLE).1
  let app := (add_component app ComponentType.COMP_INPUT_TOGGLE).1
  (add_component app ComponentType.COMP_AND).1

end Testt

/-! ## final.c: the wiring-mode click -/

/-- The wiring-mode branch of the left-click handler in `main` of final.c, on the wire
array.  `near_pin g` stands for the call `is_point_near_pin(gates[i], mouse_x, mouse_y,
&is_output, &pin_index)`: `none` when it returns false, else `(is_output, pin_index)`.
The first workspace gate hit on an input pin ends the loop; the wire is stored when
`wire_count < MAX_WIRES`. -/
def wiring_click (near_pin : LogicGate → Option (Bool × Int))
    (source_gate_id source_pin_index : Int) : List LogicGate → List Wire → List Wire
  | [], wires => wires
  | g :: rest, wires =>
    if !g.in_palette then
      match near_pin g with
      | some (false, pin_index) =>
        if (wires.length : Int) < MAX_WIRES then
          wires ++ [{ from_gate_id := source_gate_id, from_pin_index := source_pin_index,
                      to_gate_id := g.id, to_pin_index := pin_index }]
        else wires
      | _ => wiring_click near_pin source_gate_id source_pin_index rest wires
    else wiring_click near_pin source_gate_id source_pin_index rest wires

namespace Testt

/-- The components of `toggles_and_gate` with a wire from toggle 0 to input 0 of the
AND component, drawn with the wire tool. -/
def one_wire_state : AppState :=
  wire_tool_click toggles_and_gate { component_id := 0, pin_index := -1 } 2

/-- The state `one_wire_state` after a second use of the wire tool, from toggle 1 to
the AND component. -/
def two_wire_state : AppState :=
  wire_tool_click one_wire_state { component_id := 1, pin_index := -1 } 2

end Testt

/-- The hit test of a click next to input pin 0 of the gate with id 3 and away from
every other pin. -/
def near_pin_0_of_gate_3 (g : LogicGate) : Option (Bool × Int) :=
  if g.id = 3 then some (false, 0) else none

/-! ## The specification's reading of a truth-table row -/

/-- The `n`-digit binary numeral of `r`, most significant digit first: digit `i` is
bit `n - 1 - i` of `r`.  This is the specification's description of the input columns
of row `r`, to be compared with `row_inputs` and `Deepseek.input_bit`. -/
def binary_digits (n r : Nat) : List Int :=
  (List.range n).map (fun i => ((r / 2 ^ (n - 1 - i) % 2 : Nat) : Int))

/-- The number a list of binary digits denotes, read left to right with the most
significant digit first. -/
def numeral_value (digits : List Int) : Int :=
  digits.foldl (fun acc b => 2 * acc + b) 0

/-! ## truth_table.c: the temporary array and the caller's array -/

/-- The array `temp_gates` of `simulate_circuit_with_inputs` when `propagate_signals` is
called: the copies, with the input values stored in the INPUT gates. -/
def forced_gates (gates : List LogicGate) (input_values : List Int) : List LogicGate :=
  force_inputs (gates.map copy_gate) (find_input_gates (gates.map copy_gate)) input_values

/-- A workspace that final.c can hold (40 of its 50 slots): the palette, 31 INPUT gates
with ids 1 .. 31 and one OUTPUT gate with id 32, placed one after the other. -/
def wide_gates : List LogicGate :=
  place_gate
    ((List.range 31).foldl (fun gs (k : Nat) => place_gate gs "INPUT" 0 1 ((k : Int) + 1))
      palette_gates)
    "OUTPUT" 1 0 32

/-! ## final.c: the wire pass and the iteration, gate by gate -/

/-- How often an id occurs in the gate array. -/
def id_count (gates : List LogicGate) (id : Int) : Nat :=
  (gates.map (fun g => g.id)).count id

/-- Distinct gate ids, as far as the wires can tell: every id that a wire names belongs
to one gate of the array at most.  This holds when all ids of the array are distinct
(`ids_distinct_of_nodup`); the palette entries, which all carry id 0, do not break it as
long as no wire names 0. -/
def ids_distinct (gates : List LogicGate) (wires : List Wire) : Prop :=
  ∀ w ∈ wires, id_count gates w.from_gate_id ≤ 1 ∧ id_count gates w.to_gate_id ≤ 1

/-- At most one wire per destination pin. -/
def pins_distinct (wires : List Wire) : Prop :=
  wires.Pairwise
    (fun w1 w2 => ¬ (w1.to_gate_id = w2.to_gate_id ∧ w1.to_pin_index = w2.to_pin_index))

/-- What one turn of the wire loop does to the gate `g` when `v` is the output of the
wire's source (`none`: no gate has the source id): the destination gate gets `v` in the
slot of the wire's pin. -/
def drive (v : Option Int) (w : Wire) (g : LogicGate) : LogicGate :=
  match v with
  | some x =>
    if g.id = w.to_gate_id ∧ w.to_pin_index < g.inputs then store_input g w.to_pin_index x
    else g
  | none => g

/-- Does that turn of the wire loop set `changed` because of the gate `g`? -/
def drive_changes (v : Option Int) (w : Wire) (g : LogicGate) : Bool :=
  match v, g.input_values with
  | some x, some vals =>
    decide (g.id = w.to_gate_id ∧ w.to_pin_index < g.inputs) &&
      (arr_get vals w.to_pin_index != arr_get (arr_set vals w.to_pin_index x) w.to_pin_index)
  | _, _ => false

/-- One turn of the wire loop seen from one gate: the gate and whether `changed` was set
because of it; `look` gives the output of the gate with a given id. -/
def trace_step (look : Int → Option Int) (st : LogicGate × Bool) (w : Wire) :
    LogicGate × Bool :=
  (drive (look w.from_gate_id) w st.1, st.2 || drive_changes (look w.from_gate_id) w st.1)

/-- The wire pass seen from one gate. -/
def gate_trace (look : Int → Option Int) (wires : List Wire) (g : LogicGate) :
    LogicGate × Bool :=
  wires.foldl (trace_step look) (g, false)

/-- One iteration seen from one gate: the gate after the wire pass and the gate pass. -/
def next_gate (look : Int → Option Int) (wires : List Wire) (g : LogicGate) : LogicGate :=
  gate_step (gate_trace look wires g).1

/-- Does one iteration set `changed` because of the gate `g`? -/
def gate_moved (look : Int → Option Int) (wires : List Wire) (g : LogicGate) : Bool :=
  (gate_trace look wires g).2 ||
    ((gate_trace look wires g).1.output_value !=
      (gate_step (gate_trace look wires g).1).output_value)

namespace Deepseek

/-! ## deepseek.c: undo -/

/-- `undo` of deepseek.c: the current circuit is pushed on the redo stack and replaced
by the snapshot on top of the undo stack, which is popped. -/
def undo (s : State) : Outcome :=
  match s.undo_stack with
  | [] => { state := s, error := some "Nothing to undo." }
  | action :: rest =>
    { state :=
        { s with
            redo_stack := { circuit := s.current_circuit, description := "Redo point" } ::
              s.redo_stack
            current_circuit := action.circuit
            undo_stack := rest },
      error := none }

/-- A single NOT gate (id 1) whose output is wired to its own pin 1, built with
`add_gate` and `add_wire`. -/
def self_not_state : State :=
  (add_wire (add_gate initialize_circuit GateType.GATE_NOT 30 5).state 1 1 1).state

/-- Eleven calls `add_gate(GATE_INPUT, 10, 5)`. -/
def eleven_inputs : List Op :=
  List.replicate 11 (Op.add_gate GateType.GATE_INPUT 10 5)

end Deepseek

namespace Deepseek

/-- The ids in use are distinct and below the counters: the gate ids are pairwise
distinct and smaller than `next_gate_id`, the wire ids are pairwise distinct and smaller
than `next_wire_id`. -/
def ids_fresh (s : State) : Prop :=
  (s.current_circuit.gates.map (fun g => g.id)).Nodup ∧
  (∀ g ∈ s.current_circuit.gates, g.id < s.next_gate_id) ∧
  (s.current_circuit.wires.map (fun w => w.id)).Nodup ∧
  (∀ w ∈ s.current_circuit.wires, w.id < s.next_wire_id)

end Deepseek

namespace Deepseek

/-! ## deepseek.c: the wiring and the values it defines -/

/-- The gate wired to pin `pin` of the gate `id`: the source of the first wire of the
array with that destination, if there is one. -/
def wire_source (wires : List Wire) (id pin : Int) : Option Int :=
  (wires.find? (fun w => decide (w.to_gate = id) && decide (w.to_pin = pin))).map
    (fun w => w.from_gate)

/-- The value on pin `pin` of the gate `id`: the output of the gate wired to it, 0 for a
pin without a wire (and for a wire from a gate that is not in the array). -/
def pin_value (gates : List Gate) (wires : List Wire) (id pin : Int) : Int :=
  match wire_source wires id pin with
  | none => 0
  | some src => (output_of gates src).getD 0

/-- The value of the gate `gate_id` by plain recursion over `input1` and `input2`,
without the memo test of `evaluate_gate`: an INPUT gate shows its output, any other gate
its kind's function of the values of its two sources (0 for -1), a missing gate 0.
`fuel` bounds the depth. -/
def settled_value : Nat → List Gate → Int → Int
  | 0, _, _ => 0
  | fuel + 1, gates, gate_id =>
    match gates.find? (fun g => g.id == gate_id) with
    | none => 0
    | some g =>
      if g.type = GateType.GATE_INPUT then g.output
      else
        gate_function g.type
          (if g.input1 ≠ -1 then settled_value fuel gates g.input1 else 0)
          (if g.input2 ≠ -1 then settled_value fuel gates g.input2 else 0)

/-- The fields `input1` and `input2` record the wire array: gate ids are distinct and
between 1 and `next_gate_id`, no pin has two wires, every wire goes to pin 1 or 2, and
`input1` (`input2`) of every gate is the source of the wire on its pin 1 (pin 2), or -1
when the pin has no wire. -/
def wiring_recorded (s : State) : Prop :=
  1 ≤ s.next_gate_id ∧
  (s.current_circuit.gates.map (fun g => g.id)).Nodup ∧
  (∀ g ∈ s.current_circuit.gates, 1 ≤ g.id ∧ g.id < s.next_gate_id) ∧
  pin_unique s.current_circuit.wires ∧
  (∀ w ∈ s.current_circuit.wires,
    (w.to_pin = 1 ∨ w.to_pin = 2) ∧ 1 ≤ w.from_gate ∧ w.to_gate < s.next_gate_id) ∧
  (∀ g ∈ s.current_circuit.gates,
    g.input1 = (wire_source s.current_circuit.wires g.id 1).getD (-1) ∧
    g.input2 = (wire_source s.current_circuit.wires g.id 2).getD (-1))

/-- The array `b` is the array `a` with some gates set to their value: every entry of `b`
is the entry of `a` at the same index, or that entry with `value` of its id as output. -/
def settles (value : Int → Int) (a b : List Gate) : Prop :=
  ∀ j : Nat, b[j]? = a[j]? ∨ b[j]? = (a[j]?).map (fun g => { g with output := value g.id })

/-- Every `add_wire` call of the sequence names pin 1 or pin 2, as the menu of `main`
requires. -/
def pins_in_range (ops : List Op) : Prop :=
  ∀ f t p, Op.add_wire f t p ∈ ops → p = 1 ∨ p = 2

/-- The calls that build the circuit of `main`. -/
def demo_ops : List Op :=
  [Op.add_gate GateType.GATE_INPUT 10 5, Op.add_gate GateType.GATE_INPUT 10 10,
   Op.add_gate GateType.GATE_AND 30 7, Op.add_gate GateType.GATE_OUTPUT 50 7,
   Op.add_wire 1 3 1, Op.add_wire 2 3 2, Op.add_wire 3 4 1]

end Deepseek

namespace Testt

/-! ## testt.c: `simulate` -/

/-- One turn of the wire loop inside `simulate` for the component with id `c_id`:
`ins` is the pair `in0`, `in1`.  A wire that ends at the component and whose source
exists stores the source's `output_value` in `in0` while `in0 == -1`, in `in1`
otherwise. -/
def gather_step (components : List Component) (c_id : Int) (ins : Int × Int) (wire : Wire) :
    Int × Int :=
  if wire.end_point.component_id = c_id then
    match components.find? (fun c => c.id == wire.start.component_id) with
    | none => ins
    | some src => if ins.1 = -1 then (src.output_value, ins.2) else (ins.1, src.output_value)
  else ins

/-- The wire loop inside `simulate`: `in0` and `in1` for the component with id `c_id`,
both -1 at the start. -/
def gather (components : List Component) (wires : List Wire) (c_id : Int) : Int × Int :=
  wires.foldl (gather_step components c_id) (-1, -1)

/-- One evaluation of a component that is not an input toggle, in the current array: the
LED copies `in0`, a gate applies `eval_gate`. -/
def evaluate_component (components : List Component) (wires : List Wire) (c : Component) :
    Int :=
  let ins := gather components wires c.id
  if c.type = ComponentType.COMP_OUTPUT_LED then ins.1 else eval_gate c.type ins.1 ins.2

/-- The body of the component loop of `simulate` for index `i`: the array and `changed`.
Input toggles are skipped; every other component is recomputed in place. -/
def simulate_step (wires : List Wire) (st : List Component × Bool) (i : Nat) :
    List Component × Bool :=
  match st.1[i]? with
  | none => st
  | some c =>
    if c.type = ComponentType.COMP_INPUT_TOGGLE then st
    else
      let v := evaluate_component st.1 wires c
      (st.1.set i { c with output_value := v }, st.2 || (c.output_value != v))

/-- One pass of the loop `for (iter = 0; iter < 16; iter++)`: `changed = false`, then
all components in array order. -/
def simulate_pass (wires : List Wire) (components : List Component) : List Component × Bool :=
  (List.range components.length).foldl (simulate_step wires) (components, false)

/-- The loop `for (iter = 0; iter < 16; iter++)` with `remaining` passes left: the array,
the number of passes made and the flag `changed` of the last pass. -/
def simulate_loop (wires : List Wire) :
    Nat → List Component → Nat → Bool → List Component × Nat × Bool
  | 0, components, passes, changed => (components, passes, changed)
  | remaining + 1, components, passes, _ =>
    let r := simulate_pass wires components
    if r.2 then simulate_loop wires remaining r.1 (passes + 1) true
    else (r.1, passes + 1, false)

/-- The two loops of `simulate` before the iteration: every `output_value` is -1, then
every input toggle shows its `input_state`. -/
def simulate_start (components : List Component) : List Component :=
  (components.map (fun c => { c with output_value := -1 })).map
    (fun c =>
      if c.type = ComponentType.COMP_INPUT_TOGGLE then
        { c with output_value := if c.input_state then 1 else 0 }
      else c)

/-- The components when `simulate` leaves its iteration loop, the number of passes made
and the flag `changed` of the last pass. -/
def simulate_run (app : AppState) : List Component × Nat × Bool :=
  simulate_loop app.wires 16 (simulate_start app.components) 0 false

/-- `simulate` of testt.c. -/
def simulate (app : AppState) : AppState :=
  let components := (simulate_run app).1
  { app with
      components := components
      wires := app.wires.map (fun w =>
        { w with value :=
            match components.find? (fun c => c.id == w.start.component_id) with
            | some src => src.output_value
            | none => -1 }) }

/-- A click with the select tool on the input toggle with the given id:
`c->input_state = !c->input_state`. -/
def click_toggle (app : AppState) (id : Int) : AppState :=
  match app.components.findIdx? (fun c => c.id == id) with
  | none => app
  | some i =>
    match app.components[i]? with
    | none => app
    | some c =>
      if c.type = ComponentType.COMP_INPUT_TOGGLE then
        { app with components := app.components.set i { c with input_state := !c.input_state } }
      else app

/-- Two input toggles (0 and 1) and an AND component (2) with one wire, from toggle 0,
and toggle 0 switched on. -/
def and_one_input_on : AppState :=
  click_toggle one_wire_state 0

/-- Seventeen NOT components (ids 0 .. 16) added first and an input toggle (id 17) added
last, wired as the chain 17 → 16 → 15 → ... → 1 → 0 with the wire tool. -/
def reversed_chain : AppState :=
  let app := (List.range 17).foldl
    (fun (a : AppState) (_ : Nat) => (add_component a ComponentType.COMP_NOT).1) app_init
  let app := (add_component app ComponentType.COMP_INPUT_TOGGLE).1
  (List.range 17).foldl
    (fun (a : AppState) (k : Nat) =>
      wire_tool_click a { component_id := 17 - (k : Int), pin_index := -1 } (16 - (k : Int)))
    app

end Testt

/-! # Theorems -/

/-! ## The loop of `propagate_signals`: termination and exit condition -/

theorem propagate_loop_total (wires : List Wire) :
    ∀ (fuel : Nat) (gates : List LogicGate) (it : Int),
      1 ≤ fuel → max_iterations ≤ it + fuel →
      ∃ gs n ch, propagate_loop wires fuel gates it = some (gs, n, ch) ∧
        it < n ∧ (n ≤ max_iterations ∨ n = it + 1) ∧
        (ch = false ∨ max_iterations ≤ n) := by
  intro fuel
  induction fuel with
  | zero => intro gates it h; omega
  | succ k ih =>
    intro gates it _ hk
    simp only [propagate_loop]
    by_cases hc : ((iteration gates wires).2 && decide (it + 1 < max_iterations)) = true
    · rw [if_pos hc]
      simp only [Bool.and_eq_true, decide_eq_true_eq] at hc
      have hk1 : 1 ≤ k := by
        have : max_iterations = 100 := rfl
        push_cast at hk
        omega
      obtain ⟨gs, n, ch, h1, h2, h3, h4⟩ :=
        ih (iteration gates wires).1 (it + 1) hk1 (by push_cast at hk; omega)
      refine ⟨gs, n, ch, h1, by omega, ?_, h4⟩
      rcases h3 with h3 | h3
      · exact Or.inl h3
      · exact Or.inl (by omega)
    · rw [if_neg hc]
      refine ⟨_, _, _, rfl, by omega, Or.inr rfl, ?_⟩
      simp only [Bool.and_eq_true, decide_eq_true_eq, not_and, not_lt] at hc
      cases hch : (iteration gates wires).2 with
      | false => exact Or.inl rfl
      | true => exact Or.inr (hc hch)

theorem propagate_loop_mono (wires : List Wire) :
    ∀ (fuel : Nat) (gates : List LogicGate) (it : Int) r,
      propagate_loop wires fuel gates it = some r →
      propagate_loop wires (fuel + 1) gates it = some r := by
  intro fuel
  induction fuel with
  | zero => intro gates it r h; simp [propagate_loop] at h
  | succ k ih =>
    intro gates it r h
    rw [propagate_loop] at h
    rw [propagate_loop]
    by_cases hc : ((iteration gates wires).2 && decide (it + 1 < max_iterations)) = true
    · simp only [hc, if_true] at h ⊢
      exact ih _ _ _ h
    · simp only [hc] at h ⊢
      exact h

theorem propagate_loop_more_fuel (wires : List Wire) (fuel : Nat) (gates : List LogicGate)
    (it : Int) (r : List LogicGate × Int × Bool)
    (h : propagate_loop wires fuel gates it = some r) :
    ∀ k : Nat, propagate_loop wires (fuel + k) gates it = some r := by
  intro k
  induction k with
  | zero => simpa using h
  | succ j ih => exact propagate_loop_mono wires (fuel + j) gates it r ih

/-- Whatever holds before the loop and is kept by one iteration holds at loop exit. -/
theorem propagate_loop_inv (wires : List Wire) (P : List LogicGate → Prop)
    (hP : ∀ g, P g → P (iteration g wires).1) :
    ∀ (fuel : Nat) (gates : List LogicGate) (it : Int) r,
      P gates → propagate_loop wires fuel gates it = some r → P r.1 := by
  intro fuel
  induction fuel with
  | zero => intro gates it r _ h; simp [propagate_loop] at h
  | succ k ih =>
    intro gates it r hg h
    rw [propagate_loop] at h
    by_cases hc : ((iteration gates wires).2 && decide (it + 1 < max_iterations)) = true
    · simp only [hc, if_true] at h
      exact ih _ _ _ (hP _ hg) h
    · simp only [hc] at h
      cases h
      exact hP _ hg

/-- At loop exit the array and the flag are those of one iteration, run on an array that
satisfies every property the iterations keep. -/
theorem propagate_loop_last (wires : List Wire) (P : List LogicGate → Prop)
    (hP : ∀ g, P g → P (iteration g wires).1) :
    ∀ (fuel : Nat) (gates : List LogicGate) (it : Int) r,
      P gates → propagate_loop wires fuel gates it = some r →
      ∃ prev, P prev ∧ iteration prev wires = (r.1, r.2.2) := by
  intro fuel
  induction fuel with
  | zero => intro gates it r _ h; simp [propagate_loop] at h
  | succ k ih =>
    intro gates it r hg h
    rw [propagate_loop] at h
    by_cases hc : ((iteration gates wires).2 && decide (it + 1 < max_iterations)) = true
    · simp only [hc, if_true] at h
      exact ih _ _ _ (hP _ hg) h
    · simp only [hc] at h
      cases h
      exact ⟨gates, hg, rfl⟩

/-- Unfolding of `propagate_signals`: the result in terms of the loop. -/
theorem propagate_signals_eq (gates : List LogicGate) (wires : List Wire) (r : Propagated)
    (h : propagate_signals gates wires = some r) :
    propagate_loop wires 100 (reset_gates gates) 0 = some (r.gates, r.iterations, r.changed) ∧
      r.warning = decide (r.iterations ≥ max_iterations) := by
  unfold propagate_signals propagate_signals_fuel at h
  cases hl : propagate_loop wires 100 (reset_gates gates) 0 with
  | none => rw [hl] at h; cases h
  | some x =>
    obtain ⟨gs, n, ch⟩ := x
    rw [hl] at h
    simp only [Option.some.injEq] at h
    subst h
    exact ⟨rfl, rfl⟩

/-- The call returns: 100 turns of fuel are enough, more fuel gives the same result, and
the loop ran between 1 and 100 times, stopping on `!changed` or at the cap. -/
theorem propagate_signals_fuel_enough (gates : List LogicGate) (wires : List Wire) :
    ∃ r, propagate_signals gates wires = some r ∧
      (∀ k : Nat, propagate_signals_fuel (100 + k) gates wires = some r) ∧
      1 ≤ r.iterations ∧ r.iterations ≤ max_iterations ∧
      (r.changed = false ∨ r.iterations = max_iterations) ∧
      r.warning = decide (r.iterations ≥ max_iterations) := by
  obtain ⟨gs, n, ch, h1, h2, h3, h4⟩ :=
    propagate_loop_total wires 100 (reset_gates gates) 0 (by omega)
      (by simp [max_iterations])
  have hn : n ≤ max_iterations := by
    rcases h3 with h3 | h3
    · exact h3
    · rw [h3]; simp [max_iterations]
  refine ⟨⟨gs, n, ch, decide (n ≥ max_iterations)⟩, ?_, ?_, by simpa using (show (1:Int) ≤ n by omega),
    hn, ?_, rfl⟩
  · simp [propagate_signals, propagate_signals_fuel, h1]
  · intro k
    simp [propagate_signals_fuel, propagate_loop_more_fuel wires 100 _ 0 _ h1 k]
  · rcases h4 with h4 | h4
    · exact Or.inl h4
    · exact Or.inr (le_antisymm hn h4)

/-! ## Frame lemmas: what the passes leave alone -/

theorem view_store_input (g : LogicGate) (p v : Int) : view (store_input g p v) = view g := by
  cases g with
  | mk name inputs outputs in_palette id input_values output_value gate_type =>
    cases input_values <;> simp [view, store_input]

theorem frame_eq_of_view_eq {g h : LogicGate} (e : view g = view h) : frame g = frame h := by
  cases g with
  | mk n1 i1 o1 p1 id1 iv1 ov1 t1 =>
    cases h with
    | mk n2 i2 o2 p2 id2 iv2 ov2 t2 =>
      simp only [view, LogicGate.mk.injEq] at e
      obtain ⟨e1, e2, e3, e4, e5, e6, e7, e8⟩ := e
      subst e1 e2 e3 e4 e5 e7 e8
      simp [frame, is_driven, e6]

theorem map_frame_eq_of_map_view_eq {gs hs : List LogicGate}
    (e : gs.map view = hs.map view) : gs.map frame = hs.map frame := by
  induction gs generalizing hs with
  | nil =>
    cases hs with
    | nil => rfl
    | cons b bs => simp at e
  | cons a as ih =>
    cases hs with
    | nil => simp at e
    | cons b bs =>
      simp only [List.map_cons, List.cons.injEq] at e ⊢
      exact ⟨frame_eq_of_view_eq e.1, ih e.2⟩

theorem put_map_view (gs : List LogicGate) (t : Nat) (p v : Int) :
    (put gs t p v).map view = gs.map view := by
  unfold put
  cases h : gs[t]? with
  | none => rfl
  | some g =>
    simp only [List.map_set, view_store_input]
    apply List.ext_getElem?
    intro n
    rw [List.getElem?_set]
    split
    · next hn =>
      subst hn
      simp only [List.length_map, List.getElem?_map, h, Option.map_some']
      have hlt : t < gs.length := by
        by_contra hc
        rw [List.getElem?_eq_none (by omega)] at h
        cases h
      simp [hlt]
    · rfl

theorem wire_step_fst (st : List LogicGate × Bool) (w : Wire) :
    (wire_step st w).1 =
      match wire_action st.1 w with
      | none => st.1
      | some a => put st.1 a.1 a.2.1 a.2.2 := by
  unfold wire_step wire_action
  rcases hfg : find_gates w st.1 0 none none with ⟨fo, tgt⟩
  cases fo with
  | none => rfl
  | some fi =>
    cases tgt with
    | none => rfl
    | some ti =>
      simp only
      cases hf : st.1[fi]? with
      | none => rfl
      | some from_gate =>
        cases ht : st.1[ti]? with
        | none => rfl
        | some to_gate =>
          simp only
          cases hv : to_gate.input_values with
          | none => rfl
          | some vals =>
            simp only
            by_cases hp : w.to_pin_index < to_gate.inputs
            · simp only [hp, if_true, put, ht, store_input, hv, Option.map_some']
            · simp only [hp, if_false]

theorem wire_step_map_view (st : List LogicGate × Bool) (w : Wire) :
    (wire_step st w).1.map view = st.1.map view := by
  rw [wire_step_fst]
  cases wire_action st.1 w with
  | none => rfl
  | some a => exact put_map_view _ _ _ _

theorem wire_pass_map_view (wires : List Wire) :
    ∀ (gs : List LogicGate) (c : Bool), (wire_pass gs wires c).1.map view = gs.map view := by
  induction wires with
  | nil => intro gs c; rfl
  | cons w ws ih =>
    intro gs c
    have h1 : wire_pass gs (w :: ws) c
        = wire_pass (wire_step (gs, c) w).1 ws (wire_step (gs, c) w).2 := by
      simp [wire_pass, List.foldl]
    rw [h1, ih, wire_step_map_view]

theorem compute_gate_output_eq (g : LogicGate) :
    compute_gate_output g = { g with output_value := (compute_gate_output g).output_value } := by
  unfold compute_gate_output
  split_ifs <;> rfl

theorem gate_step_input_values (g : LogicGate) :
    (gate_step g).input_values = g.input_values := by
  unfold gate_step
  split
  · rw [compute_gate_output_eq]
  · rfl

theorem compute_gate_output_input (g : LogicGate) (h : g.gate_type = 6) :
    compute_gate_output g = g := by
  unfold compute_gate_output
  simp [h]

theorem frame_set_output (g : LogicGate) (v : Int) (h : is_driven g = true) :
    frame { g with output_value := v } = frame g := by
  simp only [is_driven] at h
  simp [frame, is_driven, h]

theorem frame_gate_step (g : LogicGate) : frame (gate_step g) = frame g := by
  unfold gate_step
  by_cases hp : g.in_palette = true
  · simp [hp]
  · simp only [Bool.not_eq_true] at hp
    simp only [hp, Bool.not_false, if_true]
    by_cases h6 : g.gate_type = 6
    · rw [compute_gate_output_input g h6]
    · rw [compute_gate_output_eq]
      exact frame_set_output g _ (by simp [is_driven, hp, h6])

theorem frame_reset_gate (g : LogicGate) : frame (reset_gate g) = frame g := by
  cases g with
  | mk name inputs outputs in_palette id input_values output_value gate_type =>
    unfold reset_gate
    by_cases h : (!in_palette && gate_type != 6) = true
    · cases input_values <;> simp_all [frame, is_driven]
    · simp only [h]
      rfl

theorem iteration_map_frame (gs : List LogicGate) (wires : List Wire) :
    (iteration gs wires).1.map frame = gs.map frame := by
  unfold iteration gate_pass
  simp only [List.map_map]
  have h : (frame ∘ gate_step) = frame := by
    funext g
    exact frame_gate_step g
  rw [h]
  exact map_frame_eq_of_map_view_eq (wire_pass_map_view wires gs false)

theorem reset_gates_map_frame (gs : List LogicGate) :
    (reset_gates gs).map frame = gs.map frame := by
  unfold reset_gates
  simp only [List.map_map]
  have h : (frame ∘ reset_gate) = frame := by
    funext g
    exact frame_reset_gate g
  rw [h]

/-- The call keeps the frame of every gate: name, pin counts, palette flag, id, kind,
whether `input_values` is null, and the output of every gate that propagation does not
compute (palette entries and INPUT gates). -/
theorem propagate_signals_map_frame (gates : List LogicGate) (wires : List Wire)
    (r : Propagated) (h : propagate_signals gates wires = some r) :
    r.gates.map frame = gates.map frame := by
  have hl := (propagate_signals_eq gates wires r h).1
  have := propagate_loop_inv wires (fun gs => gs.map frame = gates.map frame)
    (fun g hg => (iteration_map_frame g wires).trans hg) 100 (reset_gates gates) 0 _
    (reset_gates_map_frame gates) hl
  exact this

/-! ## Gate truth tables -/

/-- C1: for a, b in {0,1} the gate functions of logicgates.c, of deepseek.c and `eval_gate`
of testt.c return the literal truth-table values: AND is 1 iff a = b = 1, OR is 0 iff
a = b = 0, NOT a = 1 - a, NAND = 1 - AND, NOR = 1 - OR, XOR is 1 iff a ≠ b. -/
theorem gate_truth_tables (a b : Int) (ha : a = 0 ∨ a = 1) (hb : b = 0 ∨ b = 1) :
    (AND a b = if a = 1 ∧ b = 1 then 1 else 0) ∧
    (OR a b = if a = 0 ∧ b = 0 then 0 else 1) ∧
    (NOT a = 1 - a) ∧
    (NAND a b = 1 - AND a b) ∧
    (NOR a b = 1 - OR a b) ∧
    (XOR a b = if a ≠ b then 1 else 0) ∧
    (gate_and a b = if a = 1 ∧ b = 1 then 1 else 0) ∧
    (gate_or a b = if a = 0 ∧ b = 0 then 0 else 1) ∧
    (gate_not a = 1 - a) ∧
    (gate_nand a b = 1 - gate_and a b) ∧
    (gate_nor a b = 1 - gate_or a b) ∧
    (gate_xor a b = if a ≠ b then 1 else 0) ∧
    (eval_gate ComponentType.COMP_AND a b = if a = 1 ∧ b = 1 then 1 else 0) ∧
    (eval_gate ComponentType.COMP_OR a b = if a = 0 ∧ b = 0 then 0 else 1) ∧
    (eval_gate ComponentType.COMP_NOT a b = 1 - a) ∧
    (eval_gate ComponentType.COMP_NAND a b = 1 - eval_gate ComponentType.COMP_AND a b) ∧
    (eval_gate ComponentType.COMP_NOR a b = 1 - eval_gate ComponentType.COMP_OR a b) ∧
    (eval_gate ComponentType.COMP_XOR a b = if a ≠ b then 1 else 0) := by
  rcases ha with rfl | rfl <;> rcases hb with rfl | rfl <;> decide

theorem gate_truth_tables_witness :
    ((1 : Int) = 0 ∨ (1 : Int) = 1) ∧ ((0 : Int) = 0 ∨ (0 : Int) = 1) ∧
    AND 1 0 = 0 ∧ OR 1 0 = 1 ∧ NOT 1 = 0 ∧ NAND 1 0 = 1 ∧ NOR 1 0 = 0 ∧ XOR 1 0 = 1 ∧
    gate_xor 1 0 = 1 ∧ eval_gate ComponentType.COMP_XOR 1 0 = 1 := by
  have h := gate_truth_tables 1 0 (Or.inr rfl) (Or.inl rfl)
  exact ⟨Or.inr rfl, Or.inl rfl, by decide, by decide, by decide, by decide, by decide,
    by decide, by decide, h.2.2.2.2.2.2.2.2.2.2.2.2.2.2.2.2.2⟩

/-! ## Scenario A/B -/

theorem and_circuit_state_reset (i1 i2 a_out a0 a1 o_out o0 : Int) :
    reset_gates (and_circuit_state i1 i2 a_out a0 a1 o_out o0)
      = reset_gates (and_circuit_gates i1 i2) := by
  simp [and_circuit_state, and_circuit_gates, reset_gates, reset_gate, set_output, place_gate,
    create_gate_in_workspace, palette_gates, palette_gate, gate_type_of_name, MAX_GATES,
    zero_inputs, arr_set, List.range_succ, List.range_zero]

/-- C2: in the circuit INPUT 1, INPUT 2 → AND 3 → OUTPUT 4, for all input values in
{0,1} and whatever the AND gate and the OUTPUT gate held before the call,
`propagate_signals` returns with the AND gate and the OUTPUT gate both holding
`i1 AND i2` (1 for inputs 1, 1 and 0 for inputs 1, 0: see the witness). -/
theorem and_circuit_outputs (i1 i2 a_out a0 a1 o_out o0 : Int)
    (h1 : i1 = 0 ∨ i1 = 1) (h2 : i2 = 0 ∨ i2 = 1) :
    ∃ r, propagate_signals (and_circuit_state i1 i2 a_out a0 a1 o_out o0) and_circuit_wires
        = some r ∧
      output_of r.gates 3 = some (AND i1 i2) ∧ output_of r.gates 4 = some (AND i1 i2) := by
  have hfresh : propagate_signals (and_circuit_state i1 i2 a_out a0 a1 o_out o0)
      and_circuit_wires = propagate_signals (and_circuit_gates i1 i2) and_circuit_wires := by
    unfold propagate_signals propagate_signals_fuel
    rw [and_circuit_state_reset]
  rw [hfresh]
  rcases h1 with rfl | rfl <;> rcases h2 with rfl | rfl <;> exact ⟨_, rfl, by decide, by decide⟩

theorem and_circuit_outputs_witness :
    (∃ r, propagate_signals (and_circuit_state 1 1 0 0 0 0 0) and_circuit_wires = some r ∧
      output_of r.gates 3 = some 1 ∧ output_of r.gates 4 = some 1) ∧
    (∃ r, propagate_signals (and_circuit_state 1 0 1 1 1 1 1) and_circuit_wires = some r ∧
      output_of r.gates 3 = some 0 ∧ output_of r.gates 4 = some 0) :=
  ⟨and_circuit_outputs 1 1 0 0 0 0 0 (Or.inr rfl) (Or.inr rfl),
   and_circuit_outputs 1 0 1 1 1 1 1 (Or.inr rfl) (Or.inl rfl)⟩

/-! ## Termination within the iteration cap -/

set_option maxRecDepth 100000 in
/-- C4: for every gate array and wire array `propagate_signals` returns after at least 1
and at most 100 turns of its loop (any fuel of 100 or more gives the same result); for a
single NOT gate wired to its own pin 0 every one of the 100 iterations changes a value,
the loop runs exactly 100 times and the warning branch is taken. -/
theorem propagate_signals_bounded :
    (∀ (gates : List LogicGate) (wires : List Wire),
      ∃ r, propagate_signals gates wires = some r ∧
        (∀ k : Nat, propagate_signals_fuel (100 + k) gates wires = some r) ∧
        1 ≤ r.iterations ∧ r.iterations ≤ 100) ∧
    (∃ r, propagate_signals not_loop_gates not_loop_wires = some r ∧
      r.iterations = 100 ∧ r.warning = true ∧
      (List.range 100).all (fun k =>
        (iteration (state_after not_loop_gates not_loop_wires k) not_loop_wires).2) = true) := by
  constructor
  · intro gates wires
    obtain ⟨r, h1, h2, h3, h4, _, _⟩ := propagate_signals_fuel_enough gates wires
    exact ⟨r, h1, h2, h3, h4⟩
  · exact ⟨_, rfl, by decide, by decide, by decide⟩

/-! ## INPUT gates and OUTPUT gates -/

/-- C7: `propagate_signals` returns, and every INPUT gate (gate_type 6) of the array is
still an INPUT gate at the same index with the same id and the same `output_value`. -/
theorem propagate_signals_keeps_inputs (gates : List LogicGate) (wires : List Wire) :
    ∃ r, propagate_signals gates wires = some r ∧
      r.gates.length = gates.length ∧
      ∀ (i : Nat) (g : LogicGate), gates[i]? = some g → g.gate_type = 6 →
        ∃ g1, r.gates[i]? = some g1 ∧ g1.gate_type = 6 ∧ g1.id = g.id ∧
          g1.output_value = g.output_value := by
  obtain ⟨r, hr, _⟩ := propagate_signals_fuel_enough gates wires
  have hf := propagate_signals_map_frame gates wires r hr
  refine ⟨r, hr, ?_, ?_⟩
  · simpa using congrArg List.length hf
  · intro i g hg h6
    have hi := congrArg (fun l => l[i]?) hf
    simp only [List.getElem?_map, hg, Option.map_some'] at hi
    cases hg1 : r.gates[i]? with
    | none => rw [hg1] at hi; cases hi
    | some g1 =>
      rw [hg1] at hi
      simp only [Option.map_some', Option.some.injEq] at hi
      have e1 : g1.gate_type = g.gate_type :=
        show (frame g1).gate_type = (frame g).gate_type from congrArg LogicGate.gate_type hi
      have e2 : g1.id = g.id :=
        show (frame g1).id = (frame g).id from congrArg LogicGate.id hi
      have e3 := congrArg LogicGate.output_value hi
      have e4 : g1.in_palette = g.in_palette :=
        show (frame g1).in_palette = (frame g).in_palette from congrArg LogicGate.in_palette hi
      refine ⟨g1, rfl, e1.trans h6, e2, ?_⟩
      simp only [frame, is_driven, e1, e4, h6] at e3
      simpa using e3

theorem compute_gate_output_idem (g : LogicGate) :
    compute_gate_output (compute_gate_output g) = compute_gate_output g := by
  rcases g with ⟨name, inputs, outputs, pal, id, iv, ov, ty⟩
  by_cases h0 : ty = 0
  · subst h0; by_cases hi : inputs ≥ 2 <;> simp [compute_gate_output, hi]
  by_cases h1 : ty = 1
  · subst h1; by_cases hi : inputs ≥ 2 <;> simp [compute_gate_output, hi]
  by_cases h2 : ty = 2
  · subst h2; by_cases hi : inputs ≥ 1 <;> simp [compute_gate_output, hi]
  by_cases h3 : ty = 3
  · subst h3; by_cases hi : inputs ≥ 2 <;> simp [compute_gate_output, hi]
  by_cases h4 : ty = 4
  · subst h4; by_cases hi : inputs ≥ 2 <;> simp [compute_gate_output, hi]
  by_cases h5 : ty = 5
  · subst h5; by_cases hi : inputs ≥ 2 <;> simp [compute_gate_output, hi]
  by_cases h6 : ty = 6
  · subst h6; simp [compute_gate_output]
  by_cases h7 : ty = 7
  · subst h7; by_cases hi : inputs ≥ 1 <;> simp [compute_gate_output, hi]
  simp [compute_gate_output, h0, h1, h2, h3, h4, h5, h6, h7]

theorem gate_step_idem (g : LogicGate) : gate_step (gate_step g) = gate_step g := by
  unfold gate_step
  by_cases hp : g.in_palette = true
  · simp [hp]
  · simp only [Bool.not_eq_true] at hp
    have hp2 : (compute_gate_output g).in_palette = false := by
      rw [compute_gate_output_eq]; exact hp
    simp only [hp, hp2, Bool.not_false, if_true]
    exact compute_gate_output_idem g

/-- At loop exit every gate is as the gate pass left it. -/
theorem propagate_signals_gate_step (gates : List LogicGate) (wires : List Wire)
    (r : Propagated) (h : propagate_signals gates wires = some r) :
    ∀ g ∈ r.gates, gate_step g = g := by
  have hl := (propagate_signals_eq gates wires r h).1
  obtain ⟨prev, _, hp⟩ := propagate_loop_last wires (fun _ => True) (fun _ _ => trivial)
    100 (reset_gates gates) 0 _ trivial hl
  have hg : r.gates = (wire_pass prev wires false).1.map gate_step := by
    have := congrArg Prod.fst hp
    simpa [iteration, gate_pass] using this.symm
  intro g hmem
  rw [hg] at hmem
  obtain ⟨g0, _, rfl⟩ := List.mem_map.mp hmem
  exact gate_step_idem g0

/-- C8: `propagate_signals` returns, and however its loop ended every non-palette OUTPUT
gate (gate_type 7) with an input slot has `output_value` equal to `input_values[0]`. -/
theorem output_gate_is_identity (gates : List LogicGate) (wires : List Wire) :
    ∃ r, propagate_signals gates wires = some r ∧
      ∀ g ∈ r.gates, g.in_palette = false → g.gate_type = 7 → 1 ≤ g.inputs →
        g.output_value = ptr_get g.input_values 0 := by
  obtain ⟨r, hr, _⟩ := propagate_signals_fuel_enough gates wires
  refine ⟨r, hr, ?_⟩
  intro g hg hp h7 hi
  have hs := propagate_signals_gate_step gates wires r hr g hg
  have := congrArg LogicGate.output_value hs
  simp only [gate_step, hp, Bool.not_false, if_true, compute_gate_output, h7] at this
  simp at this
  rw [if_pos hi] at this
  exact this.symm

/-! ## Array reads and writes -/

theorem arr_get_set_eq (vals : List Int) (p v : Int) (h0 : 0 ≤ p)
    (h1 : p < (vals.length : Int)) : arr_get (arr_set vals p v) p = v := by
  have hn : p.toNat < vals.length := by omega
  simp [arr_get, arr_set, h0, hn]

theorem arr_get_set_ne (vals : List Int) (p q v : Int) (h : p ≠ q) :
    arr_get (arr_set vals p v) q = arr_get vals q := by
  unfold arr_get arr_set
  by_cases hq : 0 ≤ q
  · by_cases hp : 0 ≤ p
    · have hne : p.toNat ≠ q.toNat := by omega
      simp [hq, hp, List.getElem?_set_ne hne]
    · simp [hp]
  · simp [hq]

theorem arr_set_length (vals : List Int) (p v : Int) :
    (arr_set vals p v).length = vals.length := by
  unfold arr_set
  split <;> simp

theorem arr_set_eq_self (vals : List Int) (p v : Int)
    (h : arr_get vals p = arr_get (arr_set vals p v) p) : arr_set vals p v = vals := by
  by_cases h0 : 0 ≤ p
  · by_cases h1 : p.toNat < vals.length
    · rw [arr_get_set_eq vals p v h0 (by omega)] at h
      simp only [arr_get, h0, if_true, List.getD_eq_getElem?_getD,
        List.getElem?_eq_getElem h1, Option.getD_some] at h
      simp only [arr_set, h0, if_true]
      apply List.ext_getElem?
      intro k
      rw [List.getElem?_set]
      split
      · next hk =>
        subst hk
        simp [h1, h]
      · rfl
    · simp only [arr_set, h0, if_true]
      exact List.set_eq_of_length_le (by omega)
  · simp [arr_set, h0]

theorem arr_set_set (vals : List Int) (p v v1 : Int) :
    arr_set (arr_set vals p v) p v1 = arr_set vals p v1 := by
  unfold arr_set
  split
  · exact List.set_set _ _ _ _
  · rfl

theorem arr_set_comm (vals : List Int) (p q v v1 : Int) (h : p ≠ q) :
    arr_set (arr_set vals p v) q v1 = arr_set (arr_set vals q v1) p v := by
  unfold arr_set
  by_cases hp : 0 ≤ p
  · by_cases hq : 0 ≤ q
    · have hne : p.toNat ≠ q.toNat := by omega
      simp only [hp, hq, if_true]
      exact List.set_comm _ _ _ hne
    · simp [hp, hq]
  · simp [hp]

theorem arr_get_foldl_zero (p : Int) (h0 : 0 ≤ p) :
    ∀ (k : Nat) (vals : List Int),
      arr_get ((List.range k).foldl (fun (a : List Int) (j : Nat) => arr_set a (j : Int) 0) vals) p
        = if p < (k : Int) then 0 else arr_get vals p := by
  intro k
  induction k with
  | zero =>
    intro vals
    have : ¬ p < ((0 : Nat) : Int) := by simpa using h0
    simp only [List.range_zero, List.foldl_nil, this, if_false]
  | succ n ih =>
    intro vals
    rw [List.range_succ, List.foldl_append]
    simp only [List.foldl_cons, List.foldl_nil]
    by_cases hp : p = (n : Int)
    · subst hp
      have hlt : (n : Int) < ((n + 1 : Nat) : Int) := by push_cast; omega
      rw [if_pos hlt]
      by_cases hlen : n < vals.length
      · apply arr_get_set_eq _ _ _ h0
        have : ((List.range n).foldl (fun (a : List Int) (j : Nat) => arr_set a (j : Int) 0) vals).length
            = vals.length := by
          clear ih hlt
          induction n generalizing vals with
          | zero => rfl
          | succ m ihm =>
            rw [List.range_succ, List.foldl_append]
            simp only [List.foldl_cons, List.foldl_nil, arr_set_length]
            exact ihm vals (by omega) (by omega)
        rw [this]
        exact_mod_cast hlen
      · have hih := ih vals
        simp only [lt_self_iff_false, if_false] at hih
        have hz : arr_get vals (n : Int) = 0 := by
          simp [arr_get, List.getElem?_eq_none (by omega : vals.length ≤ n)]
        have hs : arr_set ((List.range n).foldl (fun (a : List Int) (j : Nat) => arr_set a (j : Int) 0) vals)
            (n : Int) 0 = (List.range n).foldl (fun (a : List Int) (j : Nat) => arr_set a (j : Int) 0) vals := by
          apply arr_set_eq_self
          rw [hih, hz]
          simp only [arr_get, arr_set, Int.toNat_ofNat, Int.ofNat_zero_le,
            Nat.cast_nonneg, if_true, List.getD_eq_getElem?_getD]
          rw [List.getElem?_set]
          simp only [if_true]
          split <;> rfl
        rw [hs, hih, hz]
    · rw [arr_get_set_ne _ _ _ _ (Ne.symm hp), ih vals]
      by_cases hlt : p < (n : Int)
      · have : p < ((n + 1 : Nat) : Int) := by push_cast; omega
        rw [if_pos hlt, if_pos this]
      · have : ¬ p < ((n + 1 : Nat) : Int) := by push_cast; omega
        rw [if_neg hlt, if_neg this]

theorem arr_get_zero_inputs (vals : List Int) (inputs p : Int) (h0 : 0 ≤ p)
    (h1 : p < inputs) : arr_get (zero_inputs vals inputs) p = 0 := by
  unfold zero_inputs
  rw [arr_get_foldl_zero p h0]
  have : p < (inputs.toNat : Int) := by omega
  rw [if_pos this]

/-! ## The search loop of the wire pass -/

theorem find_gates_cons (w : Wire) (g : LogicGate) (rest : List LogicGate) (i : Nat)
    (fo tgt : Option Nat) :
    find_gates w (g :: rest) i fo tgt =
      if ((if g.id = w.from_gate_id then some i else fo).isSome &&
          (if g.id = w.to_gate_id then some i else tgt).isSome) = true then
        (if g.id = w.from_gate_id then some i else fo,
         if g.id = w.to_gate_id then some i else tgt)
      else find_gates w rest (i + 1) (if g.id = w.from_gate_id then some i else fo)
        (if g.id = w.to_gate_id then some i else tgt) := rfl

/-- Where the pointers come from: a pointer the search returns is the one it started
with or points at a gate of the array with the wanted id. -/
theorem find_gates_sound (w : Wire) :
    ∀ (gs : List LogicGate) (i : Nat) (fo tgt : Option Nat),
      (∀ k, (find_gates w gs i fo tgt).1 = some k →
        fo = some k ∨ (i ≤ k ∧ ∃ g, gs[k - i]? = some g ∧ g.id = w.from_gate_id)) ∧
      (∀ k, (find_gates w gs i fo tgt).2 = some k →
        tgt = some k ∨ (i ≤ k ∧ ∃ g, gs[k - i]? = some g ∧ g.id = w.to_gate_id)) := by
  intro gs
  induction gs with
  | nil =>
    intro i fo tgt
    exact ⟨fun k h => Or.inl h, fun k h => Or.inl h⟩
  | cons g rest ih =>
    intro i fo tgt
    have hhead : ∀ (x : Int) (o : Option Nat) (k : Nat),
        ((if g.id = x then some i else o) = some k ∨
          (i + 1 ≤ k ∧ ∃ g1, rest[k - (i + 1)]? = some g1 ∧ g1.id = x)) →
        o = some k ∨ (i ≤ k ∧ ∃ g1, (g :: rest)[k - i]? = some g1 ∧ g1.id = x) := by
      intro x o k h
      rcases h with h | ⟨h1, g1, h2, h3⟩
      · by_cases hx : g.id = x
        · rw [if_pos hx] at h
          cases h
          exact Or.inr ⟨le_refl _, g, by simp, hx⟩
        · rw [if_neg hx] at h
          exact Or.inl h
      · refine Or.inr ⟨by omega, g1, ?_, h3⟩
        have : k - i = (k - (i + 1)) + 1 := by omega
        rw [this, List.getElem?_cons_succ]
        exact h2
    rw [find_gates_cons]
    by_cases hc : ((if g.id = w.from_gate_id then some i else fo).isSome &&
        (if g.id = w.to_gate_id then some i else tgt).isSome) = true
    · rw [if_pos hc]
      exact ⟨fun k h => hhead _ _ k (Or.inl h), fun k h => hhead _ _ k (Or.inl h)⟩
    · rw [if_neg hc]
      obtain ⟨ih1, ih2⟩ := ih (i + 1) (if g.id = w.from_gate_id then some i else fo)
        (if g.id = w.to_gate_id then some i else tgt)
      exact ⟨fun k h => hhead _ _ k (ih1 k h), fun k h => hhead _ _ k (ih2 k h)⟩

/-- Both pointers are set when the array holds a gate with each of the two ids. -/
theorem find_gates_complete (w : Wire) :
    ∀ (gs : List LogicGate) (i : Nat) (fo tgt : Option Nat),
      (fo.isSome = true ∨ ∃ g ∈ gs, g.id = w.from_gate_id) →
      (tgt.isSome = true ∨ ∃ g ∈ gs, g.id = w.to_gate_id) →
      (find_gates w gs i fo tgt).1.isSome = true ∧
        (find_gates w gs i fo tgt).2.isSome = true := by
  intro gs
  induction gs with
  | nil =>
    intro i fo tgt h1 h2
    simp only [find_gates]
    constructor
    · rcases h1 with h | ⟨g, hg, _⟩
      · exact h
      · cases hg
    · rcases h2 with h | ⟨g, hg, _⟩
      · exact h
      · cases hg
  | cons g rest ih =>
    intro i fo tgt h1 h2
    rw [find_gates_cons]
    by_cases hc : ((if g.id = w.from_gate_id then some i else fo).isSome &&
        (if g.id = w.to_gate_id then some i else tgt).isSome) = true
    · rw [if_pos hc]
      simp only [Bool.and_eq_true] at hc
      exact hc
    · rw [if_neg hc]
      apply ih
      · rcases h1 with h | ⟨g1, hg, hid⟩
        · left
          by_cases hx : g.id = w.from_gate_id
          · simp [hx]
          · simp [hx, h]
        · rcases List.mem_cons.mp hg with rfl | hr
          · left; simp [hid]
          · right; exact ⟨g1, hr, hid⟩
      · rcases h2 with h | ⟨g1, hg, hid⟩
        · left
          by_cases hx : g.id = w.to_gate_id
          · simp [hx]
          · simp [hx, h]
        · rcases List.mem_cons.mp hg with rfl | hr
          · left; simp [hid]
          · right; exact ⟨g1, hr, hid⟩

/-- The store of a wire goes to a gate with the wire's destination id, at the wire's
pin, and carries the output of a gate with the wire's source id. -/
theorem wire_action_sound (gs : List LogicGate) (w : Wire) (a : Nat × Int × Int)
    (h : wire_action gs w = some a) :
    ∃ f t, f ∈ gs ∧ f.id = w.from_gate_id ∧ gs[a.1]? = some t ∧ t.id = w.to_gate_id ∧
      t.input_values.isSome = true ∧ w.to_pin_index < t.inputs ∧
      a.2.1 = w.to_pin_index ∧ a.2.2 = f.output_value := by
  unfold wire_action at h
  have hs := find_gates_sound w gs 0 none none
  rcases hfg : find_gates w gs 0 none none with ⟨fo, tgt⟩
  rw [hfg] at h hs
  cases fo with
  | none => simp at h
  | some fi =>
    cases tgt with
    | none => simp at h
    | some ti =>
      simp only at h
      cases hf : gs[fi]? with
      | none => simp [hf] at h
      | some from_gate =>
        cases ht : gs[ti]? with
        | none => simp [hf, ht] at h
        | some to_gate =>
          simp only [hf, ht] at h
          cases hv : to_gate.input_values with
          | none => simp [hv] at h
          | some vals =>
            simp only [hv] at h
            by_cases hp : w.to_pin_index < to_gate.inputs
            · simp only [hp, if_true, Option.some.injEq] at h
              subst h
              have h1 := hs.1 fi rfl
              have h2 := hs.2 ti rfl
              simp only [false_or, Nat.zero_le, Nat.sub_zero, true_and, reduceCtorEq] at h1 h2
              obtain ⟨g1, hg1, hid1⟩ := h1
              obtain ⟨g2, hg2, hid2⟩ := h2
              rw [hf] at hg1
              rw [ht] at hg2
              cases hg1
              cases hg2
              exact ⟨from_gate, to_gate, List.getElem?_mem hf, hid1, ht, hid2,
                by simp [hv], hp, rfl, rfl⟩
            · simp [hp] at h

/-- When the array holds exactly one gate value with the source id and one with the
destination id, the wire's store goes to that destination, with that source's output. -/
theorem wire_action_complete (gs : List LogicGate) (w : Wire) (f t : LogicGate)
    (hf : f ∈ gs) (ht : t ∈ gs) (hfid : f.id = w.from_gate_id) (htid : t.id = w.to_gate_id)
    (hfu : ∀ g ∈ gs, g.id = w.from_gate_id → g = f)
    (htu : ∀ g ∈ gs, g.id = w.to_gate_id → g = t)
    (hv : t.input_values.isSome = true) (hp : w.to_pin_index < t.inputs) :
    ∃ ti, gs[ti]? = some t ∧
      wire_action gs w = some (ti, w.to_pin_index, f.output_value) := by
  have hc := find_gates_complete w gs 0 none none (Or.inr ⟨f, hf, hfid⟩) (Or.inr ⟨t, ht, htid⟩)
  have hs := find_gates_sound w gs 0 none none
  unfold wire_action
  rcases hfg : find_gates w gs 0 none none with ⟨fo, tgt⟩
  rw [hfg] at hc hs
  cases fo with
  | none => simp at hc
  | some fi =>
    cases tgt with
    | none => simp at hc
    | some ti =>
      have h1 := hs.1 fi rfl
      have h2 := hs.2 ti rfl
      simp only [false_or, Nat.zero_le, Nat.sub_zero, true_and, reduceCtorEq] at h1 h2
      obtain ⟨g1, hg1, hid1⟩ := h1
      obtain ⟨g2, hg2, hid2⟩ := h2
      have e1 : g1 = f := hfu g1 (List.getElem?_mem hg1) hid1
      have e2 : g2 = t := htu g2 (List.getElem?_mem hg2) hid2
      subst e1 e2
      refine ⟨ti, hg2, ?_⟩
      simp only [hg1, hg2]
      cases hiv : g2.input_values with
      | none => rw [hiv] at hv; cases hv
      | some vals => simp [hp]

/-! ## An iteration that changes nothing -/

theorem list_set_same (gs : List LogicGate) (ti : Nat) (t : LogicGate)
    (h : gs[ti]? = some t) : gs.set ti t = gs := by
  apply List.ext_getElem?
  intro n
  rw [List.getElem?_set]
  split
  · next hn =>
    subst hn
    rw [h]
    have hlt : ti < gs.length := by
      by_contra hc
      rw [List.getElem?_eq_none (by omega)] at h
      cases h
    simp [hlt]
  · rfl

/-- A turn of the wire loop that leaves `changed` false has stored the value the slot
already held. -/
theorem wire_step_flag_false (st : List LogicGate × Bool) (w : Wire)
    (h : (wire_step st w).2 = false) :
    wire_step st w = st ∧
      ∀ a t vals, wire_action st.1 w = some a → st.1[a.1]? = some t →
        t.input_values = some vals →
        arr_get vals a.2.1 = arr_get (arr_set vals a.2.1 a.2.2) a.2.1 := by
  unfold wire_step at h ⊢
  unfold wire_action
  rcases hfg : find_gates w st.1 0 none none with ⟨fo, tgt⟩
  rw [hfg] at h
  cases fo with
  | none => exact ⟨rfl, fun a t vals ha => by simp at ha⟩
  | some fi =>
    cases tgt with
    | none => exact ⟨rfl, fun a t vals ha => by simp at ha⟩
    | some ti =>
      simp only at h ⊢
      cases hf : st.1[fi]? with
      | none => exact ⟨rfl, fun a t vals ha => by simp at ha⟩
      | some from_gate =>
        cases ht : st.1[ti]? with
        | none => exact ⟨rfl, fun a t vals ha => by simp at ha⟩
        | some to_gate =>
          simp only [hf, ht] at h ⊢
          cases hv : to_gate.input_values with
          | none => exact ⟨rfl, fun a t vals ha => by simp at ha⟩
          | some vals =>
            simp only [hv] at h ⊢
            by_cases hp : w.to_pin_index < to_gate.inputs
            · simp only [hp, if_true] at h ⊢
              by_cases hne : (arr_get vals w.to_pin_index !=
                  arr_get (arr_set vals w.to_pin_index from_gate.output_value)
                    w.to_pin_index) = true
              · rw [if_pos hne] at h
                cases h
              · rw [if_neg hne] at h
                rw [if_neg hne]
                have heq : arr_get vals w.to_pin_index =
                    arr_get (arr_set vals w.to_pin_index from_gate.output_value)
                      w.to_pin_index := by
                  simpa using hne
                constructor
                · rw [arr_set_eq_self vals _ _ heq]
                  have : ({ to_gate with input_values := some vals } : LogicGate) = to_gate := by
                    cases to_gate
                    simp only at hv
                    simp [hv]
                  rw [this, list_set_same st.1 ti to_gate ht]
                · intro a t vals1 ha hta hvals
                  simp only [Option.some.injEq] at ha
                  subst ha
                  simp only at hta
                  rw [ht] at hta
                  cases hta
                  rw [hv] at hvals
                  cases hvals
                  exact heq
            · simp [hp]

theorem wire_pass_cons (gs : List LogicGate) (w : Wire) (ws : List Wire) (c : Bool) :
    wire_pass gs (w :: ws) c =
      wire_pass (wire_step (gs, c) w).1 ws (wire_step (gs, c) w).2 := rfl

theorem wire_step_flag_true (gs : List LogicGate) (w : Wire) :
    (wire_step (gs, true) w).2 = true := by
  unfold wire_step
  simp only
  split
  · split
    · split
      · split
        · split <;> rfl
        · rfl
      · rfl
    · rfl
  · rfl

theorem wire_pass_flag_true (ws : List Wire) :
    ∀ gs : List LogicGate, (wire_pass gs ws true).2 = true := by
  induction ws with
  | nil => intro gs; rfl
  | cons w ws ih =>
    intro gs
    rw [wire_pass_cons, wire_step_flag_true]
    exact ih _

theorem wire_step_flag_mono (gs : List LogicGate) (w : Wire) (c : Bool)
    (h : (wire_step (gs, c) w).2 = false) : c = false := by
  cases c with
  | false => rfl
  | true => rw [wire_step_flag_true] at h; cases h

/-- A wire pass that leaves `changed` false has changed nothing, and none of its turns
would set the flag. -/
theorem wire_pass_flag_false (ws : List Wire) :
    ∀ (gs : List LogicGate) (c : Bool), (wire_pass gs ws c).2 = false →
      c = false ∧ (wire_pass gs ws c).1 = gs ∧
        ∀ w ∈ ws, (wire_step (gs, false) w).2 = false := by
  induction ws with
  | nil =>
    intro gs c h
    exact ⟨h, rfl, fun w hw => by cases hw⟩
  | cons w ws ih =>
    intro gs c h
    rw [wire_pass_cons] at h ⊢
    obtain ⟨h1, h2, h3⟩ := ih _ _ h
    have hc : c = false := wire_step_flag_mono gs w c h1
    subst hc
    have hst := (wire_step_flag_false (gs, false) w h1).1
    rw [hst] at h2 h3
    refine ⟨rfl, ?_, ?_⟩
    · rw [hst]; exact h2
    · intro w1 hw1
      rcases List.mem_cons.mp hw1 with rfl | hm
      · exact h1
      · exact h3 w1 hm

theorem gate_step_eq_of_output (g : LogicGate)
    (h : g.output_value = (gate_step g).output_value) : gate_step g = g := by
  unfold gate_step at h ⊢
  split
  · next hp =>
    rw [if_pos hp] at h
    rw [compute_gate_output_eq, ← h]
  · rfl

/-- A gate pass that leaves `changed` false has changed nothing. -/
theorem gate_pass_flag_false (gs : List LogicGate) (c : Bool)
    (h : (gate_pass gs c).2 = false) : c = false ∧ (gate_pass gs c).1 = gs := by
  unfold gate_pass at h ⊢
  simp only [Bool.or_eq_false_iff] at h
  refine ⟨h.1, ?_⟩
  have hall : ∀ g ∈ gs, gate_step g = g := by
    intro g hg
    apply gate_step_eq_of_output
    have := h.2
    rw [List.any_eq_false] at this
    simpa using this g hg
  simp only
  calc gs.map gate_step = gs.map id := List.map_congr_left (fun g hg => hall g hg)
    _ = gs := List.map_id gs

/-- An iteration that leaves `changed` false has changed nothing, and every wire stored
the value its destination slot already held. -/
theorem iteration_flag_false (gs : List LogicGate) (ws : List Wire)
    (h : (iteration gs ws).2 = false) :
    (iteration gs ws).1 = gs ∧ ∀ w ∈ ws, (wire_step (gs, false) w).2 = false := by
  unfold iteration at h ⊢
  obtain ⟨h1, h2⟩ := gate_pass_flag_false _ _ h
  obtain ⟨_, h3, h4⟩ := wire_pass_flag_false ws gs false h1
  exact ⟨h2.trans h3, h4⟩

/-! ## Self-consistency at a fixed point -/

theorem gate_consistent_of_gate_step (g : LogicGate) (hp : g.in_palette = false)
    (h : gate_step g = g) : gate_consistent g := by
  have ho : (compute_gate_output g).output_value = g.output_value := by
    have := congrArg LogicGate.output_value h
    simpa [gate_step, hp] using this
  unfold gate_consistent
  refine ⟨?_, ?_, ?_, ?_, ?_, ?_, ?_⟩ <;> intro ht hi <;> rw [← ho] <;>
    simp [compute_gate_output, ht, hi]

/-- C3: when `propagate_signals` leaves its loop with `changed` false, every wire is
consistent (the destination slot holds the source's output, for a wire whose two ids
each name one gate and whose pin is an allocated slot of the destination) and every
non-palette gate is consistent (its output is its kind's function of its slots). -/
theorem fixed_point_self_consistent (gates : List LogicGate) (wires : List Wire)
    (r : Propagated) (hrun : propagate_signals gates wires = some r)
    (hfix : r.changed = false) :
    (∀ w ∈ wires, wire_consistent r.gates w) ∧
      (∀ g ∈ r.gates, g.in_palette = false → gate_consistent g) := by
  constructor
  · have hl := (propagate_signals_eq gates wires r hrun).1
    obtain ⟨prev, _, hp⟩ := propagate_loop_last wires (fun _ => True) (fun _ _ => trivial)
      100 (reset_gates gates) 0 _ trivial hl
    simp only at hp
    have hflag : (iteration prev wires).2 = false := by rw [hp]; exact hfix
    obtain ⟨hsame, hw⟩ := iteration_flag_false prev wires hflag
    have hprev : prev = r.gates := by rw [← hsame, hp]
    subst hprev
    intro w hwm f hf t ht hfid htid hfu htu h0 h1 vals hvals hlen
    obtain ⟨ti, hti, hact⟩ := wire_action_complete r.gates w f t hf ht hfid htid hfu htu
      (by simp [hvals]) h1
    have := (wire_step_flag_false (r.gates, false) w (hw w hwm)).2 _ t vals hact hti hvals
    simp only at this
    rw [this]
    exact arr_get_set_eq vals _ _ h0 (by omega)
  · intro g hg hp
    exact gate_consistent_of_gate_step g hp (propagate_signals_gate_step gates wires r hrun g hg)

theorem fixed_point_self_consistent_witness :
    ∃ r, propagate_signals (and_circuit_gates 1 1) and_circuit_wires = some r ∧
      r.changed = false ∧
      ((∀ w ∈ and_circuit_wires, wire_consistent r.gates w) ∧
        (∀ g ∈ r.gates, g.in_palette = false → gate_consistent g)) := by
  have hsome : ∃ r, propagate_signals (and_circuit_gates 1 1) and_circuit_wires = some r :=
    ⟨_, rfl⟩
  obtain ⟨r, hr⟩ := hsome
  have hc : (propagate_signals (and_circuit_gates 1 1) and_circuit_wires).map
      (fun x => x.changed) = some false := by decide
  rw [hr] at hc
  have hc1 : r.changed = false := by simpa using hc
  exact ⟨r, hr, hc1, fixed_point_self_consistent _ _ r hr hc1⟩

/-! ## Slots that no wire feeds -/

theorem ptr_get_store_input_ne (g : LogicGate) (p q v : Int) (h : p ≠ q) :
    ptr_get (store_input g p v).input_values q = ptr_get g.input_values q := by
  unfold store_input ptr_get
  cases g.input_values with
  | none => rfl
  | some vals => exact arr_get_set_ne vals p q v h

theorem put_getElem? (gs : List LogicGate) (ti : Nat) (p v : Int) (i : Nat) :
    (put gs ti p v)[i]? =
      if ti = i then (gs[i]?).map (fun g => store_input g p v) else gs[i]? := by
  unfold put
  cases h : gs[ti]? with
  | none =>
    simp only
    split
    · next hi => subst hi; rw [h]; rfl
    · rfl
  | some g =>
    simp only
    rw [List.getElem?_set]
    split
    · next hi =>
      subst hi
      rw [h]
      have hlt : ti < gs.length := by
        by_contra hc
        rw [List.getElem?_eq_none (by omega)] at h
        cases h
      simp [hlt]
    · rfl

/-- A turn of the wire loop leaves slot `q` of the gate at index `i` alone unless the
wire's destination is that gate's id and that pin. -/
theorem wire_step_slot (st : List LogicGate × Bool) (w : Wire) (i : Nat) (g : LogicGate)
    (q : Int) (hg : st.1[i]? = some g) (hw : w.to_gate_id = g.id → w.to_pin_index ≠ q) :
    ∃ g1, (wire_step st w).1[i]? = some g1 ∧
      ptr_get g1.input_values q = ptr_get g.input_values q := by
  rw [wire_step_fst]
  cases ha : wire_action st.1 w with
  | none => exact ⟨g, hg, rfl⟩
  | some a =>
    simp only
    obtain ⟨f, t, _, _, ht, htid, _, _, hpin, _⟩ := wire_action_sound st.1 w a ha
    rw [put_getElem?]
    by_cases hi : a.1 = i
    · rw [if_pos hi, hg]
      refine ⟨store_input g a.2.1 a.2.2, rfl, ?_⟩
      apply ptr_get_store_input_ne
      rw [hpin]
      apply hw
      rw [hi, hg] at ht
      cases ht
      exact htid.symm
    · rw [if_neg hi]
      exact ⟨g, hg, rfl⟩

theorem wire_pass_slot (ws : List Wire) (i : Nat) (id q : Int) :
    ∀ (gs : List LogicGate) (c : Bool) (g : LogicGate),
      gs[i]? = some g → g.id = id →
      (∀ w ∈ ws, w.to_gate_id = id → w.to_pin_index ≠ q) →
      ∃ g1, (wire_pass gs ws c).1[i]? = some g1 ∧ g1.id = id ∧
        ptr_get g1.input_values q = ptr_get g.input_values q := by
  induction ws with
  | nil => intro gs c g hg hid _; exact ⟨g, hg, hid, rfl⟩
  | cons w ws ih =>
    intro gs c g hg hid hw
    rw [wire_pass_cons]
    obtain ⟨g1, h1, h2⟩ := wire_step_slot (gs, c) w i g q hg
      (fun h => hw w (List.mem_cons_self _ _) (h.trans hid))
    have hid1 : g1.id = id := by
      have hv := congrArg (fun l => l[i]?) (wire_step_map_view (gs, c) w)
      simp only [List.getElem?_map, h1, hg, Option.map_some', Option.some.injEq] at hv
      have : (view g1).id = (view g).id := congrArg LogicGate.id hv
      exact this.trans hid
    obtain ⟨g2, h3, h4, h5⟩ := ih _ (wire_step (gs, c) w).2 g1 h1 hid1
      (fun w1 hw1 => hw w1 (List.mem_cons_of_mem _ hw1))
    exact ⟨g2, h3, h4, h5.trans h2⟩

theorem iteration_slot (ws : List Wire) (i : Nat) (id q : Int) (gs : List LogicGate)
    (g : LogicGate) (hg : gs[i]? = some g) (hid : g.id = id)
    (hw : ∀ w ∈ ws, w.to_gate_id = id → w.to_pin_index ≠ q) :
    ∃ g1, (iteration gs ws).1[i]? = some g1 ∧ g1.id = id ∧
      ptr_get g1.input_values q = ptr_get g.input_values q := by
  obtain ⟨g1, h1, h2, h3⟩ := wire_pass_slot ws i id q gs false g hg hid hw
  refine ⟨gate_step g1, ?_, ?_, ?_⟩
  · simp [iteration, gate_pass, h1]
  · have : (frame (gate_step g1)).id = (frame g1).id :=
      congrArg LogicGate.id (frame_gate_step g1)
    exact this.trans h2
  · rw [gate_step_input_values]
    exact h3

theorem reset_gate_slot (g : LogicGate) (q : Int) (hp : g.in_palette = false)
    (h6 : g.gate_type ≠ 6) (h0 : 0 ≤ q) (h1 : q < g.inputs) :
    ptr_get (reset_gate g).input_values q = 0 := by
  unfold reset_gate
  simp only [hp, Bool.not_false, Bool.true_and, bne_iff_ne, ne_eq, h6, not_false_eq_true,
    if_true]
  cases g.input_values with
  | none => rfl
  | some vals => exact arr_get_zero_inputs vals g.inputs q h0 h1

set_option maxRecDepth 100000 in
/-- C9: an input slot that no wire feeds holds 0 when its gate is evaluated.  The AND gate
with pin 0 on an INPUT holding 1 and pin 1 unwired ends with slots [1, 0] and output 0;
and for every array, every computed (non-palette, non-INPUT) gate with a slot `q` that no
wire names ends with 0 in that slot and with the output its kind computes from its
slots. -/
theorem unwired_slot_is_zero :
    (∃ r, propagate_signals half_wired_gates half_wired_wires = some r ∧
      inputs_of r.gates 2 = some [1, 0] ∧ output_of r.gates 2 = some 0) ∧
    (∀ (gates : List LogicGate) (wires : List Wire),
      ∃ r, propagate_signals gates wires = some r ∧
        ∀ (i : Nat) (g : LogicGate) (q : Int), gates[i]? = some g →
          g.in_palette = false → g.gate_type ≠ 6 → 0 ≤ q → q < g.inputs →
          (∀ w ∈ wires, w.to_gate_id = g.id → w.to_pin_index ≠ q) →
          ∃ g1, r.gates[i]? = some g1 ∧ g1.id = g.id ∧ g1.gate_type = g.gate_type ∧
            ptr_get g1.input_values q = 0 ∧
            g1.output_value = (compute_gate_output g1).output_value) := by
  constructor
  · exact ⟨_, rfl, by decide, by decide⟩
  · intro gates wires
    obtain ⟨r, hr, _⟩ := propagate_signals_fuel_enough gates wires
    refine ⟨r, hr, ?_⟩
    intro i g q hg hp h6 h0 h1 hw
    have hl := (propagate_signals_eq gates wires r hr).1
    have hinv := propagate_loop_inv wires
      (fun gs => ∃ g1, gs[i]? = some g1 ∧ g1.id = g.id ∧ ptr_get g1.input_values q = 0)
      (fun gs hgs => by
        obtain ⟨g1, h1, h2, h3⟩ := hgs
        obtain ⟨g2, h4, h5, h6⟩ := iteration_slot wires i g.id q gs g1 h1 h2 hw
        exact ⟨g2, h4, h5, h6.trans h3⟩)
      100 (reset_gates gates) 0 _
      ⟨reset_gate g, by simp [reset_gates, hg],
        (show (frame (reset_gate g)).id = (frame g).id from
          congrArg LogicGate.id (frame_reset_gate g)),
        reset_gate_slot g q hp h6 h0 h1⟩ hl
    obtain ⟨g1, hg1, hid, hz⟩ := hinv
    have hf := congrArg (fun l => l[i]?) (propagate_signals_map_frame gates wires r hr)
    simp only [List.getElem?_map, hg, hg1, Option.map_some', Option.some.injEq] at hf
    have hty : g1.gate_type = g.gate_type :=
      show (frame g1).gate_type = (frame g).gate_type from congrArg LogicGate.gate_type hf
    have hpal : g1.in_palette = g.in_palette :=
      show (frame g1).in_palette = (frame g).in_palette from congrArg LogicGate.in_palette hf
    refine ⟨g1, hg1, hid, hty, hz, ?_⟩
    have hs := propagate_signals_gate_step gates wires r hr g1 (List.getElem?_mem hg1)
    have := congrArg LogicGate.output_value hs
    simp only [gate_step, hpal, hp, Bool.not_false, if_true] at this
    exact this.symm

/-! ## The truth table of scenario C -/

/-- C10: on the circuit INPUT 1, INPUT 2 → XOR 3 → OUTPUT 4 the table computed by
`generate_truth_table` has four rows, in the order 00, 01, 10, 11, but every output is 0:
`draw_truth_table_window` passes `NULL, 0` for the wires.  With the circuit's wires
`simulate_circuit_with_inputs` gives 0, 1, 1, 0 on the same four input vectors. -/
theorem xor_truth_table_rows :
    generate_truth_table xor_circuit_gates xor_circuit_wires
      = some (TruthTable.table [([0, 0], [0]), ([0, 1], [0]), ([1, 0], [0]), ([1, 1], [0])]) ∧
    (List.range 4).map (fun (row : Nat) =>
      simulate_circuit_with_inputs xor_circuit_gates xor_circuit_wires (row_inputs 2 row))
      = [some [0], some [1], some [1], some [0]] := by
  constructor <;> decide

/-! ## The iteration-limit warning -/

set_option maxRecDepth 1000000 in
theorem late_settling_run :
    (propagate_signals late_settling_gates late_settling_wires).map
      (fun r => (r.iterations, r.changed, r.warning)) = some (100, false, true) := by
  decide!

/-- C5, counterexample: on `late_settling_gates` the 100th iteration is the first that
changes nothing, so the loop ends at a fixed point (`changed` false) and the warning is
printed all the same. -/
theorem warning_at_fixed_point :
    ∃ r, propagate_signals late_settling_gates late_settling_wires = some r ∧
      r.changed = false ∧ r.iterations = 100 ∧ r.warning = true := by
  have h := late_settling_run
  cases hr : propagate_signals late_settling_gates late_settling_wires with
  | none => rw [hr] at h; cases h
  | some r =>
    rw [hr] at h
    simp only [Option.map_some', Option.some.injEq, Prod.mk.injEq] at h
    exact ⟨r, rfl, h.2.1, h.1, h.2.2⟩

/-- C5, amended: `propagate_signals` takes its warning branch exactly when its loop ran
100 times.  If the loop stopped while the last iteration still changed a value the
warning is printed; if the last iteration changed nothing and fewer than 100 iterations
ran, it is not. -/
theorem warning_iff_cap_reached (gates : List LogicGate) (wires : List Wire) :
    ∃ r, propagate_signals gates wires = some r ∧
      (r.warning = true ↔ r.iterations = 100) ∧
      (r.changed = true → r.warning = true) ∧
      (r.changed = false → r.iterations < 100 → r.warning = false) := by
  obtain ⟨r, hr, _, h1, h2, h3, h4⟩ := propagate_signals_fuel_enough gates wires
  have hm : max_iterations = 100 := rfl
  rw [hm] at h2 h3 h4
  refine ⟨r, hr, ?_, ?_, ?_⟩
  · rw [h4]
    simp only [ge_iff_le, decide_eq_true_eq]
    constructor
    · intro h; omega
    · intro h; omega
  · intro hc
    rcases h3 with h3 | h3
    · rw [hc] at h3; cases h3
    · rw [h4]
      simp only [ge_iff_le, decide_eq_true_eq]
      omega
  · intro _ hlt
    rw [h4]
    simp only [ge_iff_le, decide_eq_false_iff_not, not_le]
    exact hlt

/-! ## The wire pass depends on the slots only through the slots it does not write -/

theorem find_gates_congr (w : Wire) :
    ∀ (gs hs : List LogicGate) (i : Nat) (fo tgt : Option Nat),
      gs.map (fun g => g.id) = hs.map (fun g => g.id) →
      find_gates w gs i fo tgt = find_gates w hs i fo tgt := by
  intro gs
  induction gs with
  | nil =>
    intro hs i fo tgt h
    cases hs with
    | nil => rfl
    | cons b bs => simp at h
  | cons a as ih =>
    intro hs i fo tgt h
    cases hs with
    | nil => simp at h
    | cons b bs =>
      simp only [List.map_cons, List.cons.injEq] at h
      rw [find_gates_cons, find_gates_cons, h.1, ih bs _ _ _ h.2]

theorem map_id_eq_of_map_frame_eq {gs hs : List LogicGate}
    (h : gs.map frame = hs.map frame) :
    gs.map (fun g => g.id) = hs.map (fun g => g.id) := by
  have := congrArg (List.map (fun g : LogicGate => g.id)) h
  simpa [List.map_map, Function.comp_def, frame] using this

theorem getElem?_frame_eq {gs hs : List LogicGate} (h : gs.map frame = hs.map frame)
    (i : Nat) : (gs[i]?).map frame = (hs[i]?).map frame := by
  have := congrArg (fun l => l[i]?) h
  simpa using this

theorem getElem?_view_eq {gs hs : List LogicGate} (h : gs.map view = hs.map view)
    (i : Nat) : (gs[i]?).map view = (hs[i]?).map view := by
  have := congrArg (fun l => l[i]?) h
  simpa using this

theorem frame_fields {g h : LogicGate} (e : frame g = frame h) :
    g.inputs = h.inputs ∧ g.in_palette = h.in_palette ∧ g.id = h.id ∧
      g.gate_type = h.gate_type ∧ g.input_values.isSome = h.input_values.isSome := by
  have e1 : (frame g).inputs = (frame h).inputs := congrArg LogicGate.inputs e
  have e2 : (frame g).in_palette = (frame h).in_palette := congrArg LogicGate.in_palette e
  have e3 : (frame g).id = (frame h).id := congrArg LogicGate.id e
  have e4 : (frame g).gate_type = (frame h).gate_type := congrArg LogicGate.gate_type e
  refine ⟨e1, e2, e3, e4, ?_⟩
  have hv : (frame g).input_values = (frame h).input_values :=
    congrArg LogicGate.input_values e
  simp only [frame] at hv
  cases hg : g.input_values <;> cases hh : h.input_values <;> simp [hg, hh] at hv ⊢

theorem view_fields {g h : LogicGate} (e : view g = view h) :
    frame g = frame h ∧ g.output_value = h.output_value := by
  have e1 : (view g).output_value = (view h).output_value := congrArg LogicGate.output_value e
  exact ⟨frame_eq_of_view_eq e, e1⟩

/-- The destination and pin of a wire's store depend on the frame of the array only. -/
theorem wire_action_target_congr (gs hs : List LogicGate) (w : Wire)
    (h : gs.map frame = hs.map frame) :
    (wire_action gs w).map (fun a => (a.1, a.2.1)) =
      (wire_action hs w).map (fun a => (a.1, a.2.1)) := by
  unfold wire_action
  rw [find_gates_congr w gs hs 0 none none (map_id_eq_of_map_frame_eq h)]
  rcases find_gates w hs 0 none none with ⟨fo, tgt⟩
  cases fo with
  | none => rfl
  | some fi =>
    cases tgt with
    | none => rfl
    | some ti =>
      simp only
      have hf := getElem?_frame_eq h fi
      have ht := getElem?_frame_eq h ti
      cases hgf : gs[fi]? with
      | none =>
        cases hhf : hs[fi]? with
        | none => rfl
        | some f2 => rw [hgf, hhf] at hf; simp at hf
      | some f1 =>
        cases hhf : hs[fi]? with
        | none => rw [hgf, hhf] at hf; simp at hf
        | some f2 =>
          cases hgt : gs[ti]? with
          | none =>
            cases hht : hs[ti]? with
            | none => rfl
            | some t2 => rw [hgt, hht] at ht; simp at ht
          | some t1 =>
            cases hht : hs[ti]? with
            | none => rw [hgt, hht] at ht; simp at ht
            | some t2 =>
              rw [hgt, hht] at ht
              simp only [Option.map_some', Option.some.injEq] at ht
              obtain ⟨hin, _, _, _, hiv⟩ := frame_fields ht
              simp only
              cases hv1 : t1.input_values with
              | none =>
                cases hv2 : t2.input_values with
                | none => rfl
                | some v2 => simp [hv1, hv2] at hiv
              | some v1 =>
                cases hv2 : t2.input_values with
                | none => simp [hv1, hv2] at hiv
                | some v2 =>
                  simp only [hin]
                  split <;> rfl

/-- The store of a wire depends on the view of the array only. -/
theorem wire_action_congr (gs hs : List LogicGate) (w : Wire)
    (h : gs.map view = hs.map view) : wire_action gs w = wire_action hs w := by
  have hfr := map_frame_eq_of_map_view_eq h
  unfold wire_action
  rw [find_gates_congr w gs hs 0 none none (map_id_eq_of_map_frame_eq hfr)]
  rcases find_gates w hs 0 none none with ⟨fo, tgt⟩
  cases fo with
  | none => rfl
  | some fi =>
    cases tgt with
    | none => rfl
    | some ti =>
      simp only
      have hf := getElem?_view_eq h fi
      have ht := getElem?_view_eq h ti
      cases hgf : gs[fi]? with
      | none =>
        cases hhf : hs[fi]? with
        | none => rfl
        | some f2 => rw [hgf, hhf] at hf; simp at hf
      | some f1 =>
        cases hhf : hs[fi]? with
        | none => rw [hgf, hhf] at hf; simp at hf
        | some f2 =>
          rw [hgf, hhf] at hf
          simp only [Option.map_some', Option.some.injEq] at hf
          cases hgt : gs[ti]? with
          | none =>
            cases hht : hs[ti]? with
            | none => rfl
            | some t2 => rw [hgt, hht] at ht; simp at ht
          | some t1 =>
            cases hht : hs[ti]? with
            | none => rw [hgt, hht] at ht; simp at ht
            | some t2 =>
              rw [hgt, hht] at ht
              simp only [Option.map_some', Option.some.injEq] at ht
              obtain ⟨hin, _, _, _, hiv⟩ := frame_fields (view_fields ht).1
              have hout := (view_fields hf).2
              simp only
              cases hv1 : t1.input_values with
              | none =>
                cases hv2 : t2.input_values with
                | none => rfl
                | some v2 => simp [hv1, hv2] at hiv
              | some v1 =>
                cases hv2 : t2.input_values with
                | none => simp [hv1, hv2] at hiv
                | some v2 =>
                  simp only [hin, hout]

/-! ## Reset, stores and the wire pass -/

theorem arr_ext (a b : List Int) (hl : a.length = b.length)
    (h : ∀ p : Int, 0 ≤ p → arr_get a p = arr_get b p) : a = b := by
  apply List.ext_getElem?
  intro k
  have hk := h (k : Int) (by omega)
  simp only [arr_get, Nat.cast_nonneg, if_true, Int.toNat_ofNat,
    List.getD_eq_getElem?_getD] at hk
  by_cases hlt : k < a.length
  · have hlt2 : k < b.length := by omega
    rw [List.getElem?_eq_getElem hlt, List.getElem?_eq_getElem hlt2] at hk ⊢
    simpa using hk
  · rw [List.getElem?_eq_none (by omega), List.getElem?_eq_none (by omega)]

theorem zero_inputs_length (vals : List Int) (inputs : Int) :
    (zero_inputs vals inputs).length = vals.length := by
  unfold zero_inputs
  generalize inputs.toNat = n
  induction n with
  | zero => rfl
  | succ m ih =>
    rw [List.range_succ, List.foldl_append]
    simp only [List.foldl_cons, List.foldl_nil, arr_set_length]
    exact ih

theorem arr_get_zero_inputs_all (vals : List Int) (inputs p : Int) (h0 : 0 ≤ p) :
    arr_get (zero_inputs vals inputs) p = if p < inputs then 0 else arr_get vals p := by
  unfold zero_inputs
  rw [arr_get_foldl_zero p h0]
  by_cases h : p < inputs
  · have : p < (inputs.toNat : Int) := by omega
    rw [if_pos h, if_pos this]
  · have : ¬ p < (inputs.toNat : Int) := by omega
    rw [if_neg h, if_neg this]

theorem zero_inputs_idem (vals : List Int) (inputs : Int) :
    zero_inputs (zero_inputs vals inputs) inputs = zero_inputs vals inputs := by
  apply arr_ext
  · rw [zero_inputs_length]
  · intro p h0
    rw [arr_get_zero_inputs_all _ _ _ h0, arr_get_zero_inputs_all _ _ _ h0]
    split <;> rfl

theorem zero_inputs_arr_set (vals : List Int) (inputs p v : Int) (hp : p < inputs) :
    zero_inputs (arr_set vals p v) inputs = zero_inputs vals inputs := by
  apply arr_ext
  · rw [zero_inputs_length, zero_inputs_length, arr_set_length]
  · intro q h0
    rw [arr_get_zero_inputs_all _ _ _ h0, arr_get_zero_inputs_all _ _ _ h0]
    split
    · rfl
    · exact arr_get_set_ne vals p q v (by omega)

theorem reset_gate_idem (g : LogicGate) : reset_gate (reset_gate g) = reset_gate g := by
  rcases g with ⟨name, inputs, outputs, pal, id, iv, ov, ty⟩
  unfold reset_gate
  by_cases h : (!pal && ty != 6) = true
  · cases iv with
    | none => simp [h]
    | some vals => simp [h, zero_inputs_idem]
  · simp [h]

theorem reset_gates_idem (gs : List LogicGate) :
    reset_gates (reset_gates gs) = reset_gates gs := by
  unfold reset_gates
  rw [List.map_map]
  congr 1
  funext g
  exact reset_gate_idem g

theorem reset_gate_gate_step (g : LogicGate) : reset_gate (gate_step g) = reset_gate g := by
  unfold gate_step
  by_cases hp : g.in_palette = true
  · simp [hp]
  · simp only [Bool.not_eq_true] at hp
    simp only [hp, Bool.not_false, if_true]
    by_cases h6 : g.gate_type = 6
    · rw [compute_gate_output_input g h6]
    · rw [compute_gate_output_eq]
      rcases g with ⟨name, inputs, outputs, pal, id, iv, ov, ty⟩
      simp only at hp h6
      simp [reset_gate, hp, h6]

theorem reset_gates_map_gate_step (gs : List LogicGate) :
    reset_gates (gs.map gate_step) = reset_gates gs := by
  unfold reset_gates
  rw [List.map_map]
  congr 1
  funext g
  exact reset_gate_gate_step g

theorem reset_gate_store_input (g : LogicGate) (p v : Int) (hp : p < g.inputs) :
    reset_gate (store_input g p v) =
      if is_driven g then reset_gate g else store_input (reset_gate g) p v := by
  rcases g with ⟨name, inputs, outputs, pal, id, iv, ov, ty⟩
  simp only at hp
  unfold reset_gate store_input is_driven
  by_cases h : (!pal && ty != 6) = true
  · cases iv with
    | none => simp [h]
    | some vals => simp [h, zero_inputs_arr_set vals inputs p v hp]
  · simp [h]

theorem store_input_store_input (g : LogicGate) (p v v1 : Int) :
    store_input (store_input g p v) p v1 = store_input g p v1 := by
  rcases g with ⟨name, inputs, outputs, pal, id, iv, ov, ty⟩
  cases iv with
  | none => rfl
  | some vals => simp [store_input, arr_set_set]

theorem store_input_comm (g : LogicGate) (p q v v1 : Int) (h : p ≠ q) :
    store_input (store_input g p v) q v1 = store_input (store_input g q v1) p v := by
  rcases g with ⟨name, inputs, outputs, pal, id, iv, ov, ty⟩
  cases iv with
  | none => rfl
  | some vals => simp [store_input, arr_set_comm vals p q v v1 h]

theorem put_put_same (gs : List LogicGate) (t : Nat) (p v v1 : Int) :
    put (put gs t p v) t p v1 = put gs t p v1 := by
  apply List.ext_getElem?
  intro i
  simp only [put_getElem?]
  split
  · cases gs[i]? with
    | none => rfl
    | some g => simp [store_input_store_input]
  · rfl

theorem put_comm (gs : List LogicGate) (t t1 : Nat) (p p1 v v1 : Int)
    (h : t ≠ t1 ∨ p ≠ p1) :
    put (put gs t p v) t1 p1 v1 = put (put gs t1 p1 v1) t p v := by
  apply List.ext_getElem?
  intro i
  simp only [put_getElem?]
  by_cases h1 : t1 = i
  · by_cases h2 : t = i
    · have hp : p ≠ p1 := by
        rcases h with h | h
        · exact absurd (h2.trans h1.symm) h
        · exact h
      simp only [h1, h2, if_true]
      cases gs[i]? with
      | none => rfl
      | some g => simp [store_input_comm g p p1 v v1 hp]
    · simp [h1, h2]
  · by_cases h2 : t = i
    · simp [h1, h2]
    · simp [h1, h2]

theorem reset_gates_put (gs : List LogicGate) (t : Nat) (p v : Int)
    (hp : ∀ g, gs[t]? = some g → p < g.inputs) :
    reset_gates (put gs t p v) = reset_gates gs ∨
      reset_gates (put gs t p v) = put (reset_gates gs) t p v := by
  cases hg : gs[t]? with
  | none =>
    left
    unfold put
    rw [hg]
  | some g =>
    have hst := reset_gate_store_input g p v (hp g hg)
    by_cases hd : is_driven g = true
    · left
      rw [if_pos hd] at hst
      apply List.ext_getElem?
      intro i
      simp only [reset_gates, List.getElem?_map, put_getElem?]
      split
      · next hi =>
        subst hi
        rw [hg]
        simp [hst]
      · rfl
    · right
      rw [if_neg hd] at hst
      apply List.ext_getElem?
      intro i
      simp only [reset_gates, List.getElem?_map, put_getElem?]
      split
      · next hi =>
        subst hi
        rw [hg]
        simp [hst]
      · rfl

theorem wire_pass_fst_flag (ws : List Wire) :
    ∀ (gs : List LogicGate) (c c1 : Bool),
      (wire_pass gs ws c).1 = (wire_pass gs ws c1).1 := by
  induction ws with
  | nil => intro gs c c1; rfl
  | cons w ws ih =>
    intro gs c c1
    rw [wire_pass_cons, wire_pass_cons]
    have h : (wire_step (gs, c) w).1 = (wire_step (gs, c1) w).1 := by
      rw [wire_step_fst, wire_step_fst]
    rw [h]
    exact ih _ _ _

/-- A store into a slot that a wire of the pass writes is overwritten by the pass. -/
theorem wire_pass_absorb (ws : List Wire) :
    ∀ (x : List LogicGate) (c c1 : Bool) (t : Nat) (p v : Int),
      (∃ w ∈ ws, ∃ v1, wire_action x w = some (t, p, v1)) →
      (wire_pass (put x t p v) ws c).1 = (wire_pass x ws c1).1 := by
  induction ws with
  | nil =>
    intro x c c1 t p v h
    obtain ⟨w, hw, _⟩ := h
    cases hw
  | cons w ws ih =>
    intro x c c1 t p v h
    rw [wire_pass_cons, wire_pass_cons]
    have hact : wire_action (put x t p v) w = wire_action x w :=
      wire_action_congr _ _ w (put_map_view x t p v)
    have hl : (wire_step (put x t p v, c) w).1 =
        match wire_action x w with
        | none => put x t p v
        | some a => put (put x t p v) a.1 a.2.1 a.2.2 := by
      rw [wire_step_fst]
      simp only [hact]
    have hr : (wire_step (x, c1) w).1 =
        match wire_action x w with
        | none => x
        | some a => put x a.1 a.2.1 a.2.2 := wire_step_fst (x, c1) w
    rw [hl, hr]
    cases ha : wire_action x w with
    | none =>
      simp only
      apply ih
      obtain ⟨w0, hw0, v1, hv1⟩ := h
      rcases List.mem_cons.mp hw0 with rfl | hm
      · rw [ha] at hv1; cases hv1
      · exact ⟨w0, hm, v1, hv1⟩
    | some a =>
      obtain ⟨t1, p1, v1⟩ := a
      simp only
      by_cases hsame : t = t1 ∧ p = p1
      · obtain ⟨rfl, rfl⟩ := hsame
        rw [put_put_same]
        exact wire_pass_fst_flag ws _ _ _
      · have hne : t ≠ t1 ∨ p ≠ p1 := by
          by_cases ht : t = t1
          · right
            intro hp
            exact hsame ⟨ht, hp⟩
          · left; exact ht
        rw [put_comm x t t1 p p1 v v1 hne]
        apply ih
        obtain ⟨w0, hw0, v2, hv2⟩ := h
        rcases List.mem_cons.mp hw0 with rfl | hm
        · rw [ha] at hv2
          simp only [Option.some.injEq, Prod.mk.injEq] at hv2
          exact absurd ⟨hv2.1.symm, hv2.2.1.symm⟩ hsame
        · refine ⟨w0, hm, v2, ?_⟩
          rw [wire_action_congr _ _ w0 (put_map_view x t1 p1 v1)]
          exact hv2

/-- Resetting after part of a wire pass and running the whole pass gives what resetting
and running the pass gives. -/
theorem wire_pass_reset_absorb (ws : List Wire) :
    ∀ (ws1 : List Wire) (x : List LogicGate) (c c1 c2 : Bool),
      (∀ w ∈ ws1, w ∈ ws) →
      (wire_pass (reset_gates (wire_pass x ws1 c).1) ws c1).1 =
        (wire_pass (reset_gates x) ws c2).1 := by
  intro ws1
  induction ws1 with
  | nil =>
    intro x c c1 c2 _
    exact wire_pass_fst_flag ws _ _ _
  | cons w ws1 ih =>
    intro x c c1 c2 hsub
    rw [wire_pass_cons]
    rw [ih _ _ c1 c2 (fun w1 hw1 => hsub w1 (List.mem_cons_of_mem _ hw1))]
    rw [wire_step_fst]
    cases ha : wire_action x w with
    | none => rfl
    | some a =>
      simp only
      obtain ⟨f, tg, _, _, htg, _, _, hpin, hp1, _⟩ := wire_action_sound x w a ha
      have hp : ∀ g, x[a.1]? = some g → a.2.1 < g.inputs := by
        intro g hg
        rw [htg] at hg
        cases hg
        rw [hp1]
        exact hpin
      rcases reset_gates_put x a.1 a.2.1 a.2.2 hp with h | h
      · rw [h]
      · rw [h]
        apply wire_pass_absorb
        refine ⟨w, hsub w (List.mem_cons_self _ _), ?_⟩
        have htc := wire_action_target_congr (reset_gates x) x w (reset_gates_map_frame x)
        rw [ha] at htc
        cases hb : wire_action (reset_gates x) w with
        | none => rw [hb] at htc; cases htc
        | some b =>
          rw [hb] at htc
          simp only [Option.map_some', Option.some.injEq, Prod.mk.injEq] at htc
          refine ⟨b.2.2, ?_⟩
          rw [← htc.1, ← htc.2]

/-- One iteration after a reset gives the same array whether or not an iteration ran
before the reset. -/
theorem iteration_reset_iteration (gs : List LogicGate) (ws : List Wire) :
    (iteration (reset_gates (iteration gs ws).1) ws).1 = (iteration (reset_gates gs) ws).1 := by
  have h1 : ∀ y : List LogicGate,
      (iteration y ws).1 = (wire_pass y ws false).1.map gate_step := fun y => rfl
  rw [h1 (reset_gates (iteration gs ws).1), h1 (reset_gates gs), h1 gs,
    reset_gates_map_gate_step,
    wire_pass_reset_absorb ws ws gs false false false (fun w hw => hw)]

/-! ## Idempotence -/

theorem propagate_loop_succ (wires : List Wire) (fuel : Nat) (gates : List LogicGate)
    (it : Int) :
    propagate_loop wires (fuel + 1) gates it =
      if ((iteration gates wires).2 && decide (it + 1 < max_iterations)) = true then
        propagate_loop wires fuel (iteration gates wires).1 (it + 1)
      else some ((iteration gates wires).1, it + 1, (iteration gates wires).2) := rfl

/-- The array at loop exit does not depend on the slots the array had before the call:
a second run started from the result of the first ends with the same array. -/
theorem propagate_loop_rerun (wires : List Wire) (gates : List LogicGate)
    (r1 r2 : List LogicGate × Int × Bool)
    (h1 : propagate_loop wires 100 (reset_gates gates) 0 = some r1)
    (h2 : propagate_loop wires 100 (reset_gates r1.1) 0 = some r2) :
    r2.1 = r1.1 := by
  have hQ : (iteration (reset_gates r1.1) wires).1 = (iteration (reset_gates gates) wires).1 :=
    propagate_loop_inv wires
      (fun g => (iteration (reset_gates g) wires).1 = (iteration (reset_gates gates) wires).1)
      (fun g hg => (iteration_reset_iteration g wires).trans hg)
      100 (reset_gates gates) 0 r1
      (show (iteration (reset_gates (reset_gates gates)) wires).1 = _ by rw [reset_gates_idem]) h1
  have e100 : (100 : Nat) = 99 + 1 := rfl
  have hlt : ((0 : Int) + 1 < max_iterations) := by decide
  rw [e100, propagate_loop_succ] at h1 h2
  simp only [hlt, decide_True, Bool.and_true] at h1 h2
  cases hc1 : (iteration (reset_gates gates) wires).2 with
  | false =>
    rw [hc1] at h1
    simp only [Bool.false_eq_true, if_false, Option.some.injEq] at h1
    have hfix := (iteration_flag_false _ _ hc1).1
    have hr1 : r1.1 = reset_gates gates := by rw [← h1]; exact hfix
    have hreset : reset_gates r1.1 = reset_gates gates := by rw [hr1, reset_gates_idem]
    rw [hreset, hc1] at h2
    simp only [Bool.false_eq_true, if_false, Option.some.injEq] at h2
    have a := congrArg Prod.fst h1
    have b := congrArg Prod.fst h2
    simp only at a b
    exact b.symm.trans a
  | true =>
    rw [hc1] at h1
    simp only [if_true] at h1
    cases hc2 : (iteration (reset_gates r1.1) wires).2 with
    | true =>
      rw [hc2, hQ] at h2
      simp only [if_true] at h2
      rw [h1] at h2
      cases h2
      rfl
    | false =>
      rw [hc2] at h2
      simp only [Bool.false_eq_true, if_false, Option.some.injEq] at h2
      have hfix := (iteration_flag_false _ _ hc2).1
      have e99 : (99 : Nat) = 98 + 1 := rfl
      rw [e99, propagate_loop_succ, ← hQ, hfix, hc2] at h1
      simp only [Bool.false_and, Bool.false_eq_true, if_false, Option.some.injEq] at h1
      have a := congrArg Prod.fst h1
      have b := congrArg Prod.fst h2
      simp only at a b
      exact b.symm.trans a

/-- C6: for every gate array and wire array (wire pin indices non-negative, so that no
store of the wire pass is below its array), a second call of `propagate_signals` right
after the first returns with every gate, its `output_value` and `input_values` included,
exactly as the first call left it.  (In the embedding a store outside an array is
ignored, so the proof does not have to use the condition on the pins.) -/
theorem propagate_signals_idempotent (gates : List LogicGate) (wires : List Wire)
    (_hpins : ∀ w ∈ wires, 0 ≤ w.to_pin_index) :
    ∃ r1 r2, propagate_signals gates wires = some r1 ∧
      propagate_signals r1.gates wires = some r2 ∧ r2.gates = r1.gates := by
  obtain ⟨r1, hr1, _⟩ := propagate_signals_fuel_enough gates wires
  obtain ⟨r2, hr2, _⟩ := propagate_signals_fuel_enough r1.gates wires
  refine ⟨r1, r2, hr1, hr2, ?_⟩
  exact propagate_loop_rerun wires gates _ _ (propagate_signals_eq _ _ r1 hr1).1
    (propagate_signals_eq _ _ r2 hr2).1

theorem propagate_signals_idempotent_witness :
    (∀ w ∈ and_circuit_wires, 0 ≤ w.to_pin_index) ∧
    ∃ r1 r2, propagate_signals (and_circuit_gates 1 1) and_circuit_wires = some r1 ∧
      propagate_signals r1.gates and_circuit_wires = some r2 ∧ r2.gates = r1.gates :=
  ⟨by decide, propagate_signals_idempotent _ _ (by decide)⟩

namespace Deepseek

/-! ## deepseek.c: the editing operations -/

theorem scan_gates_from (f t : Int) : ∀ (gs : List Gate) (fe te : Bool) (tt : Option GateType),
    (scan_gates f t gs fe te tt).1 = (fe || gs.any (fun g => decide (g.id = f))) := by
  intro gs
  induction gs with
  | nil => intro fe te tt; simp [scan_gates]
  | cons g rest ih =>
    intro fe te tt
    simp only [scan_gates]
    by_cases ht : g.id = t
    · rw [if_pos ht, ih]
      by_cases hf : g.id = f
      · simp [hf]
      · simp [hf]
    · rw [if_neg ht, ih]
      by_cases hf : g.id = f
      · simp [hf]
      · simp [hf]

theorem scan_gates_to (f t : Int) : ∀ (gs : List Gate) (fe te : Bool) (tt : Option GateType),
    (scan_gates f t gs fe te tt).2.1 = (te || gs.any (fun g => decide (g.id = t))) := by
  intro gs
  induction gs with
  | nil => intro fe te tt; simp [scan_gates]
  | cons g rest ih =>
    intro fe te tt
    simp only [scan_gates]
    by_cases ht : g.id = t <;> simp [ht, ih]

theorem scan_gates_type (f t : Int) (ty : GateType) :
    ∀ (gs : List Gate) (fe te : Bool) (tt : Option GateType),
    (∀ g ∈ gs, g.id = t → g.type = ty) →
    (scan_gates f t gs fe te tt).2.2 =
      if gs.any (fun g => decide (g.id = t)) then some ty else tt := by
  intro gs
  induction gs with
  | nil => intro fe te tt _; simp [scan_gates]
  | cons g rest ih =>
    intro fe te tt h
    have hrest : ∀ g ∈ rest, g.id = t → g.type = ty :=
      fun g hg => h g (List.mem_cons_of_mem _ hg)
    simp only [scan_gates]
    by_cases ht : g.id = t
    · have hty : g.type = ty := h g (List.mem_cons_self _ _) ht
      rw [if_pos ht, ih _ _ _ hrest]
      simp [ht, hty]
    · rw [if_neg ht, ih _ _ _ hrest]
      simp [ht]

theorem add_gate_error (s : State) (type : GateType) (x y : Int) :
    ((add_gate s type x y).error ≠ none ↔ s.current_circuit.gate_count ≥ MAX_GATES) ∧
    ((add_gate s type x y).error ≠ none → (add_gate s type x y).state = s) := by
  unfold add_gate
  by_cases h : s.current_circuit.gate_count ≥ MAX_GATES
  · simp [h]
  · simp [h]

theorem add_wire_error_state (s : State) (f t p : Int) :
    (add_wire s f t p).error ≠ none → (add_wire s f t p).state = s := by
  unfold add_wire
  simp only []
  split_ifs <;> simp

theorem delete_wire_error_state (s : State) (wire_id : Int) :
    (delete_wire s wire_id).error ≠ none → (delete_wire s wire_id).state = s := by
  unfold delete_wire
  simp only []
  split
  · simp
  · split <;> simp

theorem set_connection_ids (to_gate to_pin v : Int) : ∀ gs : List Gate,
    (set_connection gs to_gate to_pin v).map (fun g => g.id) = gs.map (fun g => g.id) := by
  intro gs
  induction gs with
  | nil => simp [set_connection]
  | cons g rest ih =>
    simp only [set_connection]
    by_cases h : g.id = to_gate
    · rw [if_pos h]
      by_cases hp : to_pin = 1
      · simp [hp]
      · simp [hp]
    · rw [if_neg h]
      simp [ih]

theorem set_connection_kinds (to_gate to_pin v : Int) : ∀ gs : List Gate,
    (set_connection gs to_gate to_pin v).map (fun g => (g.id, g.type)) =
      gs.map (fun g => (g.id, g.type)) := by
  intro gs
  induction gs with
  | nil => simp [set_connection]
  | cons g rest ih =>
    simp only [set_connection]
    by_cases h : g.id = to_gate
    · rw [if_pos h]
      by_cases hp : to_pin = 1
      · simp [hp]
      · simp [hp]
    · rw [if_neg h]
      simp [ih]

theorem delete_wire_found (s : State) (wire_id : Int) (i : Nat) (w : Wire)
    (hi : s.current_circuit.wires.findIdx? (fun w => w.id == wire_id) = some i)
    (hw : s.current_circuit.wires[i]? = some w) :
    delete_wire s wire_id =
      { state := save_action
          { s with current_circuit :=
              { s.current_circuit with
                  wires := s.current_circuit.wires.eraseIdx i
                  gates := set_connection s.current_circuit.gates w.to_gate w.to_pin (-1) } }
          "Delete wire",
        error := none } := by
  unfold delete_wire
  simp only [hi, hw]

/-- The first entry satisfying `p` is at or before any entry satisfying `p`. -/
theorem findIdx?_le {α : Type} (p : α → Bool) : ∀ (l : List α) (i : Nat) (a : α),
    l[i]? = some a → p a = true →
    ∃ j b, j ≤ i ∧ l.findIdx? p = some j ∧ l[j]? = some b ∧ p b = true := by
  intro l
  induction l with
  | nil => intro i a h; simp at h
  | cons x rest ih =>
    intro i a h hp
    by_cases hx : p x = true
    · exact ⟨0, x, Nat.zero_le _, by simp [List.findIdx?_cons, hx], by simp, hx⟩
    · cases i with
      | zero =>
        simp at h
        rw [h] at hx
        exact absurd hp hx
      | succ i =>
        simp at h
        obtain ⟨j, b, hj, hf, hb, hpb⟩ := ih i a h hp
        refine ⟨j + 1, b, Nat.succ_le_succ hj, ?_, by simpa using hb, hpb⟩
        simp [List.findIdx?_cons, hx, List.findIdx?_succ, hf]

/-- With distinct keys the first entry with the key of entry `i` is entry `i`. -/
theorem findIdx?_nodup {α : Type} (key : α → Int) : ∀ (l : List α) (i : Nat) (a : α),
    (l.map key).Nodup → l[i]? = some a →
    l.findIdx? (fun b => key b == key a) = some i := by
  intro l
  induction l with
  | nil => intro i a _ h; simp at h
  | cons x rest ih =>
    intro i a hn h
    rw [List.map_cons, List.nodup_cons] at hn
    cases i with
    | zero =>
      simp at h
      simp [List.findIdx?_cons, h]
    | succ i =>
      simp at h
      have hmem : a ∈ rest := List.getElem?_mem h
      have hne : key x ≠ key a := by
        intro he
        exact hn.1 (he ▸ List.mem_map_of_mem key hmem)
      simp [List.findIdx?_cons, hne, List.findIdx?_succ, ih i a hn.2 h]

theorem take_eraseIdx_self {α : Type} (l : List α) (i : Nat) (h : i < l.length) :
    (l.eraseIdx i).take i = l.take i := by
  rw [List.eraseIdx_eq_take_drop_succ]
  have hl : (l.take i).length = i := by simp; omega
  exact List.take_left' hl

theorem drop_eraseIdx_self {α : Type} (l : List α) (i : Nat) (h : i < l.length) :
    (l.eraseIdx i).drop i = l.drop (i + 1) := by
  rw [List.eraseIdx_eq_take_drop_succ]
  have hl : (l.take i).length = i := by simp; omega
  exact List.drop_left' hl

theorem drop_of_getElem? {α : Type} (l : List α) (i : Nat) (a : α) (h : l[i]? = some a) :
    l.drop i = a :: l.drop (i + 1) := by
  obtain ⟨hi, ha⟩ := List.getElem?_eq_some.mp h
  rw [List.drop_eq_getElem_cons hi, ha]

theorem take_succ_of_getElem? {α : Type} (l : List α) (i : Nat) (a : α) (h : l[i]? = some a) :
    l.take (i + 1) = l.take i ++ [a] := by
  rw [List.take_succ, h]
  rfl

theorem delete_gate_wires_spec (gate_id : Int) : ∀ (fuel i : Nat) (s : State),
    s.current_circuit.wires.length ≤ fuel + i →
    ∃ s1, delete_gate_wires gate_id fuel i s = some s1 ∧
      s1.current_circuit.wires.Sublist s.current_circuit.wires ∧
      s1.current_circuit.gates.map (fun g => (g.id, g.type)) =
        s.current_circuit.gates.map (fun g => (g.id, g.type)) ∧
      s1.current_circuit.input_gates = s.current_circuit.input_gates ∧
      s1.current_circuit.output_gates = s.current_circuit.output_gates ∧
      s1.next_gate_id = s.next_gate_id ∧ s1.next_wire_id = s.next_wire_id ∧
      ((s.current_circuit.wires.map (fun w => w.id)).Nodup →
        s1.current_circuit.wires =
          s.current_circuit.wires.take i ++
            (s.current_circuit.wires.drop i).filter (not_attached gate_id)) := by
  intro fuel
  induction fuel with
  | zero =>
    intro i s h
    refine ⟨s, ?_, List.Sublist.refl _, rfl, rfl, rfl, rfl, rfl, ?_⟩
    · simp only [delete_gate_wires]
      rw [if_neg (by omega)]
    · intro _
      rw [List.take_of_length_le (by omega), List.drop_of_length_le (by omega)]
      simp
  | succ fuel ih =>
    intro i s h
    simp only [delete_gate_wires]
    cases hw : s.current_circuit.wires[i]? with
    | none =>
      have hi : s.current_circuit.wires.length ≤ i := List.getElem?_eq_none_iff.mp hw
      refine ⟨s, rfl, List.Sublist.refl _, rfl, rfl, rfl, rfl, rfl, ?_⟩
      intro _
      rw [List.take_of_length_le hi, List.drop_of_length_le hi]
      simp
    | some w =>
      obtain ⟨hi, _⟩ := List.getElem?_eq_some.mp hw
      simp only []
      by_cases hat : (decide (w.from_gate = gate_id) || decide (w.to_gate = gate_id)) = true
      · rw [if_pos hat]
        obtain ⟨j, b, hj, hf, hb, _⟩ :=
          findIdx?_le (fun w1 : Wire => w1.id == w.id) s.current_circuit.wires i w hw (by simp)
        obtain ⟨hjl, _⟩ := List.getElem?_eq_some.mp hb
        have hdw := delete_wire_found s w.id j b hf hb
        have hwires : (delete_wire s w.id).state.current_circuit.wires =
            s.current_circuit.wires.eraseIdx j := by rw [hdw]; rfl
        have hgates : (delete_wire s w.id).state.current_circuit.gates =
            set_connection s.current_circuit.gates b.to_gate b.to_pin (-1) := by rw [hdw]; rfl
        have hlen : (delete_wire s w.id).state.current_circuit.wires.length ≤ fuel + i := by
          rw [hwires, List.length_eraseIdx_of_lt hjl]; omega
        obtain ⟨s1, h1, hsub, hg, hin, hout, hng, hnw, hnd⟩ := ih i _ hlen
        refine ⟨s1, h1, ?_, ?_, ?_, ?_, ?_, ?_, ?_⟩
        · rw [hwires] at hsub
          exact hsub.trans (List.eraseIdx_sublist _ _)
        · rw [hg, hgates]
          exact set_connection_kinds _ _ _ _
        · rw [hin, hdw]; rfl
        · rw [hout, hdw]; rfl
        · rw [hng, hdw]; rfl
        · rw [hnw, hdw]; rfl
        · intro hnodup
          have hji : j = i := by
            have h2 := findIdx?_nodup (fun w1 : Wire => w1.id) s.current_circuit.wires i w
              hnodup hw
            rw [hf] at h2
            exact Option.some.inj h2
          subst hji
          have hnodup1 : ((s.current_circuit.wires.eraseIdx j).map (fun w => w.id)).Nodup :=
            hnodup.sublist ((List.eraseIdx_sublist _ _).map _)
          rw [hwires] at hnd
          rw [hnd hnodup1]
          rw [take_eraseIdx_self _ _ hi, drop_eraseIdx_self _ _ hi,
            drop_of_getElem? _ _ _ hw, List.filter_cons]
          have hna : not_attached gate_id w = false := by
            unfold not_attached
            rw [hat]
            rfl
          simp [hna]
      · rw [if_neg hat]
        obtain ⟨s1, h1, hsub, hg, hin, hout, hng, hnw, hnd⟩ := ih (i + 1) s (by omega)
        refine ⟨s1, h1, hsub, hg, hin, hout, hng, hnw, ?_⟩
        intro hnodup
        rw [hnd hnodup, take_succ_of_getElem? _ _ _ hw, drop_of_getElem? _ _ _ hw,
          List.filter_cons]
        have hna : not_attached gate_id w = true := by
          unfold not_attached
          simpa using hat
        simp [hna]

theorem gate_ids_eraseIdx (gate_id : Int) : ∀ (gs : List Gate) (i : Nat),
    gs.findIdx? (fun g => g.id == gate_id) = some i →
    (gs.eraseIdx i).map (fun g => g.id) = (gs.map (fun g => g.id)).erase gate_id := by
  intro gs
  induction gs with
  | nil => intro i h; simp at h
  | cons g rest ih =>
    intro i h
    by_cases hg : g.id = gate_id
    · simp [List.findIdx?_cons, hg] at h
      subst h
      simp [hg]
    · simp [List.findIdx?_cons, hg, List.findIdx?_succ] at h
      obtain ⟨j, hj, rfl⟩ := h
      simp [List.erase_cons, hg, ih j hj]

/-- The circuit `delete_gate` hands to its wire loop: the gate at index `i` (of type
`type`) is gone from the gate array and from the list of its kind. -/
theorem delete_gate_fuel_found (fuel : Nat) (s : State) (gate_id : Int) (i : Nat) (g : Gate)
    (hi : s.current_circuit.gates.findIdx? (fun g => g.id == gate_id) = some i)
    (hg : s.current_circuit.gates[i]? = some g) :
    ∃ c1 : Circuit, c1.wires = s.current_circuit.wires ∧
      c1.gates = s.current_circuit.gates.eraseIdx i ∧
      c1.input_gates = (if g.type = GateType.GATE_INPUT then
        remove_listed s.current_circuit.input_gates gate_id
        else s.current_circuit.input_gates) ∧
      c1.output_gates = (if g.type = GateType.GATE_OUTPUT then
        remove_listed s.current_circuit.output_gates gate_id
        else s.current_circuit.output_gates) ∧
      delete_gate_fuel fuel s gate_id =
        match delete_gate_wires gate_id fuel 0 { s with current_circuit := c1 } with
        | none => none
        | some s1 => some { state := save_action s1 "Delete gate", error := none } := by
  unfold delete_gate_fuel
  simp only [hi, hg]
  refine ⟨_, ?_, ?_, ?_, ?_, rfl⟩
  · split_ifs <;> rfl
  · split_ifs <;> rfl
  · split_ifs <;> rfl
  · split_ifs <;> rfl

theorem delete_gate_missing (s : State) (gate_id : Int)
    (h : ∀ g ∈ s.current_circuit.gates, g.id ≠ gate_id) :
    delete_gate s gate_id = some { state := s, error := some "Gate not found." } := by
  unfold delete_gate delete_gate_fuel
  have : s.current_circuit.gates.findIdx? (fun g => g.id == gate_id) = none := by
    rw [List.findIdx?_eq_none_iff]
    intro g hg
    simpa using h g hg
  simp only [this]

theorem delete_gate_present (s : State) (gate_id : Int)
    (h : ∃ g ∈ s.current_circuit.gates, g.id = gate_id) :
    ∃ o, delete_gate s gate_id = some o ∧ o.error = none ∧
      o.state.current_circuit.wires.Sublist s.current_circuit.wires ∧
      o.state.current_circuit.gates.map (fun g => g.id) =
        (s.current_circuit.gates.map (fun g => g.id)).erase gate_id ∧
      ((s.current_circuit.wires.map (fun w => w.id)).Nodup →
        o.state.current_circuit.wires =
          s.current_circuit.wires.filter (not_attached gate_id)) := by
  obtain ⟨g0, hg0, hid0⟩ := h
  have hsome : (s.current_circuit.gates.findIdx? (fun g => g.id == gate_id)).isSome = true := by
    rw [List.findIdx?_isSome, List.any_eq_true]
    exact ⟨g0, hg0, by simpa using hid0⟩
  obtain ⟨i, hi⟩ := Option.isSome_iff_exists.mp hsome
  obtain ⟨hil, _, _⟩ := List.findIdx?_eq_some_iff_getElem.mp hi
  have hg : s.current_circuit.gates[i]? = some s.current_circuit.gates[i] :=
    List.getElem?_eq_getElem hil
  obtain ⟨c1, hw, hgs, _, _, hd⟩ :=
    delete_gate_fuel_found s.current_circuit.wires.length s gate_id i _ hi hg
  obtain ⟨s1, h1, hsub, hkinds, _, _, _, _, hnd⟩ :=
    delete_gate_wires_spec gate_id s.current_circuit.wires.length 0
      { s with current_circuit := c1 } (by simp [hw])
  have hids : s1.current_circuit.gates.map (fun g => g.id) = c1.gates.map (fun g => g.id) := by
    have := congrArg (List.map Prod.fst) hkinds
    simpa [List.map_map, Function.comp] using this
  refine ⟨{ state := save_action s1 "Delete gate", error := none }, ?_, rfl, ?_, ?_, ?_⟩
  · unfold delete_gate
    rw [hd, h1]
  · show s1.current_circuit.wires.Sublist _
    rw [← hw]
    exact hsub
  · show s1.current_circuit.gates.map (fun g => g.id) = _
    rw [hids, hgs]
    exact gate_ids_eraseIdx gate_id _ i hi
  · intro hnodup
    show s1.current_circuit.wires = _
    rw [hnd (by simpa [hw] using hnodup)]
    simp [hw]

theorem delete_gate_total (s : State) (gate_id : Int) :
    ∃ o, delete_gate s gate_id = some o ∧ (o.error ≠ none → o.state = s) ∧
      (o.error ≠ none ↔ ∀ g ∈ s.current_circuit.gates, g.id ≠ gate_id) ∧
      o.state.current_circuit.wires.Sublist s.current_circuit.wires := by
  by_cases h : ∃ g ∈ s.current_circuit.gates, g.id = gate_id
  · obtain ⟨o, ho, he, hsub, _, _⟩ := delete_gate_present s gate_id h
    refine ⟨o, ho, ?_, ?_, hsub⟩
    · intro hne; exact absurd he hne
    · constructor
      · intro hne; exact absurd he hne
      · intro hall
        obtain ⟨g, hg, hid⟩ := h
        exact absurd hid (hall g hg)
  · have hall : ∀ g ∈ s.current_circuit.gates, g.id ≠ gate_id := by
      intro g hg hid
      exact h ⟨g, hg, hid⟩
    refine ⟨_, delete_gate_missing s gate_id hall, fun _ => rfl, ?_, List.Sublist.refl _⟩
    constructor
    · intro _; exact hall
    · intro _; simp

/-- The four tests of `add_wire`, in the order of the source. -/
theorem add_wire_cases (s : State) (f t p : Int) :
    ((s.current_circuit.wire_count ≥ MAX_WIRES ∨
      (!(scan_gates f t s.current_circuit.gates false false none).1 ||
        !(scan_gates f t s.current_circuit.gates false false none).2.1) = true ∨
      ((scan_gates f t s.current_circuit.gates false false none).2.2 =
        some GateType.GATE_NOT ∧ p = 2) ∨
      s.current_circuit.wires.any (fun w => decide (w.to_gate = t) && decide (w.to_pin = p))
        = true) ∧
      (add_wire s f t p).error ≠ none ∧ (add_wire s f t p).state = s) ∨
    (¬ s.current_circuit.wire_count ≥ MAX_WIRES ∧
      (scan_gates f t s.current_circuit.gates false false none).1 = true ∧
      (scan_gates f t s.current_circuit.gates false false none).2.1 = true ∧
      ¬ ((scan_gates f t s.current_circuit.gates false false none).2.2 =
        some GateType.GATE_NOT ∧ p = 2) ∧
      s.current_circuit.wires.any (fun w => decide (w.to_gate = t) && decide (w.to_pin = p))
        = false ∧
      add_wire s f t p =
        { state := save_action
            { s with
                current_circuit :=
                  { s.current_circuit with
                      wires := s.current_circuit.wires ++
                        [{ id := s.next_wire_id, from_gate := f, to_gate := t, to_pin := p }]
                      gates := set_connection s.current_circuit.gates t p f }
                next_wire_id := s.next_wire_id + 1 }
            "Add wire",
          error := none }) := by
  unfold add_wire
  simp only []
  by_cases c1 : s.current_circuit.wire_count ≥ MAX_WIRES
  · left
    rw [if_pos c1]
    exact ⟨Or.inl c1, by simp, rfl⟩
  · rw [if_neg c1]
    by_cases c2 : (!(scan_gates f t s.current_circuit.gates false false none).1 ||
        !(scan_gates f t s.current_circuit.gates false false none).2.1) = true
    · left
      rw [if_pos c2]
      exact ⟨Or.inr (Or.inl c2), by simp, rfl⟩
    · rw [if_neg c2]
      by_cases c3 : (decide ((scan_gates f t s.current_circuit.gates false false none).2.2 =
          some GateType.GATE_NOT) && decide (p = 2)) = true
      · left
        rw [if_pos c3]
        refine ⟨Or.inr (Or.inr (Or.inl ?_)), by simp, rfl⟩
        simpa using c3
      · rw [if_neg c3]
        by_cases c4 : s.current_circuit.wires.any
            (fun w => decide (w.to_gate = t) && decide (w.to_pin = p)) = true
        · left
          rw [if_pos c4]
          exact ⟨Or.inr (Or.inr (Or.inr c4)), by simp, rfl⟩
        · right
          rw [if_neg c4]
          refine ⟨c1, ?_, ?_, ?_, ?_, rfl⟩
          · simpa using (by simpa using c2 :
              (scan_gates f t s.current_circuit.gates false false none).1 = true ∧
              (scan_gates f t s.current_circuit.gates false false none).2.1 = true).1
          · simpa using (by simpa using c2 :
              (scan_gates f t s.current_circuit.gates false false none).1 = true ∧
              (scan_gates f t s.current_circuit.gates false false none).2.1 = true).2
          · simpa using c3
          · simpa using c4

theorem add_gate_wires (s : State) (type : GateType) (x y : Int) :
    (add_gate s type x y).state.current_circuit.wires = s.current_circuit.wires := by
  unfold add_gate
  by_cases h : s.current_circuit.gate_count ≥ MAX_GATES
  · rw [if_pos h]
  · rw [if_neg h]
    cases type <;> rfl

theorem delete_wire_cases (s : State) (wire_id : Int) :
    ((∀ w ∈ s.current_circuit.wires, w.id ≠ wire_id) ∧
      delete_wire s wire_id = { state := s, error := some "Wire not found." }) ∨
    (∃ i w, s.current_circuit.wires.findIdx? (fun w => w.id == wire_id) = some i ∧
      s.current_circuit.wires[i]? = some w ∧ w.id = wire_id ∧
      (delete_wire s wire_id).error = none ∧
      (delete_wire s wire_id).state.current_circuit.wires =
        s.current_circuit.wires.eraseIdx i) := by
  cases hf : s.current_circuit.wires.findIdx? (fun w => w.id == wire_id) with
  | none =>
    left
    constructor
    · intro w hw
      have := List.findIdx?_eq_none_iff.mp hf w hw
      simpa using this
    · unfold delete_wire
      simp only [hf]
  | some i =>
    right
    obtain ⟨hil, hp, _⟩ := List.findIdx?_eq_some_iff_getElem.mp hf
    have hw : s.current_circuit.wires[i]? = some s.current_circuit.wires[i] :=
      List.getElem?_eq_getElem hil
    refine ⟨i, _, rfl, hw, by simpa using hp, ?_, ?_⟩
    · rw [delete_wire_found s wire_id i _ hf hw]
    · rw [delete_wire_found s wire_id i _ hf hw]
      rfl

theorem delete_wire_sublist (s : State) (wire_id : Int) :
    (delete_wire s wire_id).state.current_circuit.wires.Sublist s.current_circuit.wires := by
  rcases delete_wire_cases s wire_id with ⟨_, h⟩ | ⟨i, w, _, _, _, _, h⟩
  · rw [h]
  · rw [h]
    exact List.eraseIdx_sublist _ _

theorem add_wire_pin_unique (s : State) (f t p : Int)
    (h : pin_unique s.current_circuit.wires) :
    pin_unique (add_wire s f t p).state.current_circuit.wires := by
  rcases add_wire_cases s f t p with ⟨_, _, hs⟩ | ⟨_, _, _, _, hany, heq⟩
  · rw [hs]
    exact h
  · rw [heq]
    show pin_unique (s.current_circuit.wires ++ _)
    unfold pin_unique at h ⊢
    rw [List.pairwise_append]
    refine ⟨h, List.pairwise_singleton _ _, ?_⟩
    intro w1 hw1 w2 hw2
    rw [List.mem_singleton] at hw2
    subst hw2
    intro hc
    have := List.any_eq_false.mp hany w1 hw1
    simp [hc.1, hc.2] at this

theorem apply_op_pin_unique (s : State) (op : Op) (h : pin_unique s.current_circuit.wires) :
    ∃ s1, apply_op s op = some s1 ∧ pin_unique s1.current_circuit.wires := by
  cases op with
  | add_gate type x y =>
    refine ⟨_, rfl, ?_⟩
    rw [add_gate_wires]
    exact h
  | add_wire f t p => exact ⟨_, rfl, add_wire_pin_unique s f t p h⟩
  | delete_gate gate_id =>
    obtain ⟨o, ho, _, _, hsub⟩ := delete_gate_total s gate_id
    refine ⟨o.state, ?_, List.Pairwise.sublist hsub h⟩
    simp [apply_op, ho]
  | delete_wire wire_id =>
    exact ⟨_, rfl, List.Pairwise.sublist (delete_wire_sublist s wire_id) h⟩

theorem run_pin_unique : ∀ (ops : List Op) (s : State), pin_unique s.current_circuit.wires →
    ∃ s1, run s ops = some s1 ∧ pin_unique s1.current_circuit.wires := by
  intro ops
  induction ops with
  | nil => intro s h; exact ⟨s, rfl, h⟩
  | cons op rest ih =>
    intro s h
    obtain ⟨s1, h1, hp⟩ := apply_op_pin_unique s op h
    obtain ⟨s2, h2, hp2⟩ := ih s1 hp
    exact ⟨s2, by simp [run, h1, h2], hp2⟩

end Deepseek

namespace Testt

/-! ## testt.c: deleting a component -/

theorem remove_attached_eq (id : Int) : ∀ (k : Nat) (wires : List Wire), k ≤ wires.length →
    remove_attached id k wires = (wires.take k).filter (not_attached id) ++ wires.drop k := by
  intro k
  induction k with
  | zero => intro wires _; simp [remove_attached]
  | succ k ih =>
    intro wires hk
    have hlt : k < wires.length := hk
    have hx : wires[k]? = some wires[k] := List.getElem?_eq_getElem hlt
    simp only [remove_attached, hx]
    rw [Deepseek.take_succ_of_getElem? _ _ _ hx, List.filter_append]
    by_cases hat : (decide (wires[k].start.component_id = id) ||
        decide (wires[k].end_point.component_id = id)) = true
    · rw [if_pos hat, ih _ (by rw [List.length_eraseIdx_of_lt hlt]; omega),
        Deepseek.take_eraseIdx_self _ _ hlt, Deepseek.drop_eraseIdx_self _ _ hlt]
      have hna : not_attached id wires[k] = false := by
        unfold not_attached
        rw [hat]
        rfl
      simp [hna]
    · rw [if_neg hat, ih _ (by omega), Deepseek.drop_of_getElem? _ _ _ hx]
      have hna : not_attached id wires[k] = true := by
        unfold not_attached
        simpa using hat
      simp [hna]

theorem delete_component_found (app : AppState) (id : Int)
    (h : ∃ c ∈ app.components, c.id = id) :
    ∃ i, app.components.findIdx? (fun c => c.id == id) = some i ∧
      (delete_component app id).wires = app.wires.filter (not_attached id) ∧
      (delete_component app id).components = app.components.eraseIdx i := by
  obtain ⟨c0, hc0, hid0⟩ := h
  have hsome : (app.components.findIdx? (fun c => c.id == id)).isSome = true := by
    rw [List.findIdx?_isSome, List.any_eq_true]
    exact ⟨c0, hc0, by simpa using hid0⟩
  obtain ⟨i, hi⟩ := Option.isSome_iff_exists.mp hsome
  obtain ⟨hil, _, _⟩ := List.findIdx?_eq_some_iff_getElem.mp hi
  have hc : app.components[i]? = some app.components[i] := List.getElem?_eq_getElem hil
  refine ⟨i, hi, ?_, ?_⟩
  · unfold delete_component
    simp only [hi, hc]
    show remove_attached id app.wires.length app.wires = _
    rw [remove_attached_eq id _ _ (Nat.le_refl _)]
    simp
  · unfold delete_component
    simp only [hi, hc]
    rfl

theorem component_ids_eraseIdx (id : Int) : ∀ (cs : List Component) (i : Nat),
    cs.findIdx? (fun c => c.id == id) = some i →
    (cs.eraseIdx i).map (fun c => c.id) = (cs.map (fun c => c.id)).erase id := by
  intro cs
  induction cs with
  | nil => intro i h; simp at h
  | cons c rest ih =>
    intro i h
    by_cases hc : c.id = id
    · simp [List.findIdx?_cons, hc] at h
      subst h
      simp [hc]
    · simp [List.findIdx?_cons, hc, List.findIdx?_succ] at h
      obtain ⟨j, hj, rfl⟩ := h
      simp [List.erase_cons, hc, ih j hj]

/-! ## testt.c and final.c: adding a wire -/

theorem get_component_by_id_isSome (app : AppState) (id : Int) :
    (get_component_by_id app id).isSome = true ↔ ∃ c ∈ app.components, c.id = id := by
  unfold get_component_by_id
  rw [List.find?_isSome]
  simp

theorem testt_add_wire_cases (app : AppState) (s e : ConnectionPoint) :
    ((¬ (app.wires.length : Int) ≥ MAX_WIRES ∧
        (∃ c ∈ app.components, c.id = s.component_id) ∧
        (∃ c ∈ app.components, c.id = e.component_id) ∧
        ¬ (s.pin_index < 0 ∧ e.pin_index < 0)) ∧
      (add_wire app s e).1.wires = app.wires ++
        [{ id := app.next_wire_id, start := s, end_point := e, is_valid := true,
           value := -1 }] ∧
      (add_wire app s e).1.next_wire_id = app.next_wire_id + 1 ∧
      (add_wire app s e).2 = app.next_wire_id) ∨
    (¬ (¬ (app.wires.length : Int) ≥ MAX_WIRES ∧
        (∃ c ∈ app.components, c.id = s.component_id) ∧
        (∃ c ∈ app.components, c.id = e.component_id) ∧
        ¬ (s.pin_index < 0 ∧ e.pin_index < 0)) ∧
      (add_wire app s e).1.wires = app.wires ∧
      (add_wire app s e).1.next_wire_id = app.next_wire_id ∧
      (add_wire app s e).2 = -1) := by
  unfold add_wire
  by_cases c1 : (app.wires.length : Int) ≥ MAX_WIRES
  · right
    rw [if_pos c1]
    exact ⟨fun h => h.1 c1, rfl, rfl, rfl⟩
  · rw [if_neg c1]
    cases hs : get_component_by_id app s.component_id with
    | none =>
      right
      refine ⟨?_, rfl, rfl, rfl⟩
      intro h
      have := (get_component_by_id_isSome app s.component_id).mpr h.2.1
      rw [hs] at this
      exact absurd this (by simp)
    | some sc =>
      cases he : get_component_by_id app e.component_id with
      | none =>
        right
        refine ⟨?_, rfl, rfl, rfl⟩
        intro h
        have := (get_component_by_id_isSome app e.component_id).mpr h.2.2.1
        rw [he] at this
        exact absurd this (by simp)
      | some ec =>
        have hse := (get_component_by_id_isSome app s.component_id).mp (by rw [hs]; rfl)
        have hee := (get_component_by_id_isSome app e.component_id).mp (by rw [he]; rfl)
        simp only []
        by_cases c3 : (decide (s.pin_index < 0) && decide (e.pin_index < 0)) = true
        · right
          rw [if_pos c3]
          refine ⟨?_, rfl, rfl, rfl⟩
          intro h
          apply h.2.2.2
          simpa using c3
        · left
          rw [if_neg c3]
          refine ⟨⟨c1, hse, hee, ?_⟩, rfl, rfl, rfl⟩
          simpa using c3

end Testt

theorem wiring_click_miss (near_pin : LogicGate → Option (Bool × Int)) (src src_pin : Int)
    (wires : List Wire) : ∀ gates : List LogicGate,
    (∀ g ∈ gates, g.in_palette = true ∨ near_pin g = none ∨ ∃ q, near_pin g = some (true, q)) →
    wiring_click near_pin src src_pin gates wires = wires := by
  intro gates
  induction gates with
  | nil => intro _; rfl
  | cons g rest ih =>
    intro h
    have hrest := ih (fun b hb => h b (List.mem_cons_of_mem _ hb))
    simp only [wiring_click]
    rcases h g (List.mem_cons_self _ _) with hp | hn | ⟨q, hq⟩
    · simp [hp, hrest]
    · simp [hn, hrest]
    · simp [hq, hrest]

theorem wiring_click_hit (near_pin : LogicGate → Option (Bool × Int)) (src src_pin : Int)
    (wires : List Wire) (g : LogicGate) (pin : Int) (after : List LogicGate)
    (hg : g.in_palette = false) (hn : near_pin g = some (false, pin)) :
    ∀ before : List LogicGate,
    (∀ b ∈ before, b.in_palette = true ∨ near_pin b = none ∨ ∃ q, near_pin b = some (true, q)) →
    wiring_click near_pin src src_pin (before ++ g :: after) wires =
      if (wires.length : Int) < MAX_WIRES then
        wires ++ [{ from_gate_id := src, from_pin_index := src_pin, to_gate_id := g.id,
                    to_pin_index := pin }]
      else wires := by
  intro before
  induction before with
  | nil =>
    intro _
    simp [wiring_click, hg, hn]
  | cons b rest ih =>
    intro h
    have hrest := ih (fun x hx => h x (List.mem_cons_of_mem _ hx))
    simp only [List.cons_append, wiring_click]
    rcases h b (List.mem_cons_self _ _) with hp | hnone | ⟨q, hq⟩
    · simp [hp, hrest]
    · simp [hnone, hrest]
    · simp [hq, hrest]

namespace Deepseek

/-! ## deepseek.c: evaluation writes outputs only and returns on acyclic circuits -/

theorem skeleton_fields (g h : Gate) (e : skeleton g = skeleton h) :
    g.id = h.id ∧ g.type = h.type ∧ g.input1 = h.input1 ∧ g.input2 = h.input2 := by
  unfold skeleton at e
  injection e with h1 h2 h3 h4 h5 h6 h7 h8
  exact ⟨h1, h2, h5, h6⟩

theorem skeleton_set_output (g : Gate) (v : Int) : skeleton { g with output := v } = skeleton g :=
  rfl

theorem set_output_at_skeleton (gates : List Gate) (index : Nat) (v : Int) :
    (set_output_at gates index v).map skeleton = gates.map skeleton := by
  unfold set_output_at
  cases h : gates[index]? with
  | none => rfl
  | some g =>
    simp only []
    rw [List.map_set, skeleton_set_output]
    apply List.ext_getElem?
    intro n
    by_cases hn : index = n
    · subst hn
      obtain ⟨hi, hg⟩ := List.getElem?_eq_some.mp h
      rw [List.getElem?_set_self (by simpa using hi)]
      simp [h]
    · rw [List.getElem?_set_ne hn]

theorem evaluate_gate_skeleton : ∀ (fuel : Nat) (gates : List Gate) (gate_id : Int)
    (gates1 : List Gate) (v : Int), evaluate_gate fuel gates gate_id = some (gates1, v) →
    gates1.map skeleton = gates.map skeleton := by
  intro fuel
  induction fuel with
  | zero => intro gates gate_id gates1 v h; simp [evaluate_gate] at h
  | succ fuel ih =>
    intro gates gate_id gates1 v h
    rw [evaluate_gate] at h
    cases hi : gates.findIdx? (fun g => g.id == gate_id) with
    | none =>
      simp only [hi] at h
      injection h with h
      injection h with h1 h2
      rw [← h1]
    | some index =>
      simp only [hi] at h
      cases hg : gates[index]? with
      | none =>
        simp only [hg] at h
        injection h with h
        injection h with h1 h2
        rw [← h1]
      | some gate =>
        simp only [hg] at h
        by_cases hm : gate.output ≠ 0 ∨ gate.type = GateType.GATE_INPUT
        · rw [if_pos hm] at h
          injection h with h
          injection h with h1 h2
          rw [← h1]
        · rw [if_neg hm] at h
          have hr1 : ∀ ga x, (if gate.input1 ≠ -1 then evaluate_gate fuel gates gate.input1
              else some (gates, 0)) = some (ga, x) → ga.map skeleton = gates.map skeleton := by
            intro ga x hx
            by_cases c : gate.input1 ≠ -1
            · rw [if_pos c] at hx
              exact ih _ _ _ _ hx
            · rw [if_neg c] at hx
              injection hx with hx
              injection hx with h1 h2
              rw [← h1]
          cases h1 : (if gate.input1 ≠ -1 then evaluate_gate fuel gates gate.input1
              else some (gates, 0)) with
          | none => rw [h1] at h; simp at h
          | some r1 =>
            obtain ⟨ga, x⟩ := r1
            rw [h1] at h
            simp only [] at h
            have hga := hr1 ga x h1
            have hr2 : ∀ gb y, (if gate.input2 ≠ -1 then evaluate_gate fuel ga gate.input2
                else some (ga, 0)) = some (gb, y) → gb.map skeleton = ga.map skeleton := by
              intro gb y hy
              by_cases c : gate.input2 ≠ -1
              · rw [if_pos c] at hy
                exact ih _ _ _ _ hy
              · rw [if_neg c] at hy
                injection hy with hy
                injection hy with h1 h2
                rw [← h1]
            cases h2 : (if gate.input2 ≠ -1 then evaluate_gate fuel ga gate.input2
                else some (ga, 0)) with
            | none => rw [h2] at h; simp at h
            | some r2 =>
              obtain ⟨gb, y⟩ := r2
              rw [h2] at h
              simp only [] at h
              have hgb := hr2 gb y h2
              injection h with h
              injection h with e1 e2
              rw [← e1, set_output_at_skeleton, hgb, hga]

theorem skeleton_mem (gates gates1 : List Gate)
    (e : gates1.map skeleton = gates.map skeleton) :
    ∀ g1 ∈ gates1, ∃ g ∈ gates, skeleton g = skeleton g1 := by
  intro g1 hg1
  have : skeleton g1 ∈ gates.map skeleton := e ▸ List.mem_map_of_mem skeleton hg1
  obtain ⟨g, hg, hs⟩ := List.mem_map.mp this
  exact ⟨g, hg, hs⟩

theorem ranked_of_skeleton (rank : Int → Nat) (gates gates1 : List Gate)
    (e : gates1.map skeleton = gates.map skeleton) (h : ranked rank gates) :
    ranked rank gates1 := by
  intro g1 hg1
  obtain ⟨g, hg, hs⟩ := skeleton_mem gates gates1 e g1 hg1
  obtain ⟨e1, _, e3, e4⟩ := skeleton_fields g g1 hs
  rw [← e1, ← e3, ← e4]
  exact h g hg

theorem bound_of_skeleton (rank : Int → Nat) (fuel : Nat) (gates gates1 : List Gate)
    (e : gates1.map skeleton = gates.map skeleton) (h : ∀ g ∈ gates, rank g.id < fuel) :
    ∀ g ∈ gates1, rank g.id < fuel := by
  intro g1 hg1
  obtain ⟨g, hg, hs⟩ := skeleton_mem gates gates1 e g1 hg1
  obtain ⟨e1, _, _, _⟩ := skeleton_fields g g1 hs
  rw [← e1]
  exact h g hg

theorem evaluate_gate_returns (rank : Int → Nat) : ∀ (fuel : Nat) (gates : List Gate)
    (gate_id : Int), ranked rank gates → rank gate_id < fuel →
    ∃ r, evaluate_gate fuel gates gate_id = some r := by
  intro fuel
  induction fuel with
  | zero => intro gates gate_id _ h; omega
  | succ fuel ih =>
    intro gates gate_id hr hlt
    rw [evaluate_gate]
    cases hi : gates.findIdx? (fun g => g.id == gate_id) with
    | none => exact ⟨_, rfl⟩
    | some index =>
      simp only []
      obtain ⟨hil, hp, _⟩ := List.findIdx?_eq_some_iff_getElem.mp hi
      have hg : gates[index]? = some gates[index] := List.getElem?_eq_getElem hil
      have hmem : gates[index] ∈ gates := List.getElem_mem hil
      have hid : gates[index].id = gate_id := by simpa using hp
      rw [hg]
      simp only []
      by_cases hm : gates[index].output ≠ 0 ∨ gates[index].type = GateType.GATE_INPUT
      · rw [if_pos hm]
        exact ⟨_, rfl⟩
      · rw [if_neg hm]
        have h1 : ∃ ga x, (if gates[index].input1 ≠ -1 then
            evaluate_gate fuel gates gates[index].input1 else some (gates, 0)) = some (ga, x) ∧
            ga.map skeleton = gates.map skeleton := by
          by_cases c : gates[index].input1 ≠ -1
          · rw [if_pos c]
            have := (hr _ hmem).1 c
            rw [hid] at this
            obtain ⟨⟨ga, x⟩, hgx⟩ := ih gates gates[index].input1 hr (by omega)
            exact ⟨ga, x, hgx, evaluate_gate_skeleton _ _ _ _ _ hgx⟩
          · rw [if_neg c]
            exact ⟨gates, 0, rfl, rfl⟩
        obtain ⟨ga, x, e1, hga⟩ := h1
        rw [e1]
        simp only []
        have hra : ranked rank ga := ranked_of_skeleton rank gates ga hga hr
        · have h2 : ∃ gb y, (if gates[index].input2 ≠ -1 then
              evaluate_gate fuel ga gates[index].input2 else some (ga, 0)) = some (gb, y) := by
            by_cases c : gates[index].input2 ≠ -1
            · rw [if_pos c]
              have := (hr _ hmem).2 c
              rw [hid] at this
              obtain ⟨⟨gb, y⟩, hgy⟩ := ih ga gates[index].input2 hra (by omega)
              exact ⟨gb, y, hgy⟩
            · rw [if_neg c]
              exact ⟨ga, 0, rfl⟩
          obtain ⟨gb, y, e2⟩ := h2
          rw [e2]
          exact ⟨_, rfl⟩

theorem reset_outputs_skeleton (gates : List Gate) :
    (reset_outputs gates).map skeleton = gates.map skeleton := by
  unfold reset_outputs
  rw [List.map_map]
  apply List.map_congr_left
  intro g _
  simp only [Function.comp]
  split_ifs <;> rfl

theorem set_output_of_skeleton (gates : List Gate) (id v : Int) :
    (set_output_of gates id v).map skeleton = gates.map skeleton := by
  unfold set_output_of
  cases gates.findIdx? (fun g => g.id == id) with
  | none => rfl
  | some j => exact set_output_at_skeleton gates j v

theorem force_row_skeleton (c : Circuit) (comb : Int) :
    (force_row c comb).map skeleton = c.gates.map skeleton := by
  unfold force_row
  generalize List.range c.input_gates.length = l
  generalize c.gates = gates
  induction l generalizing gates with
  | nil => rfl
  | cons i rest ih =>
    rw [List.foldl_cons, ih, set_output_of_skeleton]

theorem evaluate_all_spec (rank : Int → Nat) (fuel : Nat) : ∀ (todo i : Nat) (gates : List Gate),
    ranked rank gates → (∀ g ∈ gates, rank g.id < fuel) →
    ∃ gates1, evaluate_all fuel todo i gates = some gates1 ∧
      gates1.map skeleton = gates.map skeleton := by
  intro todo
  induction todo with
  | zero => intro i gates _ _; exact ⟨gates, rfl, rfl⟩
  | succ todo ih =>
    intro i gates hr hb
    rw [evaluate_all]
    cases hg : gates[i]? with
    | none => exact ⟨gates, rfl, rfl⟩
    | some g =>
      simp only []
      obtain ⟨⟨ga, x⟩, hga⟩ := evaluate_gate_returns rank fuel gates g.id hr
        (hb g (List.getElem?_mem hg))
      have hs := evaluate_gate_skeleton _ _ _ _ _ hga
      rw [hga]
      simp only []
      obtain ⟨gates1, h1, hs1⟩ := ih (i + 1) ga (ranked_of_skeleton rank gates ga hs hr)
        (bound_of_skeleton rank fuel gates ga hs hb)
      exact ⟨gates1, h1, hs1.trans hs⟩

theorem evaluate_circuit_spec (rank : Int → Nat) (fuel : Nat) (gates : List Gate)
    (hr : ranked rank gates) (hb : ∀ g ∈ gates, rank g.id < fuel) :
    ∃ gates1, evaluate_circuit fuel gates = some gates1 ∧
      gates1.map skeleton = gates.map skeleton := by
  unfold evaluate_circuit
  have hs := reset_outputs_skeleton gates
  obtain ⟨gates1, h1, hs1⟩ := evaluate_all_spec rank fuel gates.length 0 (reset_outputs gates)
    (ranked_of_skeleton rank gates _ hs hr) (bound_of_skeleton rank fuel gates _ hs hb)
  exact ⟨gates1, h1, hs1.trans hs⟩

theorem table_rows_spec (rank : Int → Nat) (fuel : Nat) (c : Circuit) :
    ∀ (combs : List Nat) (gates : List Gate),
    ranked rank gates → (∀ g ∈ gates, rank g.id < fuel) →
    ∃ gates2 rows, table_rows fuel c combs gates = some (gates2, rows) ∧
      gates2.map skeleton = gates.map skeleton ∧
      rows.map (fun row => row.1) = combs.map (fun (comb : Nat) =>
        (List.range c.input_gates.length).map
          (fun (i : Nat) => input_bit c.input_count (comb : Int) i)) := by
  intro combs
  induction combs with
  | nil => intro gates _ _; exact ⟨gates, [], rfl, rfl, rfl⟩
  | cons comb rest ih =>
    intro gates hr hb
    rw [table_rows]
    have hf := force_row_skeleton { c with gates := gates } (comb : Int)
    obtain ⟨gates1, h1, hs1⟩ := evaluate_circuit_spec rank fuel _
      (ranked_of_skeleton rank gates _ hf hr) (bound_of_skeleton rank fuel gates _ hf hb)
    have hs1g : gates1.map skeleton = gates.map skeleton := hs1.trans hf
    rw [h1]
    simp only []
    obtain ⟨gates2, rows, h2, hs2, hrows⟩ := ih gates1
      (ranked_of_skeleton rank gates _ hs1g hr) (bound_of_skeleton rank fuel gates _ hs1g hb)
    rw [h2]
    refine ⟨gates2, _, rfl, hs2.trans hs1g, ?_⟩
    simp [hrows]

end Deepseek

/-! ## Rows of a truth table as binary numerals -/

theorem shl_one_small (n : Int) (h0 : 0 ≤ n) (h1 : n ≤ 30) : shl_one n = 2 ^ n.toNat := by
  unfold shl_one int32_wrap
  have hk : n.toNat ≤ 30 := by omega
  have hpos : (0 : Int) < 2 ^ n.toNat := by positivity
  have hle : (2 : Int) ^ n.toNat ≤ 2 ^ 30 := pow_le_pow_right₀ (by norm_num) hk
  rw [Int.emod_eq_of_lt (by omega) (by norm_num at hle ⊢; omega)]
  ring

theorem shl_one_toNat (n : Nat) (h1 : n ≤ 30) : (shl_one (n : Int)).toNat = 2 ^ n := by
  rw [shl_one_small _ (by omega) (by omega)]
  simp
  have : ((2 : Int) ^ n) = ((2 ^ n : Nat) : Int) := by push_cast; rfl
  rw [this, Int.toNat_ofNat]

theorem land_shift_eq (r k : Nat) :
    Int.land ((r : Int) >>> k) 1 = ((r / 2 ^ k % 2 : Nat) : Int) := by
  have h1 : ((r : Int) >>> k) = ((r >>> k : Nat) : Int) := rfl
  rw [h1]
  have h2 : Int.land ((r >>> k : Nat) : Int) 1 = (((r >>> k) &&& 1 : Nat) : Int) := rfl
  rw [h2, Nat.and_one_is_mod, Nat.shiftRight_eq_div_pow]

theorem row_inputs_eq (n r : Nat) : row_inputs (n : Int) (r : Int) = binary_digits n r := by
  unfold row_inputs binary_digits
  rw [Int.toNat_ofNat]
  apply List.map_congr_left
  intro i _
  have : ((n : Int) - 1 - (i : Int)).toNat = n - 1 - i := by omega
  rw [this, land_shift_eq]

theorem input_bit_eq (n r i : Nat) :
    Deepseek.input_bit (n : Int) (r : Int) i = ((r / 2 ^ (n - 1 - i) % 2 : Nat) : Int) := by
  unfold Deepseek.input_bit
  have : ((n : Int) - 1 - (i : Int)).toNat = n - 1 - i := by omega
  rw [this, land_shift_eq]

theorem binary_digits_length (n r : Nat) : (binary_digits n r).length = n := by
  simp [binary_digits]

theorem binary_digits_succ (n r : Nat) :
    binary_digits (n + 1) r = binary_digits n (r / 2) ++ [((r % 2 : Nat) : Int)] := by
  unfold binary_digits
  rw [List.range_succ, List.map_append]
  congr 1
  · apply List.map_congr_left
    intro i hi
    have hi : i < n := List.mem_range.mp hi
    have e : n + 1 - 1 - i = (n - 1 - i) + 1 := by omega
    rw [e, pow_succ, Nat.div_div_eq_div_mul, Nat.mul_comm]
  · simp

theorem numeral_value_append (l : List Int) (b : Int) :
    numeral_value (l ++ [b]) = 2 * numeral_value l + b := by
  unfold numeral_value
  rw [List.foldl_append]
  rfl

theorem numeral_value_binary_digits : ∀ (n r : Nat),
    numeral_value (binary_digits n r) = ((r % 2 ^ n : Nat) : Int) := by
  intro n
  induction n with
  | zero => intro r; simp [binary_digits, numeral_value, Nat.mod_one]
  | succ n ih =>
    intro r
    rw [binary_digits_succ, numeral_value_append, ih]
    have : r % 2 ^ (n + 1) = 2 * (r / 2 % 2 ^ n) + r % 2 := by
      rw [pow_succ, Nat.mul_comm, Nat.mod_mul, Nat.add_comm]
    rw [this]
    push_cast
    ring

theorem binary_digits_injective (n r1 r2 : Nat) (h1 : r1 < 2 ^ n) (h2 : r2 < 2 ^ n)
    (e : binary_digits n r1 = binary_digits n r2) : r1 = r2 := by
  have := congrArg numeral_value e
  rw [numeral_value_binary_digits, numeral_value_binary_digits, Nat.mod_eq_of_lt h1,
    Nat.mod_eq_of_lt h2] at this
  exact_mod_cast this

theorem binary_digits_surjective : ∀ (n : Nat) (v : List Int), v.length = n →
    (∀ b ∈ v, b = 0 ∨ b = 1) → ∃ r, r < 2 ^ n ∧ binary_digits n r = v := by
  intro n
  induction n with
  | zero =>
    intro v hl _
    exact ⟨0, by simp, by simp [binary_digits, List.length_eq_zero.mp hl]⟩
  | succ n ih =>
    intro v hl hb
    have hne : v ≠ [] := by
      intro h
      rw [h] at hl
      simp at hl
    have hv := List.dropLast_append_getLast hne
    have hlen : v.dropLast.length = n := by simp [hl]
    obtain ⟨r0, hr0, hd⟩ := ih v.dropLast hlen
      (fun b hb1 => hb b (List.mem_of_mem_dropLast hb1))
    rcases hb _ (List.getLast_mem hne) with h0 | h1
    · refine ⟨2 * r0, by rw [pow_succ]; omega, ?_⟩
      rw [binary_digits_succ]
      have e1 : 2 * r0 / 2 = r0 := by omega
      have e2 : 2 * r0 % 2 = 0 := by omega
      rw [e1, e2, hd]
      conv_rhs => rw [← hv]
      rw [h0]
      rfl
    · refine ⟨2 * r0 + 1, by rw [pow_succ]; omega, ?_⟩
      rw [binary_digits_succ]
      have e1 : (2 * r0 + 1) / 2 = r0 := by omega
      have e2 : (2 * r0 + 1) % 2 = 1 := by omega
      rw [e1, e2, hd]
      conv_rhs => rw [← hv]
      rw [h1]
      rfl

namespace Deepseek

/-! ## deepseek.c: the values a row forces on the INPUT gates -/

theorem set_output_of_cons (g : Gate) (rest : List Gate) (id v : Int) :
    set_output_of (g :: rest) id v =
      if g.id = id then { g with output := v } :: rest else g :: set_output_of rest id v := by
  unfold set_output_of
  by_cases h : g.id = id
  · simp [List.findIdx?_cons, h, set_output_at]
  · rw [if_neg h]
    simp only [List.findIdx?_cons, beq_iff_eq, h, Bool.false_eq_true, if_false]
    rw [List.findIdx?_succ]
    cases List.findIdx? (fun g => g.id == id) rest with
    | none => rfl
    | some j =>
      simp only [Option.map_some']
      unfold set_output_at
      simp only [List.getElem?_cons_succ]
      cases rest[j]? with
      | none => rfl
      | some x => simp

theorem find?_set_output_of (x y v : Int) : ∀ gates : List Gate,
    (set_output_of gates y v).find? (fun g => g.id == x) =
      if x = y then (gates.find? (fun g => g.id == y)).map (fun g => { g with output := v })
      else gates.find? (fun g => g.id == x) := by
  intro gates
  induction gates with
  | nil => simp [set_output_of]
  | cons g rest ih =>
    rw [set_output_of_cons]
    by_cases hy : g.id = y
    · rw [if_pos hy]
      by_cases hx : x = y
      · subst hx
        simp [List.find?_cons, hy]
      · have hgx : ¬ g.id = x := fun h => hx (h ▸ hy)
        simp [List.find?_cons, hgx, hx]
    · rw [if_neg hy]
      by_cases hx : x = y
      · subst hx
        have hb : (g.id == x) = false := by simpa using hy
        rw [if_pos rfl] at ih ⊢
        rw [List.find?_cons, List.find?_cons]
        simp only [hb]
        exact ih
      · rw [if_neg hx] at ih ⊢
        rw [List.find?_cons, List.find?_cons]
        cases hb : (g.id == x) with
        | true => rfl
        | false => exact ih

theorem output_of_set_output_of (gates : List Gate) (x y v : Int) :
    output_of (set_output_of gates y v) x =
      if x = y then (gates.find? (fun g => g.id == y)).map (fun _ => v)
      else output_of gates x := by
  unfold output_of
  rw [find?_set_output_of]
  by_cases h : x = y
  · rw [if_pos h, if_pos h, Option.map_map]
    rfl
  · rw [if_neg h, if_neg h]

theorem isSome_find?_set_output_of (gates : List Gate) (x y v : Int) :
    ((set_output_of gates y v).find? (fun g => g.id == x)).isSome =
      (gates.find? (fun g => g.id == x)).isSome := by
  rw [find?_set_output_of]
  by_cases h : x = y
  · subst h
    simp
  · simp [h]

/-- The forcing loop after `k` turns. -/
theorem force_steps (ids : List Int) (value : Nat → Int) (gates : List Gate)
    (hn : ids.Nodup) (hp : ∀ id ∈ ids, (gates.find? (fun g => g.id == id)).isSome = true) :
    ∀ k, k ≤ ids.length →
      (∀ x, (((List.range k).foldl
          (fun (gs : List Gate) (i : Nat) => set_output_of gs (ids.getD i 0) (value i))
          gates).find? (fun g => g.id == x)).isSome =
        (gates.find? (fun g => g.id == x)).isSome) ∧
      ∀ i, i < k →
        output_of ((List.range k).foldl
          (fun (gs : List Gate) (i : Nat) => set_output_of gs (ids.getD i 0) (value i))
          gates) (ids.getD i 0) = some (value i) := by
  intro k
  induction k with
  | zero => intro _; exact ⟨fun _ => rfl, fun i hi => absurd hi (Nat.not_lt_zero i)⟩
  | succ k ih =>
    intro hk
    obtain ⟨hs, hv⟩ := ih (by omega)
    rw [List.range_succ, List.foldl_append]
    simp only [List.foldl_cons, List.foldl_nil]
    constructor
    · intro x
      rw [isSome_find?_set_output_of, hs]
    · intro i hi
      rw [output_of_set_output_of]
      by_cases hik : i = k
      · subst hik
        rw [if_pos rfl]
        have hmem : ids.getD i 0 ∈ ids := by
          rw [List.getD_eq_getElem _ _ (by omega)]
          exact List.getElem_mem _
        have := hp _ hmem
        rw [← hs] at this
        obtain ⟨g, hg⟩ := Option.isSome_iff_exists.mp this
        rw [hg]
        rfl
      · have hne : ids.getD i 0 ≠ ids.getD k 0 := by
          rw [List.getD_eq_getElem _ _ (by omega), List.getD_eq_getElem _ _ (by omega)]
          intro e
          exact hik ((List.Nodup.getElem_inj_iff hn).mp e)
        rw [if_neg hne]
        exact hv i (by omega)

theorem force_row_forced (c : Circuit) (comb : Int) (hn : c.input_gates.Nodup)
    (hp : ∀ id ∈ c.input_gates, ∃ g ∈ c.gates, g.id = id) (i : Nat)
    (hi : i < c.input_gates.length) :
    output_of (force_row c comb) (c.input_gates.getD i 0) =
      some (input_bit c.input_count comb i) := by
  unfold force_row
  have hp1 : ∀ id ∈ c.input_gates, (c.gates.find? (fun g => g.id == id)).isSome = true := by
    intro id hid
    rw [List.find?_isSome]
    obtain ⟨g, hg, e⟩ := hp id hid
    exact ⟨g, hg, by simpa using e⟩
  exact (force_steps c.input_gates (fun i => input_bit c.input_count comb i) c.gates hn hp1
    c.input_gates.length (Nat.le_refl _)).2 i hi

end Deepseek

/-! ## truth_table.c: the temporary array -/

theorem simulate_circuit_with_inputs_eq (gates : List LogicGate) (wires : List Wire)
    (input_values : List Int) :
    simulate_circuit_with_inputs gates wires input_values =
      match propagate_signals (forced_gates gates input_values) wires with
      | none => none
      | some r =>
        some ((find_output_gates r.gates).map (fun idx =>
          match r.gates[idx]? with
          | some g => g.output_value
          | none => 0)) := rfl

theorem simulate_circuit_with_inputs_returns (gates : List LogicGate) (wires : List Wire)
    (input_values : List Int) :
    ∃ outs, simulate_circuit_with_inputs gates wires input_values = some outs := by
  rw [simulate_circuit_with_inputs_eq]
  obtain ⟨r, hr, _⟩ := propagate_signals_fuel_enough (forced_gates gates input_values) wires
  rw [hr]
  exact ⟨_, rfl⟩

theorem find_input_gates_from_copy : ∀ (gates : List LogicGate) (start : Nat),
    find_input_gates_from (gates.map copy_gate) start = find_input_gates_from gates start := by
  intro gates
  induction gates with
  | nil => intro _; rfl
  | cons g rest ih =>
    intro start
    simp only [List.map_cons, find_input_gates_from]
    rw [ih]
    rfl

theorem find_input_gates_from_mem : ∀ (gates : List LogicGate) (start k : Nat),
    k ∈ find_input_gates_from gates start → start ≤ k ∧ k < start + gates.length := by
  intro gates
  induction gates with
  | nil => intro start k h; simp [find_input_gates_from] at h
  | cons g rest ih =>
    intro start k h
    simp only [find_input_gates_from] at h
    split_ifs at h
    · rcases List.mem_cons.mp h with h | h
      · subst h; simp
      · have := ih _ _ h
        simp only [List.length_cons]
        omega
    · have := ih _ _ h
      simp only [List.length_cons]
      omega

theorem find_input_gates_from_nodup : ∀ (gates : List LogicGate) (start : Nat),
    (find_input_gates_from gates start).Nodup := by
  intro gates
  induction gates with
  | nil => intro _; simp [find_input_gates_from]
  | cons g rest ih =>
    intro start
    simp only [find_input_gates_from]
    split_ifs
    · rw [List.nodup_cons]
      refine ⟨?_, ih _⟩
      intro h
      have := find_input_gates_from_mem _ _ _ h
      omega
    · exact ih _

theorem set_output_at_length (gates : List LogicGate) (idx : Nat) (v : Int) :
    (set_output_at gates idx v).length = gates.length := by
  unfold set_output_at
  cases gates[idx]? with
  | none => rfl
  | some g => simp

theorem set_output_at_getElem? (gates : List LogicGate) (idx j : Nat) (v : Int) :
    (set_output_at gates idx v)[j]? =
      if j = idx then gates[idx]?.map (fun g => { g with output_value := v }) else gates[j]? := by
  unfold set_output_at
  cases h : gates[idx]? with
  | none =>
    by_cases hj : j = idx
    · subst hj; simp [h]
    · simp [hj]
  | some g =>
    simp only []
    by_cases hj : j = idx
    · subst hj
      obtain ⟨hi, _⟩ := List.getElem?_eq_some.mp h
      rw [List.getElem?_set_self hi]
      simp
    · rw [List.getElem?_set_ne (fun e => hj e.symm), if_neg hj]

theorem force_inputs_steps (indices : List Nat) (input_values : List Int)
    (gates : List LogicGate) (hn : indices.Nodup) (hb : ∀ k ∈ indices, k < gates.length) :
    ∀ k, k ≤ indices.length →
      ((List.range k).foldl
        (fun (gs : List LogicGate) (i : Nat) =>
          set_output_at gs (indices.getD i 0) (arr_get input_values (i : Int)))
        gates).length = gates.length ∧
      ∀ i, i < k →
        (((List.range k).foldl
          (fun (gs : List LogicGate) (i : Nat) =>
            set_output_at gs (indices.getD i 0) (arr_get input_values (i : Int)))
          gates)[indices.getD i 0]?).map (fun g => g.output_value) =
          some (arr_get input_values (i : Int)) := by
  intro k
  induction k with
  | zero => intro _; exact ⟨rfl, fun i hi => absurd hi (Nat.not_lt_zero i)⟩
  | succ k ih =>
    intro hk
    obtain ⟨hl, hv⟩ := ih (by omega)
    rw [List.range_succ, List.foldl_append]
    simp only [List.foldl_cons, List.foldl_nil]
    constructor
    · rw [set_output_at_length, hl]
    · intro i hi
      rw [set_output_at_getElem?]
      by_cases hik : i = k
      · subst hik
        rw [if_pos rfl]
        have hmem : indices.getD i 0 ∈ indices := by
          rw [List.getD_eq_getElem _ _ (by omega)]
          exact List.getElem_mem _
        have hlt := hb _ hmem
        rw [← hl] at hlt
        rw [List.getElem?_eq_getElem hlt]
        rfl
      · have hne : indices.getD i 0 ≠ indices.getD k 0 := by
          rw [List.getD_eq_getElem _ _ (by omega), List.getD_eq_getElem _ _ (by omega)]
          intro e
          exact hik ((List.Nodup.getElem_inj_iff hn).mp e)
        rw [if_neg hne]
        exact hv i (by omega)

theorem forced_gates_length (gates : List LogicGate) (input_values : List Int) :
    (forced_gates gates input_values).length = gates.length := by
  unfold forced_gates force_inputs
  have hb : ∀ k ∈ find_input_gates (gates.map copy_gate), k < (gates.map copy_gate).length := by
    intro k hk
    have := find_input_gates_from_mem _ _ _ hk
    omega
  have := (force_inputs_steps (find_input_gates (gates.map copy_gate)) input_values _
    (find_input_gates_from_nodup _ 0) hb _ (Nat.le_refl _)).1
  rw [this]
  simp

theorem forced_gates_forced (gates : List LogicGate) (input_values : List Int) (i : Nat)
    (hi : i < (find_input_gates gates).length) :
    ((forced_gates gates input_values)[(find_input_gates gates).getD i 0]?).map
      (fun g => g.output_value) = some (arr_get input_values (i : Int)) := by
  unfold forced_gates force_inputs
  have he : find_input_gates (gates.map copy_gate) = find_input_gates gates :=
    find_input_gates_from_copy gates 0
  rw [he]
  have hb : ∀ k ∈ find_input_gates gates, k < (gates.map copy_gate).length := by
    intro k hk
    have := find_input_gates_from_mem _ _ _ hk
    simp only [List.length_map]
    omega
  exact (force_inputs_steps (find_input_gates gates) input_values _
    (find_input_gates_from_nodup _ 0) hb _ (Nat.le_refl _)).2 i hi

/-! ## truth_table.c: the rows of the table -/

theorem mapM_option_spec {α β : Type} (f : α → Option β) : ∀ l : List α,
    (∀ x ∈ l, ∃ y, f x = some y) →
    ∃ ys, l.mapM f = some ys ∧ ys.length = l.length ∧
      ∀ (i : Nat) (x : α), l[i]? = some x → ∃ y, ys[i]? = some y ∧ f x = some y := by
  intro l
  induction l with
  | nil => intro _; exact ⟨[], rfl, rfl, fun i x h => by simp at h⟩
  | cons a rest ih =>
    intro h
    obtain ⟨y, hy⟩ := h a (List.mem_cons_self _ _)
    obtain ⟨ys, hys, hl, hi⟩ := ih (fun x hx => h x (List.mem_cons_of_mem _ hx))
    refine ⟨y :: ys, ?_, by simp [hl], ?_⟩
    · rw [List.mapM_cons, hy, hys]
      rfl
    · intro i x hx
      cases i with
      | zero =>
        simp at hx
        subst hx
        exact ⟨y, by simp, hy⟩
      | succ i =>
        simp at hx
        obtain ⟨y1, h1, h2⟩ := hi i x hx
        exact ⟨y1, by simpa using h1, h2⟩

theorem arr_get_range (l : List Int) :
    (List.range l.length).map (fun (col : Nat) => arr_get l (col : Int)) = l := by
  apply List.ext_getElem
  · simp
  · intro i h1 h2
    simp only [List.getElem_map, List.getElem_range, arr_get]
    rw [if_pos (by omega), Int.toNat_ofNat, List.getD_eq_getElem _ _ h2]

theorem table_row_spec (gates : List LogicGate) (n : Nat) (num_outputs : Int) (r : Nat) :
    ∃ outs, table_row gates (n : Int) num_outputs (r : Int) = some (binary_digits n r, outs) := by
  unfold table_row
  obtain ⟨o, ho⟩ := simulate_circuit_with_inputs_returns gates [] (row_inputs (n : Int) (r : Int))
  simp only [ho]
  refine ⟨(List.range num_outputs.toNat).map (fun (col : Nat) => arr_get o (col : Int)), ?_⟩
  rw [row_inputs_eq]
  have h := arr_get_range (binary_digits n r)
  rw [binary_digits_length] at h
  rw [Int.toNat_ofNat, h]

theorem table_row_returns (gates : List LogicGate) (num_inputs num_outputs row : Int) :
    ∃ y, table_row gates num_inputs num_outputs row = some y := by
  unfold table_row
  obtain ⟨o, ho⟩ := simulate_circuit_with_inputs_returns gates [] (row_inputs num_inputs row)
  simp only [ho]
  exact ⟨_, rfl⟩

theorem draw_truth_table_window_returns (gates : List LogicGate) (num_inputs num_outputs : Int) :
    ∃ rows, draw_truth_table_window gates num_inputs num_outputs = some rows ∧
      rows.length = (shl_one num_inputs).toNat := by
  unfold draw_truth_table_window
  obtain ⟨ys, h, hl, _⟩ := mapM_option_spec
    (fun (row : Nat) => table_row gates num_inputs num_outputs (row : Int))
    (List.range (shl_one num_inputs).toNat)
    (fun x _ => table_row_returns gates num_inputs num_outputs x)
  exact ⟨ys, h, by simpa using hl⟩

theorem draw_truth_table_window_rows (gates : List LogicGate) (n : Nat) (num_outputs : Int)
    (hn : n ≤ 30) :
    ∃ rows, draw_truth_table_window gates (n : Int) num_outputs = some rows ∧
      rows.length = 2 ^ n ∧
      ∀ r, r < 2 ^ n → ∃ outs, rows[r]? = some (binary_digits n r, outs) := by
  unfold draw_truth_table_window
  obtain ⟨ys, h, hl, hi⟩ := mapM_option_spec
    (fun (row : Nat) => table_row gates (n : Int) num_outputs (row : Int))
    (List.range (shl_one (n : Int)).toNat)
    (fun x _ => table_row_returns gates _ _ _)
  have h30 := shl_one_toNat n hn
  refine ⟨ys, h, by rw [hl, List.length_range, h30], ?_⟩
  rw [h30] at hi
  intro r hr
  obtain ⟨y, hy, hf⟩ := hi r r (by simp [hr])
  obtain ⟨outs, ho⟩ := table_row_spec gates n num_outputs r
  rw [ho] at hf
  exact ⟨outs, by rw [hy, ← Option.some.inj hf]⟩

theorem shl_one_overflow (n : Int) (h1 : 31 ≤ n) (h2 : n ≤ 42) : shl_one n ≤ 0 := by
  interval_cases n <;> decide

theorem draw_truth_table_window_none (gates : List LogicGate) (num_inputs num_outputs : Int)
    (h : shl_one num_inputs ≤ 0) :
    draw_truth_table_window gates num_inputs num_outputs = some [] := by
  unfold draw_truth_table_window
  have : (shl_one num_inputs).toNat = 0 := by omega
  simp only [this]
  rfl

theorem find_input_gates_from_length : ∀ (gates : List LogicGate) (start : Nat),
    (find_input_gates_from gates start).length =
      (gates.filter (fun g => !g.in_palette && g.gate_type == 6)).length := by
  intro gates
  induction gates with
  | nil => intro _; rfl
  | cons g rest ih =>
    intro start
    simp only [find_input_gates_from, List.filter_cons]
    split_ifs
    · simp [ih]
    · exact ih _

theorem find_output_gates_from_length : ∀ (gates : List LogicGate) (start : Nat),
    (find_output_gates_from gates start).length =
      (gates.filter (fun g => !g.in_palette && g.gate_type == 7)).length := by
  intro gates
  induction gates with
  | nil => intro _; rfl
  | cons g rest ih =>
    intro start
    simp only [find_output_gates_from, List.filter_cons]
    split_ifs
    · simp [ih]
    · exact ih _

theorem propagate_signals_length (gates : List LogicGate) (wires : List Wire) (r : Propagated)
    (h : propagate_signals gates wires = some r) : r.gates.length = gates.length := by
  have := congrArg List.length (propagate_signals_map_frame gates wires r h)
  simpa using this


namespace Deepseek

/-! ## deepseek.c: more fuel does not change a result; feedback never returns -/

theorem evaluate_gate_mono : ∀ (fuel : Nat) (gates : List Gate) (gate_id : Int)
    (r : List Gate × Int), evaluate_gate fuel gates gate_id = some r →
    evaluate_gate (fuel + 1) gates gate_id = some r := by
  intro fuel
  induction fuel with
  | zero => intro gates gate_id r h; simp [evaluate_gate] at h
  | succ fuel ih =>
    intro gates gate_id r h
    rw [evaluate_gate] at h
    rw [evaluate_gate]
    cases hi : gates.findIdx? (fun g => g.id == gate_id) with
    | none => simpa only [hi] using h
    | some index =>
      simp only [hi] at h ⊢
      cases hg : gates[index]? with
      | none => simpa only [hg] using h
      | some gate =>
        simp only [hg] at h ⊢
        by_cases hm : gate.output ≠ 0 ∨ gate.type = GateType.GATE_INPUT
        · rw [if_pos hm] at h ⊢
          exact h
        · rw [if_neg hm] at h ⊢
          cases h1 : (if gate.input1 ≠ -1 then evaluate_gate fuel gates gate.input1
              else some (gates, 0)) with
          | none => rw [h1] at h; simp at h
          | some r1 =>
            have h1' : (if gate.input1 ≠ -1 then evaluate_gate (fuel + 1) gates gate.input1
                else some (gates, 0)) = some r1 := by
              by_cases c : gate.input1 ≠ -1
              · rw [if_pos c] at h1 ⊢
                exact ih _ _ _ h1
              · rw [if_neg c] at h1 ⊢
                exact h1
            rw [h1] at h
            rw [h1']
            obtain ⟨ga, x⟩ := r1
            simp only [] at h ⊢
            cases h2 : (if gate.input2 ≠ -1 then evaluate_gate fuel ga gate.input2
                else some (ga, 0)) with
            | none => rw [h2] at h; simp at h
            | some r2 =>
              have h2' : (if gate.input2 ≠ -1 then evaluate_gate (fuel + 1) ga gate.input2
                  else some (ga, 0)) = some r2 := by
                by_cases c : gate.input2 ≠ -1
                · rw [if_pos c] at h2 ⊢
                  exact ih _ _ _ h2
                · rw [if_neg c] at h2 ⊢
                  exact h2
              rw [h2] at h
              rw [h2']
              exact h

theorem evaluate_gate_mono_le (fuel fuel1 : Nat) (hle : fuel ≤ fuel1) (gates : List Gate)
    (gate_id : Int) (r : List Gate × Int) (h : evaluate_gate fuel gates gate_id = some r) :
    evaluate_gate fuel1 gates gate_id = some r := by
  induction fuel1 with
  | zero =>
    have : fuel = 0 := by omega
    rw [this] at h
    exact h
  | succ k ih =>
    by_cases e : fuel = k + 1
    · rw [← e]; exact h
    · exact evaluate_gate_mono k gates gate_id r (ih (by omega))

theorem evaluate_all_mono (fuel fuel1 : Nat) (hle : fuel ≤ fuel1) :
    ∀ (todo i : Nat) (gates gates1 : List Gate),
    evaluate_all fuel todo i gates = some gates1 →
    evaluate_all fuel1 todo i gates = some gates1 := by
  intro todo
  induction todo with
  | zero => intro i gates gates1 h; exact h
  | succ todo ih =>
    intro i gates gates1 h
    rw [evaluate_all] at h ⊢
    cases hg : gates[i]? with
    | none => simpa only [hg] using h
    | some g =>
      simp only [hg] at h ⊢
      cases he : evaluate_gate fuel gates g.id with
      | none => rw [he] at h; simp at h
      | some r =>
        rw [he] at h
        rw [evaluate_gate_mono_le fuel fuel1 hle gates g.id r he]
        obtain ⟨ga, x⟩ := r
        simp only [] at h ⊢
        exact ih _ _ _ h

theorem evaluate_circuit_mono (fuel fuel1 : Nat) (hle : fuel ≤ fuel1) (gates gates1 : List Gate)
    (h : evaluate_circuit fuel gates = some gates1) :
    evaluate_circuit fuel1 gates = some gates1 :=
  evaluate_all_mono fuel fuel1 hle _ _ _ _ h

theorem table_rows_mono (fuel fuel1 : Nat) (hle : fuel ≤ fuel1) (c : Circuit) :
    ∀ (combs : List Nat) (gates : List Gate) (r : List Gate × List (List Int × List Int)),
    table_rows fuel c combs gates = some r → table_rows fuel1 c combs gates = some r := by
  intro combs
  induction combs with
  | nil => intro gates r h; exact h
  | cons comb rest ih =>
    intro gates r h
    rw [table_rows] at h ⊢
    cases he : evaluate_circuit fuel (force_row { c with gates := gates } (comb : Int)) with
    | none => rw [he] at h; simp at h
    | some gates1 =>
      rw [he] at h
      rw [evaluate_circuit_mono fuel fuel1 hle _ _ he]
      simp only [] at h ⊢
      cases ht : table_rows fuel c rest gates1 with
      | none => rw [ht] at h; simp at h
      | some r1 =>
        rw [ht] at h
        rw [ih _ _ ht]
        exact h

theorem generate_truth_table_mono (fuel fuel1 : Nat) (hle : fuel ≤ fuel1) (s : State)
    (r : State × Printed) (h : generate_truth_table fuel s = some r) :
    generate_truth_table fuel1 s = some r := by
  unfold generate_truth_table at h ⊢
  simp only [] at h ⊢
  by_cases c1 : s.current_circuit.input_count = 0
  · rw [if_pos c1] at h ⊢
    exact h
  · rw [if_neg c1] at h ⊢
    by_cases c2 : s.current_circuit.output_count = 0
    · rw [if_pos c2] at h ⊢
      exact h
    · rw [if_neg c2] at h ⊢
      cases ht : table_rows fuel s.current_circuit
          (List.range (shl_one s.current_circuit.input_count).toNat)
          s.current_circuit.gates with
      | none => rw [ht] at h; simp at h
      | some r1 =>
        rw [ht] at h
        rw [table_rows_mono fuel fuel1 hle _ _ _ _ ht]
        exact h

theorem evaluate_gate_feedback : ∀ (fuel : Nat) (gates : List Gate) (gate_id : Int)
    (index : Nat) (gate : Gate),
    gates.findIdx? (fun g => g.id == gate_id) = some index → gates[index]? = some gate →
    gate.output = 0 → gate.type ≠ GateType.GATE_INPUT → gate.input1 = gate_id →
    gate_id ≠ -1 → evaluate_gate fuel gates gate_id = none := by
  intro fuel
  induction fuel with
  | zero => intro gates gate_id index gate _ _ _ _ _ _; rfl
  | succ fuel ih =>
    intro gates gate_id index gate hi hg ho ht h1 hne
    rw [evaluate_gate]
    simp only [hi, hg]
    have hm : ¬ (gate.output ≠ 0 ∨ gate.type = GateType.GATE_INPUT) := by
      intro h
      rcases h with h | h
      · exact h ho
      · exact ht h
    rw [if_neg hm, if_pos (by rw [h1]; exact hne), h1,
      ih gates gate_id index gate hi hg ho ht h1 hne]

theorem generate_truth_table_spec (rank : Int → Nat) (fuel : Nat) (s : State)
    (hr : ranked rank s.current_circuit.gates)
    (hb : ∀ g ∈ s.current_circuit.gates, rank g.id < fuel)
    (hi : s.current_circuit.input_count ≠ 0) (ho : s.current_circuit.output_count ≠ 0) :
    ∃ gates1 rows,
      generate_truth_table fuel s =
        some ({ s with current_circuit := { s.current_circuit with gates := gates1 } },
          Printed.table rows) ∧
      gates1.map skeleton = s.current_circuit.gates.map skeleton ∧
      rows.map (fun row => row.1) =
        (List.range (shl_one s.current_circuit.input_count).toNat).map (fun (comb : Nat) =>
          (List.range s.current_circuit.input_gates.length).map
            (fun (i : Nat) => input_bit s.current_circuit.input_count (comb : Int) i)) := by
  obtain ⟨gates2, rows, h, hs, hrows⟩ := table_rows_spec rank fuel s.current_circuit
    (List.range (shl_one s.current_circuit.input_count).toNat) s.current_circuit.gates hr hb
  refine ⟨gates2, rows, ?_, hs, hrows⟩
  unfold generate_truth_table
  simp only []
  rw [if_neg hi, if_neg ho, h]

theorem evaluate_all_skeleton (fuel : Nat) : ∀ (todo i : Nat) (gates gates1 : List Gate),
    evaluate_all fuel todo i gates = some gates1 →
    gates1.map skeleton = gates.map skeleton := by
  intro todo
  induction todo with
  | zero =>
    intro i gates gates1 h
    rw [evaluate_all] at h
    rw [← Option.some.inj h]
  | succ todo ih =>
    intro i gates gates1 h
    rw [evaluate_all] at h
    cases hg : gates[i]? with
    | none =>
      simp only [hg] at h
      rw [← Option.some.inj h]
    | some g =>
      simp only [hg] at h
      cases he : evaluate_gate fuel gates g.id with
      | none => rw [he] at h; simp at h
      | some r =>
        obtain ⟨ga, x⟩ := r
        rw [he] at h
        simp only [] at h
        exact (ih _ _ _ h).trans (evaluate_gate_skeleton _ _ _ _ _ he)

theorem evaluate_circuit_skeleton (fuel : Nat) (gates gates1 : List Gate)
    (h : evaluate_circuit fuel gates = some gates1) :
    gates1.map skeleton = gates.map skeleton :=
  (evaluate_all_skeleton fuel _ _ _ _ h).trans (reset_outputs_skeleton gates)

theorem table_rows_skeleton (fuel : Nat) (c : Circuit) :
    ∀ (combs : List Nat) (gates gates2 : List Gate) (rows : List (List Int × List Int)),
    table_rows fuel c combs gates = some (gates2, rows) →
    gates2.map skeleton = gates.map skeleton := by
  intro combs
  induction combs with
  | nil =>
    intro gates gates2 rows h
    rw [table_rows] at h
    rw [← (Prod.mk.inj (Option.some.inj h)).1]
  | cons comb rest ih =>
    intro gates gates2 rows h
    rw [table_rows] at h
    cases he : evaluate_circuit fuel (force_row { c with gates := gates } (comb : Int)) with
    | none => rw [he] at h; simp at h
    | some gates1 =>
      rw [he] at h
      simp only [] at h
      cases ht : table_rows fuel c rest gates1 with
      | none => rw [ht] at h; simp at h
      | some r1 =>
        obtain ⟨gb, rows1⟩ := r1
        rw [ht] at h
        simp only [] at h
        have e := (Prod.mk.inj (Option.some.inj h)).1
        rw [← e]
        exact (ih _ _ _ ht).trans
          ((evaluate_circuit_skeleton _ _ _ he).trans
            (force_row_skeleton { c with gates := gates } (comb : Int)))

theorem generate_truth_table_frame (fuel : Nat) (s st : State) (p : Printed)
    (h : generate_truth_table fuel s = some (st, p)) :
    ∃ gates1, st = { s with current_circuit := { s.current_circuit with gates := gates1 } } ∧
      gates1.map skeleton = s.current_circuit.gates.map skeleton := by
  unfold generate_truth_table at h
  simp only [] at h
  by_cases c1 : s.current_circuit.input_count = 0
  · rw [if_pos c1] at h
    exact ⟨s.current_circuit.gates, (Prod.mk.inj (Option.some.inj h)).1.symm, rfl⟩
  · rw [if_neg c1] at h
    by_cases c2 : s.current_circuit.output_count = 0
    · rw [if_pos c2] at h
      exact ⟨s.current_circuit.gates, (Prod.mk.inj (Option.some.inj h)).1.symm, rfl⟩
    · rw [if_neg c2] at h
      cases ht : table_rows fuel s.current_circuit
          (List.range (shl_one s.current_circuit.input_count).toNat)
          s.current_circuit.gates with
      | none => rw [ht] at h; simp at h
      | some r1 =>
        obtain ⟨gb, rows1⟩ := r1
        rw [ht] at h
        simp only [] at h
        exact ⟨gb, (Prod.mk.inj (Option.some.inj h)).1.symm, table_rows_skeleton _ _ _ _ _ _ ht⟩

end Deepseek

/-! ## Concrete runs used by the claims -/

theorem arr_get_binary_digits (n r i : Nat) (hi : i < n) :
    arr_get (binary_digits n r) (i : Int) = ((r / 2 ^ (n - 1 - i) % 2 : Nat) : Int) := by
  unfold arr_get
  rw [if_pos (by omega), Int.toNat_ofNat, List.getD_eq_getElem _ _ (by simp [binary_digits, hi])]
  simp [binary_digits]

theorem demo_truth_table_run :
    (Deepseek.generate_truth_table 3 Deepseek.demo_state).map
      (fun r => (r.1.current_circuit.gates.map (fun g => (g.id, g.output)), r.2)) =
    some ([(1, 1), (2, 1), (3, 1), (4, 1)],
      Deepseek.Printed.table [([0, 0], [0]), ([0, 1], [0]), ([1, 0], [0]), ([1, 1], [1])]) := by
  decide

theorem loop_state_evaluate (fuel : Nat) :
    Deepseek.evaluate_circuit fuel Deepseek.loop_state.current_circuit.gates = none := by
  have hreset : Deepseek.reset_outputs Deepseek.loop_state.current_circuit.gates =
      Deepseek.loop_state.current_circuit.gates := by decide
  have hlen : Deepseek.loop_state.current_circuit.gates.length = 3 := by decide
  unfold Deepseek.evaluate_circuit
  rw [hreset, hlen, Deepseek.evaluate_all]
  have hfb : Deepseek.evaluate_gate fuel Deepseek.loop_state.current_circuit.gates 2 = none :=
    Deepseek.evaluate_gate_feedback fuel _ 2 1
      { id := 2, type := Deepseek.GateType.GATE_NOT, x := 30, y := 5, input1 := 2,
        input2 := -1, output := 0, label := "NOT" }
      (by decide) (by decide) rfl (by decide) rfl (by decide)
  cases fuel with
  | zero => rfl
  | succ fuel =>
    have h1 : Deepseek.evaluate_gate (fuel + 1) Deepseek.loop_state.current_circuit.gates 1 =
        some (Deepseek.loop_state.current_circuit.gates, 0) := by
      rw [Deepseek.evaluate_gate]
      rfl
    have hg0 : Deepseek.loop_state.current_circuit.gates[0]? =
        some { id := 1, type := Deepseek.GateType.GATE_INPUT, x := 10, y := 5, input1 := -1,
               input2 := -1, output := 0, label := "IN" } := by decide
    have hg1 : Deepseek.loop_state.current_circuit.gates[0 + 1]? =
        some { id := 2, type := Deepseek.GateType.GATE_NOT, x := 30, y := 5, input1 := 2,
               input2 := -1, output := 0, label := "NOT" } := by decide
    simp only [hg0, h1]
    rw [Deepseek.evaluate_all]
    simp only [hg1, hfb]

theorem loop_state_no_table (fuel : Nat) :
    Deepseek.generate_truth_table fuel Deepseek.loop_state = none := by
  have hforce : Deepseek.force_row
      { Deepseek.loop_state.current_circuit with
          gates := Deepseek.loop_state.current_circuit.gates } ((0 : Nat) : Int) =
      Deepseek.loop_state.current_circuit.gates := by decide
  have hrows : (shl_one Deepseek.loop_state.current_circuit.input_count).toNat = 2 := by decide
  have hi : ¬ Deepseek.loop_state.current_circuit.input_count = 0 := by decide
  have ho : ¬ Deepseek.loop_state.current_circuit.output_count = 0 := by decide
  unfold Deepseek.generate_truth_table
  simp only []
  rw [if_neg hi, if_neg ho, hrows]
  have hr : List.range 2 = [0, 1] := rfl
  rw [hr, Deepseek.table_rows, hforce, loop_state_evaluate]

namespace Deepseek

/-! ## deepseek.c: the lists of INPUT and OUTPUT gates -/

theorem ids_of_type_congr (type : GateType) : ∀ (gs1 gs2 : List Gate),
    gs1.map (fun g => (g.id, g.type)) = gs2.map (fun g => (g.id, g.type)) →
    ids_of_type type gs1 = ids_of_type type gs2 := by
  intro gs1
  induction gs1 with
  | nil =>
    intro gs2 h
    cases gs2 with
    | nil => rfl
    | cons b r => simp at h
  | cons a rest ih =>
    intro gs2 h
    cases gs2 with
    | nil => simp at h
    | cons b r =>
      simp only [List.map_cons, List.cons.injEq, Prod.mk.injEq] at h
      obtain ⟨⟨hid, hty⟩, hrest⟩ := h
      have := ih r hrest
      unfold ids_of_type at this ⊢
      simp only [List.filter_cons, hty]
      split_ifs
      · simp [hid, this]
      · exact this

theorem ids_of_type_append (type : GateType) (gs1 gs2 : List Gate) :
    ids_of_type type (gs1 ++ gs2) = ids_of_type type gs1 ++ ids_of_type type gs2 := by
  unfold ids_of_type
  rw [List.filter_append, List.map_append]

theorem remove_listed_cons (a : Int) (l : List Int) (x : Int) :
    remove_listed (a :: l) x = if a = x then l else a :: remove_listed l x := by
  unfold remove_listed
  by_cases h : a = x
  · simp [List.findIdx?_cons, h]
  · rw [if_neg h]
    simp only [List.findIdx?_cons, beq_iff_eq, h, Bool.false_eq_true, if_false]
    rw [List.findIdx?_succ]
    cases List.findIdx? (fun y => y == x) l with
    | none => rfl
    | some j => rfl

theorem ids_of_type_eraseIdx (type : GateType) (gate_id : Int) :
    ∀ (gs : List Gate) (i : Nat) (g : Gate),
    gs.findIdx? (fun g => g.id == gate_id) = some i → gs[i]? = some g →
    ids_of_type type (gs.eraseIdx i) =
      if g.type = type then remove_listed (ids_of_type type gs) gate_id
      else ids_of_type type gs := by
  intro gs
  induction gs with
  | nil => intro i g h; simp at h
  | cons a rest ih =>
    intro i g hi hg
    by_cases ha : a.id = gate_id
    · simp [List.findIdx?_cons, ha] at hi
      subst hi
      simp at hg
      subst hg
      simp only [List.eraseIdx_cons_zero]
      by_cases ht : a.type = type
      · rw [if_pos ht]
        unfold ids_of_type
        simp only [List.filter_cons, ht, decide_True, if_true, List.map_cons]
        rw [remove_listed_cons, if_pos ha]
      · rw [if_neg ht]
        unfold ids_of_type
        simp [List.filter_cons, ht]
    · simp [List.findIdx?_cons, ha, List.findIdx?_succ] at hi
      obtain ⟨j, hj, rfl⟩ := hi
      simp at hg
      have := ih j g hj hg
      simp only [List.eraseIdx_cons_succ]
      unfold ids_of_type at this ⊢
      simp only [List.filter_cons]
      by_cases hat : a.type = type
      · simp only [hat, decide_True, if_true, List.map_cons]
        rw [this]
        by_cases ht : g.type = type
        · rw [if_pos ht, if_pos ht, remove_listed_cons, if_neg ha]
        · rw [if_neg ht, if_neg ht]
      · simp only [hat, decide_False, Bool.false_eq_true, if_false]
        exact this

theorem add_gate_lists_match (s : State) (type : GateType) (x y : Int)
    (h : lists_match s.current_circuit) :
    lists_match (add_gate s type x y).state.current_circuit := by
  unfold add_gate
  by_cases hc : s.current_circuit.gate_count ≥ MAX_GATES
  · rw [if_pos hc]
    exact h
  · rw [if_neg hc]
    obtain ⟨h1, h2⟩ := h
    cases type <;>
      (constructor
       · show _ = ids_of_type _ (s.current_circuit.gates ++ _)
         rw [ids_of_type_append, ← h1]
         simp [ids_of_type, save_action]
       · show _ = ids_of_type _ (s.current_circuit.gates ++ _)
         rw [ids_of_type_append, ← h2]
         simp [ids_of_type, save_action])

theorem add_wire_lists_match (s : State) (f t p : Int) (h : lists_match s.current_circuit) :
    lists_match (add_wire s f t p).state.current_circuit := by
  rcases add_wire_cases s f t p with ⟨_, _, hs⟩ | ⟨_, _, _, _, _, heq⟩
  · rw [hs]
    exact h
  · rw [heq]
    obtain ⟨h1, h2⟩ := h
    constructor
    · show s.current_circuit.input_gates = ids_of_type _ (set_connection _ _ _ _)
      rw [ids_of_type_congr _ _ _ (set_connection_kinds _ _ _ _)]
      exact h1
    · show s.current_circuit.output_gates = ids_of_type _ (set_connection _ _ _ _)
      rw [ids_of_type_congr _ _ _ (set_connection_kinds _ _ _ _)]
      exact h2

theorem delete_wire_lists_match (s : State) (wire_id : Int)
    (h : lists_match s.current_circuit) :
    lists_match (delete_wire s wire_id).state.current_circuit := by
  rcases delete_wire_cases s wire_id with ⟨_, he⟩ | ⟨i, w, hi, hw, _, _, _⟩
  · rw [he]
    exact h
  · rw [delete_wire_found s wire_id i w hi hw]
    obtain ⟨h1, h2⟩ := h
    constructor
    · show s.current_circuit.input_gates = ids_of_type _ (set_connection _ _ _ _)
      rw [ids_of_type_congr _ _ _ (set_connection_kinds _ _ _ _)]
      exact h1
    · show s.current_circuit.output_gates = ids_of_type _ (set_connection _ _ _ _)
      rw [ids_of_type_congr _ _ _ (set_connection_kinds _ _ _ _)]
      exact h2

theorem delete_gate_lists_match (s : State) (gate_id : Int) (o : Outcome)
    (ho : delete_gate s gate_id = some o) (h : lists_match s.current_circuit) :
    lists_match o.state.current_circuit := by
  by_cases hex : ∃ g ∈ s.current_circuit.gates, g.id = gate_id
  · obtain ⟨g0, hg0, hid0⟩ := hex
    have hsome : (s.current_circuit.gates.findIdx? (fun g => g.id == gate_id)).isSome = true := by
      rw [List.findIdx?_isSome, List.any_eq_true]
      exact ⟨g0, hg0, by simpa using hid0⟩
    obtain ⟨i, hi⟩ := Option.isSome_iff_exists.mp hsome
    obtain ⟨hil, _, _⟩ := List.findIdx?_eq_some_iff_getElem.mp hi
    have hg : s.current_circuit.gates[i]? = some s.current_circuit.gates[i] :=
      List.getElem?_eq_getElem hil
    obtain ⟨c1, hw, hgs, hin, hout, hd⟩ :=
      delete_gate_fuel_found s.current_circuit.wires.length s gate_id i _ hi hg
    obtain ⟨s1, h1, _, hkinds, hin1, hout1, _, _, _⟩ :=
      delete_gate_wires_spec gate_id s.current_circuit.wires.length 0
        { s with current_circuit := c1 } (by simp [hw])
    unfold delete_gate at ho
    rw [hd, h1] at ho
    simp only [Option.some.injEq] at ho
    rw [← ho]
    obtain ⟨ha, hb⟩ := h
    constructor
    · show s1.current_circuit.input_gates = ids_of_type _ s1.current_circuit.gates
      rw [hin1, ids_of_type_congr _ _ _ hkinds]
      show c1.input_gates = ids_of_type _ c1.gates
      rw [hin, hgs, ids_of_type_eraseIdx _ gate_id _ i _ hi hg, ← ha]
    · show s1.current_circuit.output_gates = ids_of_type _ s1.current_circuit.gates
      rw [hout1, ids_of_type_congr _ _ _ hkinds]
      show c1.output_gates = ids_of_type _ c1.gates
      rw [hout, hgs, ids_of_type_eraseIdx _ gate_id _ i _ hi hg, ← hb]
  · have hall : ∀ g ∈ s.current_circuit.gates, g.id ≠ gate_id := by
      intro g hg hid
      exact hex ⟨g, hg, hid⟩
    rw [delete_gate_missing s gate_id hall] at ho
    rw [← Option.some.inj ho]
    exact h

theorem run_lists_match : ∀ (ops : List Op) (s s1 : State), lists_match s.current_circuit →
    run s ops = some s1 → lists_match s1.current_circuit := by
  intro ops
  induction ops with
  | nil =>
    intro s s1 h hr
    rw [run] at hr
    rw [← Option.some.inj hr]
    exact h
  | cons op rest ih =>
    intro s s1 h hr
    rw [run] at hr
    cases ha : apply_op s op with
    | none => rw [ha] at hr; simp at hr
    | some s2 =>
      rw [ha] at hr
      simp only [] at hr
      refine ih s2 s1 ?_ hr
      cases op with
      | add_gate type x y =>
        rw [apply_op] at ha
        rw [← Option.some.inj ha]
        exact add_gate_lists_match s type x y h
      | add_wire f t p =>
        rw [apply_op] at ha
        rw [← Option.some.inj ha]
        exact add_wire_lists_match s f t p h
      | delete_gate gate_id =>
        rw [apply_op] at ha
        cases hd : delete_gate s gate_id with
        | none => rw [hd] at ha; simp at ha
        | some o =>
          rw [hd] at ha
          simp only [Option.map_some', Option.some.injEq] at ha
          rw [← ha]
          exact delete_gate_lists_match s gate_id o hd h
      | delete_wire wire_id =>
        rw [apply_op] at ha
        rw [← Option.some.inj ha]
        exact delete_wire_lists_match s wire_id h

theorem lists_match_counts (c : Circuit) (h : lists_match c) :
    (c.input_count = 0 ↔ ∀ g ∈ c.gates, g.type ≠ GateType.GATE_INPUT) ∧
    (c.output_count = 0 ↔ ∀ g ∈ c.gates, g.type ≠ GateType.GATE_OUTPUT) := by
  obtain ⟨h1, h2⟩ := h
  unfold Circuit.input_count Circuit.output_count
  rw [h1, h2]
  unfold ids_of_type
  constructor
  · simp [List.filter_eq_nil_iff]
  · simp [List.filter_eq_nil_iff]

end Deepseek

/-! ## Claims on the editing operations of deepseek.c -/

/-- C17: every sequence of `add_gate`, `add_wire`, `delete_gate` and `delete_wire` calls
of deepseek.c, started from `initialize_circuit`, runs to its end, and the circuit it
reaches satisfies pin uniqueness: no two entries of the wire array have the same
`to_gate` and the same `to_pin`. -/
theorem reachable_pin_unique (ops : List Deepseek.Op) :
    ∃ s, Deepseek.run Deepseek.initialize_circuit ops = some s ∧
      ∀ (i j : Nat) (w1 w2 : Deepseek.Wire), i < j →
        s.current_circuit.wires[i]? = some w1 → s.current_circuit.wires[j]? = some w2 →
        ¬ (w1.to_gate = w2.to_gate ∧ w1.to_pin = w2.to_pin) := by
  obtain ⟨s, hs, hp⟩ := Deepseek.run_pin_unique ops Deepseek.initialize_circuit
    (by simp [Deepseek.pin_unique, Deepseek.initialize_circuit])
  refine ⟨s, hs, ?_⟩
  intro i j w1 w2 hij h1 h2
  obtain ⟨hi, e1⟩ := List.getElem?_eq_some.mp h1
  obtain ⟨hj, e2⟩ := List.getElem?_eq_some.mp h2
  have := (List.pairwise_iff_getElem.mp hp) i j hi hj hij
  rw [e1, e2] at this
  exact this

/-- C19, counterexample: on the circuit `main` builds (INPUT 1, INPUT 2, AND 3,
OUTPUT 4), `add_wire(3, 4, 2)` attaches a wire to pin 2 of the OUTPUT gate,
`add_wire(3, 1, 1)` attaches one to a pin of an INPUT gate and `add_wire(1, 3, 3)`
attaches one to pin 3 of the AND gate. -/
theorem add_wire_beyond_arity :
    (Deepseek.add_wire Deepseek.demo_state 3 4 2).error = none ∧
    (Deepseek.add_wire Deepseek.demo_state 3 4 2).state.current_circuit.wires =
      Deepseek.demo_state.current_circuit.wires ++
        [{ id := 4, from_gate := 3, to_gate := 4, to_pin := 2 }] ∧
    (Deepseek.add_wire Deepseek.demo_state 3 1 1).error = none ∧
    (Deepseek.add_wire Deepseek.demo_state 3 1 1).state.current_circuit.wires =
      Deepseek.demo_state.current_circuit.wires ++
        [{ id := 4, from_gate := 3, to_gate := 1, to_pin := 1 }] ∧
    (Deepseek.add_wire Deepseek.demo_state 1 3 3).error = none ∧
    (Deepseek.add_wire Deepseek.demo_state 1 3 3).state.current_circuit.wires =
      Deepseek.demo_state.current_circuit.wires ++
        [{ id := 4, from_gate := 1, to_gate := 3, to_pin := 3 }] ∧
    Deepseek.demo_state.current_circuit.gates.map (fun g => (g.id, g.type)) =
      [(1, Deepseek.GateType.GATE_INPUT), (2, Deepseek.GateType.GATE_INPUT),
       (3, Deepseek.GateType.GATE_AND), (4, Deepseek.GateType.GATE_OUTPUT)] := by
  decide

/-- C19, amended: `add_wire` of deepseek.c rejects, with the globals unchanged, every
wire to pin 2 of a NOT gate (every gate with the destination id being a NOT gate), and
the menu of `main` rejects, with the globals unchanged and before `add_wire` is called,
every pin number other than 1 and 2. -/
theorem add_wire_arity_guard (s : Deepseek.State) (from_gate to_gate to_pin : Int) :
    ((to_pin = 2 ∧
        ∀ g ∈ s.current_circuit.gates, g.id = to_gate → g.type = Deepseek.GateType.GATE_NOT) →
      (Deepseek.add_wire s from_gate to_gate to_pin).error ≠ none ∧
      (Deepseek.add_wire s from_gate to_gate to_pin).state = s) ∧
    (¬ (to_pin = 1 ∨ to_pin = 2) →
      (Deepseek.menu_add_wire s from_gate to_gate to_pin).error ≠ none ∧
      (Deepseek.menu_add_wire s from_gate to_gate to_pin).state = s) := by
  constructor
  · rintro ⟨hp, hnot⟩
    rcases Deepseek.add_wire_cases s from_gate to_gate to_pin with
      ⟨_, he, hs⟩ | ⟨_, _, hto, hn, _, _⟩
    · exact ⟨he, hs⟩
    · exfalso
      apply hn
      refine ⟨?_, hp⟩
      rw [Deepseek.scan_gates_type from_gate to_gate Deepseek.GateType.GATE_NOT _ _ _ _ hnot]
      rw [Deepseek.scan_gates_to] at hto
      simp only [Bool.false_or] at hto
      rw [if_pos hto]
  · intro hp
    unfold Deepseek.menu_add_wire
    rw [if_neg hp]
    exact ⟨by simp, rfl⟩


/-- C19, amended, on an instance: with INPUT 1 and NOT 2 in the circuit,
`add_wire(1, 2, 2)` is rejected, and the menu rejects pin 3 of the AND gate of the
circuit `main` builds. -/
theorem add_wire_arity_guard_witness :
    ((Deepseek.add_wire Deepseek.not_state 1 2 2).error ≠ none ∧
      (Deepseek.add_wire Deepseek.not_state 1 2 2).state = Deepseek.not_state) ∧
    ((Deepseek.menu_add_wire Deepseek.demo_state 1 3 3).error ≠ none ∧
      (Deepseek.menu_add_wire Deepseek.demo_state 1 3 3).state = Deepseek.demo_state) :=
  ⟨(add_wire_arity_guard Deepseek.not_state 1 2 2).1 ⟨rfl, by decide⟩,
   (add_wire_arity_guard Deepseek.demo_state 1 3 3).2 (by decide)⟩

/-- C20: whenever `add_gate`, `add_wire`, `delete_gate` or `delete_wire` of deepseek.c
takes an error branch, the globals (`current_circuit`, `next_gate_id`, `next_wire_id`
and the undo and redo stacks) are exactly as before the call; and each condition the
source tests (gate or wire capacity reached, an endpoint gate id not found, pin 2 of a
NOT gate, destination pin already wired, gate id or wire id to delete not found) does
lead to an error branch.  `delete_gate` returns for every argument. -/
theorem error_branch_keeps_state (s : Deepseek.State) :
    (∀ type x y,
      ((Deepseek.add_gate s type x y).error ≠ none ↔
        s.current_circuit.gate_count ≥ Deepseek.MAX_GATES) ∧
      ((Deepseek.add_gate s type x y).error ≠ none → (Deepseek.add_gate s type x y).state = s)) ∧
    (∀ from_gate to_gate to_pin,
      ((s.current_circuit.wire_count ≥ Deepseek.MAX_WIRES ∨
        (∀ g ∈ s.current_circuit.gates, g.id ≠ from_gate) ∨
        (∀ g ∈ s.current_circuit.gates, g.id ≠ to_gate) ∨
        (to_pin = 2 ∧ ∀ g ∈ s.current_circuit.gates, g.id = to_gate →
          g.type = Deepseek.GateType.GATE_NOT) ∨
        (∃ w ∈ s.current_circuit.wires, w.to_gate = to_gate ∧ w.to_pin = to_pin)) →
        (Deepseek.add_wire s from_gate to_gate to_pin).error ≠ none) ∧
      ((Deepseek.add_wire s from_gate to_gate to_pin).error ≠ none →
        (Deepseek.add_wire s from_gate to_gate to_pin).state = s)) ∧
    (∀ wire_id,
      ((Deepseek.delete_wire s wire_id).error ≠ none ↔
        ∀ w ∈ s.current_circuit.wires, w.id ≠ wire_id) ∧
      ((Deepseek.delete_wire s wire_id).error ≠ none →
        (Deepseek.delete_wire s wire_id).state = s)) ∧
    (∀ gate_id, ∃ o, Deepseek.delete_gate s gate_id = some o ∧
      (o.error ≠ none ↔ ∀ g ∈ s.current_circuit.gates, g.id ≠ gate_id) ∧
      (o.error ≠ none → o.state = s)) := by
  refine ⟨fun type x y => Deepseek.add_gate_error s type x y, ?_, ?_, ?_⟩
  · intro f t p
    refine ⟨?_, Deepseek.add_wire_error_state s f t p⟩
    intro h
    rcases Deepseek.add_wire_cases s f t p with ⟨_, he, _⟩ | ⟨hcap, hfrom, hto, hn, hany, _⟩
    · exact he
    · exfalso
      rw [Deepseek.scan_gates_from] at hfrom
      rw [Deepseek.scan_gates_to] at hto
      simp only [Bool.false_or, List.any_eq_true, decide_eq_true_eq] at hfrom hto
      rcases h with h | h | h | h | h
      · exact hcap h
      · obtain ⟨g, hg, hid⟩ := hfrom
        exact h g hg hid
      · obtain ⟨g, hg, hid⟩ := hto
        exact h g hg hid
      · apply hn
        refine ⟨?_, h.1⟩
        rw [Deepseek.scan_gates_type f t Deepseek.GateType.GATE_NOT _ _ _ _ h.2]
        have : s.current_circuit.gates.any (fun g => decide (g.id = t)) = true := by
          simpa using hto
        rw [if_pos this]
      · obtain ⟨w, hw, h1, h2⟩ := h
        have := List.any_eq_false.mp hany w hw
        simp [h1, h2] at this
  · intro wire_id
    refine ⟨?_, Deepseek.delete_wire_error_state s wire_id⟩
    rcases Deepseek.delete_wire_cases s wire_id with ⟨hall, h⟩ | ⟨i, w, _, hw, hid, he, _⟩
    · rw [h]
      simp only [ne_eq, reduceCtorEq, not_false_eq_true, true_iff]
      exact hall
    · constructor
      · intro hne; exact absurd he hne
      · intro hall
        exact absurd hid (hall w (List.getElem?_mem hw))
  · intro gate_id
    obtain ⟨o, ho, hs, hiff, _⟩ := Deepseek.delete_gate_total s gate_id
    exact ⟨o, ho, hiff, hs⟩

/-! ## Claims on deleting gates and adding wires -/

/-- C16: deleting an existing gate G removes G and every wire whose source or
destination is G.  For `delete_gate` of deepseek.c (wire ids distinct) the call returns
without error, the wire array afterwards is the old one without the wires that name G
as `from_gate` or `to_gate`, in the old order, and the first gate with id G is gone from
the gate array; for `delete_component` of testt.c the wire array afterwards is the old
one without the wires that start or end at G, in the old order, and the first component
with id G is gone. -/
theorem cascade_delete (s : Deepseek.State) (app : Testt.AppState) (G : Int)
    (hids : (s.current_circuit.wires.map (fun w => w.id)).Nodup)
    (hgate : ∃ g ∈ s.current_circuit.gates, g.id = G)
    (hcomp : ∃ c ∈ app.components, c.id = G) :
    (∃ o, Deepseek.delete_gate s G = some o ∧ o.error = none ∧
      o.state.current_circuit.wires =
        s.current_circuit.wires.filter (fun w => !(w.from_gate = G || w.to_gate = G)) ∧
      o.state.current_circuit.gates.map (fun g => g.id) =
        (s.current_circuit.gates.map (fun g => g.id)).erase G) ∧
    ((Testt.delete_component app G).wires =
        app.wires.filter
          (fun w => !(w.start.component_id = G || w.end_point.component_id = G)) ∧
      (Testt.delete_component app G).components.map (fun c => c.id) =
        (app.components.map (fun c => c.id)).erase G) := by
  constructor
  · obtain ⟨o, ho, he, _, hg, hw⟩ := Deepseek.delete_gate_present s G hgate
    exact ⟨o, ho, he, hw hids, hg⟩
  · obtain ⟨i, hi, hw, hc⟩ := Testt.delete_component_found app G hcomp
    refine ⟨hw, ?_⟩
    rw [hc]
    exact Testt.component_ids_eraseIdx G _ i hi

/-- C16 on instances: deleting INPUT gate 1 of the circuit `main` of deepseek.c builds
leaves the wires 2 and 3 and the gates 2, 3, 4; deleting toggle 1 of two toggles wired
to an AND component in testt.c leaves the wire from toggle 0 and the components 0, 2. -/
theorem cascade_delete_witness :
    (∃ o, Deepseek.delete_gate Deepseek.demo_state 1 = some o ∧ o.error = none ∧
      o.state.current_circuit.wires =
        [{ id := 2, from_gate := 2, to_gate := 3, to_pin := 2 },
         { id := 3, from_gate := 3, to_gate := 4, to_pin := 1 }] ∧
      o.state.current_circuit.gates.map (fun g => g.id) = [2, 3, 4]) ∧
    ((Testt.delete_component Testt.two_wire_state 1).wires =
        [{ id := 0, start := ⟨0, -1⟩, end_point := ⟨2, 0⟩, is_valid := true, value := -1 }] ∧
      (Testt.delete_component Testt.two_wire_state 1).components.map (fun c => c.id) =
        [0, 2]) :=
  cascade_delete Deepseek.demo_state Testt.two_wire_state 1 (by decide) (by decide)
    (by decide)

/-- C18, counterexample: in testt.c the wire tool attaches a second wire to input 0 of
the AND component 2 (`add_wire` returns the new id 1, the wire list grows to two wires
with the same end point); in final.c a click next to input pin 0 of the AND gate 3,
which the wire from gate 1 already occupies, stores a fourth wire 2 → 3.0. -/
theorem second_wire_on_occupied_pin :
    Testt.one_wire_state.wires.map (fun w => (w.start.component_id, w.end_point)) =
      [(0, ⟨2, 0⟩)] ∧
    Testt.add_wire Testt.one_wire_state ⟨1, -1⟩ ⟨2, 0⟩ = (Testt.two_wire_state, 1) ∧
    Testt.two_wire_state.wires.map (fun w => (w.start.component_id, w.end_point)) =
      [(0, ⟨2, 0⟩), (1, ⟨2, 0⟩)] ∧
    wiring_click near_pin_0_of_gate_3 2 0 (and_circuit_gates 0 0) and_circuit_wires =
      [⟨1, 0, 3, 0⟩, ⟨2, 0, 3, 1⟩, ⟨3, 0, 4, 0⟩, ⟨2, 0, 3, 0⟩] := by
  decide

/-- C18, amended: `add_wire` of testt.c and the wiring-mode click of final.c do not look
at the wires already attached to the destination pin.  `add_wire` appends the wire and
returns its id whenever `wire_count < MAX_WIRES`, both components exist and the two pin
indices are not both negative, and in every other case returns -1 with the wire list
unchanged; the click appends the wire to the first workspace gate hit on an input pin
whenever `wire_count < MAX_WIRES`, and leaves the wire list unchanged when the array is
full or no workspace gate is hit on an input pin. -/
theorem wire_added_without_pin_test :
    (∀ (app : Testt.AppState) (s e : Testt.ConnectionPoint),
      (((app.wires.length : Int) < Testt.MAX_WIRES ∧
          (∃ c ∈ app.components, c.id = s.component_id) ∧
          (∃ c ∈ app.components, c.id = e.component_id) ∧
          ¬ (s.pin_index < 0 ∧ e.pin_index < 0)) →
        (Testt.add_wire app s e).1.wires = app.wires ++
          [{ id := app.next_wire_id, start := s, end_point := e, is_valid := true,
             value := -1 }] ∧
        (Testt.add_wire app s e).2 = app.next_wire_id) ∧
      (¬ ((app.wires.length : Int) < Testt.MAX_WIRES ∧
          (∃ c ∈ app.components, c.id = s.component_id) ∧
          (∃ c ∈ app.components, c.id = e.component_id) ∧
          ¬ (s.pin_index < 0 ∧ e.pin_index < 0)) →
        (Testt.add_wire app s e).1.wires = app.wires ∧ (Testt.add_wire app s e).2 = -1)) ∧
    (∀ (near_pin : LogicGate → Option (Bool × Int)) (source_gate_id source_pin_index : Int)
        (wires : List Wire),
      (∀ (before after : List LogicGate) (g : LogicGate) (pin : Int),
        (∀ b ∈ before,
          b.in_palette = true ∨ near_pin b = none ∨ ∃ q, near_pin b = some (true, q)) →
        g.in_palette = false → near_pin g = some (false, pin) →
        wiring_click near_pin source_gate_id source_pin_index (before ++ g :: after) wires =
          if (wires.length : Int) < MAX_WIRES then
            wires ++ [{ from_gate_id := source_gate_id, from_pin_index := source_pin_index,
                        to_gate_id := g.id, to_pin_index := pin }]
          else wires) ∧
      (∀ gates : List LogicGate,
        (∀ g ∈ gates,
          g.in_palette = true ∨ near_pin g = none ∨ ∃ q, near_pin g = some (true, q)) →
        wiring_click near_pin source_gate_id source_pin_index gates wires = wires)) := by
  constructor
  · intro app s e
    constructor
    · intro h
      rcases Testt.testt_add_wire_cases app s e with ⟨_, hw, _, hr⟩ | ⟨hn, _⟩
      · exact ⟨hw, hr⟩
      · exact absurd ⟨not_le.mpr h.1, h.2⟩ hn
    · intro h
      rcases Testt.testt_add_wire_cases app s e with ⟨hc, _⟩ | ⟨_, hw, _, hr⟩
      · exact absurd ⟨not_le.mp hc.1, hc.2⟩ h
      · exact ⟨hw, hr⟩
  · intro near_pin src src_pin wires
    constructor
    · intro before after g pin hb hg hn
      exact wiring_click_hit near_pin src src_pin wires g pin after hg hn before hb
    · intro gates h
      exact wiring_click_miss near_pin src src_pin wires gates h

/-! ## Claims on the truth tables -/

set_option maxRecDepth 100000 in
/-- C11: the input columns of row `r` are the `n`-digit binary numeral of `r`, most
significant bit first, for `1 ≤ n ≤ 30` INPUT gates.  The numeral read left to right
denotes `r` and every 0/1 vector of length `n` is the numeral of exactly one `r < 2^n`.
In truth_table.c the table has `2^n` rows, row `r` shows these digits, and the `i`-th
INPUT gate of the temporary array (in array order) holds bit `n - 1 - i` of `r` when
`propagate_signals` is called.  In deepseek.c the forcing loop leaves bit `n - 1 - i`
of the row number in the gate named by `input_gates[i]` (ids distinct and present), and
on a circuit without feedback the printed rows show these digits in increasing `r`.
With 31 INPUT gates, which final.c can hold, `1 << 31` is not positive and
`draw_truth_table_window` produces no row at all. -/
theorem rows_are_binary_numerals :
    (∀ (n r : Nat), r < 2 ^ n → numeral_value (binary_digits n r) = (r : Int)) ∧
    (∀ (n : Nat) (v : List Int), v.length = n → (∀ b ∈ v, b = 0 ∨ b = 1) →
      ∃ r, (r < 2 ^ n ∧ binary_digits n r = v) ∧
        ∀ r1, r1 < 2 ^ n ∧ binary_digits n r1 = v → r1 = r) ∧
    (∀ (gates : List LogicGate) (n : Nat) (num_outputs : Int),
      (find_input_gates gates).length = n → 1 ≤ n → n ≤ 30 →
      (∃ rows, draw_truth_table_window gates (n : Int) num_outputs = some rows ∧
        rows.length = 2 ^ n ∧
        ∀ r, r < 2 ^ n → ∃ outs, rows[r]? = some (binary_digits n r, outs)) ∧
      (∀ (r i : Nat), r < 2 ^ n → i < n →
        ((forced_gates gates (row_inputs (n : Int) (r : Int)))[
            (find_input_gates gates).getD i 0]?).map (fun g => g.output_value) =
          some ((r / 2 ^ (n - 1 - i) % 2 : Nat) : Int))) ∧
    (∀ (c : Deepseek.Circuit) (n r i : Nat), c.input_gates.length = n →
      c.input_gates.Nodup → (∀ id ∈ c.input_gates, ∃ g ∈ c.gates, g.id = id) → i < n →
      Deepseek.output_of (Deepseek.force_row c (r : Int)) (c.input_gates.getD i 0) =
        some ((r / 2 ^ (n - 1 - i) % 2 : Nat) : Int)) ∧
    (∀ (s : Deepseek.State) (rank : Int → Nat) (fuel n : Nat),
      s.current_circuit.input_gates.length = n → 1 ≤ n → n ≤ 30 →
      s.current_circuit.output_count ≠ 0 →
      Deepseek.ranked rank s.current_circuit.gates →
      (∀ g ∈ s.current_circuit.gates, rank g.id < fuel) →
      ∃ st rows, Deepseek.generate_truth_table fuel s = some (st, Deepseek.Printed.table rows) ∧
        rows.map (fun row => row.1) = (List.range (2 ^ n)).map (binary_digits n)) ∧
    ((find_input_gates wide_gates).length = 31 ∧ wide_gates.length = 40 ∧
      draw_truth_table_window wide_gates 31 1 = some []) := by
  refine ⟨?_, ?_, ?_, ?_, ?_, ?_⟩
  · intro n r hr
    rw [numeral_value_binary_digits, Nat.mod_eq_of_lt hr]
  · intro n v hl hb
    obtain ⟨r, hr, hd⟩ := binary_digits_surjective n v hl hb
    refine ⟨r, ⟨hr, hd⟩, ?_⟩
    rintro r1 ⟨hr1, hd1⟩
    exact binary_digits_injective n r1 r hr1 hr (hd1.trans hd.symm)
  · intro gates n num_outputs hn h1 h30
    refine ⟨draw_truth_table_window_rows gates n num_outputs h30, ?_⟩
    intro r i _ hi
    rw [forced_gates_forced gates _ i (by omega), row_inputs_eq, arr_get_binary_digits n r i hi]
  · intro c n r i hn hnd hp hi
    rw [Deepseek.force_row_forced c (r : Int) hnd hp i (by omega)]
    have : c.input_count = (n : Int) := by
      unfold Deepseek.Circuit.input_count
      rw [hn]
    rw [this, input_bit_eq]
  · intro s rank fuel n hn h1 h30 ho hr hb
    have hc : s.current_circuit.input_count = (n : Int) := by
      unfold Deepseek.Circuit.input_count
      rw [hn]
    have hi : s.current_circuit.input_count ≠ 0 := by
      rw [hc]
      omega
    obtain ⟨gates1, rows, h, _, hrows⟩ := Deepseek.generate_truth_table_spec rank fuel s hr hb hi ho
    refine ⟨_, rows, h, ?_⟩
    rw [hrows, hc, shl_one_toNat n h30, hn]
    apply List.map_congr_left
    intro r _
    unfold binary_digits
    apply List.map_congr_left
    intro i _
    exact input_bit_eq n r i
  · refine ⟨by decide, by decide, ?_⟩
    exact draw_truth_table_window_none wide_gates 31 1 (by decide)

/-- C13, counterexample: on the circuit `main` of deepseek.c builds, every gate has
output 0 before `generate_truth_table` and output 1 after it (the values of the last
row, 1 1), whatever the recursion depth allowed from 3 on. -/
theorem truth_table_overwrites_outputs :
    Deepseek.demo_state.current_circuit.gates.map (fun g => (g.id, g.output)) =
      [(1, 0), (2, 0), (3, 0), (4, 0)] ∧
    ∀ fuel, 3 ≤ fuel →
      ∃ st, Deepseek.generate_truth_table fuel Deepseek.demo_state =
          some (st, Deepseek.Printed.table
            [([0, 0], [0]), ([0, 1], [0]), ([1, 0], [0]), ([1, 1], [1])]) ∧
        st.current_circuit.gates.map (fun g => (g.id, g.output)) =
          [(1, 1), (2, 1), (3, 1), (4, 1)] ∧
        st.current_circuit ≠ Deepseek.demo_state.current_circuit := by
  refine ⟨by decide, ?_⟩
  intro fuel hfuel
  have h := demo_truth_table_run
  cases hg : Deepseek.generate_truth_table 3 Deepseek.demo_state with
  | none => rw [hg] at h; cases h
  | some r =>
    obtain ⟨st, p⟩ := r
    rw [hg] at h
    simp only [Option.map_some', Option.some.injEq, Prod.mk.injEq] at h
    have hm := Deepseek.generate_truth_table_mono 3 fuel hfuel _ _ hg
    rw [h.2] at hm
    refine ⟨st, hm, h.1, ?_⟩
    intro e
    have h1 := h.1
    rw [e] at h1
    revert h1
    decide

/-- C13, amended: `generate_truth_table` of deepseek.c evaluates the live circuit in
place.  On a circuit without feedback with at least one INPUT and one OUTPUT gate it
returns, and afterwards the globals differ from their values before the call at most
in the `output` fields of the gates: ids, types, positions, `input1`, `input2` and
labels of the gates, the wires, the lists of INPUT and OUTPUT gates, `next_gate_id`,
`next_wire_id` and the undo and redo stacks are as before. -/
theorem truth_table_writes_outputs_only (s : Deepseek.State) (rank : Int → Nat) (fuel : Nat)
    (hr : Deepseek.ranked rank s.current_circuit.gates)
    (hb : ∀ g ∈ s.current_circuit.gates, rank g.id < fuel)
    (hi : s.current_circuit.input_count ≠ 0) (ho : s.current_circuit.output_count ≠ 0) :
    ∃ gates1 rows,
      Deepseek.generate_truth_table fuel s =
        some ({ s with current_circuit := { s.current_circuit with gates := gates1 } },
          Deepseek.Printed.table rows) ∧
      gates1.map Deepseek.skeleton = s.current_circuit.gates.map Deepseek.skeleton := by
  obtain ⟨gates1, rows, h, hs, _⟩ := Deepseek.generate_truth_table_spec rank fuel s hr hb hi ho
  exact ⟨gates1, rows, h, hs⟩

/-- C13, amended, on the circuit `main` builds, ranked by the gate ids. -/
theorem truth_table_writes_outputs_only_witness :
    ∃ gates1 rows,
      Deepseek.generate_truth_table 5 Deepseek.demo_state =
        some ({ Deepseek.demo_state with
                  current_circuit :=
                    { Deepseek.demo_state.current_circuit with gates := gates1 } },
          Deepseek.Printed.table rows) ∧
      gates1.map Deepseek.skeleton =
        Deepseek.demo_state.current_circuit.gates.map Deepseek.skeleton :=
  truth_table_writes_outputs_only Deepseek.demo_state Int.toNat 5
    (by unfold Deepseek.ranked; decide) (by decide) (by decide) (by decide)

/-- C14: `generate_truth_table` stops with a message exactly when there is no INPUT gate
or no OUTPUT gate, and otherwise goes on to the table.  In truth_table.c the counts are
those of the non-palette gates of `gate_type` 6 and 7, and with both positive the table
is always produced.  In deepseek.c the counts are `input_count` and `output_count`, and
which in every circuit built by `add_gate`, `add_wire`, `delete_gate` and `delete_wire`
are zero exactly when there is no gate of the type; with both positive the table is
produced on every circuit without feedback; on INPUT 1, NOT 2 wired to its own pin,
OUTPUT 3 both counts are 1 and the call never returns, whatever recursion depth is
allowed. -/
theorem truth_table_needs_inputs_and_outputs :
    (∀ (gates : List LogicGate) (wires : List Wire),
      ((gates.filter (fun g => !g.in_palette && g.gate_type == 6)).length = 0 →
        generate_truth_table gates wires = some TruthTable.no_input_gates) ∧
      ((gates.filter (fun g => !g.in_palette && g.gate_type == 6)).length ≠ 0 →
        (gates.filter (fun g => !g.in_palette && g.gate_type == 7)).length = 0 →
        generate_truth_table gates wires = some TruthTable.no_output_gates) ∧
      ((gates.filter (fun g => !g.in_palette && g.gate_type == 6)).length ≠ 0 →
        (gates.filter (fun g => !g.in_palette && g.gate_type == 7)).length ≠ 0 →
        ∃ rows, generate_truth_table gates wires = some (TruthTable.table rows))) ∧
    (∀ (s : Deepseek.State) (fuel : Nat),
      (s.current_circuit.input_count = 0 →
        Deepseek.generate_truth_table fuel s = some (s, Deepseek.Printed.no_input_gates)) ∧
      (s.current_circuit.input_count ≠ 0 → s.current_circuit.output_count = 0 →
        Deepseek.generate_truth_table fuel s = some (s, Deepseek.Printed.no_output_gates)) ∧
      (s.current_circuit.input_count ≠ 0 → s.current_circuit.output_count ≠ 0 →
        ∀ rank : Int → Nat, Deepseek.ranked rank s.current_circuit.gates →
        (∀ g ∈ s.current_circuit.gates, rank g.id < fuel) →
        ∃ st rows,
          Deepseek.generate_truth_table fuel s = some (st, Deepseek.Printed.table rows))) ∧
    (∀ (ops : List Deepseek.Op) (s : Deepseek.State),
      Deepseek.run Deepseek.initialize_circuit ops = some s →
      (s.current_circuit.input_count = 0 ↔
        ∀ g ∈ s.current_circuit.gates, g.type ≠ Deepseek.GateType.GATE_INPUT) ∧
      (s.current_circuit.output_count = 0 ↔
        ∀ g ∈ s.current_circuit.gates, g.type ≠ Deepseek.GateType.GATE_OUTPUT)) ∧
    (Deepseek.loop_state.current_circuit.input_count = 1 ∧
      Deepseek.loop_state.current_circuit.output_count = 1 ∧
      ∀ fuel, Deepseek.generate_truth_table fuel Deepseek.loop_state = none) := by
  refine ⟨?_, ?_, ?_, by decide, by decide, loop_state_no_table⟩
  rotate_left 2
  · intro ops s hrun
    exact Deepseek.lists_match_counts _
      (Deepseek.run_lists_match ops _ s ⟨rfl, rfl⟩ hrun)
  · intro gates wires
    have hin : ((find_input_gates gates).length : Int) =
        (gates.filter (fun g => !g.in_palette && g.gate_type == 6)).length := by
      unfold find_input_gates
      rw [find_input_gates_from_length]
    have hout : ((find_output_gates gates).length : Int) =
        (gates.filter (fun g => !g.in_palette && g.gate_type == 7)).length := by
      unfold find_output_gates
      rw [find_output_gates_from_length]
    unfold generate_truth_table
    simp only [hin, hout]
    refine ⟨?_, ?_, ?_⟩
    · intro h0
      rw [if_pos (by omega)]
    · intro h0 h1
      rw [if_neg (by omega), if_pos (by omega)]
    · intro h0 h1
      rw [if_neg (by omega), if_neg (by omega)]
      obtain ⟨rows, hrows, _⟩ := draw_truth_table_window_returns gates
        ((gates.filter (fun g => !g.in_palette && g.gate_type == 6)).length : Int)
        ((gates.filter (fun g => !g.in_palette && g.gate_type == 7)).length : Int)
      exact ⟨rows, by rw [hrows]; rfl⟩
  · intro s fuel
    refine ⟨?_, ?_, ?_⟩
    · intro h0
      unfold Deepseek.generate_truth_table
      simp only []
      rw [if_pos h0]
    · intro h0 h1
      unfold Deepseek.generate_truth_table
      simp only []
      rw [if_neg h0, if_pos h1]
    · intro h0 h1 rank hr hb
      obtain ⟨gates1, rows, h, _⟩ := Deepseek.generate_truth_table_spec rank fuel s hr hb h0 h1
      exact ⟨_, rows, h⟩

set_option maxRecDepth 100000 in
/-- C15: the row count `1 << n`, computed in 32-bit `int`, equals `2^n` for
`0 ≤ n ≤ 30`, and the row loop then visits `2^n` rows; for `31 ≤ n ≤ 42` it is not
positive (`1 << 31` is -2147483648) and the row loop visits no row: with 31 INPUT gates
and one OUTPUT gate in final.c's array `generate_truth_table` produces an empty table. -/
theorem row_count_overflows :
    (∀ n : Int, 0 ≤ n → n ≤ 30 →
      shl_one n = 2 ^ n.toNat ∧
      ∀ (gates : List LogicGate) (num_outputs : Int),
        ∃ rows, draw_truth_table_window gates n num_outputs = some rows ∧
          rows.length = 2 ^ n.toNat) ∧
    (∀ n : Int, 31 ≤ n → n ≤ 42 →
      shl_one n ≤ 0 ∧
      ∀ (gates : List LogicGate) (num_outputs : Int),
        draw_truth_table_window gates n num_outputs = some []) ∧
    shl_one 31 = -2147483648 ∧
    (find_input_gates wide_gates).length = 31 ∧
    (find_output_gates wide_gates).length = 1 ∧
    (wide_gates.length : Int) ≤ MAX_GATES ∧
    generate_truth_table wide_gates [] = some (TruthTable.table []) := by
  refine ⟨?_, ?_, by decide, by decide, by decide, by decide, ?_⟩
  · intro n h0 h30
    refine ⟨shl_one_small n h0 h30, ?_⟩
    intro gates num_outputs
    obtain ⟨rows, h, hl⟩ := draw_truth_table_window_returns gates n num_outputs
    refine ⟨rows, h, ?_⟩
    rw [hl]
    have := shl_one_toNat n.toNat (by omega)
    rw [Int.toNat_of_nonneg h0] at this
    exact this
  · intro n h31 h42
    have h := shl_one_overflow n h31 h42
    exact ⟨h, fun gates num_outputs => draw_truth_table_window_none gates n num_outputs h⟩
  · have hin : (find_input_gates wide_gates).length = 31 := by decide
    have hout : (find_output_gates wide_gates).length = 1 := by decide
    unfold generate_truth_table
    simp only [hin, hout]
    rw [if_neg (by decide), if_neg (by decide),
      draw_truth_table_window_none wide_gates _ _ (by decide)]
    rfl

/-! ## final.c: `create_gate_in_workspace` -/

/-- C21: `create_gate_in_workspace` of final.c returns -1 and leaves the gate array (and
with it `*gate_count`) unchanged when `*gate_count >= MAX_GATES` (50); otherwise the new
array is the old one followed by the new gate, so every other gate is unchanged and
`*gate_count` grows by one, the returned value is the index used (the old count), and
the new gate has the given id and pin counts, the `gate_type` the `strcmp` chain gives
for its name (0 .. 7 for AND, OR, NOT, NAND, NOR, XOR, INPUT, OUTPUT), `output_value` 0
and `inputs` input slots that are all 0 (no array when `inputs <= 0`). -/
theorem create_gate_in_workspace_spec (gates : List LogicGate) (name : String)
    (inputs outputs id : Int) :
    ((gates.length : Int) ≥ MAX_GATES →
      create_gate_in_workspace gates name inputs outputs id = (gates, -1)) ∧
    ((gates.length : Int) < MAX_GATES →
      ∃ g, create_gate_in_workspace gates name inputs outputs id =
          (gates ++ [g], (gates.length : Int)) ∧
        g.id = id ∧ g.name = name ∧ g.inputs = inputs ∧ g.outputs = outputs ∧
        g.in_palette = false ∧ g.gate_type = gate_type_of_name name ∧ g.output_value = 0 ∧
        g.input_values = (if inputs > 0 then some (List.replicate inputs.toNat 0) else none) ∧
        ∀ q : Int, 0 ≤ q → q < inputs → ptr_get g.input_values q = 0) ∧
    (MAX_GATES = 50 ∧
      [gate_type_of_name "AND", gate_type_of_name "OR", gate_type_of_name "NOT",
       gate_type_of_name "NAND", gate_type_of_name "NOR", gate_type_of_name "XOR",
       gate_type_of_name "INPUT", gate_type_of_name "OUTPUT"] = [0, 1, 2, 3, 4, 5, 6, 7]) := by
  refine ⟨?_, ?_, rfl, by decide⟩
  · intro h
    unfold create_gate_in_workspace
    rw [if_pos h]
  · intro h
    unfold create_gate_in_workspace
    rw [if_neg (by omega)]
    by_cases hi : inputs > 0
    · refine ⟨_, rfl, ?_⟩
      simp only [hi, if_true]
      refine ⟨trivial, trivial, trivial, trivial, trivial, trivial, trivial, trivial, ?_⟩
      intro q h0 h1
      simp only [ptr_get, arr_get, if_pos h0]
      rw [List.getD_eq_getElem _ _ (by simp; omega)]
      simp
    · refine ⟨_, rfl, ?_⟩
      simp only [hi, if_false]
      refine ⟨trivial, trivial, trivial, trivial, trivial, trivial, trivial, trivial, ?_⟩
      intro q h0 h1
      omega

/-! ## deepseek.c: feedback, the input list and undo -/

theorem self_not_evaluate (fuel : Nat) :
    Deepseek.evaluate_circuit fuel Deepseek.self_not_state.current_circuit.gates = none := by
  have hreset : Deepseek.reset_outputs Deepseek.self_not_state.current_circuit.gates =
      Deepseek.self_not_state.current_circuit.gates := by decide
  have hlen : Deepseek.self_not_state.current_circuit.gates.length = 1 := by decide
  have hg0 : Deepseek.self_not_state.current_circuit.gates[0]? =
      some { id := 1, type := Deepseek.GateType.GATE_NOT, x := 30, y := 5, input1 := 1,
             input2 := -1, output := 0, label := "NOT" } := by decide
  have hfb : Deepseek.evaluate_gate fuel Deepseek.self_not_state.current_circuit.gates 1 = none :=
    Deepseek.evaluate_gate_feedback fuel _ 1 0
      { id := 1, type := Deepseek.GateType.GATE_NOT, x := 30, y := 5, input1 := 1,
        input2 := -1, output := 0, label := "NOT" }
      (by decide) hg0 rfl (by decide) rfl (by decide)
  unfold Deepseek.evaluate_circuit
  rw [hreset, hlen, Deepseek.evaluate_all]
  simp only [hg0, hfb]

/-- C23: `evaluate_circuit` of deepseek.c returns on every circuit without feedback (the
gate named by `input1` or `input2` of a gate ranks below the gate), but not on every
circuit `add_gate` and `add_wire` can build: for the single NOT gate 1 wired to its own
pin 1 (`add_wire(1, 1, 1)` is accepted and sets `input1 = 1`) `evaluate_gate(1)` calls
`evaluate_gate(1)` again at every depth, so no bound on the recursion depth lets the
call return. -/
theorem evaluate_circuit_feedback_diverges :
    (∀ (rank : Int → Nat) (fuel : Nat) (gates : List Deepseek.Gate),
      Deepseek.ranked rank gates → (∀ g ∈ gates, rank g.id < fuel) →
      ∃ gates1, Deepseek.evaluate_circuit fuel gates = some gates1) ∧
    (Deepseek.add_wire (Deepseek.add_gate Deepseek.initialize_circuit
        Deepseek.GateType.GATE_NOT 30 5).state 1 1 1).error = none ∧
    Deepseek.self_not_state.current_circuit.gates =
      [{ id := 1, type := Deepseek.GateType.GATE_NOT, x := 30, y := 5, input1 := 1,
         input2 := -1, output := 0, label := "NOT" }] ∧
    Deepseek.self_not_state.current_circuit.wires =
      [{ id := 1, from_gate := 1, to_gate := 1, to_pin := 1 }] ∧
    (∀ fuel, Deepseek.evaluate_gate fuel Deepseek.self_not_state.current_circuit.gates 1
      = none) ∧
    (∀ fuel, Deepseek.evaluate_circuit fuel Deepseek.self_not_state.current_circuit.gates
      = none) := by
  refine ⟨?_, by decide, by decide, by decide, ?_, self_not_evaluate⟩
  · intro rank fuel gates hr hb
    obtain ⟨gates1, h, _⟩ := Deepseek.evaluate_circuit_spec rank fuel gates hr hb
    exact ⟨gates1, h⟩
  · intro fuel
    exact Deepseek.evaluate_gate_feedback fuel _ 1 0
      { id := 1, type := Deepseek.GateType.GATE_NOT, x := 30, y := 5, input1 := 1,
        input2 := -1, output := 0, label := "NOT" }
      (by decide) (by decide) rfl (by decide) rfl (by decide)

/-- C29: `add_gate` of deepseek.c tests `gate_count` only.  Whenever
`gate_count < MAX_GATES` a call with `GATE_INPUT` (`GATE_OUTPUT`) appends the new id to
`input_gates` (`output_gates`) whatever `input_count` (`output_count`) is; eleven calls
`add_gate(GATE_INPUT, 10, 5)` from `initialize_circuit` all succeed and leave
`input_count = 11`, above `MAX_INPUTS = 10`: the eleventh wrote `input_gates[10]`. -/
theorem input_list_overflows :
    (∀ (s : Deepseek.State) (x y : Int), s.current_circuit.gate_count < Deepseek.MAX_GATES →
      (Deepseek.add_gate s Deepseek.GateType.GATE_INPUT x y).error = none ∧
      (Deepseek.add_gate s Deepseek.GateType.GATE_INPUT x y).state.current_circuit.input_gates =
        s.current_circuit.input_gates ++ [s.next_gate_id] ∧
      (Deepseek.add_gate s Deepseek.GateType.GATE_OUTPUT x y).error = none ∧
      (Deepseek.add_gate s Deepseek.GateType.GATE_OUTPUT x y).state.current_circuit.output_gates =
        s.current_circuit.output_gates ++ [s.next_gate_id]) ∧
    (∃ s, Deepseek.run Deepseek.initialize_circuit Deepseek.eleven_inputs = some s ∧
      s.current_circuit.gate_count = 11 ∧
      s.current_circuit.input_gates = [1, 2, 3, 4, 5, 6, 7, 8, 9, 10, 11] ∧
      s.current_circuit.input_count = 11 ∧
      ¬ s.current_circuit.input_count ≤ Deepseek.MAX_INPUTS) := by
  constructor
  · intro s x y h
    have hc : ¬ s.current_circuit.gate_count ≥ Deepseek.MAX_GATES := by omega
    unfold Deepseek.add_gate
    simp only [if_neg hc]
    refine ⟨?_, ?_, ?_, ?_⟩ <;> trivial
  · exact ⟨_, rfl, by decide, by decide, by decide, by decide⟩

/-- C30: in deepseek.c `save_action` stores the circuit as it is after the edit, and
`undo` restores the snapshot on top of the undo stack: for every state below gate
capacity, `add_gate` followed by `undo` leaves `current_circuit` as `add_gate` left it,
with the new gate, and not equal to the circuit before the edit.  From
`initialize_circuit`, `add_gate(GATE_AND, 30, 7)` and `undo` end with one gate instead of
none. -/
theorem undo_keeps_added_gate :
    (∀ (s : Deepseek.State) (type : Deepseek.GateType) (x y : Int),
      s.current_circuit.gate_count < Deepseek.MAX_GATES →
      (Deepseek.add_gate s type x y).error = none ∧
      (Deepseek.undo (Deepseek.add_gate s type x y).state).error = none ∧
      (Deepseek.undo (Deepseek.add_gate s type x y).state).state.current_circuit =
        (Deepseek.add_gate s type x y).state.current_circuit ∧
      (Deepseek.undo (Deepseek.add_gate s type x y).state).state.current_circuit.gates.length =
        s.current_circuit.gates.length + 1 ∧
      (Deepseek.undo (Deepseek.add_gate s type x y).state).state.current_circuit ≠
        s.current_circuit) ∧
    (Deepseek.undo (Deepseek.add_gate Deepseek.initialize_circuit
        Deepseek.GateType.GATE_AND 30 7).state).state.current_circuit.gates =
      [{ id := 1, type := Deepseek.GateType.GATE_AND, x := 30, y := 7, input1 := -1,
         input2 := -1, output := 0, label := "AND" }] ∧
    Deepseek.initialize_circuit.current_circuit.gates = [] := by
  refine ⟨?_, by decide, rfl⟩
  intro s type x y h
  have hc : ¬ s.current_circuit.gate_count ≥ Deepseek.MAX_GATES := by omega
  have hadd : Deepseek.add_gate s type x y =
      { state := Deepseek.save_action
          { s with
              current_circuit :=
                { (match type with
                   | Deepseek.GateType.GATE_INPUT =>
                     { s.current_circuit with
                         input_gates := s.current_circuit.input_gates ++ [s.next_gate_id] }
                   | Deepseek.GateType.GATE_OUTPUT =>
                     { s.current_circuit with
                         output_gates := s.current_circuit.output_gates ++ [s.next_gate_id] }
                   | _ => s.current_circuit) with
                  gates := s.current_circuit.gates ++
                    [{ id := s.next_gate_id, type := type, x := x, y := y, input1 := -1,
                       input2 := -1, output := 0, label := Deepseek.default_label type }] }
              next_gate_id := s.next_gate_id + 1 }
          "Add gate",
        error := none } := by
    unfold Deepseek.add_gate
    rw [if_neg hc]
    cases type <;> rfl
  have hlen : (Deepseek.add_gate s type x y).state.current_circuit.gates.length =
      s.current_circuit.gates.length + 1 := by
    rw [hadd]
    cases type <;> simp [Deepseek.save_action]
  have hundo : (Deepseek.undo (Deepseek.add_gate s type x y).state).state.current_circuit =
      (Deepseek.add_gate s type x y).state.current_circuit ∧
      (Deepseek.undo (Deepseek.add_gate s type x y).state).error = none := by
    rw [hadd]
    exact ⟨rfl, rfl⟩
  refine ⟨by rw [hadd], hundo.2, hundo.1, by rw [hundo.1, hlen], ?_⟩
  rw [hundo.1]
  intro e
  rw [e] at hlen
  omega

namespace Deepseek

/-! ## deepseek.c: ids are handed out once -/

theorem delete_gate_counters (s : State) (gate_id : Int) (o : Outcome)
    (ho : delete_gate s gate_id = some o) :
    o.state.next_gate_id = s.next_gate_id ∧ o.state.next_wire_id = s.next_wire_id ∧
    (o.state.current_circuit.gates.map (fun g => g.id)).Sublist
      (s.current_circuit.gates.map (fun g => g.id)) ∧
    o.state.current_circuit.wires.Sublist s.current_circuit.wires := by
  by_cases hex : ∃ g ∈ s.current_circuit.gates, g.id = gate_id
  · obtain ⟨g0, hg0, hid0⟩ := hex
    have hsome : (s.current_circuit.gates.findIdx? (fun g => g.id == gate_id)).isSome = true := by
      rw [List.findIdx?_isSome, List.any_eq_true]
      exact ⟨g0, hg0, by simpa using hid0⟩
    obtain ⟨i, hi⟩ := Option.isSome_iff_exists.mp hsome
    obtain ⟨hil, _, _⟩ := List.findIdx?_eq_some_iff_getElem.mp hi
    have hg : s.current_circuit.gates[i]? = some s.current_circuit.gates[i] :=
      List.getElem?_eq_getElem hil
    obtain ⟨c1, hw, hgs, _, _, hd⟩ :=
      delete_gate_fuel_found s.current_circuit.wires.length s gate_id i _ hi hg
    obtain ⟨s1, h1, hsub, hkinds, _, _, hng, hnw, _⟩ :=
      delete_gate_wires_spec gate_id s.current_circuit.wires.length 0
        { s with current_circuit := c1 } (by simp [hw])
    unfold delete_gate at ho
    rw [hd, h1] at ho
    simp only [Option.some.injEq] at ho
    rw [← ho]
    refine ⟨hng, hnw, ?_, ?_⟩
    · show (s1.current_circuit.gates.map (fun g => g.id)).Sublist _
      have hids : s1.current_circuit.gates.map (fun g => g.id) =
          c1.gates.map (fun g => g.id) := by
        have := congrArg (List.map Prod.fst) hkinds
        simpa [List.map_map, Function.comp] using this
      rw [hids, hgs]
      exact (List.eraseIdx_sublist _ _).map _
    · show s1.current_circuit.wires.Sublist _
      rw [← hw]
      exact hsub
  · have hall : ∀ g ∈ s.current_circuit.gates, g.id ≠ gate_id := by
      intro g hg hid
      exact hex ⟨g, hg, hid⟩
    rw [delete_gate_missing s gate_id hall] at ho
    rw [← Option.some.inj ho]
    exact ⟨rfl, rfl, List.Sublist.refl _, List.Sublist.refl _⟩

theorem add_gate_cases (s : State) (type : GateType) (x y : Int) :
    (s.current_circuit.gate_count ≥ MAX_GATES ∧ (add_gate s type x y).error ≠ none ∧
      (add_gate s type x y).state = s) ∨
    (s.current_circuit.gate_count < MAX_GATES ∧ (add_gate s type x y).error = none ∧
      (add_gate s type x y).state.current_circuit.gates = s.current_circuit.gates ++
        [{ id := s.next_gate_id, type := type, x := x, y := y, input1 := -1, input2 := -1,
           output := 0, label := default_label type }] ∧
      (add_gate s type x y).state.current_circuit.wires = s.current_circuit.wires ∧
      (add_gate s type x y).state.next_gate_id = s.next_gate_id + 1 ∧
      (add_gate s type x y).state.next_wire_id = s.next_wire_id) := by
  unfold add_gate
  by_cases hc : s.current_circuit.gate_count ≥ MAX_GATES
  · left
    rw [if_pos hc]
    exact ⟨hc, by simp, rfl⟩
  · right
    rw [if_neg hc]
    refine ⟨by omega, rfl, ?_, ?_, rfl, rfl⟩
    · cases type <;> rfl
    · cases type <;> rfl

theorem nodup_append_fresh (l : List Int) (x : Int) (hn : l.Nodup) (hlt : ∀ y ∈ l, y < x) :
    (l ++ [x]).Nodup := by
  rw [List.nodup_append]
  refine ⟨hn, List.nodup_singleton _, ?_⟩
  intro a ha hb
  rw [List.mem_singleton] at hb
  have := hlt a ha
  omega

theorem apply_op_ids_fresh (s s1 : State) (op : Op) (h : ids_fresh s)
    (ha : apply_op s op = some s1) :
    ids_fresh s1 ∧ s.next_gate_id ≤ s1.next_gate_id ∧ s1.next_gate_id ≤ s.next_gate_id + 1 ∧
      s.next_wire_id ≤ s1.next_wire_id ∧ s1.next_wire_id ≤ s.next_wire_id + 1 := by
  obtain ⟨hg, hgl, hw, hwl⟩ := h
  cases op with
  | add_gate type x y =>
    rw [apply_op] at ha
    rw [← Option.some.inj ha]
    rcases add_gate_cases s type x y with ⟨_, _, hs⟩ | ⟨_, _, hgs, hws, hng, hnw⟩
    · rw [hs]
      exact ⟨⟨hg, hgl, hw, hwl⟩, by omega, by omega, by omega, by omega⟩
    · refine ⟨⟨?_, ?_, ?_, ?_⟩, by omega, by omega, by omega, by omega⟩
      · rw [hgs, List.map_append]
        exact nodup_append_fresh _ _ hg (by
          intro y hy
          obtain ⟨g, hgm, rfl⟩ := List.mem_map.mp hy
          exact hgl g hgm)
      · rw [hgs, hng]
        intro g hgm
        rcases List.mem_append.mp hgm with h1 | h1
        · have := hgl g h1
          omega
        · rw [List.mem_singleton] at h1
          rw [h1]
          show s.next_gate_id < s.next_gate_id + 1
          omega
      · rw [hws]
        exact hw
      · rw [hws, hnw]
        exact hwl
  | add_wire f t p =>
    rw [apply_op] at ha
    rw [← Option.some.inj ha]
    rcases add_wire_cases s f t p with ⟨_, _, hs⟩ | ⟨_, _, _, _, _, heq⟩
    · rw [hs]
      exact ⟨⟨hg, hgl, hw, hwl⟩, by omega, by omega, by omega, by omega⟩
    · rw [heq]
      refine ⟨⟨?_, ?_, ?_, ?_⟩, ?_, ?_, ?_, ?_⟩
      · show ((set_connection s.current_circuit.gates t p f).map (fun g => g.id)).Nodup
        rw [set_connection_ids]
        exact hg
      · show ∀ g ∈ set_connection s.current_circuit.gates t p f, g.id < s.next_gate_id
        intro g hgm
        have : g.id ∈ (set_connection s.current_circuit.gates t p f).map (fun g => g.id) :=
          List.mem_map_of_mem _ hgm
        rw [set_connection_ids] at this
        obtain ⟨g1, hg1, e⟩ := List.mem_map.mp this
        rw [← e]
        exact hgl g1 hg1
      · show ((s.current_circuit.wires ++ _).map (fun w => w.id)).Nodup
        rw [List.map_append]
        exact nodup_append_fresh _ _ hw (by
          intro y hy
          obtain ⟨w, hwm, rfl⟩ := List.mem_map.mp hy
          exact hwl w hwm)
      · show ∀ w ∈ s.current_circuit.wires ++ _, w.id < s.next_wire_id + 1
        intro w hwm
        rcases List.mem_append.mp hwm with h1 | h1
        · have := hwl w h1
          omega
        · rw [List.mem_singleton] at h1
          rw [h1]
          show s.next_wire_id < s.next_wire_id + 1
          omega
      · show s.next_gate_id ≤ s.next_gate_id
        omega
      · show s.next_gate_id ≤ s.next_gate_id + 1
        omega
      · show s.next_wire_id ≤ s.next_wire_id + 1
        omega
      · show s.next_wire_id + 1 ≤ s.next_wire_id + 1
        omega
  | delete_gate gate_id =>
    rw [apply_op] at ha
    cases hd : delete_gate s gate_id with
    | none => rw [hd] at ha; simp at ha
    | some o =>
      rw [hd] at ha
      simp only [Option.map_some', Option.some.injEq] at ha
      rw [← ha]
      obtain ⟨hng, hnw, hsg, hsw⟩ := delete_gate_counters s gate_id o hd
      refine ⟨⟨hg.sublist hsg, ?_, hw.sublist (hsw.map _), ?_⟩, by omega, by omega, by omega,
        by omega⟩
      · intro g hgm
        rw [hng]
        have : g.id ∈ s.current_circuit.gates.map (fun g => g.id) :=
          hsg.subset (List.mem_map_of_mem _ hgm)
        obtain ⟨g1, hg1, e⟩ := List.mem_map.mp this
        rw [← e]
        exact hgl g1 hg1
      · intro w hwm
        rw [hnw]
        exact hwl w (hsw.subset hwm)
  | delete_wire wire_id =>
    rw [apply_op] at ha
    rw [← Option.some.inj ha]
    rcases delete_wire_cases s wire_id with ⟨_, he⟩ | ⟨i, w, hi, hwi, _, _, _⟩
    · rw [he]
      exact ⟨⟨hg, hgl, hw, hwl⟩, le_refl _, by show s.next_gate_id ≤ _; omega, le_refl _,
        by show s.next_wire_id ≤ _; omega⟩
    · rw [delete_wire_found s wire_id i w hi hwi]
      refine ⟨⟨?_, ?_, ?_, ?_⟩, ?_, ?_, ?_, ?_⟩
      · show ((set_connection s.current_circuit.gates _ _ _).map (fun g => g.id)).Nodup
        rw [set_connection_ids]
        exact hg
      · show ∀ g ∈ set_connection s.current_circuit.gates _ _ _, g.id < s.next_gate_id
        intro g hgm
        have : g.id ∈ (set_connection s.current_circuit.gates w.to_gate w.to_pin (-1)).map
            (fun g => g.id) := List.mem_map_of_mem _ hgm
        rw [set_connection_ids] at this
        obtain ⟨g1, hg1, e⟩ := List.mem_map.mp this
        rw [← e]
        exact hgl g1 hg1
      · show ((s.current_circuit.wires.eraseIdx i).map (fun w => w.id)).Nodup
        exact hw.sublist ((List.eraseIdx_sublist _ _).map _)
      · show ∀ w ∈ s.current_circuit.wires.eraseIdx i, w.id < s.next_wire_id
        intro w1 hw1
        exact hwl w1 ((List.eraseIdx_sublist _ _).subset hw1)
      · show s.next_gate_id ≤ s.next_gate_id
        omega
      · show s.next_gate_id ≤ s.next_gate_id + 1
        omega
      · show s.next_wire_id ≤ s.next_wire_id
        omega
      · show s.next_wire_id ≤ s.next_wire_id + 1
        omega

theorem run_append (ops1 : List Op) : ∀ (ops2 : List Op) (s : State),
    run s (ops1 ++ ops2) = (run s ops1).bind (fun s1 => run s1 ops2) := by
  induction ops1 with
  | nil => intro ops2 s; rfl
  | cons op rest ih =>
    intro ops2 s
    simp only [List.cons_append, run]
    cases apply_op s op with
    | none => rfl
    | some s1 => exact ih ops2 s1

theorem run_total : ∀ (ops : List Op) (s : State), ∃ s1, run s ops = some s1 := by
  intro ops
  induction ops with
  | nil => intro s; exact ⟨s, rfl⟩
  | cons op rest ih =>
    intro s
    have : ∃ s1, apply_op s op = some s1 := by
      cases op with
      | add_gate type x y => exact ⟨_, rfl⟩
      | add_wire f t p => exact ⟨_, rfl⟩
      | delete_gate gate_id =>
        obtain ⟨o, ho, _⟩ := delete_gate_total s gate_id
        exact ⟨o.state, by simp [apply_op, ho]⟩
      | delete_wire wire_id => exact ⟨_, rfl⟩
    obtain ⟨s1, h1⟩ := this
    obtain ⟨s2, h2⟩ := ih s1
    exact ⟨s2, by simp [run, h1, h2]⟩

theorem run_ids_fresh : ∀ (ops : List Op) (s s1 : State), ids_fresh s → run s ops = some s1 →
    ids_fresh s1 ∧ s.next_gate_id ≤ s1.next_gate_id ∧
      s1.next_gate_id ≤ s.next_gate_id + ops.length ∧
      s.next_wire_id ≤ s1.next_wire_id ∧ s1.next_wire_id ≤ s.next_wire_id + ops.length := by
  intro ops
  induction ops with
  | nil =>
    intro s s1 h hr
    rw [run] at hr
    rw [← Option.some.inj hr]
    exact ⟨h, by omega, by simp, by omega, by simp⟩
  | cons op rest ih =>
    intro s s1 h hr
    rw [run] at hr
    cases ha : apply_op s op with
    | none => rw [ha] at hr; simp at hr
    | some s2 =>
      rw [ha] at hr
      simp only [] at hr
      obtain ⟨h2, a1, a2, a3, a4⟩ := apply_op_ids_fresh s s2 op h ha
      obtain ⟨h3, b1, b2, b3, b4⟩ := ih s2 s1 h2 hr
      refine ⟨h3, by omega, ?_, by omega, ?_⟩
      · simp only [List.length_cons]
        push_cast
        omega
      · simp only [List.length_cons]
        push_cast
        omega

end Deepseek

/-- C24: every sequence of `add_gate`, `add_wire`, `delete_gate` and `delete_wire` calls
of deepseek.c from `initialize_circuit` runs to its end in a circuit whose gate ids are
pairwise distinct and smaller than `next_gate_id` and whose wire ids are pairwise
distinct and smaller than `next_wire_id`.  The counters grow by at most one per call (so
they stay in the range of `int` for fewer than 2^31 - 1 calls), every gate of every
earlier circuit of the sequence has an id below `next_gate_id`, and a successful
`add_gate` appends a gate with id `next_gate_id`: an id strictly greater than every id
handed out before. -/
theorem reachable_ids_fresh (ops : List Deepseek.Op) :
    ∃ s, Deepseek.run Deepseek.initialize_circuit ops = some s ∧
      (s.current_circuit.gates.map (fun g => g.id)).Nodup ∧
      (∀ g ∈ s.current_circuit.gates, g.id < s.next_gate_id) ∧
      (s.current_circuit.wires.map (fun w => w.id)).Nodup ∧
      (∀ w ∈ s.current_circuit.wires, w.id < s.next_wire_id) ∧
      s.next_gate_id ≤ 1 + (ops.length : Int) ∧ s.next_wire_id ≤ 1 + (ops.length : Int) ∧
      (∀ (ops1 ops2 : List Deepseek.Op) (s1 : Deepseek.State), ops = ops1 ++ ops2 →
        Deepseek.run Deepseek.initialize_circuit ops1 = some s1 →
        ∀ g ∈ s1.current_circuit.gates, g.id < s.next_gate_id) ∧
      (∀ (type : Deepseek.GateType) (x y : Int),
        (Deepseek.add_gate s type x y).error = none →
        (Deepseek.add_gate s type x y).state.current_circuit.gates =
          s.current_circuit.gates ++
            [{ id := s.next_gate_id, type := type, x := x, y := y, input1 := -1,
               input2 := -1, output := 0, label := Deepseek.default_label type }] ∧
        (Deepseek.add_gate s type x y).state.next_gate_id = s.next_gate_id + 1) := by
  have hinit : Deepseek.ids_fresh Deepseek.initialize_circuit := by
    refine ⟨?_, ?_, ?_, ?_⟩ <;> simp [Deepseek.initialize_circuit]
  obtain ⟨s, hs⟩ := Deepseek.run_total ops Deepseek.initialize_circuit
  obtain ⟨⟨h1, h2, h3, h4⟩, _, h6, _, h8⟩ :=
    Deepseek.run_ids_fresh ops _ s hinit hs
  refine ⟨s, hs, h1, h2, h3, h4, ?_, ?_, ?_, ?_⟩
  · exact h6
  · exact h8
  · intro ops1 ops2 s1 hops hs1 g hg
    rw [hops, Deepseek.run_append, hs1] at hs
    change Deepseek.run s1 ops2 = some s at hs
    obtain ⟨⟨_, hb, _, _⟩, _, _, _, _⟩ := Deepseek.run_ids_fresh ops1 _ s1 hinit hs1
    obtain ⟨_, hmono, _, _, _⟩ := Deepseek.run_ids_fresh ops2 s1 s
      (Deepseek.run_ids_fresh ops1 _ s1 hinit hs1).1 hs
    have := hb g hg
    omega
  · intro type x y he
    rcases Deepseek.add_gate_cases s type x y with ⟨_, hne, _⟩ | ⟨_, _, hgs, _, hng, _⟩
    · exact absurd he hne
    · exact ⟨hgs, hng⟩

namespace Testt

/-- Wires that end elsewhere leave `in0` and `in1` as they are. -/
theorem gather_no_wire (components : List Component) (c_id : Int) :
    ∀ (wires : List Wire) (ins : Int × Int),
      (∀ w ∈ wires, w.end_point.component_id ≠ c_id) →
      wires.foldl (gather_step components c_id) ins = ins := by
  intro wires
  induction wires with
  | nil => intro ins _; rfl
  | cons w rest ih =>
    intro ins h
    rw [List.foldl_cons]
    have hw : w.end_point.component_id ≠ c_id := h w (List.mem_cons_self _ _)
    have e : gather_step components c_id ins w = ins := by
      unfold gather_step
      rw [if_neg hw]
    rw [e]
    exact ih ins (fun x hx => h x (List.mem_cons_of_mem _ hx))

theorem gather_one_wire (components : List Component) (c_id : Int) :
    ∀ (wires : List Wire),
      (wires.filter (fun w => decide (w.end_point.component_id = c_id))).length ≤ 1 →
      (wires.foldl (gather_step components c_id) (-1, -1)).2 = -1 := by
  intro wires
  induction wires with
  | nil => intro _; rfl
  | cons w rest ih =>
    intro h
    rw [List.foldl_cons]
    by_cases hw : w.end_point.component_id = c_id
    · have hrest : ∀ x ∈ rest, x.end_point.component_id ≠ c_id := by
        intro x hx hxe
        have hlen : (rest.filter (fun w => decide (w.end_point.component_id = c_id))).length
            = 0 := by
          rw [List.filter_cons_of_pos (by simpa using hw)] at h
          simp only [List.length_cons] at h
          omega
        have hmem : x ∈ rest.filter (fun w => decide (w.end_point.component_id = c_id)) :=
          List.mem_filter.mpr ⟨hx, by simpa using hxe⟩
        rw [List.length_eq_zero.mp hlen] at hmem
        exact absurd hmem (List.not_mem_nil _)
      rw [gather_no_wire components c_id rest _ hrest]
      unfold gather_step
      rw [if_pos hw]
      cases components.find? (fun c => c.id == w.start.component_id) with
      | none => rfl
      | some src => simp
    · have e : gather_step components c_id (-1, -1) w = (-1, -1) := by
        unfold gather_step
        rw [if_neg hw]
      rw [e]
      apply ih
      rw [List.filter_cons_of_neg (by simpa using hw)] at h
      exact h

/-- A component that lacks a wire it needs evaluates to -1, whatever the array holds. -/
theorem evaluate_component_undefined (components : List Component) (wires : List Wire)
    (c : Component)
    (h : ((c.type = ComponentType.COMP_AND ∨ c.type = ComponentType.COMP_OR ∨
            c.type = ComponentType.COMP_NAND ∨ c.type = ComponentType.COMP_NOR ∨
            c.type = ComponentType.COMP_XOR) ∧
          (wires.filter (fun w => decide (w.end_point.component_id = c.id))).length ≤ 1) ∨
         ((c.type = ComponentType.COMP_NOT ∨ c.type = ComponentType.COMP_OUTPUT_LED) ∧
          (wires.filter (fun w => decide (w.end_point.component_id = c.id))).length = 0)) :
    evaluate_component components wires c = -1 := by
  unfold evaluate_component gather
  rcases h with ⟨ht, hw⟩ | ⟨ht, hw⟩
  · have h2 := gather_one_wire components c.id wires hw
    simp only []
    rw [if_neg (by rcases ht with e | e | e | e | e <;> rw [e] <;> decide)]
    unfold eval_gate
    rw [if_neg (by rcases ht with e | e | e | e | e <;> rw [e] <;> decide)]
    rw [if_pos (Or.inr h2)]
  · have hno : ∀ x ∈ wires, x.end_point.component_id ≠ c.id := by
      intro x hx hxe
      have hmem : x ∈ wires.filter (fun w => decide (w.end_point.component_id = c.id)) :=
        List.mem_filter.mpr ⟨hx, by simpa using hxe⟩
      rw [List.length_eq_zero.mp hw] at hmem
      exact absurd hmem (List.not_mem_nil _)
    rw [gather_no_wire components c.id wires _ hno]
    simp only []
    rcases ht with e | e
    · rw [if_neg (by rw [e]; decide)]
      unfold eval_gate
      rw [if_pos e, if_pos rfl]
    · rw [if_pos e]

/-- What a step of the component loop leaves alone: ids, types and input states. -/
theorem simulate_step_kinds (wires : List Wire) (st : List Component × Bool) (i : Nat) :
    (simulate_step wires st i).1.map (fun c => (c.id, c.type, c.input_state)) =
      st.1.map (fun c => (c.id, c.type, c.input_state)) := by
  unfold simulate_step
  cases h : st.1[i]? with
  | none => rfl
  | some c =>
    simp only []
    by_cases ht : c.type = ComponentType.COMP_INPUT_TOGGLE
    · rw [if_pos ht]
    · rw [if_neg ht]
      simp only []
      rw [List.map_set]
      apply List.ext_getElem?
      intro n
      by_cases hn : i = n
      · subst hn
        obtain ⟨hi, hg⟩ := List.getElem?_eq_some.mp h
        rw [List.getElem?_set_self (by simpa using hi)]
        simp [h]
      · rw [List.getElem?_set_ne hn]

/-- The component at another index is not touched by a step. -/
theorem simulate_step_other (wires : List Wire) (st : List Component × Bool) (i j : Nat)
    (h : i ≠ j) : (simulate_step wires st i).1[j]? = st.1[j]? := by
  unfold simulate_step
  cases hc : st.1[i]? with
  | none => rfl
  | some c =>
    simp only []
    by_cases ht : c.type = ComponentType.COMP_INPUT_TOGGLE
    · rw [if_pos ht]
    · rw [if_neg ht]
      exact List.getElem?_set_ne h

/-- The component at the index of the step holds its evaluation afterwards. -/
theorem simulate_step_self (wires : List Wire) (st : List Component × Bool) (i : Nat)
    (c : Component) (hc : st.1[i]? = some c) (ht : c.type ≠ ComponentType.COMP_INPUT_TOGGLE) :
    (simulate_step wires st i).1[i]? =
      some { c with output_value := evaluate_component st.1 wires c } := by
  unfold simulate_step
  rw [hc]
  simp only []
  rw [if_neg ht]
  obtain ⟨hi, _⟩ := List.getElem?_eq_some.mp hc
  exact List.getElem?_set_self hi

theorem simulate_fold_kinds (wires : List Wire) (k : Nat) (st : List Component × Bool) :
    ((List.range k).foldl (simulate_step wires) st).1.map
        (fun c => (c.id, c.type, c.input_state)) =
      st.1.map (fun c => (c.id, c.type, c.input_state)) := by
  induction k with
  | zero => rfl
  | succ k ih =>
    rw [List.range_succ, List.foldl_append, List.foldl_cons, List.foldl_nil,
      simulate_step_kinds, ih]

theorem simulate_pass_kinds (wires : List Wire) (components : List Component) :
    (simulate_pass wires components).1.map (fun c => (c.id, c.type, c.input_state)) =
      components.map (fun c => (c.id, c.type, c.input_state)) :=
  simulate_fold_kinds wires components.length (components, false)

theorem kinds_getElem? (a b : List Component)
    (e : a.map (fun c => (c.id, c.type, c.input_state)) =
      b.map (fun c => (c.id, c.type, c.input_state))) (i : Nat) (c : Component)
    (h : b[i]? = some c) :
    ∃ c1, a[i]? = some c1 ∧ c1.id = c.id ∧ c1.type = c.type ∧
      c1.input_state = c.input_state := by
  have h1 : (a.map (fun c => (c.id, c.type, c.input_state)))[i]? =
      some (c.id, c.type, c.input_state) := by
    rw [e, List.getElem?_map, h]; rfl
  rw [List.getElem?_map] at h1
  cases ha : a[i]? with
  | none => rw [ha] at h1; simp at h1
  | some c1 =>
    rw [ha] at h1
    simp only [Option.map_some', Option.some.injEq, Prod.mk.injEq] at h1
    exact ⟨c1, rfl, h1.1, h1.2.1, h1.2.2⟩

/-- After the component loop has passed index `i`, the component there holds a value
with the property `P`, when every evaluation of it has that property. -/
theorem simulate_fold_at (wires : List Wire) (i : Nat) (c : Component) (P : Int → Prop)
    (ht : c.type ≠ ComponentType.COMP_INPUT_TOGGLE)
    (hP : ∀ (cs : List Component) (c1 : Component), c1.id = c.id → c1.type = c.type →
      P (evaluate_component cs wires c1)) :
    ∀ (k : Nat) (st : List Component × Bool), st.1[i]? = some c → i < k →
      ∃ c1, ((List.range k).foldl (simulate_step wires) st).1[i]? = some c1 ∧
        P c1.output_value := by
  intro k
  induction k with
  | zero => intro st _ h; omega
  | succ k ih =>
    intro st hc hlt
    rw [List.range_succ, List.foldl_append, List.foldl_cons, List.foldl_nil]
    by_cases hik : i = k
    · subst hik
      obtain ⟨c1, hc1, e1, e2, _⟩ := kinds_getElem? _ _ (simulate_fold_kinds wires i st) i c hc
      rw [simulate_step_self wires _ i c1 hc1 (by rw [e2]; exact ht)]
      exact ⟨_, rfl, hP _ c1 e1 e2⟩
    · rw [simulate_step_other wires _ k i (fun e => hik e.symm)]
      exact ih st hc (by omega)

theorem simulate_pass_at (wires : List Wire) (i : Nat) (c : Component) (P : Int → Prop)
    (ht : c.type ≠ ComponentType.COMP_INPUT_TOGGLE)
    (hP : ∀ (cs : List Component) (c1 : Component), c1.id = c.id → c1.type = c.type →
      P (evaluate_component cs wires c1))
    (components : List Component) (hc : components[i]? = some c) :
    ∃ c1, (simulate_pass wires components).1[i]? = some c1 ∧ P c1.output_value := by
  obtain ⟨hi, _⟩ := List.getElem?_eq_some.mp hc
  exact simulate_fold_at wires i c P ht hP components.length (components, false) hc hi

theorem simulate_loop_kinds (wires : List Wire) :
    ∀ (remaining : Nat) (components : List Component) (passes : Nat) (changed : Bool),
      (simulate_loop wires remaining components passes changed).1.map
          (fun c => (c.id, c.type, c.input_state)) =
        components.map (fun c => (c.id, c.type, c.input_state)) := by
  intro remaining
  induction remaining with
  | zero => intro components passes changed; rfl
  | succ remaining ih =>
    intro components passes changed
    rw [simulate_loop]
    by_cases hr : (simulate_pass wires components).2 = true
    · rw [if_pos hr, ih, simulate_pass_kinds]
    · rw [if_neg hr]
      exact simulate_pass_kinds wires components

/-- The loop makes at least one pass, so the component at index `i` ends with a value
with the property `P`, when every evaluation of it has that property. -/
theorem simulate_loop_at (wires : List Wire) (i : Nat) (P : Int → Prop) :
    ∀ (remaining : Nat) (c : Component) (components : List Component) (passes : Nat)
      (changed : Bool), c.type ≠ ComponentType.COMP_INPUT_TOGGLE →
      (∀ (cs : List Component) (c1 : Component), c1.id = c.id → c1.type = c.type →
        P (evaluate_component cs wires c1)) →
      components[i]? = some c → 1 ≤ remaining ∨ P c.output_value →
      ∃ c1, (simulate_loop wires remaining components passes changed).1[i]? = some c1 ∧
        c1.id = c.id ∧ c1.type = c.type ∧ P c1.output_value := by
  intro remaining
  induction remaining with
  | zero =>
    intro c components passes changed _ _ hc h
    rcases h with h | h
    · omega
    · exact ⟨c, hc, rfl, rfl, h⟩
  | succ remaining ih =>
    intro c components passes changed ht hP hc _
    rw [simulate_loop]
    obtain ⟨c1, hc1, hp1⟩ := simulate_pass_at wires i c P ht hP components hc
    obtain ⟨c2, hc2, e1, e2, _⟩ :=
      kinds_getElem? _ _ (simulate_pass_kinds wires components) i c hc
    have e : c2 = c1 := by rw [hc1] at hc2; exact (Option.some.inj hc2).symm
    subst e
    by_cases hr : (simulate_pass wires components).2 = true
    · rw [if_pos hr]
      have hP1 : ∀ (cs : List Component) (c3 : Component), c3.id = c2.id → c3.type = c2.type →
          P (evaluate_component cs wires c3) := by
        intro cs c3 h1 h2
        exact hP cs c3 (h1.trans e1) (h2.trans e2)
      obtain ⟨c3, hc3, f1, f2, hp3⟩ := ih c2 (simulate_pass wires components).1 (passes + 1)
        true (by rw [e2]; exact ht) hP1 hc1 (Or.inr hp1)
      exact ⟨c3, hc3, f1.trans e1, f2.trans e2, hp3⟩
    · rw [if_neg hr]
      exact ⟨c2, hc1, e1, e2, hp1⟩

theorem simulate_start_getElem? (components : List Component) (i : Nat) (c : Component)
    (h : components[i]? = some c) :
    ∃ c1, (simulate_start components)[i]? = some c1 ∧ c1.id = c.id ∧ c1.type = c.type := by
  unfold simulate_start
  rw [List.getElem?_map, List.getElem?_map, h]
  simp only [Option.map_some']
  by_cases ht : c.type = ComponentType.COMP_INPUT_TOGGLE
  · rw [if_pos ht]; exact ⟨_, rfl, rfl, rfl⟩
  · rw [if_neg ht]; exact ⟨_, rfl, rfl, rfl⟩

/-- A step that leaves `changed` false found it false and left the array as it was; the
component it evaluated already held its evaluation. -/
theorem simulate_step_unchanged (wires : List Wire) (st : List Component × Bool) (i : Nat)
    (h : (simulate_step wires st i).2 = false) :
    st.2 = false ∧ (simulate_step wires st i).1 = st.1 ∧
      ∀ c, st.1[i]? = some c → c.type ≠ ComponentType.COMP_INPUT_TOGGLE →
        c.output_value = evaluate_component st.1 wires c := by
  unfold simulate_step at h ⊢
  cases hc : st.1[i]? with
  | none =>
    rw [hc] at h
    exact ⟨h, rfl, fun c hcc => by simp at hcc⟩
  | some c =>
    rw [hc] at h
    simp only [] at h ⊢
    by_cases ht : c.type = ComponentType.COMP_INPUT_TOGGLE
    · rw [if_pos ht] at h ⊢
      refine ⟨h, rfl, ?_⟩
      intro c1 hc1 hne
      exact absurd ((Option.some.inj hc1) ▸ ht) hne
    · rw [if_neg ht] at h ⊢
      simp only [Bool.or_eq_false_iff, bne_eq_false_iff_eq] at h
      refine ⟨h.1, ?_, ?_⟩
      · show st.1.set i { c with output_value := evaluate_component st.1 wires c } = st.1
        rw [← h.2]
        apply List.ext_getElem?
        intro n
        by_cases hn : i = n
        · subst hn
          obtain ⟨hi, _⟩ := List.getElem?_eq_some.mp hc
          rw [List.getElem?_set_self hi, hc]
        · rw [List.getElem?_set_ne hn]
      · intro c1 hc1 _
        have e : c = c1 := Option.some.inj hc1
        subst e
        exact h.2

/-- A pass that leaves `changed` false leaves the array as it was, and every component
it evaluated already held its evaluation. -/
theorem simulate_fold_unchanged (wires : List Wire) (components : List Component) :
    ∀ (k : Nat), ((List.range k).foldl (simulate_step wires) (components, false)).2 = false →
      ((List.range k).foldl (simulate_step wires) (components, false)).1 = components ∧
      ∀ (j : Nat) (c : Component), j < k → components[j]? = some c →
        c.type ≠ ComponentType.COMP_INPUT_TOGGLE →
        c.output_value = evaluate_component components wires c := by
  intro k
  induction k with
  | zero => intro _; exact ⟨rfl, fun j c h => by omega⟩
  | succ k ih =>
    rw [List.range_succ, List.foldl_append, List.foldl_cons, List.foldl_nil]
    intro h
    obtain ⟨hprev, hsame, hval⟩ := simulate_step_unchanged wires _ k h
    obtain ⟨h1, h2⟩ := ih hprev
    rw [h1] at hsame hval
    refine ⟨hsame, ?_⟩
    intro j c hj hcj ht
    by_cases hjk : j = k
    · subst hjk
      exact hval c hcj ht
    · exact h2 j c (by omega) hcj ht

/-- The loop of `simulate`: number of passes, and the fixed point when it stops because
a pass changed nothing. -/
theorem simulate_loop_spec (wires : List Wire) :
    ∀ (remaining : Nat) (components : List Component) (passes : Nat) (changed : Bool),
      (remaining = 0 → changed = true) →
      passes ≤ (simulate_loop wires remaining components passes changed).2.1 ∧
      (1 ≤ remaining → passes + 1 ≤
        (simulate_loop wires remaining components passes changed).2.1) ∧
      (simulate_loop wires remaining components passes changed).2.1 ≤ passes + remaining ∧
      ((simulate_loop wires remaining components passes changed).2.2 = true →
        (simulate_loop wires remaining components passes changed).2.1 = passes + remaining) ∧
      ((simulate_loop wires remaining components passes changed).2.2 = false →
        ∀ (j : Nat) (c : Component),
          (simulate_loop wires remaining components passes changed).1[j]? = some c →
          c.type ≠ ComponentType.COMP_INPUT_TOGGLE →
          c.output_value = evaluate_component
            (simulate_loop wires remaining components passes changed).1 wires c) := by
  intro remaining
  induction remaining with
  | zero =>
    intro components passes changed h
    have hc := h rfl
    subst hc
    simp [simulate_loop]
  | succ remaining ih =>
    intro components passes changed _
    rw [simulate_loop]
    by_cases hr : (simulate_pass wires components).2 = true
    · rw [if_pos hr]
      obtain ⟨h1, h2, h3, h4, h5⟩ := ih (simulate_pass wires components).1 (passes + 1) true
        (fun _ => rfl)
      refine ⟨by omega, fun _ => by omega, by omega, ?_, h5⟩
      intro h
      have := h4 h
      omega
    · rw [if_neg hr]
      have hf : (simulate_pass wires components).2 = false := by
        cases hb : (simulate_pass wires components).2 with
        | true => exact absurd hb hr
        | false => rfl
      obtain ⟨g1, g2⟩ := simulate_fold_unchanged wires components components.length hf
      refine ⟨by simp, fun _ => by simp, by simp, fun h => by simp at h, ?_⟩
      intro _ j c hj ht
      show c.output_value = evaluate_component (simulate_pass wires components).1 wires c
      have e : (simulate_pass wires components).1 = components := g1
      rw [e] at hj ⊢
      obtain ⟨hi, _⟩ := List.getElem?_eq_some.mp hj
      exact g2 j c hi hj ht

end Testt

/-- C22 (as the claim states it, refuted): two input toggles and an AND component whose
only incoming wire comes from toggle 0, which is on.  `simulate` leaves the AND component
with `output_value` -1 (undefined), not 0. -/
theorem and_with_one_wire_is_undefined :
    Testt.and_one_input_on.wires.map
        (fun w => (w.start.component_id, w.end_point.component_id)) = [(0, 2)] ∧
      (Testt.simulate Testt.and_one_input_on).components.map
          (fun c => (c.id, c.type, c.input_state, c.output_value)) =
        [(0, ComponentType.COMP_INPUT_TOGGLE, true, 1),
         (1, ComponentType.COMP_INPUT_TOGGLE, false, 0),
         (2, ComponentType.COMP_AND, false, -1)] := by
  decide

/-- C22 (amended): in `simulate` of testt.c an input that no wire drives is undefined
(-1), and `eval_gate` gives -1 when an input it needs is -1.  So a component of type AND,
OR, NAND, NOR or XOR with at most one incoming wire, and a NOT or LED component with no
incoming wire, ends with `output_value` -1, whatever the wire carries. -/
theorem unwired_pin_is_undefined (app : Testt.AppState) (i : Nat) (c : Testt.Component)
    (hc : app.components[i]? = some c)
    (h : ((c.type = ComponentType.COMP_AND ∨ c.type = ComponentType.COMP_OR ∨
            c.type = ComponentType.COMP_NAND ∨ c.type = ComponentType.COMP_NOR ∨
            c.type = ComponentType.COMP_XOR) ∧
          (app.wires.filter (fun w => decide (w.end_point.component_id = c.id))).length ≤ 1) ∨
         ((c.type = ComponentType.COMP_NOT ∨ c.type = ComponentType.COMP_OUTPUT_LED) ∧
          (app.wires.filter (fun w => decide (w.end_point.component_id = c.id))).length = 0)) :
    ∃ c1, (Testt.simulate app).components[i]? = some c1 ∧ c1.id = c.id ∧ c1.type = c.type ∧
      c1.output_value = -1 := by
  obtain ⟨c0, hc0, e1, e2⟩ := Testt.simulate_start_getElem? app.components i c hc
  have ht : c0.type ≠ ComponentType.COMP_INPUT_TOGGLE := by
    rw [e2]
    rcases h with ⟨h, _⟩ | ⟨h, _⟩
    · rcases h with e | e | e | e | e <;> rw [e] <;> decide
    · rcases h with e | e <;> rw [e] <;> decide
  obtain ⟨c1, hc1, f1, f2, hp⟩ := Testt.simulate_loop_at app.wires i (fun v => v = -1)
    16 c0 (Testt.simulate_start app.components) 0 false ht
    (by
      intro cs c1 h1 h2
      apply Testt.evaluate_component_undefined
      rw [h1, h2, e1, e2]
      exact h)
    hc0 (Or.inl (by decide))
  exact ⟨c1, hc1, f1.trans e1, f2.trans e2, hp⟩

/-- Witness of `unwired_pin_is_undefined`: the AND component of `and_one_input_on`. -/
theorem unwired_pin_is_undefined_witness :
    ∃ c1, (Testt.simulate Testt.and_one_input_on).components[2]? = some c1 ∧ c1.id = 2 ∧
      c1.type = ComponentType.COMP_AND ∧ c1.output_value = -1 :=
  unwired_pin_is_undefined Testt.and_one_input_on 2
    { id := 2, type := ComponentType.COMP_AND, output_value := -1, input_state := false }
    (by decide) (Or.inl ⟨Or.inl rfl, by decide⟩)

set_option maxRecDepth 1000000 in
/-- C28 (as the claim states it, refuted): seventeen NOT components added first and the
input toggle that feeds the chain added last form an acyclic circuit of 18 components.
`simulate` stops after its 16 passes with `changed` still set, and the last NOT of the
chain (id 0) is left at -1 although one more evaluation of it gives 1. -/
theorem reversed_chain_not_settled :
    Testt.reversed_chain.components.map (fun c => (c.id, c.type)) =
        (List.range 17).map (fun (k : Nat) => ((k : Int), ComponentType.COMP_NOT)) ++
          [(17, ComponentType.COMP_INPUT_TOGGLE)] ∧
      Testt.reversed_chain.wires.map
          (fun w => (w.start.component_id, w.end_point.component_id)) =
        (List.range 17).map (fun (k : Nat) => (17 - (k : Int), 16 - (k : Int))) ∧
      (Testt.simulate_run Testt.reversed_chain).2 = (16, true) ∧
      ((Testt.simulate Testt.reversed_chain).components[0]?).map
          (fun c => (c.id, c.type, c.output_value,
            Testt.evaluate_component (Testt.simulate Testt.reversed_chain).components
              Testt.reversed_chain.wires c)) =
        some (0, ComponentType.COMP_NOT, -1, 1) := by
  decide!

/-- C28 (amended): `simulate` makes between 1 and 16 passes and stops early only after a
pass that changed nothing.  When the last pass changed nothing the result is a fixed
point: every component that is not an input toggle holds what one more evaluation of it
from the final array gives.  When all 16 passes changed something, nothing is
guaranteed. -/
theorem simulate_fixed_point_when_unchanged (app : Testt.AppState) :
    (Testt.simulate app).components = (Testt.simulate_run app).1 ∧
      1 ≤ (Testt.simulate_run app).2.1 ∧ (Testt.simulate_run app).2.1 ≤ 16 ∧
      ((Testt.simulate_run app).2.2 = true → (Testt.simulate_run app).2.1 = 16) ∧
      ((Testt.simulate_run app).2.2 = false →
        ∀ (j : Nat) (c : Testt.Component), (Testt.simulate app).components[j]? = some c →
          c.type ≠ ComponentType.COMP_INPUT_TOGGLE →
          c.output_value =
            Testt.evaluate_component (Testt.simulate app).components app.wires c) := by
  obtain ⟨_, h2, h3, h4, h5⟩ := Testt.simulate_loop_spec app.wires 16
    (Testt.simulate_start app.components) 0 false (by decide)
  refine ⟨rfl, ?_, ?_, ?_, ?_⟩
  · exact h2 (by decide)
  · simpa using h3
  · intro h; simpa using h4 h
  · exact h5

namespace Deepseek

/-! ## deepseek.c: `input1` and `input2` record the wires -/

theorem wire_source_append (ws : List Wire) (w : Wire) (id pin : Int) :
    wire_source (ws ++ [w]) id pin =
      match wire_source ws id pin with
      | some x => some x
      | none => if w.to_gate = id ∧ w.to_pin = pin then some w.from_gate else none := by
  unfold wire_source
  rw [List.find?_append]
  cases h : ws.find? (fun w => decide (w.to_gate = id) && decide (w.to_pin = pin)) with
  | some x => rfl
  | none =>
    simp only [Option.none_or, Option.map_none']
    rw [List.find?_cons]
    by_cases hm : w.to_gate = id ∧ w.to_pin = pin
    · rw [if_pos hm]
      have : (decide (w.to_gate = id) && decide (w.to_pin = pin)) = true := by
        simpa using hm
      rw [this]
      rfl
    · rw [if_neg hm]
      have : (decide (w.to_gate = id) && decide (w.to_pin = pin)) = false := by
        rw [Bool.and_eq_false_iff]
        by_cases h1 : w.to_gate = id
        · right; simpa using fun h2 => hm ⟨h1, h2⟩
        · left; simpa using h1
      rw [this]
      rfl

theorem wire_source_none (ws : List Wire) (id pin : Int)
    (h : ∀ w ∈ ws, ¬ (w.to_gate = id ∧ w.to_pin = pin)) : wire_source ws id pin = none := by
  unfold wire_source
  rw [Option.map_eq_none', List.find?_eq_none]
  intro w hw
  simpa using h w hw

theorem wire_source_mem (ws : List Wire) (id pin f : Int) (h : wire_source ws id pin = some f) :
    ∃ w ∈ ws, w.to_gate = id ∧ w.to_pin = pin ∧ w.from_gate = f := by
  unfold wire_source at h
  cases hf : ws.find? (fun w => decide (w.to_gate = id) && decide (w.to_pin = pin)) with
  | none => rw [hf] at h; simp at h
  | some w =>
    rw [hf] at h
    have hp := List.find?_some hf
    simp only [Bool.and_eq_true, decide_eq_true_eq] at hp
    exact ⟨w, List.mem_of_find?_eq_some hf, hp.1, hp.2, by simpa using h⟩

theorem wire_source_skip (l1 l2 : List Wire) (w : Wire) (id pin : Int)
    (h : ¬ (w.to_gate = id ∧ w.to_pin = pin)) :
    wire_source (l1 ++ w :: l2) id pin = wire_source (l1 ++ l2) id pin := by
  unfold wire_source
  rw [List.find?_append, List.find?_append, List.find?_cons]
  have : (decide (w.to_gate = id) && decide (w.to_pin = pin)) = false := by
    rw [Bool.and_eq_false_iff]
    by_cases h1 : w.to_gate = id
    · right; simpa using fun h2 => h ⟨h1, h2⟩
    · left; simpa using h1
  rw [this]

/-- The wire array without the wire at index `i`: its pin loses its source, every other
pin keeps it. -/
theorem wire_source_eraseIdx (ws : List Wire) (i : Nat) (w : Wire) (hw : ws[i]? = some w)
    (hpu : pin_unique ws) (id pin : Int) :
    wire_source (ws.eraseIdx i) id pin =
      if w.to_gate = id ∧ w.to_pin = pin then none else wire_source ws id pin := by
  have hsplit : ws = ws.take i ++ w :: ws.drop (i + 1) := by
    rw [← drop_of_getElem? ws i w hw, List.take_append_drop]
  have herase : ws.eraseIdx i = ws.take i ++ ws.drop (i + 1) :=
    List.eraseIdx_eq_take_drop_succ ws i
  by_cases hm : w.to_gate = id ∧ w.to_pin = pin
  · rw [if_pos hm]
    apply wire_source_none
    intro x hx hxm
    unfold pin_unique at hpu
    rw [hsplit, List.pairwise_append] at hpu
    obtain ⟨_, h2, h3⟩ := hpu
    rw [herase] at hx
    rcases List.mem_append.mp hx with h | h
    · exact h3 x h w (List.mem_cons_self _ _) ⟨hxm.1.trans hm.1.symm, hxm.2.trans hm.2.symm⟩
    · exact (List.pairwise_cons.mp h2).1 x h ⟨hm.1.trans hxm.1.symm, hm.2.trans hxm.2.symm⟩
  · rw [if_neg hm, herase]
    conv_rhs => rw [hsplit]
    exact (wire_source_skip _ _ w id pin hm).symm

/-- The gates after `set_connection`, for an array with distinct ids. -/
theorem set_connection_mem (to_gate to_pin v : Int) : ∀ (gs : List Gate),
    (gs.map (fun g => g.id)).Nodup →
    ∀ g1 ∈ set_connection gs to_gate to_pin v, ∃ g ∈ gs,
      (g.id ≠ to_gate ∧ g1 = g) ∨
      (g.id = to_gate ∧
        g1 = if to_pin = 1 then { g with input1 := v } else { g with input2 := v }) := by
  intro gs
  induction gs with
  | nil => intro _ g1 h; simp [set_connection] at h
  | cons g rest ih =>
    intro hn g1 h
    rw [List.map_cons, List.nodup_cons] at hn
    rw [set_connection] at h
    by_cases hid : g.id = to_gate
    · rw [if_pos hid] at h
      rcases List.mem_cons.mp h with h | h
      · exact ⟨g, List.mem_cons_self _ _, Or.inr ⟨hid, h⟩⟩
      · refine ⟨g1, List.mem_cons_of_mem _ h, Or.inl ⟨?_, rfl⟩⟩
        intro e
        apply hn.1
        rw [hid, ← e]
        exact List.mem_map_of_mem _ h
    · rw [if_neg hid] at h
      rcases List.mem_cons.mp h with h | h
      · exact ⟨g, List.mem_cons_self _ _, Or.inl ⟨hid, h⟩⟩
      · obtain ⟨g0, hg0, hc⟩ := ih hn.2 g1 h
        exact ⟨g0, List.mem_cons_of_mem _ hg0, hc⟩

theorem add_gate_wiring (s : State) (type : GateType) (x y : Int) (h : wiring_recorded s) :
    wiring_recorded (add_gate s type x y).state := by
  obtain ⟨h1, h2, h3, h4, h5, h6⟩ := h
  rcases add_gate_cases s type x y with ⟨_, _, hs⟩ | ⟨_, _, hgs, hws, hng, _⟩
  · rw [hs]
    exact ⟨h1, h2, h3, h4, h5, h6⟩
  · unfold wiring_recorded
    rw [hgs, hws, hng]
    refine ⟨by omega, ?_, ?_, h4, ?_, ?_⟩
    · rw [List.map_append]
      exact nodup_append_fresh _ _ h2 (by
        intro y hy
        obtain ⟨g, hgm, rfl⟩ := List.mem_map.mp hy
        exact (h3 g hgm).2)
    · intro g hg
      rcases List.mem_append.mp hg with hg | hg
      · have := h3 g hg
        exact ⟨this.1, by omega⟩
      · rw [List.mem_singleton] at hg
        rw [hg]
        exact ⟨h1, by show s.next_gate_id < s.next_gate_id + 1; omega⟩
    · intro w hw
      have := h5 w hw
      exact ⟨this.1, this.2.1, by omega⟩
    · intro g hg
      rcases List.mem_append.mp hg with hg | hg
      · exact h6 g hg
      · rw [List.mem_singleton] at hg
        rw [hg]
        have hnone : ∀ pin, wire_source s.current_circuit.wires s.next_gate_id pin = none := by
          intro pin
          apply wire_source_none
          intro w hw hm
          have := (h5 w hw).2.2
          omega
        show (-1 : Int) = (wire_source s.current_circuit.wires s.next_gate_id 1).getD (-1) ∧
          (-1 : Int) = (wire_source s.current_circuit.wires s.next_gate_id 2).getD (-1)
        rw [hnone 1, hnone 2]
        exact ⟨rfl, rfl⟩

theorem add_wire_wiring (s : State) (f t p : Int) (hp : p = 1 ∨ p = 2)
    (h : wiring_recorded s) : wiring_recorded (add_wire s f t p).state := by
  have hpu := add_wire_pin_unique s f t p h.2.2.2.1
  obtain ⟨h1, h2, h3, h4, h5, h6⟩ := h
  rcases add_wire_cases s f t p with ⟨_, _, hs⟩ | ⟨_, hf, ht, _, hany, heq⟩
  · rw [hs]
    exact ⟨h1, h2, h3, h4, h5, h6⟩
  · rw [heq] at hpu ⊢
    have hfree : wire_source s.current_circuit.wires t p = none := by
      apply wire_source_none
      intro w hw hm
      have := List.any_eq_false.mp hany w hw
      apply this
      simpa using hm
    rw [scan_gates_from] at hf
    rw [scan_gates_to] at ht
    simp only [Bool.false_or, List.any_eq_true, decide_eq_true_eq] at hf ht
    obtain ⟨gf, hgf, hgfid⟩ := hf
    obtain ⟨gt, hgt, hgtid⟩ := ht
    refine ⟨h1, ?_, ?_, hpu, ?_, ?_⟩
    · show ((set_connection s.current_circuit.gates t p f).map (fun g => g.id)).Nodup
      rw [set_connection_ids]
      exact h2
    · show ∀ g ∈ set_connection s.current_circuit.gates t p f, 1 ≤ g.id ∧ g.id < s.next_gate_id
      intro g hgm
      have : g.id ∈ (set_connection s.current_circuit.gates t p f).map (fun g => g.id) :=
        List.mem_map_of_mem _ hgm
      rw [set_connection_ids] at this
      obtain ⟨g1, hg1, e⟩ := List.mem_map.mp this
      rw [← e]
      exact h3 g1 hg1
    · show ∀ w ∈ s.current_circuit.wires ++ _, _
      intro w hw
      rcases List.mem_append.mp hw with hw | hw
      · exact h5 w hw
      · rw [List.mem_singleton] at hw
        rw [hw]
        refine ⟨hp, ?_, ?_⟩
        · show 1 ≤ f
          rw [← hgfid]
          exact (h3 gf hgf).1
        · show t < s.next_gate_id
          rw [← hgtid]
          exact (h3 gt hgt).2
    · show ∀ g ∈ set_connection s.current_circuit.gates t p f,
        g.input1 = (wire_source (s.current_circuit.wires ++
          [{ id := s.next_wire_id, from_gate := f, to_gate := t, to_pin := p }]) g.id 1).getD (-1) ∧
        g.input2 = (wire_source (s.current_circuit.wires ++
          [{ id := s.next_wire_id, from_gate := f, to_gate := t, to_pin := p }]) g.id 2).getD (-1)
      intro g1 hg1
      obtain ⟨g, hg, hc⟩ := set_connection_mem t p f _ h2 g1 hg1
      obtain ⟨e1, e2⟩ := h6 g hg
      rw [wire_source_append, wire_source_append]
      rcases hc with ⟨hne, rfl⟩ | ⟨hid, rfl⟩
      · have n1 : ¬ (t = g1.id ∧ p = 1) := fun hh => hne hh.1.symm
        have n2 : ¬ (t = g1.id ∧ p = 2) := fun hh => hne hh.1.symm
        simp only [if_neg n1, if_neg n2]
        constructor
        · rw [e1]; cases wire_source s.current_circuit.wires g1.id 1 <;> rfl
        · rw [e2]; cases wire_source s.current_circuit.wires g1.id 2 <;> rfl
      · rcases hp with hp | hp
        · subst hp
          rw [if_pos rfl]
          show f = _ ∧ g.input2 = _
          rw [hid, hfree]
          have n2 : ¬ (t = t ∧ (1 : Int) = 2) := fun hh => absurd hh.2 (by decide)
          simp only [if_pos (⟨rfl, rfl⟩ : t = t ∧ (1 : Int) = 1), if_neg n2]
          refine ⟨rfl, ?_⟩
          rw [e2, hid]
          cases wire_source s.current_circuit.wires t 2 <;> rfl
        · subst hp
          rw [if_neg (by decide : ¬ ((2 : Int) = 1))]
          show g.input1 = _ ∧ f = _
          rw [hid, hfree]
          have n1 : ¬ (t = t ∧ (2 : Int) = 1) := fun hh => absurd hh.2 (by decide)
          simp only [if_pos (⟨rfl, rfl⟩ : t = t ∧ (2 : Int) = 2), if_neg n1]
          refine ⟨?_, rfl⟩
          rw [e1, hid]
          cases wire_source s.current_circuit.wires t 1 <;> rfl

theorem delete_wire_wiring (s : State) (wire_id : Int) (h : wiring_recorded s) :
    wiring_recorded (delete_wire s wire_id).state := by
  obtain ⟨h1, h2, h3, h4, h5, h6⟩ := h
  rcases delete_wire_cases s wire_id with ⟨_, he⟩ | ⟨i, w, hi, hwi, _, _, _⟩
  · rw [he]
    exact ⟨h1, h2, h3, h4, h5, h6⟩
  · rw [delete_wire_found s wire_id i w hi hwi]
    have hwm : w ∈ s.current_circuit.wires := List.getElem?_mem hwi
    have hsub : (s.current_circuit.wires.eraseIdx i).Sublist s.current_circuit.wires :=
      List.eraseIdx_sublist _ _
    refine ⟨h1, ?_, ?_, ?_, ?_, ?_⟩
    · show ((set_connection s.current_circuit.gates _ _ _).map (fun g => g.id)).Nodup
      rw [set_connection_ids]
      exact h2
    · show ∀ g ∈ set_connection s.current_circuit.gates w.to_gate w.to_pin (-1),
        1 ≤ g.id ∧ g.id < s.next_gate_id
      intro g hgm
      have : g.id ∈ (set_connection s.current_circuit.gates w.to_gate w.to_pin (-1)).map
          (fun g => g.id) := List.mem_map_of_mem _ hgm
      rw [set_connection_ids] at this
      obtain ⟨g1, hg1, e⟩ := List.mem_map.mp this
      rw [← e]
      exact h3 g1 hg1
    · show pin_unique (s.current_circuit.wires.eraseIdx i)
      exact List.Pairwise.sublist hsub h4
    · show ∀ w1 ∈ s.current_circuit.wires.eraseIdx i, _
      intro w1 hw1
      exact h5 w1 (hsub.subset hw1)
    · show ∀ g ∈ set_connection s.current_circuit.gates w.to_gate w.to_pin (-1),
        g.input1 = (wire_source (s.current_circuit.wires.eraseIdx i) g.id 1).getD (-1) ∧
        g.input2 = (wire_source (s.current_circuit.wires.eraseIdx i) g.id 2).getD (-1)
      intro g1 hg1
      obtain ⟨g, hg, hc⟩ := set_connection_mem w.to_gate w.to_pin (-1) _ h2 g1 hg1
      obtain ⟨e1, e2⟩ := h6 g hg
      rw [wire_source_eraseIdx _ i w hwi h4, wire_source_eraseIdx _ i w hwi h4]
      rcases hc with ⟨hne, rfl⟩ | ⟨hid, rfl⟩
      · have n1 : ¬ (w.to_gate = g1.id ∧ w.to_pin = 1) := fun hh => hne hh.1.symm
        have n2 : ¬ (w.to_gate = g1.id ∧ w.to_pin = 2) := fun hh => hne hh.1.symm
        rw [if_neg n1, if_neg n2]
        exact ⟨e1, e2⟩
      · rcases (h5 w hwm).1 with hp | hp
        · rw [hp, if_pos rfl]
          show (-1 : Int) = _ ∧ g.input2 = _
          have n2 : ¬ (w.to_gate = g.id ∧ (1 : Int) = 2) := fun hh => absurd hh.2 (by decide)
          rw [if_pos ⟨hid.symm, rfl⟩, if_neg n2]
          exact ⟨rfl, e2⟩
        · rw [hp, if_neg (by decide : ¬ ((2 : Int) = 1))]
          show g.input1 = _ ∧ (-1 : Int) = _
          have n1 : ¬ (w.to_gate = g.id ∧ (2 : Int) = 1) := fun hh => absurd hh.2 (by decide)
          rw [if_neg n1, if_pos ⟨hid.symm, rfl⟩]
          exact ⟨e1, rfl⟩

theorem delete_gate_wires_wiring (gate_id : Int) : ∀ (fuel i : Nat) (s s1 : State),
    wiring_recorded s → delete_gate_wires gate_id fuel i s = some s1 → wiring_recorded s1 := by
  intro fuel
  induction fuel with
  | zero =>
    intro i s s1 h hd
    rw [delete_gate_wires] at hd
    by_cases hlt : i < s.current_circuit.wires.length
    · rw [if_pos hlt] at hd; simp at hd
    · rw [if_neg hlt] at hd
      rw [← Option.some.inj hd]
      exact h
  | succ fuel ih =>
    intro i s s1 h hd
    rw [delete_gate_wires] at hd
    cases hw : s.current_circuit.wires[i]? with
    | none =>
      rw [hw] at hd
      rw [← Option.some.inj hd]
      exact h
    | some w =>
      rw [hw] at hd
      simp only [] at hd
      by_cases ha : (decide (w.from_gate = gate_id) || decide (w.to_gate = gate_id)) = true
      · rw [if_pos ha] at hd
        exact ih i _ s1 (delete_wire_wiring s w.id h) hd
      · rw [if_neg ha] at hd
        exact ih (i + 1) s s1 h hd

theorem delete_gate_wiring (s : State) (gate_id : Int) (o : Outcome) (h : wiring_recorded s)
    (ho : delete_gate s gate_id = some o) : wiring_recorded o.state := by
  by_cases hex : ∃ g ∈ s.current_circuit.gates, g.id = gate_id
  · obtain ⟨g0, hg0, hid0⟩ := hex
    have hsome : (s.current_circuit.gates.findIdx? (fun g => g.id == gate_id)).isSome = true := by
      rw [List.findIdx?_isSome, List.any_eq_true]
      exact ⟨g0, hg0, by simpa using hid0⟩
    obtain ⟨i, hi⟩ := Option.isSome_iff_exists.mp hsome
    obtain ⟨hil, _, _⟩ := List.findIdx?_eq_some_iff_getElem.mp hi
    have hg : s.current_circuit.gates[i]? = some s.current_circuit.gates[i] :=
      List.getElem?_eq_getElem hil
    obtain ⟨c1, hw, hgs, _, _, hd⟩ :=
      delete_gate_fuel_found s.current_circuit.wires.length s gate_id i _ hi hg
    unfold delete_gate at ho
    rw [hd] at ho
    cases h1 : delete_gate_wires gate_id s.current_circuit.wires.length 0
        { s with current_circuit := c1 } with
    | none => rw [h1] at ho; simp at ho
    | some s1 =>
      rw [h1] at ho
      simp only [Option.some.injEq] at ho
      rw [← ho]
      have hsub : c1.gates.Sublist s.current_circuit.gates := by
        rw [hgs]; exact List.eraseIdx_sublist _ _
      obtain ⟨a1, a2, a3, a4, a5, a6⟩ := h
      have hmid : wiring_recorded { s with current_circuit := c1 } := by
        refine ⟨a1, ?_, ?_, ?_, ?_, ?_⟩
        · exact a2.sublist (hsub.map _)
        · intro g hgm; exact a3 g (hsub.subset hgm)
        · show pin_unique c1.wires
          rw [hw]; exact a4
        · show ∀ w ∈ c1.wires, _
          rw [hw]; exact a5
        · show ∀ g ∈ c1.gates, g.input1 = (wire_source c1.wires g.id 1).getD (-1) ∧
            g.input2 = (wire_source c1.wires g.id 2).getD (-1)
          rw [hw]
          intro g hgm; exact a6 g (hsub.subset hgm)
      exact delete_gate_wires_wiring gate_id _ 0 _ s1 hmid h1
  · have hall : ∀ g ∈ s.current_circuit.gates, g.id ≠ gate_id := by
      intro g hg hid
      exact hex ⟨g, hg, hid⟩
    rw [delete_gate_missing s gate_id hall] at ho
    rw [← Option.some.inj ho]
    exact h

theorem run_wiring : ∀ (ops : List Op) (s s1 : State), pins_in_range ops → wiring_recorded s →
    run s ops = some s1 → wiring_recorded s1 := by
  intro ops
  induction ops with
  | nil =>
    intro s s1 _ h hr
    rw [run] at hr
    rw [← Option.some.inj hr]
    exact h
  | cons op rest ih =>
    intro s s1 hp h hr
    rw [run] at hr
    have hprest : pins_in_range rest := fun f t p hm => hp f t p (List.mem_cons_of_mem _ hm)
    cases ha : apply_op s op with
    | none => rw [ha] at hr; simp at hr
    | some s2 =>
      rw [ha] at hr
      simp only [] at hr
      refine ih s2 s1 hprest ?_ hr
      cases op with
      | add_gate type x y =>
        rw [apply_op] at ha
        rw [← Option.some.inj ha]
        exact add_gate_wiring s type x y h
      | add_wire f t p =>
        rw [apply_op] at ha
        rw [← Option.some.inj ha]
        exact add_wire_wiring s f t p (hp f t p (List.mem_cons_self _ _)) h
      | delete_gate gate_id =>
        rw [apply_op] at ha
        cases hd : delete_gate s gate_id with
        | none => rw [hd] at ha; simp at ha
        | some o =>
          rw [hd] at ha
          simp only [Option.map_some', Option.some.injEq] at ha
          rw [← ha]
          exact delete_gate_wiring s gate_id o h hd
      | delete_wire wire_id =>
        rw [apply_op] at ha
        rw [← Option.some.inj ha]
        exact delete_wire_wiring s wire_id h

theorem initialize_circuit_wiring : wiring_recorded initialize_circuit := by
  refine ⟨by decide, List.nodup_nil, ?_, List.Pairwise.nil, ?_, ?_⟩
  · intro g hg; simp [initialize_circuit] at hg
  · intro w hw; simp [initialize_circuit] at hw
  · intro g hg; simp [initialize_circuit] at hg

end Deepseek

namespace Deepseek

/-! ## deepseek.c: what `evaluate_circuit` computes on an acyclic circuit -/

theorem find?_of_findIdx? {α : Type} (p : α → Bool) : ∀ (l : List α) (i : Nat),
    l.findIdx? p = some i → l.find? p = l[i]? := by
  intro l
  induction l with
  | nil => intro i h; simp at h
  | cons x rest ih =>
    intro i h
    by_cases hx : p x = true
    · simp [List.findIdx?_cons, hx] at h
      subst h
      simp [List.find?_cons, hx]
    · simp [List.findIdx?_cons, hx, List.findIdx?_succ] at h
      obtain ⟨j, hj, rfl⟩ := h
      simp [List.find?_cons, hx, ih j hj]

theorem findIdx?_skeleton (x : Int) : ∀ (a b : List Gate), a.map skeleton = b.map skeleton →
    a.findIdx? (fun g => g.id == x) = b.findIdx? (fun g => g.id == x) := by
  intro a
  induction a with
  | nil =>
    intro b h
    cases b with
    | nil => rfl
    | cons y rest => simp at h
  | cons g rest ih =>
    intro b h
    cases b with
    | nil => simp at h
    | cons y rest1 =>
      simp only [List.map_cons, List.cons.injEq] at h
      have hid : g.id = y.id := (skeleton_fields g y h.1).1
      simp only [List.findIdx?_cons, List.findIdx?_succ, hid, ih rest1 h.2]

theorem settles_refl (value : Int → Int) (a : List Gate) : settles value a a :=
  fun _ => Or.inl rfl

theorem settles_trans (value : Int → Int) (a b c : List Gate) (h1 : settles value a b)
    (h2 : settles value b c) : settles value a c := by
  intro j
  rcases h2 j with e2 | e2 <;> rcases h1 j with e1 | e1
  · left; rw [e2, e1]
  · right; rw [e2, e1]
  · right; rw [e2, e1]
  · right
    rw [e2, e1]
    cases a[j]? with
    | none => rfl
    | some g => rfl

theorem settles_skeleton (value : Int → Int) (a b : List Gate) (h : settles value a b) :
    b.map skeleton = a.map skeleton := by
  apply List.ext_getElem?
  intro j
  rw [List.getElem?_map, List.getElem?_map]
  rcases h j with e | e
  · rw [e]
  · rw [e]
    cases a[j]? with
    | none => rfl
    | some g => rfl

theorem settles_set (value : Int → Int) (a : List Gate) (index : Nat) (g : Gate) (v : Int)
    (hg : a[index]? = some g) (hv : v = value g.id) :
    settles value a (set_output_at a index v) := by
  intro j
  unfold set_output_at
  rw [hg]
  simp only []
  by_cases hj : index = j
  · subst hj
    right
    obtain ⟨hi, _⟩ := List.getElem?_eq_some.mp hg
    rw [List.getElem?_set_self hi, hg, hv]
    rfl
  · left
    exact List.getElem?_set_ne hj

/-- A gate that shows its value keeps showing it. -/
theorem settles_done (value : Int → Int) (a b : List Gate) (h : settles value a b) (j : Nat)
    (g : Gate) (hg : a[j]? = some g) :
    ∃ g1, b[j]? = some g1 ∧ skeleton g1 = skeleton g ∧
      (g1.output = g.output ∨ g1.output = value g1.id) ∧
      (g.output = value g.id → g1.output = value g1.id) := by
  rcases h j with e | e
  · rw [hg] at e
    exact ⟨g, e, rfl, Or.inl rfl, fun h => h⟩
  · rw [hg] at e
    exact ⟨_, e, rfl, Or.inr rfl, fun _ => rfl⟩

theorem settled_value_stable (rank : Int → Nat) (gates : List Gate) (hr : ranked rank gates) :
    ∀ (n m : Nat) (id : Int), rank id < n → rank id < m →
      settled_value n gates id = settled_value m gates id := by
  intro n
  induction n with
  | zero => intro m id h; omega
  | succ n ih =>
    intro m id hn hm
    cases m with
    | zero => omega
    | succ m =>
      rw [settled_value, settled_value]
      cases hf : gates.find? (fun g => g.id == id) with
      | none => rfl
      | some g =>
        simp only []
        have hmem : g ∈ gates := List.mem_of_find?_eq_some hf
        have hid : g.id = id := by simpa using List.find?_some hf
        obtain ⟨r1, r2⟩ := hr g hmem
        rw [hid] at r1 r2
        by_cases ht : g.type = GateType.GATE_INPUT
        · rw [if_pos ht, if_pos ht]
        · rw [if_neg ht, if_neg ht]
          have e1 : (if g.input1 ≠ -1 then settled_value n gates g.input1 else 0) =
              (if g.input1 ≠ -1 then settled_value m gates g.input1 else 0) := by
            by_cases c : g.input1 ≠ -1
            · rw [if_pos c, if_pos c]
              have := r1 c
              exact ih m g.input1 (by omega) (by omega)
            · rw [if_neg c, if_neg c]
          have e2 : (if g.input2 ≠ -1 then settled_value n gates g.input2 else 0) =
              (if g.input2 ≠ -1 then settled_value m gates g.input2 else 0) := by
            by_cases c : g.input2 ≠ -1
            · rw [if_pos c, if_pos c]
              have := r2 c
              exact ih m g.input2 (by omega) (by omega)
            · rw [if_neg c, if_neg c]
          rw [e1, e2]

theorem settled_value_missing (bound : Nat) (gates : List Gate) (id : Int)
    (h : gates.find? (fun g => g.id == id) = none) : settled_value bound gates id = 0 := by
  cases bound with
  | zero => rfl
  | succ n => rw [settled_value, h]

/-- The value of a gate of the array is its kind's function of the values of its two
sources. -/
theorem settled_value_unfold (rank : Int → Nat) (gates : List Gate) (bound : Nat)
    (hr : ranked rank gates) (hb : ∀ g ∈ gates, rank g.id < bound) (id : Int) (g : Gate)
    (hf : gates.find? (fun g => g.id == id) = some g) :
    settled_value bound gates id =
      if g.type = GateType.GATE_INPUT then g.output
      else gate_function g.type
        (if g.input1 ≠ -1 then settled_value bound gates g.input1 else 0)
        (if g.input2 ≠ -1 then settled_value bound gates g.input2 else 0) := by
  have hmem : g ∈ gates := List.mem_of_find?_eq_some hf
  have hid : g.id = id := by simpa using List.find?_some hf
  have hlt := hb g hmem
  rw [hid] at hlt
  obtain ⟨r1, r2⟩ := hr g hmem
  rw [hid] at r1 r2
  cases bound with
  | zero => omega
  | succ n =>
    rw [settled_value, hf]
    simp only []
    by_cases ht : g.type = GateType.GATE_INPUT
    · rw [if_pos ht, if_pos ht]
    · rw [if_neg ht, if_neg ht]
      have e1 : (if g.input1 ≠ -1 then settled_value n gates g.input1 else 0) =
          (if g.input1 ≠ -1 then settled_value (n + 1) gates g.input1 else 0) := by
        by_cases c : g.input1 ≠ -1
        · rw [if_pos c, if_pos c]
          have := r1 c
          exact settled_value_stable rank gates hr n (n + 1) g.input1 (by omega) (by omega)
        · rw [if_neg c, if_neg c]
      have e2 : (if g.input2 ≠ -1 then settled_value n gates g.input2 else 0) =
          (if g.input2 ≠ -1 then settled_value (n + 1) gates g.input2 else 0) := by
        by_cases c : g.input2 ≠ -1
        · rw [if_pos c, if_pos c]
          have := r2 c
          exact settled_value_stable rank gates hr n (n + 1) g.input2 (by omega) (by omega)
        · rw [if_neg c, if_neg c]
      rw [e1, e2]

/-- The cases of a call of `evaluate_gate` that returns. -/
theorem evaluate_gate_inv (fuel : Nat) (gates : List Gate) (gate_id : Int) (gates1 : List Gate)
    (v : Int) (h : evaluate_gate (fuel + 1) gates gate_id = some (gates1, v)) :
    (gates.findIdx? (fun g => g.id == gate_id) = none ∧ gates1 = gates ∧ v = 0) ∨
    ∃ index gate, gates.findIdx? (fun g => g.id == gate_id) = some index ∧
      gates[index]? = some gate ∧ gate.id = gate_id ∧
      (((gate.output ≠ 0 ∨ gate.type = GateType.GATE_INPUT) ∧ gates1 = gates ∧
          v = gate.output) ∨
       (¬ (gate.output ≠ 0 ∨ gate.type = GateType.GATE_INPUT) ∧
          ∃ ga x gb y,
            (if gate.input1 ≠ -1 then evaluate_gate fuel gates gate.input1
              else some (gates, 0)) = some (ga, x) ∧
            (if gate.input2 ≠ -1 then evaluate_gate fuel ga gate.input2
              else some (ga, 0)) = some (gb, y) ∧
            gates1 = set_output_at gb index (gate_function gate.type x y) ∧
            v = gate_function gate.type x y)) := by
  rw [evaluate_gate] at h
  cases hi : gates.findIdx? (fun g => g.id == gate_id) with
  | none =>
    simp only [hi] at h
    injection h with h
    injection h with h1 h2
    exact Or.inl ⟨rfl, h1.symm, h2.symm⟩
  | some index =>
    right
    simp only [hi] at h
    obtain ⟨hil, hp, _⟩ := List.findIdx?_eq_some_iff_getElem.mp hi
    have hg : gates[index]? = some gates[index] := List.getElem?_eq_getElem hil
    have hid : gates[index].id = gate_id := by simpa using hp
    refine ⟨index, gates[index], rfl, hg, hid, ?_⟩
    simp only [hg] at h
    by_cases hm : gates[index].output ≠ 0 ∨ gates[index].type = GateType.GATE_INPUT
    · rw [if_pos hm] at h
      injection h with h
      injection h with h1 h2
      exact Or.inl ⟨hm, h1.symm, h2.symm⟩
    · rw [if_neg hm] at h
      right
      refine ⟨hm, ?_⟩
      cases h1 : (if gates[index].input1 ≠ -1 then evaluate_gate fuel gates gates[index].input1
          else some (gates, 0)) with
      | none => rw [h1] at h; simp at h
      | some r1 =>
        obtain ⟨ga, x⟩ := r1
        rw [h1] at h
        simp only [] at h
        cases h2 : (if gates[index].input2 ≠ -1 then evaluate_gate fuel ga gates[index].input2
            else some (ga, 0)) with
        | none => rw [h2] at h; simp at h
        | some r2 =>
          obtain ⟨gb, y⟩ := r2
          rw [h2] at h
          simp only [] at h
          injection h with h
          injection h with e1 e2
          exact ⟨ga, x, gb, y, rfl, h2, e1.symm, e2.symm⟩

/-- The gate of the start array behind a gate of a later array. -/
theorem settles_lookup (value : Int → Int) (start gates : List Gate)
    (hs : settles value start gates) (id : Int) (index : Nat) (gate : Gate)
    (hi : gates.findIdx? (fun g => g.id == id) = some index) (hg : gates[index]? = some gate) :
    ∃ g0, start.find? (fun g => g.id == id) = some g0 ∧ start[index]? = some g0 ∧
      skeleton g0 = skeleton gate ∧ (gate.output = g0.output ∨ gate.output = value gate.id) := by
  have hsk := settles_skeleton value start gates hs
  have hi0 : start.findIdx? (fun g => g.id == id) = some index := by
    rw [← findIdx?_skeleton id gates start hsk]; exact hi
  have hf := find?_of_findIdx? _ start index hi0
  rcases hs index with e | e
  · rw [hg] at e
    exact ⟨gate, by rw [hf, ← e], e.symm, rfl, Or.inl rfl⟩
  · rw [hg] at e
    cases h0 : start[index]? with
    | none => rw [h0] at e; simp at e
    | some g0 =>
      rw [h0] at e
      simp only [Option.map_some', Option.some.injEq] at e
      refine ⟨g0, by rw [hf, h0], rfl, ?_, Or.inr ?_⟩
      · rw [e]; rfl
      · rw [e]

/-- A call of `evaluate_gate` that returns sets gates to their values only, returns the
value of its gate and leaves that gate showing it. -/
theorem evaluate_gate_settles (rank : Int → Nat) (start : List Gate) (bound : Nat)
    (hr : ranked rank start) (hb : ∀ g ∈ start, rank g.id < bound)
    (h0 : ∀ g ∈ start, g.type ≠ GateType.GATE_INPUT → g.output = 0) :
    ∀ (fuel : Nat) (gates : List Gate) (gate_id : Int) (gates1 : List Gate) (v : Int),
      settles (settled_value bound start) start gates →
      evaluate_gate fuel gates gate_id = some (gates1, v) →
      settles (settled_value bound start) gates gates1 ∧
        v = settled_value bound start gate_id ∧
        ∀ index, gates.findIdx? (fun g => g.id == gate_id) = some index →
          ∃ g1, gates1[index]? = some g1 ∧ g1.output = settled_value bound start gate_id := by
  intro fuel
  induction fuel with
  | zero => intro gates gate_id gates1 v _ h; simp [evaluate_gate] at h
  | succ fuel ih =>
    intro gates gate_id gates1 v hs h
    rcases evaluate_gate_inv fuel gates gate_id gates1 v h with
      ⟨hi, rfl, rfl⟩ | ⟨index, gate, hi, hg, hid, hc⟩
    · refine ⟨settles_refl _ _, ?_, ?_⟩
      · have hsk := settles_skeleton _ start gates1 hs
        have hi0 : start.findIdx? (fun g => g.id == gate_id) = none := by
          rw [← findIdx?_skeleton gate_id gates1 start hsk]; exact hi
        rw [settled_value_missing]
        rw [List.find?_eq_none]
        intro g hg
        have := List.findIdx?_eq_none_iff.mp hi0 g hg
        simpa using this
      · intro index hx
        rw [hi] at hx
        exact absurd hx (by simp)
    · obtain ⟨g0, hf0, _, hsk0, hout⟩ := settles_lookup _ start gates hs gate_id index gate hi hg
      obtain ⟨f1, f2, f3, f4⟩ := skeleton_fields g0 gate hsk0
      have hmem0 : g0 ∈ start := List.mem_of_find?_eq_some hf0
      have hval := settled_value_unfold rank start bound hr hb gate_id g0 hf0
      rw [f2, f3, f4] at hval
      rcases hc with ⟨hm, rfl, rfl⟩ | ⟨hm, ga, x, gb, y, e1, e2, rfl, rfl⟩
      · have hv : gate.output = settled_value bound start gate_id := by
          rcases hout with ho | ho
          · by_cases ht : gate.type = GateType.GATE_INPUT
            · rw [hval, if_pos ht, ho]
            · exfalso
              rcases hm with hm | hm
              · apply hm
                rw [ho]
                exact h0 g0 hmem0 (by rw [f2]; exact ht)
              · exact ht hm
          · rw [ho, hid]
        refine ⟨settles_refl _ _, hv, ?_⟩
        intro index1 hx
        rw [hi] at hx
        rw [← Option.some.inj hx]
        exact ⟨gate, hg, hv⟩
      · have ht : gate.type ≠ GateType.GATE_INPUT := fun e => hm (Or.inr e)
        rw [if_neg ht] at hval
        have a1 : settles (settled_value bound start) gates ga ∧
            x = (if gate.input1 ≠ -1 then settled_value bound start gate.input1 else 0) := by
          by_cases c : gate.input1 ≠ -1
          · rw [if_pos c] at e1
            rw [if_pos c]
            obtain ⟨p1, p2, _⟩ := ih gates gate.input1 ga x hs e1
            exact ⟨p1, p2⟩
          · rw [if_neg c] at e1
            rw [if_neg c]
            injection e1 with e1
            injection e1 with q1 q2
            rw [← q1, ← q2]
            exact ⟨settles_refl _ _, rfl⟩
        have hsa := settles_trans _ start gates ga hs a1.1
        have a2 : settles (settled_value bound start) ga gb ∧
            y = (if gate.input2 ≠ -1 then settled_value bound start gate.input2 else 0) := by
          by_cases c : gate.input2 ≠ -1
          · rw [if_pos c] at e2
            rw [if_pos c]
            obtain ⟨p1, p2, _⟩ := ih ga gate.input2 gb y hsa e2
            exact ⟨p1, p2⟩
          · rw [if_neg c] at e2
            rw [if_neg c]
            injection e2 with e2
            injection e2 with q1 q2
            rw [← q1, ← q2]
            exact ⟨settles_refl _ _, rfl⟩
        have hsb := settles_trans _ gates ga gb a1.1 a2.1
        have hv : gate_function gate.type x y = settled_value bound start gate_id := by
          rw [hval, a1.2, a2.2]
        obtain ⟨g2, hg2, hsk2, _, _⟩ := settles_done _ gates gb hsb index gate hg
        have hid2 : g2.id = gate_id := by
          rw [(skeleton_fields g2 gate hsk2).1]; exact hid
        have hset := settles_set (settled_value bound start) gb index g2
          (gate_function gate.type x y) hg2 (by rw [hid2]; exact hv)
        refine ⟨settles_trans _ gates gb _ hsb hset, hv, ?_⟩
        intro index1 hx
        rw [hi] at hx
        rw [← Option.some.inj hx]
        unfold set_output_at
        rw [hg2]
        simp only []
        obtain ⟨hi2, _⟩ := List.getElem?_eq_some.mp hg2
        rw [List.getElem?_set_self hi2]
        exact ⟨_, rfl, hv⟩

/-- The second loop of `evaluate_circuit` leaves every gate it has passed showing its
value. -/
theorem evaluate_all_settles (rank : Int → Nat) (start : List Gate) (bound : Nat)
    (hr : ranked rank start) (hb : ∀ g ∈ start, rank g.id < bound)
    (h0 : ∀ g ∈ start, g.type ≠ GateType.GATE_INPUT → g.output = 0)
    (hn : (start.map (fun g => g.id)).Nodup) (fuel : Nat) :
    ∀ (todo i : Nat) (gates gates1 : List Gate),
      settles (settled_value bound start) start gates →
      (∀ (j : Nat) (g : Gate), j < i → gates[j]? = some g →
        g.output = settled_value bound start g.id) →
      evaluate_all fuel todo i gates = some gates1 →
      settles (settled_value bound start) start gates1 ∧
        ∀ (j : Nat) (g : Gate), j < i + todo → gates1[j]? = some g →
          g.output = settled_value bound start g.id := by
  intro todo
  induction todo with
  | zero =>
    intro i gates gates1 hs hd h
    rw [evaluate_all] at h
    rw [← Option.some.inj h]
    exact ⟨hs, hd⟩
  | succ todo ih =>
    intro i gates gates1 hs hd h
    rw [evaluate_all] at h
    cases hg : gates[i]? with
    | none =>
      rw [hg] at h
      rw [← Option.some.inj h]
      refine ⟨hs, ?_⟩
      intro j g _ hj
      have hlen : gates.length ≤ i := by
        rcases Nat.lt_or_ge i gates.length with c | c
        · rw [List.getElem?_eq_getElem c] at hg; simp at hg
        · exact c
      obtain ⟨hjl, _⟩ := List.getElem?_eq_some.mp hj
      exact hd j g (by omega) hj
    | some g =>
      rw [hg] at h
      simp only [] at h
      cases he : evaluate_gate fuel gates g.id with
      | none => rw [he] at h; simp at h
      | some r =>
        obtain ⟨ga, x⟩ := r
        rw [he] at h
        simp only [] at h
        obtain ⟨p1, _, p3⟩ := evaluate_gate_settles rank start bound hr hb h0 fuel gates g.id
          ga x hs he
        have hids : gates.map (fun g => g.id) = start.map (fun g => g.id) := by
          have := congrArg (List.map (fun g : Gate => g.id))
            (settles_skeleton _ start gates hs)
          simpa [List.map_map, Function.comp, skeleton] using this
        have hidx : gates.findIdx? (fun b => b.id == g.id) = some i :=
          findIdx?_nodup (fun g : Gate => g.id) gates i g (by rw [hids]; exact hn) hg
        obtain ⟨g1, hg1, ho1⟩ := p3 i hidx
        have hsa := settles_trans _ start gates ga hs p1
        have := ih (i + 1) ga gates1 hsa (by
          intro j gj hj hgj
          by_cases hji : j = i
          · subst hji
            rw [hg1] at hgj
            rw [← Option.some.inj hgj]
            obtain ⟨g2, hg2, hsk2, _, _⟩ := settles_done _ gates ga p1 j g hg
            rw [hg1] at hg2
            rw [← Option.some.inj hg2] at hsk2
            rw [ho1, (skeleton_fields g1 g hsk2).1]
          · cases hgj0 : gates[j]? with
            | none =>
              have := p1 j
              rw [hgj0, hgj] at this
              simp at this
            | some g3 =>
              obtain ⟨g4, hg4, _, _, hk⟩ := settles_done _ gates ga p1 j g3 hgj0
              rw [hgj] at hg4
              rw [Option.some.inj hg4]
              exact hk (hd j g3 (by omega) hgj0)) h
        refine ⟨this.1, ?_⟩
        intro j gj hj hgj
        exact this.2 j gj (by omega) hgj

theorem rank_bound (rank : Int → Nat) : ∀ gates : List Gate,
    ∃ bound, ∀ g ∈ gates, rank g.id < bound := by
  intro gates
  induction gates with
  | nil => exact ⟨0, fun g hg => by simp at hg⟩
  | cons g rest ih =>
    obtain ⟨b, hb⟩ := ih
    refine ⟨max b (rank g.id + 1), ?_⟩
    intro x hx
    rcases List.mem_cons.mp hx with h | h
    · rw [h]; exact lt_max_of_lt_right (Nat.lt_succ_self _)
    · exact lt_max_of_lt_left (hb x h)

/-- On an acyclic gate array with distinct ids `evaluate_circuit` returns, and afterwards
every gate but the INPUT gates shows its kind's function of the outputs of the gates named
by `input1` and `input2` (0 for -1 and for a gate that is not there); the INPUT gates keep
their outputs. -/
theorem evaluate_circuit_values (rank : Int → Nat) (gates : List Gate)
    (hn : (gates.map (fun g => g.id)).Nodup) (hr : ranked rank gates) :
    ∃ fuel0 gates1, (∀ fuel, fuel0 ≤ fuel → evaluate_circuit fuel gates = some gates1) ∧
      gates1.map skeleton = gates.map skeleton ∧
      ∀ (j : Nat) (g g1 : Gate), gates[j]? = some g → gates1[j]? = some g1 →
        (g.type = GateType.GATE_INPUT → g1.output = g.output) ∧
        (g.type ≠ GateType.GATE_INPUT → g1.output = gate_function g.type
          (if g.input1 ≠ -1 then (output_of gates1 g.input1).getD 0 else 0)
          (if g.input2 ≠ -1 then (output_of gates1 g.input2).getD 0 else 0)) := by
  obtain ⟨bound, hb⟩ := rank_bound rank gates
  obtain ⟨gates1, h1, hsk1⟩ := evaluate_circuit_spec rank bound gates hr hb
  refine ⟨bound, gates1, fun fuel hle => evaluate_circuit_mono bound fuel hle gates gates1 h1,
    hsk1, ?_⟩
  have hsk0 := reset_outputs_skeleton gates
  have hr0 : ranked rank (reset_outputs gates) := ranked_of_skeleton rank gates _ hsk0 hr
  have hb0 : ∀ g ∈ reset_outputs gates, rank g.id < bound :=
    bound_of_skeleton rank bound gates _ hsk0 hb
  have h00 : ∀ g ∈ reset_outputs gates, g.type ≠ GateType.GATE_INPUT → g.output = 0 := by
    intro g hg ht
    unfold reset_outputs at hg
    obtain ⟨a, _, rfl⟩ := List.mem_map.mp hg
    by_cases c : a.type ≠ GateType.GATE_INPUT
    · rw [if_pos c]
    · rw [if_neg c] at ht
      exact absurd ht c
  have hids0 : (reset_outputs gates).map (fun g => g.id) = gates.map (fun g => g.id) := by
    have := congrArg (List.map (fun g : Gate => g.id)) hsk0
    simpa [List.map_map, Function.comp, skeleton] using this
  have hn0 : ((reset_outputs gates).map (fun g => g.id)).Nodup := by rw [hids0]; exact hn
  unfold evaluate_circuit at h1
  obtain ⟨hs, hd⟩ := evaluate_all_settles rank (reset_outputs gates) bound hr0 hb0 h00 hn0
    bound gates.length 0 (reset_outputs gates) gates1 (settles_refl _ _)
    (fun j g hj => by omega) h1
  have hlen1 : gates1.length = gates.length := by
    have := congrArg List.length hsk1
    simpa using this
  have hout : ∀ id, (output_of gates1 id).getD 0 =
      settled_value bound (reset_outputs gates) id := by
    intro id
    unfold output_of
    cases hf : gates1.find? (fun g => g.id == id) with
    | none =>
      have hf0 : (reset_outputs gates).find? (fun g => g.id == id) = none := by
        rw [List.find?_eq_none] at hf ⊢
        intro g hg
        obtain ⟨g1, hg1, e⟩ := skeleton_mem gates1 (reset_outputs gates)
          ((settles_skeleton _ _ _ hs).symm) g hg
        have := hf g1 hg1
        rw [(skeleton_fields g1 g e).1] at this
        exact this
      rw [settled_value_missing bound _ id hf0]
      rfl
    | some g =>
      have hid : g.id = id := by simpa using List.find?_some hf
      obtain ⟨j, hj, hgj⟩ := List.getElem_of_mem (List.mem_of_find?_eq_some hf)
      have := hd j g (by omega) (by rw [List.getElem?_eq_getElem hj, hgj])
      rw [hid] at this
      simpa using this
  intro j g g1 hg hg1
  have hjl : j < gates.length := (List.getElem?_eq_some.mp hg).1
  have hdone := hd j g1 (by omega) hg1
  have hg0 : (reset_outputs gates)[j]? =
      some (if g.type ≠ GateType.GATE_INPUT then { g with output := 0 } else g) := by
    unfold reset_outputs
    rw [List.getElem?_map, hg]
    rfl
  obtain ⟨g2, hg2, hsk2, hout2, _⟩ := settles_done _ _ gates1 hs j _ hg0
  rw [hg1] at hg2
  have e21 : g2 = g1 := (Option.some.inj hg2).symm
  subst e21
  have hidx0 : (reset_outputs gates).findIdx? (fun b => b.id == g2.id) = some j := by
    have := findIdx?_nodup (fun g : Gate => g.id) (reset_outputs gates) j _ hn0 hg0
    rw [(skeleton_fields g2 _ hsk2).1]
    exact this
  have hfind0 := find?_of_findIdx? _ (reset_outputs gates) j hidx0
  rw [hg0] at hfind0
  have hval := settled_value_unfold rank (reset_outputs gates) bound hr0 hb0 g2.id _ hfind0
  constructor
  · intro ht
    have hnt : ¬ g.type ≠ GateType.GATE_INPUT := fun c => c ht
    rw [if_neg hnt] at hval hout2
    rw [if_pos ht] at hval
    rcases hout2 with c | c
    · exact c
    · rw [c, hval]
  · intro ht
    rw [if_pos ht] at hval
    rw [if_neg (by exact ht)] at hval
    rw [hdone, hval]
    simp only []
    rw [hout, hout]

end Deepseek

namespace Deepseek

/-- The `switch` of `evaluate_gate` kind by kind, written out with the C truth value of
the two input values. -/
theorem gate_function_table (a b : Int) :
    gate_function GateType.GATE_NOT a b = (if a = 0 then 1 else 0) ∧
    gate_function GateType.GATE_AND a b = (if a ≠ 0 ∧ b ≠ 0 then 1 else 0) ∧
    gate_function GateType.GATE_OR a b = (if a ≠ 0 ∨ b ≠ 0 then 1 else 0) ∧
    gate_function GateType.GATE_XOR a b = (if a ≠ b then 1 else 0) ∧
    gate_function GateType.GATE_NAND a b = (if a ≠ 0 ∧ b ≠ 0 then 0 else 1) ∧
    gate_function GateType.GATE_NOR a b = (if a ≠ 0 ∨ b ≠ 0 then 0 else 1) ∧
    gate_function GateType.GATE_OUTPUT a b = a := by
  refine ⟨?_, ?_, ?_, ?_, ?_, ?_, rfl⟩
  · by_cases ha : a = 0 <;> simp [gate_function, gate_not, c_not, ofBool, truthy, ha]
  · by_cases ha : a = 0 <;> by_cases hb : b = 0 <;>
      simp [gate_function, gate_and, c_and, ofBool, truthy, ha, hb]
  · by_cases ha : a = 0 <;> by_cases hb : b = 0 <;>
      simp [gate_function, gate_or, c_or, ofBool, truthy, ha, hb]
  · by_cases hab : a = b <;> simp [gate_function, gate_xor, c_ne, ofBool, hab]
  · by_cases ha : a = 0 <;> by_cases hb : b = 0 <;>
      simp [gate_function, gate_nand, c_and, c_not, ofBool, truthy, ha, hb]
  · by_cases ha : a = 0 <;> by_cases hb : b = 0 <;>
      simp [gate_function, gate_nor, c_or, c_not, ofBool, truthy, ha, hb]

theorem gate_function_bit (type : GateType) (a b : Int) (ht : type ≠ GateType.GATE_OUTPUT) :
    gate_function type a b = 0 ∨ gate_function type a b = 1 := by
  obtain ⟨h1, h2, h3, h4, h5, h6, _⟩ := gate_function_table a b
  cases type with
  | GATE_NOT => rw [h1]; split_ifs <;> simp
  | GATE_AND => rw [h2]; split_ifs <;> simp
  | GATE_OR => rw [h3]; split_ifs <;> simp
  | GATE_XOR => rw [h4]; split_ifs <;> simp
  | GATE_NAND => rw [h5]; split_ifs <;> simp
  | GATE_NOR => rw [h6]; split_ifs <;> simp
  | GATE_INPUT => left; rfl
  | GATE_OUTPUT => exact absurd rfl ht

/-- With 0 or 1 in every INPUT gate, an array in which every other gate holds its kind's
function of its pin values holds 0 or 1 in every gate: by induction along the wires. -/
theorem outputs_are_bits (rank : Int → Nat) (wires : List Wire) (gates gates1 : List Gate)
    (hacyclic : ∀ w ∈ wires, rank w.from_gate < rank w.to_gate)
    (hsk : gates1.map skeleton = gates.map skeleton)
    (hin : ∀ (j : Nat) (g g1 : Gate), gates[j]? = some g → gates1[j]? = some g1 →
      g.type = GateType.GATE_INPUT → g1.output = 0 ∨ g1.output = 1)
    (heq : ∀ (j : Nat) (g g1 : Gate), gates[j]? = some g → gates1[j]? = some g1 →
      g.type ≠ GateType.GATE_INPUT → g1.output = gate_function g.type
        (pin_value gates1 wires g.id 1) (pin_value gates1 wires g.id 2)) :
    ∀ (n : Nat) (g1 : Gate), g1 ∈ gates1 → rank g1.id < n → g1.output = 0 ∨ g1.output = 1 := by
  intro n
  induction n with
  | zero => intro g1 _ h; omega
  | succ n ih =>
    intro g1 hg1 hr
    obtain ⟨j, hj, hgj⟩ := List.getElem_of_mem hg1
    have hj1 : gates1[j]? = some g1 := by rw [List.getElem?_eq_getElem hj, hgj]
    have hlen : gates1.length = gates.length := by
      have := congrArg List.length hsk
      simpa using this
    have hj0 : gates[j]? = some gates[j] := List.getElem?_eq_getElem (by omega)
    have hskj : skeleton g1 = skeleton gates[j] := by
      have := congrArg (fun l => l[j]?) hsk
      simp only [List.getElem?_map, hj1, hj0, Option.map_some', Option.some.injEq] at this
      exact this
    obtain ⟨e1, e2, _, _⟩ := skeleton_fields g1 gates[j] hskj
    by_cases hti : gates[j].type = GateType.GATE_INPUT
    · exact hin j _ g1 hj0 hj1 hti
    · rw [heq j _ g1 hj0 hj1 hti]
      by_cases hto : gates[j].type = GateType.GATE_OUTPUT
      · rw [hto, (gate_function_table _ _).2.2.2.2.2.2]
        unfold pin_value
        cases hw : wire_source wires gates[j].id 1 with
        | none => left; rfl
        | some src =>
          simp only []
          obtain ⟨w, hwm, w1, _, w3⟩ := wire_source_mem _ _ _ _ hw
          unfold output_of
          cases hf : gates1.find? (fun g => g.id == src) with
          | none => left; rfl
          | some h =>
            simp only [Option.map_some', Option.getD_some]
            have hid : h.id = src := by simpa using List.find?_some hf
            apply ih h (List.mem_of_find?_eq_some hf)
            have := hacyclic w hwm
            rw [w3, w1, ← e1] at this
            rw [hid]
            omega
      · exact gate_function_bit _ _ _ hto

end Deepseek

/-- C27: let a circuit be built from `initialize_circuit` by `add_gate`, `add_wire` (to
pin 1 or 2), `delete_gate` and `delete_wire`, let its wires be acyclic (a rank on gate
ids grows along every wire), and let `gates` be its gate array with any outputs.  Then
`evaluate_circuit` returns (with enough fuel for the recursion, always the same array)
and, with `p1` and `p2` the outputs of the gates wired to pin 1 and pin 2 of a gate (0
for a pin without a wire): every INPUT gate keeps its output, a NOT gate ends with 1 if
`p1` is 0 and with 0 otherwise, an AND gate with 1 if both are non-zero, an OR gate with
1 if one is non-zero, an XOR gate with 1 if they differ, NAND and NOR with the opposite
of AND and OR, and an OUTPUT gate with `p1`.  When the INPUT gates hold 0 or 1, as
`add_gate` and `toggle_input` leave them, every gate ends with 0 or 1, so these are the
truth tables of the kinds. -/
theorem evaluate_circuit_correct (ops : List Deepseek.Op) (s : Deepseek.State)
    (rank : Int → Nat) (gates : List Deepseek.Gate)
    (hpins : Deepseek.pins_in_range ops)
    (hs : Deepseek.run Deepseek.initialize_circuit ops = some s)
    (hacyclic : ∀ w ∈ s.current_circuit.wires, rank w.from_gate < rank w.to_gate)
    (hgates : gates.map Deepseek.skeleton = s.current_circuit.gates.map Deepseek.skeleton) :
    ∃ fuel0 gates1,
      (∀ fuel, fuel0 ≤ fuel → Deepseek.evaluate_circuit fuel gates = some gates1) ∧
      gates1.map Deepseek.skeleton = gates.map Deepseek.skeleton ∧
      (∀ (j : Nat) (g g1 : Deepseek.Gate), gates[j]? = some g → gates1[j]? = some g1 →
        ∀ p1 p2 : Int, p1 = Deepseek.pin_value gates1 s.current_circuit.wires g.id 1 →
          p2 = Deepseek.pin_value gates1 s.current_circuit.wires g.id 2 →
        (g.type = Deepseek.GateType.GATE_INPUT → g1.output = g.output) ∧
        (g.type = Deepseek.GateType.GATE_NOT → g1.output = if p1 = 0 then 1 else 0) ∧
        (g.type = Deepseek.GateType.GATE_AND →
          g1.output = if p1 ≠ 0 ∧ p2 ≠ 0 then 1 else 0) ∧
        (g.type = Deepseek.GateType.GATE_OR →
          g1.output = if p1 ≠ 0 ∨ p2 ≠ 0 then 1 else 0) ∧
        (g.type = Deepseek.GateType.GATE_XOR → g1.output = if p1 ≠ p2 then 1 else 0) ∧
        (g.type = Deepseek.GateType.GATE_NAND →
          g1.output = if p1 ≠ 0 ∧ p2 ≠ 0 then 0 else 1) ∧
        (g.type = Deepseek.GateType.GATE_NOR →
          g1.output = if p1 ≠ 0 ∨ p2 ≠ 0 then 0 else 1) ∧
        (g.type = Deepseek.GateType.GATE_OUTPUT → g1.output = p1)) ∧
      ((∀ g ∈ gates, g.type = Deepseek.GateType.GATE_INPUT → g.output = 0 ∨ g.output = 1) →
        ∀ g1 ∈ gates1, g1.output = 0 ∨ g1.output = 1) := by
  obtain ⟨_, h2, _, _, h5, h6⟩ :=
    Deepseek.run_wiring ops _ s hpins Deepseek.initialize_circuit_wiring hs
  have hids : gates.map (fun g => g.id) = s.current_circuit.gates.map (fun g => g.id) := by
    have := congrArg (List.map (fun g : Deepseek.Gate => g.id)) hgates
    simpa [List.map_map, Function.comp, Deepseek.skeleton] using this
  have hfields : ∀ g ∈ gates,
      g.input1 = (Deepseek.wire_source s.current_circuit.wires g.id 1).getD (-1) ∧
      g.input2 = (Deepseek.wire_source s.current_circuit.wires g.id 2).getD (-1) := by
    intro g hg
    obtain ⟨g0, hg0, e⟩ := Deepseek.skeleton_mem s.current_circuit.gates gates hgates g hg
    obtain ⟨e1, _, e3, e4⟩ := Deepseek.skeleton_fields g0 g e
    rw [← e1, ← e3, ← e4]
    exact h6 g0 hg0
  have hpin : ∀ (gs : List Deepseek.Gate) (g : Deepseek.Gate) (pin field : Int),
      field = (Deepseek.wire_source s.current_circuit.wires g.id pin).getD (-1) →
      (field ≠ -1 → rank field < rank g.id) ∧
      (if field ≠ -1 then (Deepseek.output_of gs field).getD 0 else 0) =
        Deepseek.pin_value gs s.current_circuit.wires g.id pin := by
    intro gs g pin field hf
    unfold Deepseek.pin_value
    cases hw : Deepseek.wire_source s.current_circuit.wires g.id pin with
    | none =>
      rw [hw] at hf
      have : field = -1 := hf
      constructor
      · intro hne; exact absurd this hne
      · rw [if_neg (by simpa using this)]
    | some src =>
      rw [hw] at hf
      have hfs : field = src := hf
      obtain ⟨w, hwm, w1, _, w3⟩ := Deepseek.wire_source_mem _ _ _ _ hw
      have hge := (h5 w hwm).2.1
      have hne : field ≠ -1 := by rw [hfs, ← w3]; omega
      constructor
      · intro _
        rw [hfs, ← w3, ← w1]
        exact hacyclic w hwm
      · rw [if_pos hne, hfs]
  have hr : Deepseek.ranked rank gates := by
    intro g hg
    obtain ⟨f1, f2⟩ := hfields g hg
    exact ⟨(hpin gates g 1 g.input1 f1).1, (hpin gates g 2 g.input2 f2).1⟩
  obtain ⟨fuel0, gates1, a1, a2, a3⟩ :=
    Deepseek.evaluate_circuit_values rank gates (by rw [hids]; exact h2) hr
  have heq : ∀ (j : Nat) (g g1 : Deepseek.Gate), gates[j]? = some g → gates1[j]? = some g1 →
      g.type ≠ Deepseek.GateType.GATE_INPUT → g1.output = Deepseek.gate_function g.type
        (Deepseek.pin_value gates1 s.current_circuit.wires g.id 1)
        (Deepseek.pin_value gates1 s.current_circuit.wires g.id 2) := by
    intro j g g1 hg hg1 ht
    obtain ⟨f1, f2⟩ := hfields g (List.getElem?_mem hg)
    rw [(a3 j g g1 hg hg1).2 ht, (hpin gates1 g 1 g.input1 f1).2,
      (hpin gates1 g 2 g.input2 f2).2]
  refine ⟨fuel0, gates1, a1, a2, ?_, ?_⟩
  · intro j g g1 hg hg1 p1 p2 hp1 hp2
    obtain ⟨t1, t2, t3, t4, t5, t6, t7⟩ := Deepseek.gate_function_table p1 p2
    rw [hp1, hp2] at t1 t2 t3 t4 t5 t6 t7
    rw [hp1, hp2]
    refine ⟨(a3 j g g1 hg hg1).1, ?_, ?_, ?_, ?_, ?_, ?_, ?_⟩
    · intro ht; rw [heq j g g1 hg hg1 (by rw [ht]; decide), ht, t1]
    · intro ht; rw [heq j g g1 hg hg1 (by rw [ht]; decide), ht, t2]
    · intro ht; rw [heq j g g1 hg hg1 (by rw [ht]; decide), ht, t3]
    · intro ht; rw [heq j g g1 hg hg1 (by rw [ht]; decide), ht, t4]
    · intro ht; rw [heq j g g1 hg hg1 (by rw [ht]; decide), ht, t5]
    · intro ht; rw [heq j g g1 hg hg1 (by rw [ht]; decide), ht, t6]
    · intro ht; rw [heq j g g1 hg hg1 (by rw [ht]; decide), ht, t7]
  · intro hbits g1 hg1
    obtain ⟨bound, hb⟩ := Deepseek.rank_bound rank gates1
    refine Deepseek.outputs_are_bits rank s.current_circuit.wires gates gates1 hacyclic a2
      ?_ heq bound g1 hg1 (hb g1 hg1)
    intro j g g2 hg hg2 ht
    rw [(a3 j g g2 hg hg2).1 ht]
    exact hbits g (List.getElem?_mem hg) ht

/-- Witness of `evaluate_circuit_correct`: the circuit `main` of deepseek.c builds, with
both INPUT gates set to 1 and the rank of a gate being its id.  The AND gate 3 is
computed to 1 when the loop reaches it, and the OUTPUT gate 4 then reads it through the
memo test `output != 0`; all four gates end with 1. -/
theorem evaluate_circuit_correct_witness :
    (Deepseek.force_row Deepseek.demo_state.current_circuit 3).map
        (fun g => (g.id, g.type, g.output)) =
      [(1, Deepseek.GateType.GATE_INPUT, 1), (2, Deepseek.GateType.GATE_INPUT, 1),
       (3, Deepseek.GateType.GATE_AND, 0), (4, Deepseek.GateType.GATE_OUTPUT, 0)] ∧
    (Deepseek.evaluate_circuit 3
        (Deepseek.force_row Deepseek.demo_state.current_circuit 3)).map
        (fun gs => gs.map (fun g => (g.id, g.output))) =
      some [(1, 1), (2, 1), (3, 1), (4, 1)] ∧
    ∃ fuel0 gates1,
      (∀ fuel, fuel0 ≤ fuel →
        Deepseek.evaluate_circuit fuel
          (Deepseek.force_row Deepseek.demo_state.current_circuit 3) = some gates1) ∧
      gates1.map Deepseek.skeleton =
        (Deepseek.force_row Deepseek.demo_state.current_circuit 3).map Deepseek.skeleton ∧
      (∀ (j : Nat) (g g1 : Deepseek.Gate),
        (Deepseek.force_row Deepseek.demo_state.current_circuit 3)[j]? = some g →
        gates1[j]? = some g1 →
        ∀ p1 p2 : Int,
          p1 = Deepseek.pin_value gates1 Deepseek.demo_state.current_circuit.wires g.id 1 →
          p2 = Deepseek.pin_value gates1 Deepseek.demo_state.current_circuit.wires g.id 2 →
        (g.type = Deepseek.GateType.GATE_INPUT → g1.output = g.output) ∧
        (g.type = Deepseek.GateType.GATE_NOT → g1.output = if p1 = 0 then 1 else 0) ∧
        (g.type = Deepseek.GateType.GATE_AND →
          g1.output = if p1 ≠ 0 ∧ p2 ≠ 0 then 1 else 0) ∧
        (g.type = Deepseek.GateType.GATE_OR →
          g1.output = if p1 ≠ 0 ∨ p2 ≠ 0 then 1 else 0) ∧
        (g.type = Deepseek.GateType.GATE_XOR → g1.output = if p1 ≠ p2 then 1 else 0) ∧
        (g.type = Deepseek.GateType.GATE_NAND →
          g1.output = if p1 ≠ 0 ∧ p2 ≠ 0 then 0 else 1) ∧
        (g.type = Deepseek.GateType.GATE_NOR →
          g1.output = if p1 ≠ 0 ∨ p2 ≠ 0 then 0 else 1) ∧
        (g.type = Deepseek.GateType.GATE_OUTPUT → g1.output = p1)) ∧
      ((∀ g ∈ Deepseek.force_row Deepseek.demo_state.current_circuit 3,
          g.type = Deepseek.GateType.GATE_INPUT → g.output = 0 ∨ g.output = 1) →
        ∀ g1 ∈ gates1, g1.output = 0 ∨ g1.output = 1) :=
  ⟨by decide, by decide,
    evaluate_circuit_correct Deepseek.demo_ops Deepseek.demo_state (fun id => id.toNat)
      (Deepseek.force_row Deepseek.demo_state.current_circuit 3)
      (by
        intro f t p h
        simp [Deepseek.demo_ops] at h
        omega)
      (by decide) (by decide) (by decide)⟩

/-! ## final.c: ids that occur once -/

theorem id_count_unique : ∀ (gs : List LogicGate) (id : Int), id_count gs id ≤ 1 →
    ∀ (i j : Nat) (a b : LogicGate), gs[i]? = some a → gs[j]? = some b → a.id = id →
      b.id = id → i = j := by
  intro gs
  induction gs with
  | nil => intro id _ i j a b ha; simp at ha
  | cons x rest ih =>
    intro id h i j a b ha hb hai hbi
    unfold id_count at h
    rw [List.map_cons, List.count_cons] at h
    have hpos : ∀ (k : Nat) (c : LogicGate), rest[k]? = some c → c.id = id →
        0 < (rest.map (fun g => g.id)).count id := by
      intro k c hc hci
      rw [List.count_pos_iff]
      rw [← hci]
      exact List.mem_map_of_mem _ (List.getElem?_mem hc)
    cases i with
    | zero =>
      cases j with
      | zero => rfl
      | succ j =>
        simp only [List.getElem?_cons_zero, Option.some.injEq] at ha
        simp only [List.getElem?_cons_succ] at hb
        have := hpos j b hb hbi
        rw [ha, hai] at h
        simp at h
        omega
    | succ i =>
      cases j with
      | zero =>
        simp only [List.getElem?_cons_zero, Option.some.injEq] at hb
        simp only [List.getElem?_cons_succ] at ha
        have := hpos i a ha hai
        rw [hb, hbi] at h
        simp at h
        omega
      | succ j =>
        simp only [List.getElem?_cons_succ] at ha hb
        have : i = j := ih id (by unfold id_count; omega) i j a b ha hb hai hbi
        omega

theorem ids_distinct_of_nodup (gates : List LogicGate) (wires : List Wire)
    (h : (gates.map (fun g => g.id)).Nodup) : ids_distinct gates wires := by
  intro w _
  exact ⟨List.nodup_iff_count_le_one.mp h _, List.nodup_iff_count_le_one.mp h _⟩

theorem id_count_perm (gs hs : List LogicGate) (h : hs.Perm gs) (id : Int) :
    id_count hs id = id_count gs id :=
  (h.map _).count_eq id

theorem id_count_congr (gs hs : List LogicGate)
    (h : hs.map (fun g => g.id) = gs.map (fun g => g.id)) (id : Int) :
    id_count hs id = id_count gs id := by
  unfold id_count
  rw [h]

theorem output_of_unique (gs : List LogicGate) (id : Int) (h : id_count gs id ≤ 1)
    (g : LogicGate) (hg : g ∈ gs) (hid : g.id = id) :
    output_of gs id = some g.output_value := by
  unfold output_of
  cases hf : gs.find? (fun g => g.id == id) with
  | none =>
    have := List.find?_eq_none.mp hf g hg
    simp [hid] at this
  | some g1 =>
    have hid1 : g1.id = id := by simpa using List.find?_some hf
    obtain ⟨i, hi, hgi⟩ := List.getElem_of_mem hg
    obtain ⟨j, hj, hgj⟩ := List.getElem_of_mem (List.mem_of_find?_eq_some hf)
    have hij := id_count_unique gs id h i j g g1
      (by rw [List.getElem?_eq_getElem hi, hgi]) (by rw [List.getElem?_eq_getElem hj, hgj])
      hid hid1
    subst hij
    rw [← hgi, ← hgj]
    rfl

theorem output_of_missing (gs : List LogicGate) (id : Int) (h : ∀ g ∈ gs, g.id ≠ id) :
    output_of gs id = none := by
  unfold output_of
  rw [Option.map_eq_none', List.find?_eq_none]
  intro g hg
  simpa using h g hg

theorem output_of_perm (gs hs : List LogicGate) (h : hs.Perm gs) (id : Int)
    (hc : id_count gs id ≤ 1) : output_of hs id = output_of gs id := by
  by_cases hex : ∃ g ∈ gs, g.id = id
  · obtain ⟨g, hg, hid⟩ := hex
    rw [output_of_unique gs id hc g hg hid,
      output_of_unique hs id (by rw [id_count_perm gs hs h]; exact hc) g (h.mem_iff.mpr hg) hid]
  · have hall : ∀ g ∈ gs, g.id ≠ id := fun g hg hid => hex ⟨g, hg, hid⟩
    rw [output_of_missing gs id hall,
      output_of_missing hs id (fun g hg => hall g (h.mem_iff.mp hg))]

/-! ## final.c: the wire loop on one gate -/

theorem drive_fields (v : Option Int) (w : Wire) (g : LogicGate) :
    (drive v w g).id = g.id ∧ (drive v w g).inputs = g.inputs ∧
      (drive v w g).output_value = g.output_value ∧ view (drive v w g) = view g := by
  unfold drive
  cases v with
  | none => exact ⟨rfl, rfl, rfl, rfl⟩
  | some x =>
    simp only []
    by_cases c : g.id = w.to_gate_id ∧ w.to_pin_index < g.inputs
    · rw [if_pos c]
      refine ⟨rfl, rfl, rfl, ?_⟩
      unfold view store_input
      cases g.input_values <;> rfl
    · rw [if_neg c]
      exact ⟨rfl, rfl, rfl, rfl⟩

theorem drive_other (v : Option Int) (w : Wire) (g : LogicGate) (h : g.id ≠ w.to_gate_id) :
    drive v w g = g ∧ drive_changes v w g = false := by
  have c : ¬ (g.id = w.to_gate_id ∧ w.to_pin_index < g.inputs) := fun hh => h hh.1
  constructor
  · unfold drive
    cases v with
    | none => rfl
    | some x => simp only [if_neg c]
  · unfold drive_changes
    cases v with
    | none => rfl
    | some x =>
      cases g.input_values with
      | none => rfl
      | some vals => simp [c]

theorem arr_set_idem (vals : List Int) (p v : Int) :
    arr_set (arr_set vals p v) p v = arr_set vals p v := by
  unfold arr_set
  by_cases h : 0 ≤ p
  · simp only [if_pos h, List.set_set]
  · simp only [if_neg h]

theorem drive_idem (v : Option Int) (w : Wire) (g : LogicGate) :
    drive v w (drive v w g) = drive v w g := by
  cases v with
  | none => rfl
  | some x =>
    unfold drive
    simp only []
    by_cases c : g.id = w.to_gate_id ∧ w.to_pin_index < g.inputs
    · rw [if_pos c]
      have c1 : (store_input g w.to_pin_index x).id = w.to_gate_id ∧
          w.to_pin_index < (store_input g w.to_pin_index x).inputs := c
      rw [if_pos c1]
      unfold store_input
      cases g.input_values with
      | none => rfl
      | some vals => simp [arr_set_idem]
    · rw [if_neg c, if_neg c]

theorem drive_comm (v1 v2 : Option Int) (w1 w2 : Wire) (g : LogicGate)
    (h : ¬ (w1.to_gate_id = w2.to_gate_id ∧ w1.to_pin_index = w2.to_pin_index)) :
    drive v1 w1 (drive v2 w2 g) = drive v2 w2 (drive v1 w1 g) := by
  cases v1 with
  | none => rfl
  | some x1 =>
    cases v2 with
    | none => rfl
    | some x2 =>
      unfold drive
      simp only []
      by_cases c1 : g.id = w1.to_gate_id ∧ w1.to_pin_index < g.inputs
      · by_cases c2 : g.id = w2.to_gate_id ∧ w2.to_pin_index < g.inputs
        · rw [if_pos c2, if_pos c1]
          have d1 : (store_input g w2.to_pin_index x2).id = w1.to_gate_id ∧
              w1.to_pin_index < (store_input g w2.to_pin_index x2).inputs := c1
          have d2 : (store_input g w1.to_pin_index x1).id = w2.to_gate_id ∧
              w2.to_pin_index < (store_input g w1.to_pin_index x1).inputs := c2
          rw [if_pos d1, if_pos d2]
          have hp : w2.to_pin_index ≠ w1.to_pin_index := by
            intro e
            exact h ⟨c1.1.symm.trans c2.1, e.symm⟩
          exact store_input_comm g _ _ _ _ hp
        · rw [if_neg c2, if_pos c1]
          have d2 : ¬ ((store_input g w1.to_pin_index x1).id = w2.to_gate_id ∧
              w2.to_pin_index < (store_input g w1.to_pin_index x1).inputs) := c2
          rw [if_neg d2]
      · rw [if_neg c1]
        by_cases c2 : g.id = w2.to_gate_id ∧ w2.to_pin_index < g.inputs
        · rw [if_pos c2]
          have d1 : ¬ ((store_input g w2.to_pin_index x2).id = w1.to_gate_id ∧
              w1.to_pin_index < (store_input g w2.to_pin_index x2).inputs) := c1
          rw [if_neg d1]
        · rw [if_neg c2, if_neg c1]

theorem drive_changes_drive (v1 v2 : Option Int) (w1 w2 : Wire) (g : LogicGate)
    (h : ¬ (w1.to_gate_id = w2.to_gate_id ∧ w1.to_pin_index = w2.to_pin_index)) :
    drive_changes v1 w1 (drive v2 w2 g) = drive_changes v1 w1 g := by
  cases v2 with
  | none => rfl
  | some x2 =>
    cases v1 with
    | none => rfl
    | some x1 =>
      unfold drive
      simp only []
      by_cases c2 : g.id = w2.to_gate_id ∧ w2.to_pin_index < g.inputs
      · rw [if_pos c2]
        unfold drive_changes store_input
        cases g.input_values with
        | none => rfl
        | some vals =>
          simp only [Option.map_some']
          by_cases c1 : g.id = w1.to_gate_id ∧ w1.to_pin_index < g.inputs
          · have hp : w2.to_pin_index ≠ w1.to_pin_index := by
              intro e
              exact h ⟨c1.1.symm.trans c2.1, e.symm⟩
            rw [arr_get_set_ne _ _ _ _ hp, arr_set_comm _ _ _ _ _ hp,
              arr_get_set_ne _ _ _ _ hp]
          · simp [c1]
      · rw [if_neg c2]

theorem drive_fixed_changes (v : Option Int) (w : Wire) (g : LogicGate)
    (h : drive v w g = g) : drive_changes v w g = false := by
  unfold drive at h
  unfold drive_changes
  cases v with
  | none => rfl
  | some x =>
    simp only [] at h ⊢
    cases hv : g.input_values with
    | none => rfl
    | some vals =>
      simp only []
      by_cases c : g.id = w.to_gate_id ∧ w.to_pin_index < g.inputs
      · rw [if_pos c] at h
        have e := congrArg LogicGate.input_values h
        unfold store_input at e
        rw [hv] at e
        simp only [Option.map_some', Option.some.injEq] at e
        rw [e]
        simp
      · simp [c]

theorem gate_step_fields (g : LogicGate) :
    gate_step g = { g with output_value := (gate_step g).output_value } := by
  unfold gate_step
  split
  · exact compute_gate_output_eq g
  · rfl

theorem drive_set_output (v : Option Int) (w : Wire) (g : LogicGate) (o : Int) :
    drive v w { g with output_value := o } = { drive v w g with output_value := o } := by
  unfold drive
  cases v with
  | none => rfl
  | some x =>
    simp only []
    by_cases c : g.id = w.to_gate_id ∧ w.to_pin_index < g.inputs
    · rw [if_pos c, if_pos c]
      rfl
    · rw [if_neg c, if_neg c]

theorem drive_fixed_gate_step (v : Option Int) (w : Wire) (g : LogicGate)
    (h : drive v w g = g) : drive v w (gate_step g) = gate_step g := by
  rw [gate_step_fields g, drive_set_output, h]

theorem foldl_trace_flag (look : Int → Option Int) : ∀ (ws : List Wire) (g : LogicGate)
    (c : Bool), ws.foldl (trace_step look) (g, c) =
      ((ws.foldl (trace_step look) (g, false)).1,
       c || (ws.foldl (trace_step look) (g, false)).2) := by
  intro ws
  induction ws with
  | nil => intro g c; simp
  | cons w rest ih =>
    intro g c
    rw [List.foldl_cons, List.foldl_cons]
    have e1 : trace_step look (g, c) w = (drive (look w.from_gate_id) w g,
        c || drive_changes (look w.from_gate_id) w g) := rfl
    have e2 : trace_step look (g, false) w = (drive (look w.from_gate_id) w g,
        false || drive_changes (look w.from_gate_id) w g) := rfl
    rw [e1, e2, ih _ (c || _), ih _ (false || _)]
    simp only [Bool.false_or, Bool.or_assoc]

theorem gate_trace_cons (look : Int → Option Int) (w : Wire) (ws : List Wire)
    (g : LogicGate) :
    gate_trace look (w :: ws) g =
      ((gate_trace look ws (drive (look w.from_gate_id) w g)).1,
       drive_changes (look w.from_gate_id) w g ||
         (gate_trace look ws (drive (look w.from_gate_id) w g)).2) := by
  unfold gate_trace
  rw [List.foldl_cons]
  have e2 : trace_step look (g, false) w = (drive (look w.from_gate_id) w g,
      drive_changes (look w.from_gate_id) w g) := by
    unfold trace_step
    simp only [Bool.false_or]
  rw [e2]
  exact foldl_trace_flag look ws _ _

theorem gate_trace_append (look : Int → Option Int) (ws : List Wire) (w : Wire)
    (g : LogicGate) :
    gate_trace look (ws ++ [w]) g = trace_step look (gate_trace look ws g) w := by
  unfold gate_trace
  rw [List.foldl_append]
  rfl

theorem gate_trace_fields (look : Int → Option Int) : ∀ (ws : List Wire) (g : LogicGate),
    (gate_trace look ws g).1.id = g.id ∧
      (gate_trace look ws g).1.output_value = g.output_value ∧
      view (gate_trace look ws g).1 = view g := by
  intro ws
  induction ws with
  | nil => intro g; exact ⟨rfl, rfl, rfl⟩
  | cons w rest ih =>
    intro g
    rw [gate_trace_cons]
    obtain ⟨a1, a2, a3⟩ := ih (drive (look w.from_gate_id) w g)
    obtain ⟨b1, _, b3, b4⟩ := drive_fields (look w.from_gate_id) w g
    exact ⟨a1.trans b1, a2.trans b3, a3.trans b4⟩

theorem drive_null (v : Option Int) (w : Wire) (g : LogicGate) (h : g.input_values = none) :
    drive v w g = g ∧ drive_changes v w g = false := by
  constructor
  · unfold drive
    cases v with
    | none => rfl
    | some x =>
      simp only []
      split
      · unfold store_input
        rw [h]
        cases g
        simp only [Option.map_none'] at h ⊢
        rw [← h]
      · rfl
  · unfold drive_changes
    cases v with
    | none => rfl
    | some x => rw [h]

theorem drive_out_of_range (v : Option Int) (w : Wire) (g : LogicGate)
    (h : ¬ w.to_pin_index < g.inputs) : drive v w g = g ∧ drive_changes v w g = false := by
  have c : ¬ (g.id = w.to_gate_id ∧ w.to_pin_index < g.inputs) := fun hh => h hh.2
  constructor
  · unfold drive
    cases v with
    | none => rfl
    | some x => simp only [if_neg c]
  · unfold drive_changes
    cases v with
    | none => rfl
    | some x =>
      cases g.input_values with
      | none => rfl
      | some vals => simp [c]

theorem map_eq_set {α : Type} (f : α → α) (l : List α) (i : Nat) (a : α)
    (hi : l[i]? = some a) (ho : ∀ (j : Nat) (b : α), l[j]? = some b → j ≠ i → f b = b) :
    l.map f = l.set i (f a) := by
  apply List.ext_getElem?
  intro n
  rw [List.getElem?_map]
  by_cases hn : i = n
  · subst hn
    obtain ⟨hl, _⟩ := List.getElem?_eq_some.mp hi
    rw [List.getElem?_set_self hl, hi]
    rfl
  · rw [List.getElem?_set_ne hn]
    cases hb : l[n]? with
    | none => rfl
    | some b =>
      simp only [Option.map_some']
      rw [ho n b hb (fun e => hn e.symm)]

theorem map_eq_self {α : Type} (f : α → α) (l : List α) (h : ∀ a ∈ l, f a = a) :
    l.map f = l := by
  conv_rhs => rw [← List.map_id l]
  apply List.map_congr_left
  intro a ha
  rw [h a ha]
  rfl

theorem any_eq_at {α : Type} (p : α → Bool) (l : List α) (i : Nat) (a : α)
    (hi : l[i]? = some a) (ho : ∀ (j : Nat) (b : α), l[j]? = some b → j ≠ i → p b = false) :
    l.any p = p a := by
  cases hp : p a with
  | true =>
    rw [List.any_eq_true]
    exact ⟨a, List.getElem?_mem hi, hp⟩
  | false =>
    rw [List.any_eq_false]
    intro b hb
    obtain ⟨j, hj, hbj⟩ := List.getElem_of_mem hb
    by_cases hji : j = i
    · subst hji
      rw [List.getElem?_eq_getElem hj, hbj] at hi
      rw [Option.some.inj hi, hp]
      simp
    · rw [ho j b (by rw [List.getElem?_eq_getElem hj, hbj]) hji]
      simp

theorem any_congr_mem {α : Type} (p q : α → Bool) (l : List α)
    (h : ∀ a ∈ l, p a = q a) : l.any p = l.any q := by
  induction l with
  | nil => rfl
  | cons a rest ih =>
    simp only [List.any_cons]
    rw [h a (List.mem_cons_self _ _), ih (fun b hb => h b (List.mem_cons_of_mem _ hb))]

theorem any_or {α : Type} (p q : α → Bool) (l : List α) :
    (l.any p || l.any q) = l.any (fun a => p a || q a) := by
  induction l with
  | nil => rfl
  | cons a rest ih =>
    simp only [List.any_cons]
    rw [← ih]
    cases p a <;> cases q a <;> cases rest.any p <;> cases rest.any q <;> rfl

/-- One turn of the wire loop, gate by gate: when the two ids of the wire belong to one
gate each at most, the turn applies `drive` to every gate, with the output of the source
gate. -/
theorem wire_step_map (gs : List LogicGate) (c : Bool) (w : Wire)
    (h1 : id_count gs w.from_gate_id ≤ 1) (h2 : id_count gs w.to_gate_id ≤ 1) :
    wire_step (gs, c) w =
      (gs.map (drive (output_of gs w.from_gate_id) w),
       c || gs.any (drive_changes (output_of gs w.from_gate_id) w)) := by
  have hs := find_gates_sound w gs 0 none none
  have hnone : ∀ v, (∀ g ∈ gs, g.id ≠ w.to_gate_id) →
      (gs, c) = (gs.map (drive v w), c || gs.any (drive_changes v w)) := by
    intro v hall
    rw [map_eq_self _ gs (fun g hg => (drive_other v w g (hall g hg)).1)]
    have : gs.any (drive_changes v w) = false := by
      rw [List.any_eq_false]
      intro g hg
      rw [(drive_other v w g (hall g hg)).2]
      simp
    rw [this, Bool.or_false]
  by_cases hf : ∃ f ∈ gs, f.id = w.from_gate_id
  · by_cases ht : ∃ t ∈ gs, t.id = w.to_gate_id
    · have hc := find_gates_complete w gs 0 none none (Or.inr hf) (Or.inr ht)
      unfold wire_step
      rcases hfg : find_gates w gs 0 none none with ⟨fo, tgt⟩
      rw [hfg] at hc hs
      cases fo with
      | none => simp at hc
      | some fi =>
        cases tgt with
        | none => simp at hc
        | some ti =>
          have a1 := hs.1 fi rfl
          have a2 := hs.2 ti rfl
          simp only [false_or, Nat.zero_le, Nat.sub_zero, true_and, reduceCtorEq] at a1 a2
          obtain ⟨g1, hg1, hid1⟩ := a1
          obtain ⟨g2, hg2, hid2⟩ := a2
          rw [output_of_unique gs _ h1 g1 (List.getElem?_mem hg1) hid1]
          have hothers : ∀ (j : Nat) (b : LogicGate), gs[j]? = some b → j ≠ ti →
              b.id ≠ w.to_gate_id := by
            intro j b hb hj hbid
            exact hj (id_count_unique gs _ h2 j ti b g2 hb hg2 hbid hid2)
          rw [map_eq_set _ gs ti g2 hg2
              (fun j b hb hj => (drive_other _ w b (hothers j b hb hj)).1),
            any_eq_at _ gs ti g2 hg2
              (fun j b hb hj => (drive_other _ w b (hothers j b hb hj)).2)]
          simp only [hg1, hg2]
          cases hv : g2.input_values with
          | none =>
            simp only []
            rw [(drive_null _ w g2 hv).1, (drive_null _ w g2 hv).2, list_set_same gs ti g2 hg2,
              Bool.or_false]
          | some vals =>
            simp only []
            by_cases hp : w.to_pin_index < g2.inputs
            · rw [if_pos hp]
              have hdrive : drive (some g1.output_value) w g2 =
                  { g2 with
                    input_values := some (arr_set vals w.to_pin_index g1.output_value) } := by
                unfold drive
                simp only []
                rw [if_pos ⟨hid2, hp⟩]
                unfold store_input
                rw [hv]
                rfl
              have hch : drive_changes (some g1.output_value) w g2 =
                  (arr_get vals w.to_pin_index !=
                    arr_get (arr_set vals w.to_pin_index g1.output_value) w.to_pin_index) := by
                unfold drive_changes
                rw [hv]
                simp [hid2, hp]
              rw [hdrive, hch]
              cases c <;>
                cases (arr_get vals w.to_pin_index !=
                  arr_get (arr_set vals w.to_pin_index g1.output_value) w.to_pin_index) <;> rfl
            · rw [if_neg hp, (drive_out_of_range _ w g2 hp).1, (drive_out_of_range _ w g2 hp).2,
                list_set_same gs ti g2 hg2, Bool.or_false]
    · have hall : ∀ g ∈ gs, g.id ≠ w.to_gate_id := fun g hg hid => ht ⟨g, hg, hid⟩
      rw [← hnone _ hall]
      unfold wire_step
      rcases hfg : find_gates w gs 0 none none with ⟨fo, tgt⟩
      rw [hfg] at hs
      cases tgt with
      | none => cases fo <;> rfl
      | some ti =>
        exfalso
        have a2 := hs.2 ti rfl
        simp only [false_or, Nat.zero_le, Nat.sub_zero, true_and, reduceCtorEq] at a2
        obtain ⟨g2, hg2, hid2⟩ := a2
        exact hall g2 (List.getElem?_mem hg2) hid2
  · have hall : ∀ g ∈ gs, g.id ≠ w.from_gate_id := fun g hg hid => hf ⟨g, hg, hid⟩
    rw [output_of_missing gs _ hall]
    have e1 : gs.map (drive none w) = gs := map_eq_self _ gs (fun _ _ => rfl)
    have e2 : gs.any (drive_changes none w) = false := by
      rw [List.any_eq_false]
      intro g _
      simp [drive_changes]
    rw [e1, e2, Bool.or_false]
    unfold wire_step
    rcases hfg : find_gates w gs 0 none none with ⟨fo, tgt⟩
    rw [hfg] at hs
    cases fo with
    | none => rfl
    | some fi =>
      exfalso
      have a1 := hs.1 fi rfl
      simp only [false_or, Nat.zero_le, Nat.sub_zero, true_and, reduceCtorEq] at a1
      obtain ⟨g1, hg1, hid1⟩ := a1
      exact hall g1 (List.getElem?_mem hg1) hid1

theorem output_of_view (gs hs : List LogicGate) (h : hs.map view = gs.map view) (id : Int) :
    output_of hs id = output_of gs id := by
  have key : ∀ l : List LogicGate, output_of l id =
      ((l.map view).find? (fun g => g.id == id)).map (fun g => g.output_value) := by
    intro l
    unfold output_of
    induction l with
    | nil => rfl
    | cons g rest ih =>
      rw [List.map_cons, List.find?_cons, List.find?_cons]
      have : (view g).id = g.id := rfl
      rw [this]
      cases (g.id == id) with
      | true => rfl
      | false => exact ih
  rw [key hs, key gs, h]

theorem ids_of_view (gs hs : List LogicGate) (h : hs.map view = gs.map view) :
    hs.map (fun g => g.id) = gs.map (fun g => g.id) := by
  have := congrArg (List.map (fun g : LogicGate => g.id)) h
  simpa [List.map_map, Function.comp, view] using this

/-- The wire pass, gate by gate. -/
theorem wire_pass_map : ∀ (ws : List Wire) (gs : List LogicGate) (c : Bool),
    ids_distinct gs ws →
    wire_pass gs ws c =
      (gs.map (fun g => (gate_trace (output_of gs) ws g).1),
       c || gs.any (fun g => (gate_trace (output_of gs) ws g).2)) := by
  intro ws
  induction ws using List.reverseRecOn with
  | nil =>
    intro gs c _
    unfold wire_pass gate_trace
    simp
  | append_singleton ws w ih =>
    intro gs c hd
    have hd1 : ids_distinct gs ws := fun x hx => hd x (List.mem_append_left _ hx)
    have hw := hd w (List.mem_append_right _ (List.mem_singleton_self w))
    have hstep : wire_pass gs (ws ++ [w]) c = wire_step (wire_pass gs ws c) w := by
      unfold wire_pass
      rw [List.foldl_append]
      rfl
    rw [hstep, ih gs c hd1]
    have hview : (gs.map (fun g => (gate_trace (output_of gs) ws g).1)).map view =
        gs.map view := by
      rw [List.map_map]
      apply List.map_congr_left
      intro g _
      exact (gate_trace_fields (output_of gs) ws g).2.2
    have hids := ids_of_view _ _ hview
    rw [wire_step_map _ _ w (by rw [id_count_congr _ _ hids]; exact hw.1)
      (by rw [id_count_congr _ _ hids]; exact hw.2)]
    rw [output_of_view _ _ hview, List.map_map, List.any_map, Bool.or_assoc, any_or]
    congr 1
    · apply List.map_congr_left
      intro g _
      simp only [Function.comp, gate_trace_append, trace_step]
    · congr 1
      apply any_congr_mem
      intro g _
      simp only [Function.comp, gate_trace_append, trace_step]

/-- One iteration, gate by gate. -/
theorem iteration_map (gs : List LogicGate) (ws : List Wire) (hd : ids_distinct gs ws) :
    iteration gs ws =
      (gs.map (next_gate (output_of gs) ws), gs.any (gate_moved (output_of gs) ws)) := by
  unfold iteration gate_pass
  simp only []
  rw [wire_pass_map ws gs false hd]
  simp only [Bool.false_or, List.map_map, List.any_map, any_or]
  rfl

/-! ## final.c: the order of the arrays does not matter -/

theorem gate_trace_congr (look look1 : Int → Option Int) : ∀ (ws : List Wire) (g : LogicGate),
    (∀ w ∈ ws, w.to_gate_id = g.id → look w.from_gate_id = look1 w.from_gate_id) →
    gate_trace look ws g = gate_trace look1 ws g := by
  intro ws
  induction ws with
  | nil => intro g _; rfl
  | cons w rest ih =>
    intro g h
    rw [gate_trace_cons, gate_trace_cons]
    have hd : drive (look w.from_gate_id) w g = drive (look1 w.from_gate_id) w g ∧
        drive_changes (look w.from_gate_id) w g =
          drive_changes (look1 w.from_gate_id) w g := by
      by_cases hid : g.id = w.to_gate_id
      · rw [h w (List.mem_cons_self _ _) hid.symm]
        exact ⟨rfl, rfl⟩
      · rw [(drive_other _ w g hid).1, (drive_other _ w g hid).1, (drive_other _ w g hid).2,
          (drive_other _ w g hid).2]
        exact ⟨rfl, rfl⟩
    rw [hd.1, hd.2]
    have hrest := ih (drive (look1 w.from_gate_id) w g) (by
      intro x hx hxid
      rw [(drive_fields _ w g).1] at hxid
      exact h x (List.mem_cons_of_mem _ hx) hxid)
    rw [hrest]

theorem trace_step_comm (look : Int → Option Int) (x y : Wire) (z : LogicGate × Bool)
    (h : ¬ (x.to_gate_id = y.to_gate_id ∧ x.to_pin_index = y.to_pin_index)) :
    trace_step look (trace_step look z x) y = trace_step look (trace_step look z y) x := by
  have h1 : ¬ (y.to_gate_id = x.to_gate_id ∧ y.to_pin_index = x.to_pin_index) :=
    fun hh => h ⟨hh.1.symm, hh.2.symm⟩
  unfold trace_step
  simp only []
  rw [drive_comm _ _ y x z.1 h1, drive_changes_drive _ _ y x z.1 h1,
    drive_changes_drive _ _ x y z.1 h]
  cases z.2 <;> cases drive_changes (look x.from_gate_id) x z.1 <;>
    cases drive_changes (look y.from_gate_id) y z.1 <;> rfl

theorem pins_distinct_ne (ws : List Wire) (hp : pins_distinct ws) (x y : Wire) (hx : x ∈ ws)
    (hy : y ∈ ws) (hne : x ≠ y) :
    ¬ (x.to_gate_id = y.to_gate_id ∧ x.to_pin_index = y.to_pin_index) := by
  have hsym : Symmetric (fun (w1 w2 : Wire) =>
      ¬ (w1.to_gate_id = w2.to_gate_id ∧ w1.to_pin_index = w2.to_pin_index)) := by
    intro a b hab hh
    exact hab ⟨hh.1.symm, hh.2.symm⟩
  exact List.Pairwise.forall hsym hp hx hy hne

/-- With one wire per pin at most, the wire pass on a gate does not depend on the order
of the wires. -/
theorem gate_trace_perm (look : Int → Option Int) (ws ws1 : List Wire) (hp : pins_distinct ws)
    (hw : ws1.Perm ws) (g : LogicGate) : gate_trace look ws1 g = gate_trace look ws g := by
  unfold gate_trace
  apply List.Perm.foldl_eq' hw
  intro x hx y hy z
  by_cases hxy : x = y
  · rw [hxy]
  · exact trace_step_comm look x y z
      (pins_distinct_ne ws hp x y (hw.mem_iff.mp hx) (hw.mem_iff.mp hy) hxy)

theorem ids_distinct_perm_wires (gs : List LogicGate) (ws ws1 : List Wire) (hw : ws1.Perm ws)
    (h : ids_distinct gs ws) : ids_distinct gs ws1 :=
  fun w hwm => h w (hw.mem_iff.mp hwm)

theorem ids_distinct_congr (gs hs : List LogicGate) (ws : List Wire)
    (e : hs.map (fun g => g.id) = gs.map (fun g => g.id)) (h : ids_distinct gs ws) :
    ids_distinct hs ws := by
  intro w hw
  rw [id_count_congr gs hs e, id_count_congr gs hs e]
  exact h w hw

theorem ids_distinct_perm (gs hs : List LogicGate) (ws : List Wire) (e : hs.Perm gs)
    (h : ids_distinct gs ws) : ids_distinct hs ws := by
  intro w hw
  rw [id_count_perm gs hs e, id_count_perm gs hs e]
  exact h w hw

theorem iteration_perm_wires (gs : List LogicGate) (ws ws1 : List Wire)
    (hd : ids_distinct gs ws) (hp : pins_distinct ws) (hw : ws1.Perm ws) :
    iteration gs ws1 = iteration gs ws := by
  rw [iteration_map gs ws hd, iteration_map gs ws1 (ids_distinct_perm_wires gs ws ws1 hw hd)]
  have e1 : next_gate (output_of gs) ws1 = next_gate (output_of gs) ws := by
    funext g
    unfold next_gate
    rw [gate_trace_perm _ ws ws1 hp hw]
  have e2 : gate_moved (output_of gs) ws1 = gate_moved (output_of gs) ws := by
    funext g
    unfold gate_moved
    rw [gate_trace_perm _ ws ws1 hp hw]
  rw [e1, e2]

theorem perm_any {α : Type} (p : α → Bool) (l l1 : List α) (h : l1.Perm l) :
    l1.any p = l.any p := by
  cases hb : l.any p with
  | true =>
    rw [List.any_eq_true] at hb ⊢
    obtain ⟨a, ha, hpa⟩ := hb
    exact ⟨a, h.mem_iff.mpr ha, hpa⟩
  | false =>
    rw [List.any_eq_false] at hb ⊢
    intro a ha
    exact hb a (h.mem_iff.mp ha)

theorem iteration_perm_gates (gs gs1 : List LogicGate) (ws : List Wire)
    (hd : ids_distinct gs ws) (hg : gs1.Perm gs) :
    (iteration gs1 ws).1.Perm (iteration gs ws).1 ∧
      (iteration gs1 ws).2 = (iteration gs ws).2 := by
  rw [iteration_map gs ws hd, iteration_map gs1 ws (ids_distinct_perm gs gs1 ws hg hd)]
  have hl : ∀ g, gate_trace (output_of gs1) ws g = gate_trace (output_of gs) ws g := by
    intro g
    apply gate_trace_congr
    intro w hw _
    exact output_of_perm gs gs1 hg _ (hd w hw).1
  have e1 : next_gate (output_of gs1) ws = next_gate (output_of gs) ws := by
    funext g
    unfold next_gate
    rw [hl]
  have e2 : gate_moved (output_of gs1) ws = gate_moved (output_of gs) ws := by
    funext g
    unfold gate_moved
    rw [hl]
  rw [e1, e2]
  exact ⟨hg.map _, perm_any _ gs gs1 hg⟩

theorem iteration_ids (gs : List LogicGate) (ws : List Wire) :
    (iteration gs ws).1.map (fun g => g.id) = gs.map (fun g => g.id) :=
  map_id_eq_of_map_frame_eq (iteration_map_frame gs ws)

theorem reset_gates_ids (gs : List LogicGate) :
    (reset_gates gs).map (fun g => g.id) = gs.map (fun g => g.id) :=
  map_id_eq_of_map_frame_eq (reset_gates_map_frame gs)

/-- The loop on permuted arrays runs in step with the loop on the original arrays. -/
theorem propagate_loop_perm (ws ws1 : List Wire) (hp : pins_distinct ws) (hw : ws1.Perm ws) :
    ∀ (fuel : Nat) (gs gs1 : List LogicGate) (it : Int) (r : List LogicGate × Int × Bool),
      gs1.Perm gs → ids_distinct gs ws → propagate_loop ws fuel gs it = some r →
      ∃ r1, propagate_loop ws1 fuel gs1 it = some r1 ∧ r1.1.Perm r.1 ∧ r1.2 = r.2 ∧
        (gs1 = gs → r1 = r) := by
  intro fuel
  induction fuel with
  | zero => intro gs gs1 it r _ _ h; simp [propagate_loop] at h
  | succ fuel ih =>
    intro gs gs1 it r hg hd h
    rw [propagate_loop_succ] at h ⊢
    have hd1 : ids_distinct gs1 ws := ids_distinct_perm gs gs1 ws hg hd
    have e := iteration_perm_wires gs1 ws ws1 hd1 hp hw
    obtain ⟨p1, p2⟩ := iteration_perm_gates gs gs1 ws hd hg
    rw [e, p2]
    by_cases hc : ((iteration gs ws).2 && decide (it + 1 < max_iterations)) = true
    · rw [if_pos hc] at h ⊢
      obtain ⟨r1, q1, q2, q3, q4⟩ := ih (iteration gs ws).1 (iteration gs1 ws).1 (it + 1) r p1
        (ids_distinct_congr gs _ ws (iteration_ids gs ws) hd) h
      refine ⟨r1, q1, q2, q3, ?_⟩
      intro hgg
      apply q4
      rw [hgg]
    · rw [if_neg hc] at h ⊢
      rw [← Option.some.inj h]
      refine ⟨_, rfl, p1, rfl, ?_⟩
      intro hgg
      rw [hgg]

/-- C25: for a circuit with distinct gate ids (every id a wire names belongs to one gate)
and at most one wire per destination pin, `propagate_signals` on permuted wire and gate
arrays leaves the same gates as on the original arrays, permuted (so each gate id has the
same `output_value` and `input_values`), after the same number of iterations and with the
same `changed` and warning; when only the wires are permuted the gate array is the same
array. -/
theorem propagate_signals_order_independent (gates gates1 : List LogicGate)
    (wires wires1 : List Wire) (hids : ids_distinct gates wires) (hpins : pins_distinct wires)
    (hg : gates1.Perm gates) (hw : wires1.Perm wires) :
    ∃ r r1, propagate_signals gates wires = some r ∧
      propagate_signals gates1 wires1 = some r1 ∧
      r1.gates.Perm r.gates ∧ r1.iterations = r.iterations ∧ r1.changed = r.changed ∧
      r1.warning = r.warning ∧ (gates1 = gates → r1 = r) := by
  obtain ⟨r, hr, _⟩ := propagate_signals_fuel_enough gates wires
  obtain ⟨hl, hwarn⟩ := propagate_signals_eq gates wires r hr
  obtain ⟨r1, h1, h2, h3, h4⟩ := propagate_loop_perm wires wires1 hpins hw 100
    (reset_gates gates) (reset_gates gates1) 0 _ (hg.map _)
    (ids_distinct_congr gates _ wires (reset_gates_ids gates) hids) hl
  have hr1 : propagate_signals gates1 wires1 =
      some { gates := r1.1, iterations := r1.2.1, changed := r1.2.2,
             warning := decide (r1.2.1 ≥ max_iterations) } := by
    unfold propagate_signals propagate_signals_fuel
    rw [h1]
  have hit : r1.2.1 = r.iterations := congrArg Prod.fst h3
  have hch : r1.2.2 = r.changed := congrArg Prod.snd h3
  refine ⟨r, _, hr, hr1, h2, hit, hch, ?_, ?_⟩
  · show decide (r1.2.1 ≥ max_iterations) = r.warning
    rw [hwarn, hit]
  · intro hgg
    have := h4 (by rw [hgg])
    rw [this]
    show { gates := r.gates, iterations := r.iterations, changed := r.changed,
           warning := decide (r.iterations ≥ max_iterations) } = r
    rw [← hwarn]

/-- Witness of `propagate_signals_order_independent`: the AND circuit that `main` builds
(palette entries included), with both arrays reversed. -/
theorem propagate_signals_order_independent_witness :
    ∃ r r1, propagate_signals (and_circuit_gates 1 1) and_circuit_wires = some r ∧
      propagate_signals (and_circuit_gates 1 1).reverse and_circuit_wires.reverse = some r1 ∧
      r1.gates.Perm r.gates ∧ r1.iterations = r.iterations ∧ r1.changed = r.changed ∧
      r1.warning = r.warning ∧ ((and_circuit_gates 1 1).reverse = and_circuit_gates 1 1 → r1 = r) :=
  propagate_signals_order_independent (and_circuit_gates 1 1) (and_circuit_gates 1 1).reverse
    and_circuit_wires and_circuit_wires.reverse (by unfold ids_distinct; decide)
    (by unfold pins_distinct; decide) (List.reverse_perm _) (List.reverse_perm _)

/-! ## final.c: an acyclic circuit settles -/

theorem gate_trace_drive_comm (look : Int → Option Int) (v : Option Int) (w : Wire) :
    ∀ (ws : List Wire) (g : LogicGate),
      (∀ x ∈ ws, ¬ (w.to_gate_id = x.to_gate_id ∧ w.to_pin_index = x.to_pin_index)) →
      (gate_trace look ws (drive v w g)).1 = drive v w (gate_trace look ws g).1 := by
  intro ws
  induction ws with
  | nil => intro g _; rfl
  | cons x rest ih =>
    intro g h
    rw [gate_trace_cons, gate_trace_cons]
    simp only []
    have hx := h x (List.mem_cons_self _ _)
    rw [drive_comm _ _ x w g (fun hh => hx ⟨hh.1.symm, hh.2.symm⟩)]
    exact ih _ (fun y hy => h y (List.mem_cons_of_mem _ hy))

/-- After the wire pass a gate holds what every wire of the pass stores: storing it once
more changes nothing. -/
theorem gate_trace_absorbs (look : Int → Option Int) : ∀ (ws : List Wire),
    pins_distinct ws → ∀ (g : LogicGate), ∀ w ∈ ws,
      drive (look w.from_gate_id) w (gate_trace look ws g).1 = (gate_trace look ws g).1 := by
  intro ws
  induction ws with
  | nil => intro _ g w hw; simp at hw
  | cons x rest ih =>
    intro hp g w hw
    unfold pins_distinct at hp
    rw [List.pairwise_cons] at hp
    rw [gate_trace_cons]
    simp only []
    rcases List.mem_cons.mp hw with e | hmem
    · rw [e, ← gate_trace_drive_comm look _ x rest _ hp.1, drive_idem]
    · exact ih hp.2 _ w hmem

theorem gate_trace_fixed (look : Int → Option Int) : ∀ (ws : List Wire) (y : LogicGate),
    (∀ w ∈ ws, drive (look w.from_gate_id) w y = y) → gate_trace look ws y = (y, false) := by
  intro ws
  induction ws with
  | nil => intro y _; rfl
  | cons x rest ih =>
    intro y h
    have hx := h x (List.mem_cons_self _ _)
    rw [gate_trace_cons, hx, drive_fixed_changes _ x y hx,
      ih y (fun w hw => h w (List.mem_cons_of_mem _ hw))]
    rfl

/-- One iteration seen from a gate is idempotent as long as the sources show the same
outputs: the second time nothing is changed. -/
theorem next_gate_idem (look : Int → Option Int) (ws : List Wire) (hp : pins_distinct ws)
    (x : LogicGate) :
    next_gate look ws (next_gate look ws x) = next_gate look ws x ∧
      gate_moved look ws (next_gate look ws x) = false := by
  have hfix : gate_trace look ws (next_gate look ws x) = (next_gate look ws x, false) := by
    apply gate_trace_fixed
    intro w hw
    unfold next_gate
    exact drive_fixed_gate_step _ w _ (gate_trace_absorbs look ws hp x w hw)
  have hstep : gate_step (next_gate look ws x) = next_gate look ws x := by
    unfold next_gate
    exact gate_step_idem _
  constructor
  · have e : next_gate look ws (next_gate look ws x) =
        gate_step (gate_trace look ws (next_gate look ws x)).1 := rfl
    rw [e, hfix]
    exact hstep
  · unfold gate_moved
    rw [hfix]
    simp only [Bool.false_or]
    have : gate_step (next_gate look ws x) = next_gate look ws x := by
      unfold next_gate
      exact gate_step_idem _
    rw [this]
    simp

theorem next_gate_id (look : Int → Option Int) (ws : List Wire) (g : LogicGate) :
    (next_gate look ws g).id = g.id := by
  unfold next_gate
  rw [gate_step_fields]
  exact (gate_trace_fields look ws g).1

theorem state_after_succ (gates : List LogicGate) (wires : List Wire) (k : Nat) :
    state_after gates wires (k + 1) = (iteration (state_after gates wires k) wires).1 := by
  unfold state_after
  exact Function.iterate_succ_apply' _ _ _

theorem state_after_ids (gates : List LogicGate) (wires : List Wire) : ∀ k : Nat,
    (state_after gates wires k).map (fun g => g.id) = gates.map (fun g => g.id) := by
  intro k
  induction k with
  | zero => exact reset_gates_ids gates
  | succ k ih => rw [state_after_succ, iteration_ids, ih]

theorem mem_ids_iff (gs hs : List LogicGate)
    (e : hs.map (fun g => g.id) = gs.map (fun g => g.id)) (id : Int) :
    (∃ g ∈ hs, g.id = id) ↔ ∃ g ∈ gs, g.id = id := by
  have key : ∀ l : List LogicGate, (∃ g ∈ l, g.id = id) ↔ id ∈ l.map (fun g => g.id) := by
    intro l
    rw [List.mem_map]
  rw [key hs, key gs, e]

/-- In an acyclic circuit a gate of rank below `k` has settled after `k` iterations: every
later iteration leaves it as it is and does not set `changed` because of it. -/
theorem settled_by_rank (gates : List LogicGate) (wires : List Wire) (rank : Int → Nat)
    (hd : ids_distinct gates wires) (hp : pins_distinct wires)
    (hacyclic : ∀ w ∈ wires, (∃ g ∈ gates, g.id = w.from_gate_id) →
      (∃ g ∈ gates, g.id = w.to_gate_id) → rank w.from_gate_id < rank w.to_gate_id) :
    ∀ (k m : Nat), k ≤ m → ∀ g ∈ state_after gates wires m, rank g.id < k →
      next_gate (output_of (state_after gates wires m)) wires g = g ∧
      gate_moved (output_of (state_after gates wires m)) wires g = false := by
  intro k
  induction k with
  | zero => intro m _ g _ h; omega
  | succ k ih =>
    intro m hkm g hg hrk
    cases m with
    | zero => omega
    | succ m =>
      have hdm : ids_distinct (state_after gates wires m) wires :=
        ids_distinct_congr gates _ wires (state_after_ids gates wires m) hd
      have hdm1 : ids_distinct (state_after gates wires (m + 1)) wires :=
        ids_distinct_congr gates _ wires (state_after_ids gates wires (m + 1)) hd
      have hstate : state_after gates wires (m + 1) =
          (state_after gates wires m).map
            (next_gate (output_of (state_after gates wires m)) wires) := by
        rw [state_after_succ, iteration_map _ wires hdm]
      rw [hstate] at hg
      obtain ⟨g0, hg0, hgg⟩ := List.mem_map.mp hg
      have hid : g.id = g0.id := by rw [← hgg]; exact next_gate_id _ wires g0
      have hlook : ∀ z : LogicGate, z.id = g.id →
          gate_trace (output_of (state_after gates wires (m + 1))) wires z =
            gate_trace (output_of (state_after gates wires m)) wires z := by
        intro z hz
        apply gate_trace_congr
        intro w hw hwz
        by_cases hsrc : ∃ s ∈ state_after gates wires m, s.id = w.from_gate_id
        · obtain ⟨s, hs, hsid⟩ := hsrc
          have h1 : ∃ x ∈ gates, x.id = w.from_gate_id :=
            (mem_ids_iff gates _ (state_after_ids gates wires m) _).mp ⟨s, hs, hsid⟩
          have h2 : ∃ x ∈ gates, x.id = w.to_gate_id :=
            (mem_ids_iff gates _ (state_after_ids gates wires m) _).mp
              ⟨g0, hg0, by rw [← hid, ← hz, hwz]⟩
          have hr := hacyclic w hw h1 h2
          have hrs : rank s.id < k := by
            rw [hsid]
            rw [hwz, hz] at hr
            omega
          have hsfix := (ih m (by omega) s hs hrs).1
          have hs1 : s ∈ state_after gates wires (m + 1) := by
            rw [hstate]
            exact List.mem_map.mpr ⟨s, hs, hsfix⟩
          rw [output_of_unique _ _ (hdm1 w hw).1 s hs1 hsid,
            output_of_unique _ _ (hdm w hw).1 s hs hsid]
        · have hnone : ∀ x ∈ state_after gates wires m, x.id ≠ w.from_gate_id :=
            fun x hx hxid => hsrc ⟨x, hx, hxid⟩
          have hnone1 : ∀ x ∈ state_after gates wires (m + 1), x.id ≠ w.from_gate_id := by
            intro x hx hxid
            have := (mem_ids_iff gates _ (state_after_ids gates wires (m + 1)) _).mp
              ⟨x, hx, hxid⟩
            exact hsrc ((mem_ids_iff gates _ (state_after_ids gates wires m) _).mpr this)
          rw [output_of_missing _ _ hnone, output_of_missing _ _ hnone1]
      obtain ⟨a1, a2⟩ := next_gate_idem (output_of (state_after gates wires m)) wires hp g0
      rw [hgg] at a1 a2
      constructor
      · unfold next_gate
        rw [hlook g rfl]
        exact a1
      · unfold gate_moved
        rw [hlook g rfl]
        exact a2

/-- When the iteration after `m` iterations changes nothing, the loop stops with
`changed` false after `m + 1` iterations at most. -/
theorem propagate_loop_settles (ws : List Wire) : ∀ (m fuel : Nat) (gs : List LogicGate)
    (it : Int),
    (iteration ((fun x => (iteration x ws).1)^[m] gs) ws).2 = false → m < fuel →
    it + (m : Int) + 1 < max_iterations →
    ∃ r, propagate_loop ws fuel gs it = some r ∧ r.2.2 = false ∧ it < r.2.1 ∧
      r.2.1 ≤ it + (m : Int) + 1 := by
  intro m
  induction m with
  | zero =>
    intro fuel gs it h hf _
    cases fuel with
    | zero => omega
    | succ fuel =>
      rw [propagate_loop_succ]
      simp only [Function.iterate_zero, id_eq] at h
      rw [h]
      simp only [Bool.false_and, Bool.false_eq_true, if_false]
      exact ⟨_, rfl, rfl, by simp, by simp⟩
  | succ m ih =>
    intro fuel gs it h hf hit
    cases fuel with
    | zero => omega
    | succ fuel =>
      rw [propagate_loop_succ]
      by_cases hc : (iteration gs ws).2 = true
      · have hlt : it + 1 < max_iterations := by push_cast at hit; omega
        rw [hc]
        simp only [Bool.true_and, decide_eq_true_eq, hlt, if_true]
        rw [Function.iterate_succ_apply] at h
        obtain ⟨r, h1, h2, h3, h4⟩ := ih fuel (iteration gs ws).1 (it + 1) h (by omega)
          (by push_cast at hit ⊢; omega)
        refine ⟨r, h1, h2, by omega, ?_⟩
        push_cast
        omega
      · have hfalse : (iteration gs ws).2 = false := by
          cases hb : (iteration gs ws).2 with
          | true => exact absurd hb hc
          | false => rfl
        rw [hfalse]
        simp only [Bool.false_and, Bool.false_eq_true, if_false]
        refine ⟨_, rfl, rfl, by simp, ?_⟩
        show it + 1 ≤ it + ((m + 1 : Nat) : Int) + 1
        push_cast
        omega

/-- C26: an acyclic circuit (the gates can be numbered below `gate_count` so that every
wire between two gates of the array leads to a higher number) with distinct gate ids, at
most one wire per destination pin and at most `MAX_GATES` = 50 gates settles before the
cap: `propagate_signals` leaves its loop after at most `gate_count + 1` < 100 iterations,
the last of which changed nothing, it prints no warning, and the array it leaves is a
fixed point of the loop body. -/
theorem acyclic_circuit_settles (gates : List LogicGate) (wires : List Wire)
    (rank : Int → Nat) (hids : ids_distinct gates wires) (hpins : pins_distinct wires)
    (hacyclic : ∀ w ∈ wires, (∃ g ∈ gates, g.id = w.from_gate_id) →
      (∃ g ∈ gates, g.id = w.to_gate_id) → rank w.from_gate_id < rank w.to_gate_id)
    (hrank : ∀ g ∈ gates, rank g.id < gates.length)
    (hcap : (gates.length : Int) ≤ MAX_GATES) :
    ∃ r, propagate_signals gates wires = some r ∧ r.changed = false ∧
      1 ≤ r.iterations ∧ r.iterations ≤ (gates.length : Int) + 1 ∧
      r.iterations < max_iterations ∧ r.warning = false ∧
      iteration r.gates wires = (r.gates, false) := by
  have hdn : ids_distinct (state_after gates wires gates.length) wires :=
    ids_distinct_congr gates _ wires (state_after_ids gates wires gates.length) hids
  have hflag : (iteration (state_after gates wires gates.length) wires).2 = false := by
    rw [iteration_map _ wires hdn]
    simp only []
    rw [List.any_eq_false]
    intro g hg
    have hr : rank g.id < gates.length := by
      obtain ⟨x, hx, hxid⟩ := (mem_ids_iff gates _ (state_after_ids gates wires gates.length)
        g.id).mp ⟨g, hg, rfl⟩
      rw [← hxid]
      exact hrank x hx
    rw [(settled_by_rank gates wires rank hids hpins hacyclic gates.length gates.length
      (le_refl _) g hg hr).2]
    simp
  have hcap1 : (gates.length : Int) ≤ 50 := hcap
  obtain ⟨r, h1, h2, h3, h4⟩ := propagate_loop_settles wires gates.length 100
    (reset_gates gates) 0 hflag (by omega) (by unfold max_iterations; omega)
  have hr : propagate_signals gates wires =
      some { gates := r.1, iterations := r.2.1, changed := r.2.2,
             warning := decide (r.2.1 ≥ max_iterations) } := by
    unfold propagate_signals propagate_signals_fuel
    rw [h1]
  have hlt : r.2.1 < max_iterations := by unfold max_iterations; omega
  obtain ⟨prev, _, hprev⟩ := propagate_loop_last wires (fun _ => True) (fun _ _ => trivial)
    100 (reset_gates gates) 0 r trivial h1
  have hpf : (iteration prev wires).2 = false := by rw [hprev]; exact h2
  have hsame := (iteration_flag_false prev wires hpf).1
  have hprev1 : prev = r.1 := by rw [← hsame, hprev]
  refine ⟨_, hr, h2, by show 1 ≤ r.2.1; omega, by show r.2.1 ≤ _; omega, hlt, ?_, ?_⟩
  · show decide (r.2.1 ≥ max_iterations) = false
    rw [decide_eq_false_iff_not]
    omega
  · show iteration r.1 wires = (r.1, false)
    rw [← hprev1, hprev, ← hprev1, h2]

/-- Witness of `acyclic_circuit_settles`: the AND circuit that `main` builds, palette
entries included, with the gate id as number. -/
theorem acyclic_circuit_settles_witness :
    ∃ r, propagate_signals (and_circuit_gates 1 1) and_circuit_wires = some r ∧
      r.changed = false ∧ 1 ≤ r.iterations ∧
      r.iterations ≤ ((and_circuit_gates 1 1).length : Int) + 1 ∧
      r.iterations < max_iterations ∧ r.warning = false ∧
      iteration r.gates and_circuit_wires = (r.gates, false) :=
  acyclic_circuit_settles (and_circuit_gates 1 1) and_circuit_wires (fun id => id.toNat)
    (by unfold ids_distinct; decide) (by unfold pins_distinct; decide) (by decide) (by decide)
    (by decide)

end LogicSim
